import Mathlib

/-!
# Event scheduler and save-state protocol of `src/core/system.cpp`

A shallow embedding of the timing-event scheduler (`System::AddActiveEvent`,
`System::RemoveActiveEvent`, `System::SortEvents`, `System::RunEvents`,
`System::UpdateCPUDowncount`) and of the save-state code paths
(`System::DoState`, `System::DoEventsState`, `System::DoLoadState`).

Conventions of the embedding.

* `TickCount` is the signed tick type of the emulator.  Signed overflow is undefined
  in C++, so the arithmetic on tick counts is the arithmetic of `Int`; the model agrees
  with the program on every run in which no signed overflow happens.
* The global tick counter and the last-event-run timestamp are `u32`; every operation
  on them is reduced modulo `2 ^ 32`, and the conversion of their difference to
  `TickCount` is the two's complement reinterpretation `toS32`.
* `m_events` is a `std::vector<TimingEvent*>`.  It is modelled by the list of the
  pointees; the field `id` of an event stands for its address, so that two entries are
  the same C++ object exactly when their `id`s agree.
* `std::push_heap`, `std::pop_heap` and `std::make_heap` belong to the C++ standard
  library, which fixes their postconditions and not the exact permutation.  They are
  modelled by the classical array algorithms (sift-up, sift-down, bottom-up
  construction); the scheduler theorems use them only through their contract lemmas.
  The one exception is the order of the active vector after a repeated load (C10): it
  rests on `make_heap_of_isHeap`, the bottom-up construction leaving a heap as it is,
  which the standard does not promise for events of equal downcount.  Concrete
  statements about vectors with equal downcounts are made up to permutation.
-/

namespace Duckstation

/-- The fields of a `TimingEvent` that the scheduler and the save-state code touch.
Tick counts (`TickCount` in the sources) are integers.  `id` stands for the address of
the object; the callback is kept outside (see `Callbacks`). -/
structure TimingEvent where
  id : Nat
  name : String
  period : Int
  interval : Int
  downcount : Int
  time_since_last_run : Int
deriving DecidableEq, Repr, Inhabited

/-- `CompareEvents(lhs, rhs)`: `lhs->GetDowncount() > rhs->GetDowncount()`. -/
def CompareEvents (lhs rhs : TimingEvent) : Bool :=
  decide (lhs.downcount > rhs.downcount)

/-! ## The heap algorithms of the standard library -/

/-- Element at index `i`, with a default outside the list. -/
def at_ (l : List TimingEvent) (i : Nat) : TimingEvent := l.getD i default

/-- Exchange the elements at indices `i` and `j` (as `std::iter_swap`). -/
def swapAt (l : List TimingEvent) (i j : Nat) : List TimingEvent :=
  (l.set i (at_ l j)).set j (at_ l i)

/-- Move the element at index `i` towards the root while its parent compares greater
under `CompareEvents`.  `fuel` bounds the number of steps. -/
def siftUp : Nat → List TimingEvent → Nat → List TimingEvent
  | 0, l, _ => l
  | fuel + 1, l, i =>
    if i = 0 then l
    else if CompareEvents (at_ l ((i - 1) / 2)) (at_ l i) then
      siftUp fuel (swapAt l ((i - 1) / 2) i) ((i - 1) / 2)
    else l

/-- Index of the child of `i` that is first in heap order, within the first `n`
elements.  Only used when `2 * i + 1 < n`. -/
def firstChild (l : List TimingEvent) (n i : Nat) : Nat :=
  if 2 * i + 2 < n ∧ CompareEvents (at_ l (2 * i + 1)) (at_ l (2 * i + 2)) = true
  then 2 * i + 2 else 2 * i + 1

/-- Move the element at index `i` towards the leaves of the first `n` elements while
it compares greater than one of its children. -/
def siftDown : Nat → List TimingEvent → Nat → Nat → List TimingEvent
  | 0, l, _, _ => l
  | fuel + 1, l, n, i =>
    if 2 * i + 1 < n then
      if CompareEvents (at_ l i) (at_ l (firstChild l n i)) then
        siftDown fuel (swapAt l i (firstChild l n i)) n (firstChild l n i)
      else l
    else l

/-- `std::push_heap(begin, end, CompareEvents)`: the last element is inserted into the
heap formed by the elements before it. -/
def push_heap (l : List TimingEvent) : List TimingEvent :=
  siftUp l.length l (l.length - 1)

/-- `std::pop_heap(begin, end, CompareEvents)`: the first element is exchanged with the
last one and the elements before the last are made a heap again. -/
def pop_heap (l : List TimingEvent) : List TimingEvent :=
  siftDown l.length (swapAt l 0 (l.length - 1)) (l.length - 1) 0

/-- Sift down the nodes `k - 1, k - 2, ..., 0` in this order. -/
def heapifyFrom : Nat → List TimingEvent → List TimingEvent
  | 0, l => l
  | k + 1, l => heapifyFrom k (siftDown l.length l l.length k)

/-- `std::make_heap(begin, end, CompareEvents)`: bottom-up heap construction. -/
def make_heap (l : List TimingEvent) : List TimingEvent :=
  heapifyFrom (l.length / 2) l

/-- The list is a binary heap under `CompareEvents`: no element has a downcount
smaller than the one of its parent, which sits at index `(i - 1) / 2`. -/
def IsHeap (l : List TimingEvent) : Prop :=
  ∀ i, i < l.length → 0 < i → (at_ l ((i - 1) / 2)).downcount ≤ (at_ l i).downcount

instance (l : List TimingEvent) : Decidable (IsHeap l) := by
  unfold IsHeap; infer_instance


/-- Heap order on the edges of the first `n` elements whose parent index is at least
`k`. -/
def SubHeap (l : List TimingEvent) (n k : Nat) : Prop :=
  ∀ j, j < n → 0 < j → k ≤ (j - 1) / 2 →
    (at_ l ((j - 1) / 2)).downcount ≤ (at_ l j).downcount

/-- Heap order everywhere except on the edge above `i`, whose children are already
above the parent of `i`. -/
def UpInv (l : List TimingEvent) (i : Nat) : Prop :=
  (∀ j, j < l.length → 0 < j → j ≠ i →
    (at_ l ((j - 1) / 2)).downcount ≤ (at_ l j).downcount) ∧
  (∀ j, j < l.length → 0 < j → (j - 1) / 2 = i → 0 < i →
    (at_ l ((i - 1) / 2)).downcount ≤ (at_ l j).downcount)

/-- Heap order on the edges counted by `SubHeap` except the ones below `i`, whose
children are already above the parent of `i`. -/
def DownInv (l : List TimingEvent) (n k i : Nat) : Prop :=
  (∀ j, j < n → 0 < j → k ≤ (j - 1) / 2 → (j - 1) / 2 ≠ i →
    (at_ l ((j - 1) / 2)).downcount ≤ (at_ l j).downcount) ∧
  (∀ j, j < n → 0 < j → (j - 1) / 2 = i → 0 < i → k ≤ (i - 1) / 2 →
    (at_ l ((i - 1) / 2)).downcount ≤ (at_ l j).downcount)


/-! ## Scheduler state -/

/-- One invocation `evt->m_callback(ticks_to_execute, ticks_late)`, recorded in the
order in which `RunEvents` makes them.  The record is observation only: no operation
reads it. -/
structure CallRecord where
  id : Nat
  ticks_to_execute : Int
  ticks_late : Int
deriving DecidableEq, Repr

/-- The members of `System` read or written by the scheduler and by the save-state
code.  `D` is the state of the devices (CPU registers, bus, DMA, GPU, CD-ROM, pad,
timers, SPU, MDEC, SIO, code cache), whose classes live outside `system.cpp`.

* `global_tick_counter`, `last_event_run_time`, `frame_number` and
  `internal_frame_number` are `u32`;
* `cpu_downcount` and `cpu_pending_ticks` are the two tick fields of `CPU::Core` behind
  `SetDowncount`, `GetPendingTicks` and `ResetPendingTicks`;
* `panicked` records that `Panic` was reached;
* `calls` is the record of callback invocations. -/
structure System (D : Type) where
  events : List TimingEvent
  running_events : Bool
  events_need_sorting : Bool
  frame_done : Bool
  global_tick_counter : Nat
  last_event_run_time : Nat
  cpu_downcount : Int
  cpu_pending_ticks : Int
  region : Nat
  frame_number : Nat
  internal_frame_number : Nat
  running_game_path : String
  running_game_code : String
  running_game_title : String
  devices : D
  panicked : Bool
  calls : List CallRecord
deriving DecidableEq, Repr

/-- The callbacks of the events, by event `id`: `cb id ticks_to_execute ticks_late` is
the effect of `m_callback(ticks_to_execute, ticks_late)` of the event `id` on the
system.  A callback may call back into the scheduler. -/
abbrev Callbacks (D : Type) := Nat → Int → Int → System D → System D

/-- Callbacks that leave the system as it is. -/
def inertCallbacks (D : Type) : Callbacks D := fun _ _ _ s => s

/-- Reinterpretation of a `u32` value as `s32` (`static_cast<TickCount>`). -/
def toS32 (x : Nat) : Int :=
  if x % 2 ^ 32 < 2 ^ 31 then ((x % 2 ^ 32 : Nat) : Int) else ((x % 2 ^ 32 : Nat) : Int) - 2 ^ 32

/-- Reinterpretation of a tick count as `u32` (`static_cast<u32>`). -/
def toU32 (x : Int) : Nat := (x % 2 ^ 32).toNat

/-- Apply `f` to the event object with address `id`, through every pointer to it. -/
def modifyEvent (id : Nat) (f : TimingEvent → TimingEvent) (l : List TimingEvent) :
    List TimingEvent :=
  l.map (fun e => if e.id = id then f e else e)

/-- `System::UpdateCPUDowncount`: `m_cpu->SetDowncount(m_events[0]->GetDowncount())`.
Indexing an empty vector is undefined; the model then leaves the CPU alone. -/
def UpdateCPUDowncount {D : Type} (s : System D) : System D :=
  match s.events with
  | [] => s
  | e :: _ => { s with cpu_downcount := e.downcount }

/-- `System::AddActiveEvent`. -/
def AddActiveEvent {D : Type} (event : TimingEvent) (s : System D) : System D :=
  let s1 := { s with events := s.events ++ [event] }
  if !s1.running_events then
    let s2 := { s1 with events := push_heap s1.events }
    if !s2.frame_done then UpdateCPUDowncount s2 else s2
  else
    { s1 with events_need_sorting := true }

/-- `System::RemoveActiveEvent`; `event` is the address of the event.  `std::find_if`
stops at the first pointer equal to `event`, and `erase` removes that entry. -/
def RemoveActiveEvent {D : Type} (event : Nat) (s : System D) : System D :=
  match s.events.findIdx? (fun it => decide (event = it.id)) with
  | none => { s with panicked := true }
  | some iter =>
    let s1 := { s with events := s.events.eraseIdx iter }
    if !s1.running_events then
      let s2 := { s1 with events := make_heap s1.events }
      if !s2.events.isEmpty && !s2.frame_done then UpdateCPUDowncount s2 else s2
    else
      { s1 with events_need_sorting := true }

/-- `System::SortEvents`. -/
def SortEvents {D : Type} (s : System D) : System D :=
  if !s.running_events then
    let s1 := { s with events := make_heap s.events }
    if !s1.frame_done then UpdateCPUDowncount s1 else s1
  else
    { s with events_need_sorting := true }

/-- The first three statements of `System::RunEvents`: the pending ticks of the CPU
are moved into the global tick counter, the elapsed time since the last pass is taken,
and the running flag is set.  Returns the elapsed time and the new state. -/
def beginRunEvents {D : Type} (s : System D) : Int × System D :=
  let pending_ticks := s.cpu_pending_ticks
  let g := (s.global_tick_counter + toU32 pending_ticks) % 2 ^ 32
  let time := toS32 ((g + 2 ^ 32 - s.last_event_run_time % 2 ^ 32) % 2 ^ 32)
  (time, { s with global_tick_counter := g, cpu_pending_ticks := 0,
                  running_events := true, last_event_run_time := g })

/-- Body of the loop `for (TimingEvent* evt : m_events)` of `System::RunEvents`:
`evt->m_downcount -= time` and `evt->m_time_since_last_run += time`. -/
def aged (time : Int) (evt : TimingEvent) : TimingEvent :=
  { evt with downcount := evt.downcount - time,
             time_since_last_run := evt.time_since_last_run + time }

/-- The loop `for (TimingEvent* evt : m_events)` of `System::RunEvents`. -/
def applyDowncount (time : Int) (l : List TimingEvent) : List TimingEvent :=
  l.map (aged time)

/-- The update of the event that is being served: `evt->m_downcount += evt->m_interval`
and `evt->m_time_since_last_run = 0`. -/
def serviced (e : TimingEvent) : TimingEvent :=
  { e with downcount := e.downcount + e.interval, time_since_last_run := 0 }

/-- Body of the `while` loop of `System::RunEvents` for the event `evt` at the front. -/
def fireFront {D : Type} (cb : Callbacks D) (evt : TimingEvent) (s : System D) : System D :=
  let ticks_late := -evt.downcount
  let s1 := { s with events := pop_heap s.events }
  let ticks_to_execute := evt.time_since_last_run
  let s2 := { s1 with events := modifyEvent evt.id serviced s1.events }
  let s3 := cb evt.id ticks_to_execute ticks_late
    { s2 with calls := s2.calls ++ [⟨evt.id, ticks_to_execute, ticks_late⟩] }
  if s3.events_need_sorting then
    { s3 with events := make_heap s3.events, events_need_sorting := false }
  else
    { s3 with events := push_heap s3.events }

/-- The `while (m_events.front()->GetDowncount() <= 0)` loop of `System::RunEvents`.
`none` when `fuel` iterations do not reach the exit, or when `front()` is taken of an
empty vector, which is undefined. -/
def runLoop {D : Type} (cb : Callbacks D) : Nat → System D → Option (System D)
  | 0, _ => none
  | fuel + 1, s =>
    match s.events with
    | [] => none
    | evt :: _ =>
      if evt.downcount ≤ 0 then runLoop cb fuel (fireFront cb evt s) else some s

/-- `System::RunEvents`. -/
def RunEvents {D : Type} (cb : Callbacks D) (fuel : Nat) (s : System D) :
    Option (System D) :=
  let (time, s1) := beginRunEvents s
  let s2 := { s1 with events := applyDowncount time s1.events }
  match runLoop cb fuel s2 with
  | none => none
  | some s3 =>
    match s3.events with
    | [] => none
    | e :: _ => some { s3 with running_events := false, cpu_downcount := e.downcount }

/-! ## Byte streams and the state serializer -/

/-- Modelled from the spec: a seekable byte stream (`ByteStream`, declared in
`common/byte_stream.h`, which is not among the sources): the bytes and the current
position. -/
structure ByteStream where
  data : List Nat
  pos : Nat
deriving DecidableEq, Repr

/-- Modelled from the spec: `ByteStream::Read2`, which reads exactly `n` bytes at the
position and advances, or fails when fewer than `n` bytes remain. -/
def ByteStream.Read2 (st : ByteStream) (n : Nat) : Option (List Nat × ByteStream) :=
  if st.pos + n ≤ st.data.length then
    some ((st.data.drop st.pos).take n, { st with pos := st.pos + n })
  else none

/-- Modelled from the spec: `ByteStream::Write2` on a growable memory stream: the bytes
replace the ones at the position, the stream grows as needed, the position advances. -/
def ByteStream.Write2 (st : ByteStream) (bs : List Nat) : ByteStream :=
  { data := st.data.take st.pos ++ bs ++ st.data.drop (st.pos + bs.length),
    pos := st.pos + bs.length }

/-- Modelled from the spec: `ByteStream::SeekAbsolute`, which fails beyond the end. -/
def ByteStream.SeekAbsolute (st : ByteStream) (offset : Nat) : Option ByteStream :=
  if offset ≤ st.data.length then some { st with pos := offset } else none

/-- Little-endian bytes of a `u32`. -/
def encodeU32 (v : Nat) : List Nat :=
  [v % 256, v / 256 % 256, v / 65536 % 256, v / 16777216 % 256]

/-- Value of four little-endian bytes. -/
def decodeU32 : List Nat → Nat
  | [a, b, c, d] => a % 256 + 256 * (b % 256) + 65536 * (c % 256) + 16777216 * (d % 256)
  | _ => 0

/-- Bytes of a `std::string`, one per character. -/
def stringBytes (v : String) : List Nat := v.data.map (fun c => c.toNat % 256)

/-- The `std::string` made of the given bytes. -/
def bytesString (bs : List Nat) : String := ⟨bs.map (fun b => Char.ofNat (b % 256))⟩

/-- Mode of a `StateWrapper`. -/
inductive Mode where
  | Read
  | Write
deriving DecidableEq, Repr

/-- Modelled from the spec: `StateWrapper` (`common/state_wrapper.h` is not among the
sources), a byte stream with a mode and the persistent error flag of section 4.4. -/
structure StateWrapper where
  stream : ByteStream
  mode : Mode
  error : Bool
deriving DecidableEq, Repr

/-- `StateWrapper::IsReading`. -/
def StateWrapper.IsReading (sw : StateWrapper) : Bool := decide (sw.mode = Mode.Read)

/-- `StateWrapper::HasError`. -/
def StateWrapper.HasError (sw : StateWrapper) : Bool := sw.error

/-- Modelled from the spec: the transfer of `n` raw bytes.  In write mode the bytes `bs`
are written.  In read mode `n` bytes are read; when the wrapper is already in the error
state the read is suppressed, and when the stream is exhausted the wrapper enters the
error state.  Returns the bytes read, if any. -/
def StateWrapper.DoBytes (sw : StateWrapper) (n : Nat) (bs : List Nat) :
    Option (List Nat) × StateWrapper :=
  match sw.mode with
  | Mode.Write => (none, { sw with stream := sw.stream.Write2 bs })
  | Mode.Read =>
    if sw.error then (none, sw)
    else
      match sw.stream.Read2 n with
      | some (r, st) => (some r, { sw with stream := st })
      | none => (none, { sw with error := true })

/-- Modelled from the spec: `StateWrapper::Do(u32*)`: reads or writes exactly
`sizeof(u32)` bytes.  Returns the value of the field afterwards. -/
def StateWrapper.DoU32 (sw : StateWrapper) (v : Nat) : Nat × StateWrapper :=
  match sw.DoBytes 4 (encodeU32 v) with
  | (some r, sw1) => (decodeU32 r, sw1)
  | (none, sw1) => (v, sw1)

/-- Modelled from the spec: `StateWrapper::Do(s32*)` (`TickCount` fields). -/
def StateWrapper.DoS32 (sw : StateWrapper) (v : Int) : Int × StateWrapper :=
  match sw.DoBytes 4 (encodeU32 (toU32 v)) with
  | (some r, sw1) => (toS32 (decodeU32 r), sw1)
  | (none, sw1) => (v, sw1)

/-- Modelled from the spec: `StateWrapper::Do(std::string*)`: the length-prefixed
representation of variable-length data, a `u32` length followed by the bytes. -/
def StateWrapper.DoString (sw : StateWrapper) (v : String) : String × StateWrapper :=
  let (len, sw1) := sw.DoU32 v.length
  match sw1.DoBytes len (stringBytes v) with
  | (some r, sw2) => (bytesString r, sw2)
  | (none, sw2) => (v, sw2)

/-- Modelled from the spec: `StateWrapper::DoMarker`: the tag is written, or it is read
and compared; the result is `false` when the read fails or the tag differs. -/
def StateWrapper.DoMarker (sw : StateWrapper) (marker : String) : Bool × StateWrapper :=
  let (file_value, sw1) := sw.DoString marker
  if sw1.error then (false, sw1)
  else if sw.mode = Mode.Write then (true, sw1)
  else (decide (file_value = marker), sw1)

/-! ## Save states -/

/-- The string seen through `c_str()`: the characters before the first NUL. -/
def c_str (v : String) : String := ⟨v.data.takeWhile (fun c => decide (c.toNat ≠ 0))⟩

/-- `System::FindActiveEvent(const char* name)`. -/
def FindActiveEvent {D : Type} (name : String) (s : System D) : Option TimingEvent :=
  s.events.find? (fun ev => decide (ev.name = name))

/-- The four assignments through `event->` in the reading branch of
`System::DoEventsState`. -/
def restoreFields (downcount time_since_last_run period interval : Int)
    (e : TimingEvent) : TimingEvent :=
  { e with downcount := downcount, time_since_last_run := time_since_last_run,
           period := period, interval := interval }

/-- The `for` loop of the reading branch of `System::DoEventsState`.  The `Bool` is
`false` when the loop leaves the function through `return false`.  The locals
`downcount`, `time_since_last_run`, `period` and `interval` are not initialised in the
source; they are only used after a successful read. -/
def readEventRecords {D : Type} :
    Nat → StateWrapper → System D → Bool × StateWrapper × System D
  | 0, sw, s => (true, sw, s)
  | n + 1, sw, s =>
    let (event_name, sw1) := sw.DoString ""
    let (downcount, sw2) := sw1.DoS32 0
    let (time_since_last_run, sw3) := sw2.DoS32 0
    let (period, sw4) := sw3.DoS32 0
    let (interval, sw5) := sw4.DoS32 0
    if sw5.HasError then (false, sw5, s)
    else
      match FindActiveEvent (c_str event_name) s with
      | none => readEventRecords n sw5 s
      | some event =>
        let restored := modifyEvent event.id
          (restoreFields downcount time_since_last_run period interval) s.events
        readEventRecords n sw5 { s with events := restored }

/-- The `for` loop of the writing branch of `System::DoEventsState`. -/
def writeEventRecords : List TimingEvent → StateWrapper → StateWrapper
  | [], sw => sw
  | evt :: rest, sw =>
    let sw1 := (sw.DoString evt.name).2
    let sw2 := (sw1.DoS32 evt.downcount).2
    let sw3 := (sw2.DoS32 evt.time_since_last_run).2
    let sw4 := (sw3.DoS32 evt.period).2
    let sw5 := (sw4.DoS32 evt.interval).2
    writeEventRecords rest sw5

/-- `System::DoEventsState`. -/
def DoEventsState {D : Type} (sw : StateWrapper) (s : System D) :
    Bool × StateWrapper × System D :=
  if sw.IsReading then
    let (event_count, sw1) := sw.DoU32 0
    match readEventRecords event_count sw1 s with
    | (false, sw2, s2) => (false, sw2, s2)
    | (true, sw2, s2) =>
      let (t, sw3) := sw2.DoU32 s2.last_event_run_time
      let s3 := SortEvents { s2 with last_event_run_time := t }
      (!sw3.HasError, sw3, s3)
  else
    let event_count := s.events.length % 2 ^ 32
    let sw1 := (sw.DoU32 event_count).2
    let sw2 := writeEventRecords s.events sw1
    let sw3 := (sw2.DoU32 s.last_event_run_time).2
    (!sw3.HasError, sw3, s)

/-- A disc image opened by `CDImage::Open`. -/
structure CDImage where
  filename : String
deriving DecidableEq, Repr

/-- The code outside `system.cpp` that the save-state paths call into, as operations on
the system: the `DoState` member of each component (named by the marker that precedes
it), the flush of the code cache, the media-image and game-list collaborators, and the
device set-up steps of a load.  `UpdateControllers`, `UpdateMemoryCards` and
`InitializeComponents` are members of `System` whose bodies only call into the devices
and the host; they are kept as operations for that reason. -/
structure Components (D : Type) where
  DoState : String → StateWrapper → System D → Bool × StateWrapper × System D
  FlushCodeCache : System D → System D
  Open : String → Option CDImage
  GetGameInfo : String → Option CDImage → String × String
  InitializeComponents : Bool → System D → Option (System D)
  UpdateControllers : System D → System D
  UpdateMemoryCards : System D → System D
  CDROMReset : System D → System D
  InsertMedia : CDImage → System D → System D
  RemoveMedia : System D → System D
  HasAnyPerGameMemoryCards : Bool

/-- The step `!sw.DoMarker(marker) || !component->DoState(sw)` of `System::DoState`;
the `Bool` is `true` when both calls succeed. -/
def componentState {D : Type} (env : Components D) (marker : String) (sw : StateWrapper)
    (s : System D) : Bool × StateWrapper × System D :=
  match sw.DoMarker marker with
  | (false, sw1) => (false, sw1, s)
  | (true, sw1) => env.DoState marker sw1 s

/-- The steps of `System::DoState` for the components named by `markers`, in this
order, stopping at the first that fails. -/
def componentStates {D : Type} (env : Components D) :
    List String → StateWrapper → System D → Bool × StateWrapper × System D
  | [], sw, s => (true, sw, s)
  | marker :: rest, sw, s =>
    match componentState env marker sw s with
    | (false, sw1, s1) => (false, sw1, s1)
    | (true, sw1, s1) => componentStates env rest sw1 s1

/-- The components that `System::DoState` visits after the CPU, in its order. -/
def componentsAfterCPU : List String :=
  ["Bus", "DMA", "InterruptController", "GPU", "CDROM", "Pad", "Timers", "SPU", "MDEC",
   "SIO"]

/-- `System::DoState`. -/
def DoState {D : Type} (env : Components D) (sw : StateWrapper) (s : System D) :
    Bool × StateWrapper × System D :=
  match sw.DoMarker "System" with
  | (false, sw0) => (false, sw0, s)
  | (true, sw0) =>
    let (region, sw1) := sw0.DoU32 s.region
    let (frame_number, sw2) := sw1.DoU32 s.frame_number
    let (internal_frame_number, sw3) := sw2.DoU32 s.internal_frame_number
    let (global_tick_counter, sw4) := sw3.DoU32 s.global_tick_counter
    let s1 := { s with region := region, frame_number := frame_number,
                       internal_frame_number := internal_frame_number,
                       global_tick_counter := global_tick_counter }
    match componentState env "CPU" sw4 s1 with
    | (false, sw5, s2) => (false, sw5, s2)
    | (true, sw5, s2) =>
      let s3 := if sw5.IsReading then env.FlushCodeCache s2 else s2
      match componentStates env componentsAfterCPU sw5 s3 with
      | (false, sw6, s4) => (false, sw6, s4)
      | (true, sw6, s4) =>
        match sw6.DoMarker "Events" with
        | (false, sw7) => (false, sw7, s4)
        | (true, sw7) =>
          match DoEventsState sw7 s4 with
          | (false, sw8, s5) => (false, sw8, s5)
          | (true, sw8, s5) => (!sw8.HasError, sw8, s5)

/-- The constants of `save_state_version.h`, which is not among the sources, and the
sizes of the two character arrays of `SAVE_STATE_HEADER`. -/
structure SaveStateFormat where
  SAVE_STATE_MAGIC : Nat
  SAVE_STATE_VERSION : Nat
  title_size : Nat
  game_code_size : Nat
deriving DecidableEq, Repr

/-- `SAVE_STATE_HEADER`, with the fields of the layout in section 6 of the spec. -/
structure SAVE_STATE_HEADER where
  magic : Nat
  version : Nat
  title : List Nat
  game_code : List Nat
  offset_to_media_filename : Nat
  media_filename_length : Nat
  offset_to_screenshot : Nat
  screenshot_width : Nat
  screenshot_height : Nat
  screenshot_size : Nat
  offset_to_data : Nat
  data_compression_type : Nat
  data_uncompressed_size : Nat
deriving DecidableEq, Repr

/-- `sizeof(SAVE_STATE_HEADER)`. -/
def headerSize (fmt : SaveStateFormat) : Nat :=
  8 + fmt.title_size + fmt.game_code_size + 36

/-- The `u32` stored at byte offset `off` of `bs`. -/
def u32At (bs : List Nat) (off : Nat) : Nat := decodeU32 ((bs.drop off).take 4)

/-- The header held by `sizeof(SAVE_STATE_HEADER)` bytes. -/
def parseHeader (fmt : SaveStateFormat) (bs : List Nat) : SAVE_STATE_HEADER :=
  let o := 8 + fmt.title_size + fmt.game_code_size
  { magic := u32At bs 0
    version := u32At bs 4
    title := (bs.drop 8).take fmt.title_size
    game_code := (bs.drop (8 + fmt.title_size)).take fmt.game_code_size
    offset_to_media_filename := u32At bs o
    media_filename_length := u32At bs (o + 4)
    offset_to_screenshot := u32At bs (o + 8)
    screenshot_width := u32At bs (o + 12)
    screenshot_height := u32At bs (o + 16)
    screenshot_size := u32At bs (o + 20)
    offset_to_data := u32At bs (o + 24)
    data_compression_type := u32At bs (o + 28)
    data_uncompressed_size := u32At bs (o + 32) }

/-- `System::UpdateRunningGame`; the notification of the host is not modelled. -/
def UpdateRunningGame {D : Type} (env : Components D) (path : String)
    (image : Option CDImage) (s : System D) : System D :=
  let s1 := { s with running_game_path := "", running_game_code := "",
                     running_game_title := "" }
  if path.length > 0 then
    let info := env.GetGameInfo path image
    { s1 with running_game_path := path, running_game_code := info.1,
              running_game_title := info.2 }
  else s1

/-- The part of `System::DoLoadState` that re-opens the media named by the header:
the file name and the image if one is named, with the stream afterwards; `none` when
the function leaves through `return false`. -/
def loadMedia {D : Type} (env : Components D) (header : SAVE_STATE_HEADER)
    (state : ByteStream) : Option (String × Option CDImage) × ByteStream :=
  if header.media_filename_length > 0 then
    match state.SeekAbsolute header.offset_to_media_filename with
    | none => (none, state)
    | some st1 =>
      match st1.Read2 header.media_filename_length with
      | none => (none, st1)
      | some (bs, st2) =>
        match env.Open (c_str (bytesString bs)) with
        | none => (none, st2)
        | some media => (some (bytesString bs, some media), st2)
  else (some ("", none), state)

/-- `System::DoLoadState`.  The reports to the host interface are not modelled.  The
result is the returned `bool`, the stream and the system afterwards. -/
def DoLoadState {D : Type} (env : Components D) (fmt : SaveStateFormat) (state : ByteStream)
    (init_components force_software_renderer : Bool) (s : System D) :
    Bool × ByteStream × System D :=
  match state.Read2 (headerSize fmt) with
  | none => (false, state, s)
  | some (hb, st0) =>
    let header := parseHeader fmt hb
    if header.magic ≠ fmt.SAVE_STATE_MAGIC then (false, st0, s)
    else if header.version ≠ fmt.SAVE_STATE_VERSION then (false, st0, s)
    else
      match loadMedia env header st0 with
      | (none, st1) => (false, st1, s)
      | (some (media_filename, media), st1) =>
        let s1 := UpdateRunningGame env (c_str media_filename) media s
        let prepared : Option (System D) :=
          if init_components then
            match env.InitializeComponents force_software_renderer s1 with
            | none => none
            | some s2 =>
              let s3 := env.UpdateMemoryCards (env.UpdateControllers s2)
              match media with
              | some m => some (env.InsertMedia m s3)
              | none => some s3
          else
            let s2 := env.CDROMReset s1
            let s3 := match media with
              | some m => env.InsertMedia m s2
              | none => env.RemoveMedia s2
            if env.HasAnyPerGameMemoryCards then some (env.UpdateMemoryCards s3)
            else some s3
        match prepared with
        | none => (false, st1, s1)
        | some s4 =>
          if header.data_compression_type ≠ 0 then (false, st1, s4)
          else
            match st1.SeekAbsolute header.offset_to_data with
            | none => (false, st1, s4)
            | some st2 =>
              let r := DoState env ⟨st2, Mode.Read, false⟩ s4
              (r.1, r.2.1.stream, r.2.2)

/-- `System::LoadState`. -/
def LoadState {D : Type} (env : Components D) (fmt : SaveStateFormat) (state : ByteStream)
    (s : System D) : Bool × ByteStream × System D :=
  DoLoadState env fmt state false false s

/-! ## Notions used to state the scheduler properties -/

/-- The integer `m` is the least downcount among the events of `l`. -/
def MinDowncount (l : List TimingEvent) (m : Int) : Prop :=
  (∃ e ∈ l, e.downcount = m) ∧ ∀ e ∈ l, m ≤ e.downcount

/-- A call of one of the two entry points `AddActiveEvent` and `RemoveActiveEvent`. -/
inductive SchedOp where
  | add (event : TimingEvent)
  | remove (event : Nat)
deriving DecidableEq, Repr

/-- Effect of a call on the system. -/
def SchedOp.apply {D : Type} (op : SchedOp) (s : System D) : System D :=
  match op with
  | SchedOp.add e => AddActiveEvent e s
  | SchedOp.remove id => RemoveActiveEvent id s

/-- The system after a sequence of calls. -/
def runOps {D : Type} : List SchedOp → System D → System D
  | [], s => s
  | op :: rest, s => runOps rest (op.apply s)

/-- The active set as the calls describe it: an added event joins the set, a removed
event leaves it. -/
def activeSet : List SchedOp → List TimingEvent → List TimingEvent
  | [], l => l
  | SchedOp.add e :: rest, l => activeSet rest (l ++ [e])
  | SchedOp.remove id :: rest, l =>
    activeSet rest (l.eraseP (fun it => decide (id = it.id)))

/-- The sequence of calls respects the discipline of the scheduler on the active set
`l`: no call adds an event that is active at that moment, no call removes an event that
is absent at that moment. -/
def Admissible : List SchedOp → List TimingEvent → Prop
  | [], _ => True
  | SchedOp.add e :: rest, l => (∀ x ∈ l, x.id ≠ e.id) ∧ Admissible rest (l ++ [e])
  | SchedOp.remove id :: rest, l =>
    (∃ x ∈ l, x.id = id) ∧ Admissible rest (l.eraseP (fun it => decide (id = it.id)))

/-- The scheduler is outside dispatch and inside a frame, and the active set is a
heap. -/
def Idle {D : Type} (s : System D) : Prop :=
  s.running_events = false ∧ s.frame_done = false ∧ IsHeap s.events

instance (l : List TimingEvent) (m : Int) : Decidable (MinDowncount l m) := by
  unfold MinDowncount; infer_instance

/-! ## Concrete systems and events used in examples -/

/-- A system without devices, outside dispatch and inside a frame, whose active set is
`l` and whose CPU downcount is `dc`. -/
def systemOf (l : List TimingEvent) (dc : Int) : System Unit :=
  { events := l, running_events := false, events_need_sorting := false,
    frame_done := false, global_tick_counter := 0, last_event_run_time := 0,
    cpu_downcount := dc, cpu_pending_ticks := 0, region := 0, frame_number := 1,
    internal_frame_number := 0, running_game_path := "", running_game_code := "",
    running_game_title := "", devices := (), panicked := false, calls := [] }

/-- An event named `name` at address `id` with period and interval `interval`. -/
def eventOf (id : Nat) (name : String) (interval downcount : Int) : TimingEvent :=
  { id := id, name := name, period := interval, interval := interval,
    downcount := downcount, time_since_last_run := 0 }

/-- The callbacks keep to the protocol of the scheduler.  Called during dispatch, a
callback returns during dispatch, it leaves no event twice in the active set, and if
the needs-sorting flag is clear when it returns then the downcounts in the active
vector are the ones it found: every change of the vector or of a downcount goes through
`AddActiveEvent`, `RemoveActiveEvent` or `SortEvents`, which set the flag. -/
def WellBehaved {D : Type} (cb : Callbacks D) : Prop :=
  ∀ (id : Nat) (a b : Int) (s : System D), s.running_events = true →
    (cb id a b s).running_events = true ∧
    ((s.events.map (fun e => e.id)).Nodup →
      ((cb id a b s).events.map (fun e => e.id)).Nodup) ∧
    ((cb id a b s).events_need_sorting = false →
      (cb id a b s).events.map (fun e => e.downcount) =
        s.events.map (fun e => e.downcount))

/-- The front element is a soonest-due event. -/
def FrontIsSoonest (l : List TimingEvent) : Prop :=
  ∀ f ∈ l.head?, ∀ e ∈ l, f.downcount ≤ e.downcount

/-- The operations after which the scheduler is outside dispatch: the three entry
points, the reading branch of `DoEventsState`, and a pass of `RunEvents`. -/
inductive IdleOp (D : Type) where
  | add (event : TimingEvent)
  | remove (event : Nat)
  | sort
  | load (sw : StateWrapper)
  | run (cb : Callbacks D) (fuel : Nat)

/-- The system after the operation, when the operation completes: a load completes
when `DoEventsState` returns `true`, a pass when `RunEvents` returns. -/
def IdleOp.result {D : Type} (op : IdleOp D) (s : System D) : Option (System D) :=
  match op with
  | IdleOp.add e => some (AddActiveEvent e s)
  | IdleOp.remove id => some (RemoveActiveEvent id s)
  | IdleOp.sort => some (SortEvents s)
  | IdleOp.load sw => if (DoEventsState sw s).1 then some (DoEventsState sw s).2.2 else none
  | IdleOp.run cb fuel => RunEvents cb fuel s

/-- What the operation expects of its caller: a load is given a reading wrapper, a
pass runs callbacks that keep to the protocol on an active set without repeated
events. -/
def IdleOp.Pre {D : Type} (op : IdleOp D) (s : System D) : Prop :=
  match op with
  | IdleOp.load sw => sw.mode = Mode.Read
  | IdleOp.run cb _ => WellBehaved cb ∧ (s.events.map (fun e => e.id)).Nodup
  | _ => True

/-- A callback that deactivates the event `victim` when the event `trigger` is served
and does nothing otherwise. -/
def removingCallbacks (trigger victim : Nat) : Callbacks Unit :=
  fun id _ _ s => if id = trigger then RemoveActiveEvent victim s else s

/-! ## A pass of `RunEvents` as a whole -/

/-- Number of times the loop of `RunEvents` serves an event with a positive interval:
`floor(-d / I) + 1` times when its downcount `d` is not positive, never otherwise. -/
def firesNeeded (e : TimingEvent) : Nat :=
  if e.downcount ≤ 0 then ((-e.downcount) / e.interval).toNat + 1 else 0

/-- Total number of iterations of the loop for the active set `l`. -/
def due (l : List TimingEvent) : Nat := (l.map firesNeeded).sum

/-- The event as the loop of `RunEvents` leaves it: a due event has been moved forward
by its interval once for each time it was served. -/
def settled (e : TimingEvent) : TimingEvent :=
  if e.downcount ≤ 0 then
    { e with downcount := e.downcount + (firesNeeded e : Int) * e.interval,
             time_since_last_run := 0 }
  else e

/-- The callback invocations of `n` consecutive services of the event `id`, starting
from the accumulated time `tslr` and the downcount `dc`. -/
def recordsFrom (id : Nat) : Nat → Int → Int → Int → List CallRecord
  | 0, _, _, _ => []
  | n + 1, tslr, dc, interval =>
    ⟨id, tslr, -dc⟩ :: recordsFrom id n 0 (dc + interval) interval

/-- The callback invocations that a pass makes for the event `e`. -/
def firesOf (e : TimingEvent) : List CallRecord :=
  recordsFrom e.id (firesNeeded e) e.time_since_last_run e.downcount e.interval

/-- The invocations of the callback of the event `id` among `calls`. -/
def callsOf (id : Nat) (calls : List CallRecord) : List CallRecord :=
  calls.filter (fun r => decide (r.id = id))

/-- The system `s2` is what the loop of `RunEvents` makes of `s` when the callbacks
leave the system alone: every event is settled, the active vector is a heap again, the
invocations made for each event are the ones of `firesOf`, no other callback is
invoked, and nothing else changes but the needs-sorting flag. -/
def LoopResult {D : Type} (s s2 : System D) : Prop :=
  s2.events.Perm (s.events.map settled) ∧
  IsHeap s2.events ∧
  (∃ new, s2.calls = s.calls ++ new ∧
    (∀ e ∈ s.events, callsOf e.id new = firesOf e) ∧
    (∀ r ∈ new, ∃ e ∈ s.events, e.id = r.id)) ∧
  s2 = { s with events := s2.events, calls := s2.calls,
                events_need_sorting := s2.events_need_sorting }

/-- Elapsed time that a pass of `RunEvents` entered in `s` applies to the events. -/
def elapsed {D : Type} (s : System D) : Int := (beginRunEvents s).1

/-- The system `s2` is what a pass of `RunEvents` makes of `s` when the callbacks leave
the system alone, and `new` are the callback invocations of the pass: the elapsed time
is applied to every event and every event is settled; the invocations for each event
are the ones of `firesOf`; the pending ticks of the CPU have gone to the global tick
counter, which is also the new last-event-run timestamp; the scheduler is outside
dispatch with a heap whose front gives the CPU downcount; nothing else changes but the
needs-sorting flag. -/
def PassResult {D : Type} (s s2 : System D) (new : List CallRecord) : Prop :=
  s2.events.Perm ((applyDowncount (elapsed s) s.events).map settled) ∧
  IsHeap s2.events ∧
  s2.calls = s.calls ++ new ∧
  (∀ e ∈ applyDowncount (elapsed s) s.events, callsOf e.id new = firesOf e) ∧
  (∀ r ∈ new, ∃ e ∈ s.events, e.id = r.id) ∧
  MinDowncount s2.events s2.cpu_downcount ∧
  (∀ e ∈ s2.events, 0 < e.downcount) ∧
  s2 = { s with events := s2.events, calls := s2.calls,
                events_need_sorting := s2.events_need_sorting,
                cpu_downcount := s2.cpu_downcount,
                running_events := false,
                cpu_pending_ticks := 0,
                global_tick_counter :=
                  (s.global_tick_counter + toU32 s.cpu_pending_ticks) % 2 ^ 32,
                last_event_run_time :=
                  (s.global_tick_counter + toU32 s.cpu_pending_ticks) % 2 ^ 32 }

/-- Passes of `RunEvents` in a row, each entered when the CPU has accumulated exactly
the ticks that the event `id` still had to wait, so that the event is served on time;
`fuels` gives the fuel of each pass.  Returns the system after the last pass and the
sum of the elapsed times of the passes. -/
def onTimePasses {D : Type} (cb : Callbacks D) (id : Nat) :
    List Nat → System D → Option (System D × Int)
  | [], s => some (s, 0)
  | fuel :: rest, s =>
    match s.events.find? (fun e => decide (e.id = id)) with
    | none => none
    | some e =>
      match RunEvents cb fuel { s with cpu_pending_ticks := e.downcount } with
      | none => none
      | some s2 =>
        match onTimePasses cb id rest s2 with
        | none => none
        | some (s3, total) =>
          some (s3, elapsed { s with cpu_pending_ticks := e.downcount } + total)

/-- The setting of a run of on-time services of the event `id` with interval
`interval`: the scheduler holds a heap of distinct events with positive intervals, the
event waits for exactly one interval, and no time has passed since the last pass. -/
def OnTimeInv {D : Type} (s : System D) (id : Nat) (interval : Int) : Prop :=
  IsHeap s.events ∧ (s.events.map (fun e => e.id)).Nodup ∧
  (∀ e ∈ s.events, 0 < e.interval) ∧
  s.last_event_run_time = s.global_tick_counter ∧ s.global_tick_counter < 2 ^ 32 ∧
  ∃ e ∈ s.events, e.id = id ∧ e.downcount = interval ∧ e.interval = interval

/-- One round of the loop of `System::RunFrame`: `UpdateCPUDowncount`, then the CPU
runs, then `RunEvents`.  The CPU core is not among the sources; it is taken to stop
when its pending ticks reach its downcount. -/
def framePass {D : Type} (cb : Callbacks D) (fuel : Nat) (s : System D) :
    Option (System D) :=
  RunEvents cb fuel
    { UpdateCPUDowncount s with cpu_pending_ticks := (UpdateCPUDowncount s).cpu_downcount }

/-- The first `n` rounds of the loop of `System::RunFrame`. -/
def framePasses {D : Type} (cb : Callbacks D) (fuel : Nat) :
    Nat → System D → Option (System D)
  | 0, s => some s
  | n + 1, s =>
    match framePass cb fuel s with
    | none => none
    | some s1 => framePasses cb fuel n s1

/-- The outcome of the two-event scenario from the system `start`: the global tick
counter is 0 at the start, 200 after three rounds and 300 after the fourth; by then the
callback of event 1 has been invoked exactly 3 times and the one of event 2 exactly 2
times, never late; both events are still active and no downcount is negative. -/
def TwoEventOutcome (start : System Unit) : Prop :=
  start.global_tick_counter = 0 ∧
  (framePasses (inertCallbacks Unit) 4 3 start).map (fun s => s.global_tick_counter)
    = some 200 ∧
  ∃ s, framePasses (inertCallbacks Unit) 4 4 start = some s ∧
    s.global_tick_counter = 300 ∧
    (callsOf 1 s.calls).length = 3 ∧ (callsOf 2 s.calls).length = 2 ∧
    s.calls.length = 5 ∧ (∀ r ∈ s.calls, r.ticks_late = 0) ∧
    (∀ e ∈ s.events, 0 ≤ e.downcount) ∧
    (s.events.map (fun e => e.id)).Perm [1, 2]

/-! ## Concrete devices and formats used in examples -/

/-- Devices without state: every component writes and reads nothing, every image can
be opened, and the set-up steps leave the system alone. -/
def nullComponents : Components Unit :=
  { DoState := fun _ sw s => (true, sw, s)
    FlushCodeCache := fun s => s
    Open := fun filename => some ⟨filename⟩
    GetGameInfo := fun _ _ => ("", "")
    InitializeComponents := fun _ s => some s
    UpdateControllers := fun s => s
    UpdateMemoryCards := fun s => s
    CDROMReset := fun s => s
    InsertMedia := fun _ s => s
    RemoveMedia := fun s => s
    HasAnyPerGameMemoryCards := false }

/-- A save-state format with short character arrays. -/
def smallFormat : SaveStateFormat :=
  { SAVE_STATE_MAGIC := 1128482116, SAVE_STATE_VERSION := 37, title_size := 4,
    game_code_size := 4 }

/-! ## Notions used to state the save-state properties -/

/-- The bytes of the stream from the position on. -/
def remaining (sw : StateWrapper) : List Nat := sw.stream.data.drop sw.stream.pos

/-- A reading wrapper without error, positioned inside its stream, whose next bytes
are `bytes`. -/
def ReadyAt (sw : StateWrapper) (bytes : List Nat) : Prop :=
  sw.mode = Mode.Read ∧ sw.error = false ∧ sw.stream.pos ≤ sw.stream.data.length ∧
  remaining sw = bytes

/-- A writing wrapper without error, positioned at the end of its stream. -/
def AtEnd (sw : StateWrapper) : Prop :=
  sw.mode = Mode.Write ∧ sw.error = false ∧ sw.stream.pos = sw.stream.data.length

/-- The wrapper `sw2` is `sw` after the bytes `bs` were appended. -/
def Appended (sw : StateWrapper) (bs : List Nat) (sw2 : StateWrapper) : Prop :=
  sw2.stream.data = sw.stream.data ++ bs ∧ AtEnd sw2

/-- The value fits a `TickCount` (`s32`). -/
def InS32 (x : Int) : Prop := -2 ^ 31 ≤ x ∧ x < 2 ^ 31

/-- The string is a C string that a `u32` length prefix can describe: single-byte
characters, none of them NUL. -/
def CName (v : String) : Prop :=
  v.length < 2 ^ 32 ∧ ∀ c ∈ v.data, c.toNat ≠ 0 ∧ c.toNat < 256

instance (x : Int) : Decidable (InS32 x) := by unfold InS32; infer_instance

instance (v : String) : Decidable (CName v) := by unfold CName; infer_instance

/-- Bytes of a length-prefixed string. -/
def encString (v : String) : List Nat := encodeU32 v.length ++ stringBytes v

/-- Bytes of a tick count. -/
def encS32 (x : Int) : List Nat := encodeU32 (toU32 x)

/-- Bytes of one event record: name, downcount, time since last run, period,
interval. -/
def encEvent (e : TimingEvent) : List Nat :=
  encString e.name ++ encS32 e.downcount ++ encS32 e.time_since_last_run ++
    encS32 e.period ++ encS32 e.interval

/-- Bytes of the records of the events of `l`, in order. -/
def encEvents : List TimingEvent → List Nat
  | [] => []
  | e :: rest => encEvent e ++ encEvents rest

/-- One event record of a save state. -/
structure EventRecord where
  name : String
  downcount : Int
  time_since_last_run : Int
  period : Int
  interval : Int
deriving DecidableEq, Repr

/-- The record that the writing branch of `DoEventsState` emits for an event. -/
def recordOf (e : TimingEvent) : EventRecord :=
  ⟨e.name, e.downcount, e.time_since_last_run, e.period, e.interval⟩

/-- Effect of a record on an event: the event whose name is the name of the record, as
seen through `c_str()`, takes the four fields of the record. -/
def applyRecord (r : EventRecord) (e : TimingEvent) : TimingEvent :=
  if e.name = c_str r.name then
    restoreFields r.downcount r.time_since_last_run r.period r.interval e
  else e

/-- Effect of a sequence of records on an event, the first record first. -/
def applyRecords (rs : List EventRecord) (e : TimingEvent) : TimingEvent :=
  rs.foldl (fun acc r => applyRecord r acc) e

/-- The records that the loop of the reading branch of `DoEventsState` takes from the
stream: the result of the loop, the wrapper afterwards and the records read before the
loop ended. -/
def parseRecords : Nat → StateWrapper → Bool × StateWrapper × List EventRecord
  | 0, sw => (true, sw, [])
  | n + 1, sw =>
    let (event_name, sw1) := sw.DoString ""
    let (downcount, sw2) := sw1.DoS32 0
    let (time_since_last_run, sw3) := sw2.DoS32 0
    let (period, sw4) := sw3.DoS32 0
    let (interval, sw5) := sw4.DoS32 0
    if sw5.HasError then (false, sw5, [])
    else
      let r := parseRecords n sw5
      (r.1, r.2.1, ⟨event_name, downcount, time_since_last_run, period, interval⟩ :: r.2.2)

/-- The fields of the event fit their machine types and its name is a C string. -/
def Storable (e : TimingEvent) : Prop :=
  CName e.name ∧ InS32 e.downcount ∧ InS32 e.time_since_last_run ∧ InS32 e.period ∧
  InS32 e.interval

instance (e : TimingEvent) : Decidable (Storable e) := by unfold Storable; infer_instance

/-- The system `s2` is `s` up to the state of the devices. -/
def SameButDevices {D : Type} (s s2 : System D) : Prop :=
  s2 = { s with devices := s2.devices }

/-- The step `f` of a save state round-trips at the system `s`: writing at the end of
a stream succeeds, appends some bytes and leaves the system alone; and reading these
bytes back, in a system that is `s` up to the devices, succeeds, consumes exactly these
bytes and gives a system related to the one before the read by `Q`. -/
def StepRoundTrips {D : Type}
    (f : StateWrapper → System D → Bool × StateWrapper × System D) (s : System D)
    (Q : System D → System D → Prop) : Prop :=
  ∀ w, AtEnd w → ∃ bs w2, f w s = (true, w2, s) ∧ Appended w bs w2 ∧
    ∀ (r : StateWrapper) (rest : List Nat) (s2 : System D),
      ReadyAt r (bs ++ rest) → SameButDevices s s2 →
      ∃ r2 s3, f r s2 = (true, r2, s3) ∧ ReadyAt r2 rest ∧ Q s2 s3

/-- The devices round-trip: the `DoState` of every component round-trips at every
system and touches the devices only, and so does the flush of the code cache. -/
def RoundTrips {D : Type} (env : Components D) : Prop :=
  (∀ s, SameButDevices s (env.FlushCodeCache s)) ∧
  ∀ (marker : String) (s : System D), StepRoundTrips (env.DoState marker) s SameButDevices

/-- The system can be written to a save state without loss: its `u32` members and the
fields of its events fit their machine types, and the active events have pairwise
distinct addresses and pairwise distinct names that are C strings. -/
def Saveable {D : Type} (s : System D) : Prop :=
  s.region < 2 ^ 32 ∧ s.frame_number < 2 ^ 32 ∧ s.internal_frame_number < 2 ^ 32 ∧
  s.global_tick_counter < 2 ^ 32 ∧ s.last_event_run_time < 2 ^ 32 ∧
  s.events.length < 2 ^ 32 ∧
  (s.events.map (fun e => e.id)).Nodup ∧ (s.events.map (fun e => e.name)).Nodup ∧
  ∀ e ∈ s.events, Storable e

/-- The bytes that `DoState` writes for the system `s` into an empty stream. -/
def savedState {D : Type} (env : Components D) (s : System D) : List Nat :=
  (DoState env ⟨⟨[], 0⟩, Mode.Write, false⟩ s).2.1.stream.data

/-- The bytes that `DoEventsState` writes for the system `s` into an empty stream. -/
def savedEvents {D : Type} (s : System D) : List Nat :=
  (DoEventsState ⟨⟨[], 0⟩, Mode.Write, false⟩ s).2.1.stream.data

/-- The result of reading back, into the system `s` itself, the bytes that `DoState`
has just written for `s`. -/
def reloadState {D : Type} (env : Components D) (s : System D) :
    Bool × StateWrapper × System D :=
  DoState env ⟨⟨savedState env s, 0⟩, Mode.Read, false⟩ s

/-- The result of reading back, into the system `s` itself, the bytes that
`DoEventsState` has just written for `s`. -/
def reloadEvents {D : Type} (s : System D) : Bool × StateWrapper × System D :=
  DoEventsState ⟨⟨savedEvents s, 0⟩, Mode.Read, false⟩ s

/-- Devices made of one `u32` register, which every component saves and restores; the
other operations are the ones of `nullComponents`. -/
def registerComponents : Components Nat :=
  { DoState := fun _ sw s => (true, (sw.DoU32 s.devices).2,
      { s with devices := (sw.DoU32 s.devices).1 })
    FlushCodeCache := fun s => s
    Open := fun filename => some ⟨filename⟩
    GetGameInfo := fun _ _ => ("", "")
    InitializeComponents := fun _ s => some s
    UpdateControllers := fun s => s
    UpdateMemoryCards := fun s => s
    CDROMReset := fun s => s
    InsertMedia := fun _ s => s
    RemoveMedia := fun s => s
    HasAnyPerGameMemoryCards := false }

/-- A system whose devices are the register `reg`, outside dispatch and inside a
frame, with the active set `l`, at global tick `tick`. -/
def registerSystem (l : List TimingEvent) (reg tick : Nat) : System Nat :=
  { events := l, running_events := false, events_need_sorting := false,
    frame_done := false, global_tick_counter := tick, last_event_run_time := tick,
    cpu_downcount := 0, cpu_pending_ticks := 0, region := 2, frame_number := 1,
    internal_frame_number := 0, running_game_path := "", running_game_code := "",
    running_game_title := "", devices := reg, panicked := false, calls := [] }

instance {D : Type} (s : System D) : Decidable (Saveable s) := by
  unfold Saveable; infer_instance

/-- Saving the system `s` and reading the bytes back at once reproduces it: `DoState`
in write mode succeeds and leaves the system alone; reading the written bytes back
succeeds; afterwards the region, the two frame counters, the global tick counter and
the last-event-run timestamp are the saved ones, and the active vector is a heap of
the same events with the same fields.  The same holds for `DoEventsState` on its
own. -/
def RoundTripOutcome {D : Type} (env : Components D) (s : System D) : Prop :=
  ((DoState env ⟨⟨[], 0⟩, Mode.Write, false⟩ s).1 = true ∧
    (DoState env ⟨⟨[], 0⟩, Mode.Write, false⟩ s).2.2 = s ∧
    (reloadState env s).1 = true ∧
    (reloadState env s).2.2.region = s.region ∧
    (reloadState env s).2.2.frame_number = s.frame_number ∧
    (reloadState env s).2.2.internal_frame_number = s.internal_frame_number ∧
    (reloadState env s).2.2.global_tick_counter = s.global_tick_counter ∧
    (reloadState env s).2.2.last_event_run_time = s.last_event_run_time ∧
    (reloadState env s).2.2.events.Perm s.events ∧
    IsHeap (reloadState env s).2.2.events) ∧
  ((DoEventsState ⟨⟨[], 0⟩, Mode.Write, false⟩ s).1 = true ∧
    (DoEventsState ⟨⟨[], 0⟩, Mode.Write, false⟩ s).2.2 = s ∧
    (reloadEvents s).1 = true ∧
    (reloadEvents s).2.2.last_event_run_time = s.last_event_run_time ∧
    (reloadEvents s).2.2.events.Perm s.events ∧
    IsHeap (reloadEvents s).2.2.events)

/-- The devices read by the stream alone: in read mode the `DoState` of a component
touches the devices only and keeps the wrapper reading, and its result and the wrapper
afterwards do not depend on the system it is applied to; the flush of the code cache
touches the devices only. -/
def ReadsByStream {D : Type} (env : Components D) : Prop :=
  (∀ s, SameButDevices s (env.FlushCodeCache s)) ∧
  ∀ (marker : String) (sw : StateWrapper) (s : System D), sw.mode = Mode.Read →
    SameButDevices s (env.DoState marker sw s).2.2 ∧
    (env.DoState marker sw s).2.1.mode = Mode.Read ∧
    ∀ s2, (env.DoState marker sw s2).1 = (env.DoState marker sw s).1 ∧
      (env.DoState marker sw s2).2.1 = (env.DoState marker sw s).2.1

/-- Loading the stream of `sw` a second time changes nothing but the devices.  If a
reading `DoState` at `sw` and `s` returns `true`, then running it again at `sw`, in the
system that the first load produced, returns `true` and the same wrapper, and the
system it produces has the same region, frame counters, global tick counter and
last-event-run timestamp and the same active vector; it is the system of the first
load up to the devices.  (The second load ends with `make_heap` on the vector of the
first load, already a heap; the order is kept because the modelled `make_heap` leaves
a heap as it is.)  If `DoEventsState` at `sw` and `s` returns
`true`, then running it again at `sw` in the system it produced returns the same
result. -/
def LoadTwiceOutcome {D : Type} (env : Components D) (sw : StateWrapper) (s : System D) :
    Prop :=
  ((DoState env sw s).1 = true →
    ∃ s2, DoState env sw (DoState env sw s).2.2 = (true, (DoState env sw s).2.1, s2) ∧
      s2.region = (DoState env sw s).2.2.region ∧
      s2.frame_number = (DoState env sw s).2.2.frame_number ∧
      s2.internal_frame_number = (DoState env sw s).2.2.internal_frame_number ∧
      s2.global_tick_counter = (DoState env sw s).2.2.global_tick_counter ∧
      s2.last_event_run_time = (DoState env sw s).2.2.last_event_run_time ∧
      s2.events = (DoState env sw s).2.2.events ∧
      SameButDevices (DoState env sw s).2.2 s2) ∧
  ((DoEventsState sw s).1 = true →
    DoEventsState sw (DoEventsState sw s).2.2 =
      (true, (DoEventsState sw s).2.1, (DoEventsState sw s).2.2))

/-! ## Notions used to state the load and dispatch properties -/

/-- Devices without state for which no image can be opened. -/
def closedComponents : Components Unit :=
  { nullComponents with Open := fun _ => none }

/-- The media file named by the header cannot be brought back from the stream `st`,
positioned after the header: the seek to the file name fails, or the file name cannot
be read, or `CDImage::Open` returns no image for it. -/
def MediaUnavailable {D : Type} (env : Components D) (header : SAVE_STATE_HEADER)
    (st : ByteStream) : Prop :=
  st.SeekAbsolute header.offset_to_media_filename = none ∨
  (∃ st1, st.SeekAbsolute header.offset_to_media_filename = some st1 ∧
    st1.Read2 header.media_filename_length = none) ∨
  (∃ st1 bs st2, st.SeekAbsolute header.offset_to_media_filename = some st1 ∧
    st1.Read2 header.media_filename_length = some (bs, st2) ∧
    env.Open (c_str (bytesString bs)) = none)

/-- A header of `smallFormat` with the right magic and version that names a media file
of `len` bytes at the offset `off`; the header takes 52 bytes. -/
def mediaHeader (off len : Nat) : List Nat :=
  encodeU32 1128482116 ++ encodeU32 37 ++ List.replicate 8 0 ++ encodeU32 off ++
    encodeU32 len ++ List.replicate 16 0 ++ encodeU32 64 ++ List.replicate 8 0

/-- The five `sw.Do` calls at the head of an iteration of the reading loop of
`System::DoEventsState`: the record they read and the wrapper afterwards. -/
def readRecord (sw : StateWrapper) : EventRecord × StateWrapper :=
  let (event_name, sw1) := sw.DoString ""
  let (downcount, sw2) := sw1.DoS32 0
  let (time_since_last_run, sw3) := sw2.DoS32 0
  let (period, sw4) := sw3.DoS32 0
  let (interval, sw5) := sw4.DoS32 0
  (⟨event_name, downcount, time_since_last_run, period, interval⟩, sw5)

/-- The rest of an iteration of the reading loop of `System::DoEventsState`, once the
record `r` has been read without error: `FindActiveEvent(event_name.c_str())`, then
`continue` when no event is found and the four assignments otherwise. -/
def restoreRecord {D : Type} (r : EventRecord) (s : System D) : System D :=
  match FindActiveEvent (c_str r.name) s with
  | none => s
  | some event =>
    let restored := modifyEvent event.id
      (restoreFields r.downcount r.time_since_last_run r.period r.interval) s.events
    { s with events := restored }

/-- The iterations of the reading loop for the records `rs`, the first record first. -/
def restoreRecords {D : Type} (rs : List EventRecord) (s : System D) : System D :=
  rs.foldl (fun acc r => restoreRecord r acc) s

/-- One call of the `DoState` member of a component, as `recordingComponents` notes it:
the marker that names the component, the wrapper the component was handed, and the
`bool` it returned. -/
structure Visit where
  marker : String
  entry : StateWrapper
  ok : Bool
deriving DecidableEq, Repr

/-- Devices whose only state is the list of the `DoState` calls made so far.  What a
component does with the wrapper is free: `beh marker sw visits` is the `bool` that the
component named by `marker` returns and the wrapper it leaves, given the wrapper it is
handed and the calls made before. -/
def recordingComponents (beh : String → StateWrapper → List Visit → Bool × StateWrapper) :
    Components (List Visit) :=
  { DoState := fun marker sw s => ((beh marker sw s.devices).1, (beh marker sw s.devices).2,
      { s with devices := s.devices ++ [⟨marker, sw, (beh marker sw s.devices).1⟩] })
    FlushCodeCache := fun s => s
    Open := fun filename => some ⟨filename⟩
    GetGameInfo := fun _ _ => ("", "")
    InitializeComponents := fun _ s => some s
    UpdateControllers := fun s => s
    UpdateMemoryCards := fun s => s
    CDROMReset := fun s => s
    InsertMedia := fun _ s => s
    RemoveMedia := fun s => s
    HasAnyPerGameMemoryCards := false }

/-- The components of `System::DoState` in the order of the save-state layout, by
marker, between the `System` section and the `Events` section. -/
def componentOrder : List String := "CPU" :: componentsAfterCPU

/-- The calls `visited` are a run through the components named by `markers`, in
order, that stops at the first failure: the markers of the calls are a prefix of
`markers`, every call was handed the wrapper that a successful `DoMarker` of its own
marker had just left, and every call but the last returned `true`. -/
def VisitsInOrder (markers : List String) (visited : List Visit) : Prop :=
  (visited.map (fun v => v.marker)).IsPrefix markers ∧
  (∀ v ∈ visited, ∃ w : StateWrapper, w.DoMarker v.marker = (true, v.entry)) ∧
  (∀ v ∈ visited.dropLast, v.ok = true)

/-- What `System::DoState` does with devices that record their calls, started with an
empty record.  The calls form a run through `componentOrder` that stops at the first
failure; a failing `System` marker ends the function before any call; a result of
`true` means that every component was called and returned `true`, and that the
`Events` marker and `DoEventsState` came after the last component. -/
def VisitOutcome (beh : String → StateWrapper → List Visit → Bool × StateWrapper)
    (sw : StateWrapper) (s : System (List Visit)) : Prop :=
  VisitsInOrder componentOrder (DoState (recordingComponents beh) sw s).2.2.devices ∧
  ((sw.DoMarker "System").1 = false →
    DoState (recordingComponents beh) sw s = (false, (sw.DoMarker "System").2, s)) ∧
  ((∃ v ∈ (DoState (recordingComponents beh) sw s).2.2.devices, v.ok = false) →
    (DoState (recordingComponents beh) sw s).1 = false) ∧
  ((DoState (recordingComponents beh) sw s).1 = true →
    (DoState (recordingComponents beh) sw s).2.2.devices.map (fun v => v.marker)
      = componentOrder ∧
    ∃ (w6 w7 : StateWrapper) (s4 : System (List Visit)), s4.devices = (DoState (recordingComponents beh) sw s).2.2.devices ∧
      w6.DoMarker "Events" = (true, w7) ∧
      DoEventsState w7 s4 = (true, (DoState (recordingComponents beh) sw s).2.1,
        (DoState (recordingComponents beh) sw s).2.2))

/-- The four `sw.Do` calls of the `System` section of `System::DoState`: the wrapper
and the system after them. -/
def systemFields {D : Type} (sw : StateWrapper) (s : System D) : StateWrapper × System D :=
  let (region, sw1) := sw.DoU32 s.region
  let (frame_number, sw2) := sw1.DoU32 s.frame_number
  let (internal_frame_number, sw3) := sw2.DoU32 s.internal_frame_number
  let (global_tick_counter, sw4) := sw3.DoU32 s.global_tick_counter
  (sw4, { s with region := region, frame_number := frame_number,
                 internal_frame_number := internal_frame_number,
                 global_tick_counter := global_tick_counter })

/-- Components that leave the wrapper alone and return `true`, but for the one named
by `marker`, which returns `false`. -/
def failingAt (marker : String) : String → StateWrapper → List Visit → Bool × StateWrapper :=
  fun m sw _ => (decide (m ≠ marker), sw)

/-- A system with recording devices and an empty record, outside dispatch, without
active events. -/
def recordingSystem : System (List Visit) :=
  { events := [], running_events := false, events_need_sorting := false,
    frame_done := false, global_tick_counter := 0, last_event_run_time := 0,
    cpu_downcount := 0, cpu_pending_ticks := 0, region := 0, frame_number := 1,
    internal_frame_number := 0, running_game_path := "", running_game_code := "",
    running_game_title := "", devices := [], panicked := false, calls := [] }

/-! ## A pass of `RunEvents` in its steps -/

/-- The system when `System::RunEvents` reaches its `while` loop: the pending ticks are
drained, the running flag is set, and the elapsed time is applied to every event. -/
def loopEntry {D : Type} (s : System D) : System D :=
  { (beginRunEvents s).2 with
    events := applyDowncount (beginRunEvents s).1 (beginRunEvents s).2.events }

/-- The two statements of `System::RunEvents` after its `while` loop;
`m_events.front()` of an empty vector is undefined. -/
def endRunEvents {D : Type} (s : System D) : Option (System D) :=
  match s.events with
  | [] => none
  | e :: _ => some { s with running_events := false, cpu_downcount := e.downcount }

/-- The system that the body of the loop of `System::RunEvents` hands to the callback
of the front event `evt`: the front has gone to the back of the vector, the event is
one interval further with no time accumulated, and the invocation is on record. -/
def serveFront {D : Type} (evt : TimingEvent) (s : System D) : System D :=
  { s with events := modifyEvent evt.id serviced (pop_heap s.events),
           calls := s.calls ++ [⟨evt.id, evt.time_since_last_run, -evt.downcount⟩] }

/-- The end of the body of the loop of `System::RunEvents`, after the callback:
`make_heap` when the needs-sorting flag is set, `push_heap` otherwise. -/
def requeue {D : Type} (s : System D) : System D :=
  if s.events_need_sorting then
    { s with events := make_heap s.events, events_need_sorting := false }
  else
    { s with events := push_heap s.events }

/-- `System::StallCPU`, the entry point by which a device charges ticks to the CPU:
`m_cpu->AddPendingTicks(ticks)`.  `CPU::Core` is not among the sources;
`AddPendingTicks` is taken to add to the count that `GetPendingTicks` returns. -/
def StallCPU {D : Type} (ticks : Int) (s : System D) : System D :=
  { s with cpu_pending_ticks := s.cpu_pending_ticks + ticks }

/-- Callbacks that stall the CPU by `ticks` each time they are invoked. -/
def stallingCallbacks (D : Type) (ticks : Int) : Callbacks D :=
  fun _ _ _ s => StallCPU ticks s

/-- The callbacks leave the clock alone: they change neither the global tick counter
nor the last-event-run timestamp nor the pending ticks of the CPU. -/
def KeepsClock {D : Type} (cb : Callbacks D) : Prop :=
  ∀ (id : Nat) (a b : Int) (s : System D),
    (cb id a b s).global_tick_counter = s.global_tick_counter ∧
    (cb id a b s).last_event_run_time = s.last_event_run_time ∧
    (cb id a b s).cpu_pending_ticks = s.cpu_pending_ticks

/-- The pending ticks of the CPU have been drained into the clock of `s2`: with `s` the
system before the pass, the global tick counter of `s2` is the old counter plus the
pending ticks modulo `2 ^ 32`, the CPU has no pending ticks, and the last-event-run
timestamp is the global tick counter. -/
def Drained {D : Type} (s s2 : System D) : Prop :=
  (s2.global_tick_counter : Int) = ((s.global_tick_counter : Int) + s.cpu_pending_ticks) % 2 ^ 32 ∧
  s2.cpu_pending_ticks = 0 ∧
  s2.last_event_run_time = s2.global_tick_counter

/-- The callbacks do not modify the scheduler: they leave the active vector, the
needs-sorting flag and the running flag as they find them. -/
def LeavesScheduler {D : Type} (cb : Callbacks D) : Prop :=
  ∀ (id : Nat) (a b : Int) (s : System D),
    (cb id a b s).events = s.events ∧
    (cb id a b s).events_need_sorting = s.events_need_sorting ∧
    (cb id a b s).running_events = s.running_events

/-- The dispatches of the loop of `System::RunEvents` started in `s`, in order: for
each iteration that finds the front event due, the system at the test of the loop and
the event `m_events.front()` whose callback the iteration invokes. -/
def dispatches {D : Type} (cb : Callbacks D) : Nat → System D → List (System D × TimingEvent)
  | 0, _ => []
  | fuel + 1, s =>
    match s.events with
    | [] => []
    | evt :: _ =>
      if evt.downcount ≤ 0 then (s, evt) :: dispatches cb fuel (fireFront cb evt s) else []

/-- Callbacks that count their invocations in the devices and change nothing else. -/
def countingCallbacks : Callbacks Nat :=
  fun _ _ _ s => { s with devices := s.devices + 1 }

/-! ## Notions used to state the properties of callbacks that change the active set -/

/-- A callback that activates `event` when the event `trigger` is served, unless
`event` is active already, and does nothing otherwise. -/
def addingCallbacks (trigger : Nat) (event : TimingEvent) : Callbacks Unit :=
  fun id _ _ s =>
    if id = trigger ∧ ∀ x ∈ s.events, x.id ≠ event.id then AddActiveEvent event s else s

/-- `System::Reset`.  The `Reset` members of the components and the flush of the code
cache live outside `system.cpp`; `resetComponents` is their combined effect on the
system.  `ResetPerformanceCounters` touches the performance counters and the throttle
only, which this model keeps apart from `System`. -/
def Reset {D : Type} (resetComponents : System D → System D) (s : System D) : System D :=
  { resetComponents s with frame_number := 1, internal_frame_number := 0,
                           global_tick_counter := 0, last_event_run_time := 0 }

/-! ## Notions used to state the properties of whole passes -/

/-- The callback invocations of the loop of `System::RunEvents` started in `s`, in
order, read off its dispatches: the event served, its accumulated time and its
lateness. -/
def dispatchRecords {D : Type} (cb : Callbacks D) (fuel : Nat) (s : System D) :
    List CallRecord :=
  (dispatches cb fuel s).map
    (fun p => ⟨p.2.id, p.2.time_since_last_run, -p.2.downcount⟩)

/-- The callback invocations of a pass of `System::RunEvents` entered in `s`. -/
def passRecords {D : Type} (cb : Callbacks D) (fuel : Nat) (s : System D) :
    List CallRecord :=
  dispatchRecords cb fuel (loopEntry s)

/-- The ticks handed to the callback of the event `id` by the invocations `recs`: the
sum of their ticks-to-execute arguments. -/
def ticksDelivered (id : Nat) (recs : List CallRecord) : Int :=
  ((callsOf id recs).map (fun r => r.ticks_to_execute)).sum

/-- What identifies an event and is not for the scheduler to change: address, name,
period and interval. -/
def identityOf (e : TimingEvent) : Nat × String × Int × Int :=
  (e.id, e.name, e.period, e.interval)

/-- Passes of `RunEvents` in a row.  Each entry of the list gives the fuel of a pass and
the pending ticks that the CPU has accumulated when the pass is entered.  Returns the
system after the last pass, the sum of the elapsed times of the passes, and the
callback invocations of all passes in order. -/
def runPasses {D : Type} (cb : Callbacks D) :
    List (Nat × Int) → System D → Option (System D × Int × List CallRecord)
  | [], s => some (s, 0, [])
  | (fuel, pending) :: rest, s =>
    match RunEvents cb fuel { s with cpu_pending_ticks := pending } with
    | none => none
    | some s2 =>
      match runPasses cb rest s2 with
      | none => none
      | some (s3, total, recs) =>
        some (s3, elapsed { s with cpu_pending_ticks := pending } + total,
          passRecords cb fuel { s with cpu_pending_ticks := pending } ++ recs)

/-! ## The throttle -/

/-- The members of `System` that `System::Throttle` reads and writes, with what it asks
of the host.  `system.h` is not among the sources: `m_last_throttle_time` is taken to be
a `u64` count of nanoseconds and `m_throttle_period` an `s32`, as the casts in
`Throttle` and `UpdateThrottlePeriod` have it.  `timer_resets` counts the calls of
`m_throttle_timer.Reset()` and `sleeps` lists the durations, in nanoseconds, handed to
`nanosleep`; both are observation only. -/
structure ThrottleState where
  last_throttle_time : Nat
  throttle_period : Int
  timer_resets : Nat
  sleeps : List Int
deriving DecidableEq, Repr

/-- Reinterpretation of a `u64` value as `s64` (`static_cast<s64>`). -/
def toS64 (x : Nat) : Int :=
  if x % 2 ^ 64 < 2 ^ 63 then ((x % 2 ^ 64 : Nat) : Int) else ((x % 2 ^ 64 : Nat) : Int) - 2 ^ 64

/-- Conversion of a signed value to `u64`. -/
def toU64 (x : Int) : Nat := (x % 2 ^ 64).toNat

/-- `MAX_VARIANCE_TIME` of `System::Throttle`, in nanoseconds. -/
def MAX_VARIANCE_TIME : Int := 40000000

/-- `MINIMUM_SLEEP_TIME` of `System::Throttle`, in nanoseconds. -/
def MINIMUM_SLEEP_TIME : Int := 1000000

/-- The local `sleep_time` of `System::Throttle`:
`static_cast<s64>(m_last_throttle_time - time)`, the subtraction being the one of
`u64`; `time` is the reading of the throttle timer as a `u64`. -/
def sleepTime (time : Nat) (st : ThrottleState) : Int :=
  toS64 ((st.last_throttle_time % 2 ^ 64 + 2 ^ 64 - time % 2 ^ 64) % 2 ^ 64)

/-- `System::Throttle`, for the reading `time` of the throttle timer.  The log message
of the first branch is not modelled; the sleep is the one of the branch without
`WIN32`, `nanosleep` with `tv_nsec = sleep_time`. -/
def Throttle (time : Nat) (st : ThrottleState) : ThrottleState :=
  let sleep_time := sleepTime time st
  let st1 :=
    if sleep_time < -MAX_VARIANCE_TIME then
      { st with last_throttle_time := 0, timer_resets := st.timer_resets + 1 }
    else if sleep_time ≥ MINIMUM_SLEEP_TIME ∧ sleep_time ≤ st.throttle_period then
      { st with sleeps := st.sleeps ++ [sleep_time] }
    else st
  { st1 with
    last_throttle_time := (st1.last_throttle_time + toU64 st1.throttle_period) % 2 ^ 64 }

/-! ## Loading an executable -/

/-- The fields of `BIOS::PSEXEHeader` that `System::LoadEXEFromBuffer` reads; all are
`u32`. -/
structure PSEXEHeader where
  initial_pc : Nat
  initial_gp : Nat
  load_address : Nat
  file_size : Nat
  memfill_start : Nat
  memfill_size : Nat
  initial_sp_base : Nat
  initial_sp_offset : Nat
deriving DecidableEq, Repr

/-- What `System::LoadEXEFromBuffer` takes from `bios.h` and `bios.cpp`, which are not
among the sources: the size of `BIOS::PSEXEHeader`, the header that
`std::memcpy(&header, buffer_ptr, sizeof(header))` makes of that many bytes,
`BIOS::IsValidPSExeHeader` and `BIOS::PatchBIOSForEXE`.  `B` is the BIOS image. -/
structure EXEFormat (B : Type) where
  headerSize : Nat
  header : List Nat → PSEXEHeader
  IsValidPSExeHeader : PSEXEHeader → Nat → Bool
  PatchBIOSForEXE : B → Nat → Nat → Nat → Nat → Bool × B

/-- The loop `for (u32 i = 0; i < n; i++) { SafeWriteMemoryWord(address, w[i]);
address += sizeof(u32); }` of `System::LoadEXEFromBuffer`: the writes it makes, as pairs
of address and word, in order.  `address` is a `u32`. -/
def writeWords : Nat → List Nat → List (Nat × Nat)
  | _, [] => []
  | address, w :: rest => (address, w) :: writeWords ((address + 4) % 2 ^ 32) rest

/-- The first `n` little-endian words of the bytes `bs`. -/
def wordsOf (bs : List Nat) : Nat → List Nat
  | 0 => []
  | n + 1 => decodeU32 (bs.take 4) :: wordsOf (bs.drop 4) n

/-- The writes of the `memfill` block of `System::LoadEXEFromBuffer`:
`memfill_size / 4` zero words from the address `memfill_start & ~3`. -/
def memfillWrites (header : PSEXEHeader) : List (Nat × Nat) :=
  if header.memfill_size > 0 then
    writeWords (header.memfill_start / 4 * 4) (List.replicate (header.memfill_size / 4) 0)
  else []

/-- The writes of the copy loop of `System::LoadEXEFromBuffer` for the bytes `rest`
that follow the header: `file_size / 4` words from `load_address`. -/
def dataWrites (header : PSEXEHeader) (rest : List Nat) : List (Nat × Nat) :=
  writeWords header.load_address (wordsOf (rest.take header.file_size) (header.file_size / 4))

/-- `System::LoadEXEFromBuffer` for a buffer of `buffer.length` bytes.  The result is
the returned `bool`, the calls of `SafeWriteMemoryWord` in order (address and word),
and the BIOS image afterwards. -/
def LoadEXEFromBuffer {B : Type} (fmt : EXEFormat B) (buffer : List Nat) (bios_image : B) :
    Bool × List (Nat × Nat) × B :=
  if buffer.length < fmt.headerSize then (false, [], bios_image)
  else
    let header := fmt.header (buffer.take fmt.headerSize)
    let rest := buffer.drop fmt.headerSize
    if !fmt.IsValidPSExeHeader header rest.length then (false, [], bios_image)
    else
      let fill := memfillWrites header
      let r_sp := (header.initial_sp_base + header.initial_sp_offset) % 2 ^ 32
      if header.file_size ≥ 4 then
        if rest.length < header.file_size then (false, fill, bios_image)
        else
          let patched := fmt.PatchBIOSForEXE bios_image header.initial_pc header.initial_gp
            r_sp r_sp
          (patched.1, fill ++ dataWrites header rest, patched.2)
      else
        let patched := fmt.PatchBIOSForEXE bios_image header.initial_pc header.initial_gp
          r_sp r_sp
        (patched.1, fill, patched.2)

/-- A small executable format for examples: a header of 16 bytes that holds the load
address, the file size, the start and the size of the memory fill; every header is
taken as valid and the BIOS patch succeeds. -/
def smallEXE : EXEFormat Unit :=
  { headerSize := 16
    header := fun bs =>
      { initial_pc := 0, initial_gp := 0, load_address := u32At bs 0, file_size := u32At bs 4,
        memfill_start := u32At bs 8, memfill_size := u32At bs 12, initial_sp_base := 0,
        initial_sp_offset := 0 }
    IsValidPSExeHeader := fun _ _ => true
    PatchBIOSForEXE := fun b _ _ _ _ => (true, b) }

/-! ## Saving a state -/

/-- What `System::SaveState` asks of the devices and of the host: the name of the media
file (`m_cdrom->GetMediaFileName()`), the two graphics calls on the GPU around the
screenshot, and `WriteDisplayTextureToBuffer` of the host display, which returns whether
a screenshot was saved and the pixel words. -/
structure SaveHost (D : Type) where
  GetMediaFileName : System D → String
  ResetGraphicsAPIState : System D → System D
  WriteDisplayTextureToBuffer : Nat → Nat → System D → Bool × List Nat
  RestoreGraphicsAPIState : System D → System D

/-- Modelled from the spec: the `title[]` and `game_code[]` arrays of the header are
filled by `StringUtil::Strlcpy` (`common/string_util.h` is not among the sources), taken
with the meaning of `strlcpy`: the array of `size` characters, zeroed by `header = {}`,
receives at most `size - 1` characters of the C string and stays NUL-terminated. -/
def Strlcpy (size : Nat) (src : String) : List Nat :=
  let body := (stringBytes (c_str src)).take (size - 1)
  body ++ List.replicate (size - body.length) 0

/-- The nine `u32` fields that end a `SAVE_STATE_HEADER`, as bytes. -/
def headerTail (h : SAVE_STATE_HEADER) : List Nat :=
  encodeU32 h.offset_to_media_filename ++ encodeU32 h.media_filename_length ++
  encodeU32 h.offset_to_screenshot ++ encodeU32 h.screenshot_width ++
  encodeU32 h.screenshot_height ++ encodeU32 h.screenshot_size ++
  encodeU32 h.offset_to_data ++ encodeU32 h.data_compression_type ++
  encodeU32 h.data_uncompressed_size

/-- The bytes of a `SAVE_STATE_HEADER`, in the layout that `parseHeader` reads. -/
def encodeHeader (h : SAVE_STATE_HEADER) : List Nat :=
  encodeU32 h.magic ++ encodeU32 h.version ++ h.title ++ h.game_code ++ headerTail h

/-- The bytes of a vector of `u32`. -/
def wordBytes (words : List Nat) : List Nat := (words.map encodeU32).flatten

/-- The screenshot block of `System::SaveState` up to the test
`screenshot_saved && !screenshot_buffer.empty()`: the pixel words to store, none when
`screenshot_size` is zero or the test fails, and the system after the two graphics
calls. -/
def captureScreenshot {D : Type} (host : SaveHost D) (screenshot_size : Nat) (s : System D) :
    List Nat × System D :=
  if screenshot_size > 0 then
    let s1 := host.ResetGraphicsAPIState s
    let r := host.WriteDisplayTextureToBuffer screenshot_size screenshot_size s1
    (if r.1 then r.2 else [], host.RestoreGraphicsAPIState s1)
  else ([], s)

/-- The header that `System::SaveState` has filled in when it re-writes it: `st1` is the
stream after the first write of the header, `st2` after the media file name, `st3`
after the screenshot, `st4` after the data. -/
def filledHeader {D : Type} (fmt : SaveStateFormat) (s : System D) (media_filename : String)
    (screenshot : List Nat) (screenshot_size : Nat) (st1 st2 st3 st4 : ByteStream) :
    SAVE_STATE_HEADER :=
  { magic := fmt.SAVE_STATE_MAGIC
    version := fmt.SAVE_STATE_VERSION
    title := Strlcpy fmt.title_size s.running_game_title
    game_code := Strlcpy fmt.game_code_size s.running_game_code
    offset_to_media_filename := st1.pos % 2 ^ 32
    media_filename_length := media_filename.length % 2 ^ 32
    offset_to_screenshot := if screenshot ≠ [] then st2.pos % 2 ^ 32 else 0
    screenshot_width := if screenshot ≠ [] then screenshot_size % 2 ^ 32 else 0
    screenshot_height := if screenshot ≠ [] then screenshot_size % 2 ^ 32 else 0
    screenshot_size := if screenshot ≠ [] then screenshot.length * 4 % 2 ^ 32 else 0
    offset_to_data := st3.pos % 2 ^ 32
    data_compression_type := 0
    data_uncompressed_size := (st4.pos + 2 ^ 32 - st3.pos % 2 ^ 32) % 2 ^ 32 }

/-- `System::SaveState`.  The result is the returned `bool`, the stream and the system
afterwards.  `ByteStream::Write2` on the growable stream of the model does not fail, so
the `return false` after each write is not taken. -/
def SaveState {D : Type} (env : Components D) (host : SaveHost D) (fmt : SaveStateFormat)
    (state : ByteStream) (screenshot_size : Nat) (s : System D) :
    Bool × ByteStream × System D :=
  let header_position := state.pos
  let st1 := state.Write2 (List.replicate (headerSize fmt) 0)
  let media_filename := host.GetMediaFileName s
  let media_filename_length := media_filename.length % 2 ^ 32
  let st2 :=
    if media_filename.length > 0 then
      st1.Write2 ((stringBytes media_filename).take media_filename_length)
    else st1
  let shot := captureScreenshot host screenshot_size s
  let st3 :=
    if shot.1 ≠ [] then st2.Write2 ((wordBytes shot.1).take (shot.1.length * 4 % 2 ^ 32))
    else st2
  let r := DoState env ⟨st3, Mode.Write, false⟩ shot.2
  if r.1 = false then (false, r.2.1.stream, r.2.2)
  else
    let header := filledHeader fmt s media_filename shot.1 screenshot_size st1 st2 st3
      r.2.1.stream
    let end_position := r.2.1.stream.pos
    match r.2.1.stream.SeekAbsolute header_position with
    | none => (false, r.2.1.stream, r.2.2)
    | some st5 =>
      match (st5.Write2 (encodeHeader header)).SeekAbsolute end_position with
      | none => (false, st5.Write2 (encodeHeader header), r.2.2)
      | some st6 => (true, st6, r.2.2)

/-- In write mode at the end of the stream, a component whose `DoState` succeeds has
appended its bytes and stays at the end. -/
def WritesByAppending {D : Type} (env : Components D) : Prop :=
  ∀ (marker : String) (w w2 : StateWrapper) (s s2 : System D), AtEnd w →
    env.DoState marker w s = (true, w2, s2) → ∃ bs, Appended w bs w2

/-- The rest of `System::DoLoadState` once the header was read and its magic, version
and compression type were accepted. -/
def loadAccepted {D : Type} (env : Components D) (header : SAVE_STATE_HEADER)
    (st0 : ByteStream) (init_components force_software_renderer : Bool) (s : System D) :
    Bool × ByteStream × System D :=
  match loadMedia env header st0 with
  | (none, st1) => (false, st1, s)
  | (some (media_filename, media), st1) =>
    let s1 := UpdateRunningGame env (c_str media_filename) media s
    let prepared : Option (System D) :=
      if init_components then
        match env.InitializeComponents force_software_renderer s1 with
        | none => none
        | some s2 =>
          let s3 := env.UpdateMemoryCards (env.UpdateControllers s2)
          match media with
          | some m => some (env.InsertMedia m s3)
          | none => some s3
      else
        let s2 := env.CDROMReset s1
        let s3 := match media with
          | some m => env.InsertMedia m s2
          | none => env.RemoveMedia s2
        if env.HasAnyPerGameMemoryCards then some (env.UpdateMemoryCards s3)
        else some s3
    match prepared with
    | none => (false, st1, s1)
    | some s4 =>
      match st1.SeekAbsolute header.offset_to_data with
      | none => (false, st1, s4)
      | some st2 =>
        let r := DoState env ⟨st2, Mode.Read, false⟩ s4
        (r.1, r.2.1.stream, r.2.2)

/-- A host without media and without display. -/
def nullHost (D : Type) : SaveHost D :=
  { GetMediaFileName := fun _ => ""
    ResetGraphicsAPIState := fun s => s
    WriteDisplayTextureToBuffer := fun _ _ _ => (false, [])
    RestoreGraphicsAPIState := fun s => s }

/-- A host whose drive holds the image `name` and whose display gives the screenshot
`pixels`. -/
def discHost (D : Type) (name : String) (pixels : List Nat) : SaveHost D :=
  { GetMediaFileName := fun _ => name
    ResetGraphicsAPIState := fun s => s
    WriteDisplayTextureToBuffer := fun _ _ _ => (true, pixels)
    RestoreGraphicsAPIState := fun s => s }

/-- What a successful `SaveState` leaves in the stream `st`, for the stream `state` and
the system `s` it was called with and the system `s2` it returns.  The stream holds what
it held, then a header, the bytes `name` of the media file name, the bytes `shot` of the
screenshot and the bytes `data` that `DoState` wrote into the stream `st3`, and it is
positioned at its end.  The header is the one that the bytes at the starting position
parse to, and `DoLoadState` at that position goes on as `loadAccepted`: it reads the
header and passes the magic, version and compression checks.  The header has the magic
and the version of the format and compression type 0.  Its offsets and lengths are the
positions and lengths of the parts as `u32`; when the stream and the name of the media
file are shorter than `2 ^ 32` bytes they are these positions and lengths themselves,
the name stands at `offset_to_media_filename`, and the final position is
`offset_to_data + data_uncompressed_size`. -/
def SavedHeaderOutcome {D : Type} (env : Components D) (host : SaveHost D)
    (fmt : SaveStateFormat) (state : ByteStream) (screenshot_size : Nat) (s : System D)
    (st : ByteStream) (s2 : System D) : Prop :=
  ∃ (header : SAVE_STATE_HEADER) (name shot data : List Nat) (st3 : ByteStream)
    (w : StateWrapper),
    st.data = state.data ++ encodeHeader header ++ name ++ shot ++ data ∧
    st.pos = st.data.length ∧
    parseHeader fmt ((st.data.drop state.pos).take (headerSize fmt)) = header ∧
    (∀ (init_components force_software_renderer : Bool) (s0 : System D),
      DoLoadState env fmt { st with pos := state.pos } init_components
        force_software_renderer s0 =
      loadAccepted env header { st with pos := state.pos + headerSize fmt } init_components
        force_software_renderer s0) ∧
    header.magic = fmt.SAVE_STATE_MAGIC ∧
    header.version = fmt.SAVE_STATE_VERSION ∧
    header.data_compression_type = 0 ∧
    header.offset_to_media_filename = (state.pos + headerSize fmt) % 2 ^ 32 ∧
    header.media_filename_length = (host.GetMediaFileName s).length % 2 ^ 32 ∧
    name = (stringBytes (host.GetMediaFileName s)).take header.media_filename_length ∧
    name.length = header.media_filename_length ∧
    st3.pos = state.pos + headerSize fmt + name.length + shot.length ∧
    DoState env ⟨st3, Mode.Write, false⟩ (captureScreenshot host screenshot_size s).2 =
      (true, w, s2) ∧
    w.stream.data = st3.data ++ data ∧
    header.offset_to_data = st3.pos % 2 ^ 32 ∧
    header.data_uncompressed_size = data.length % 2 ^ 32 ∧
    (st.data.length < 2 ^ 32 → (host.GetMediaFileName s).length < 2 ^ 32 →
      header.offset_to_media_filename = state.pos + headerSize fmt ∧
      header.media_filename_length = (host.GetMediaFileName s).length ∧
      (st.data.drop header.offset_to_media_filename).take header.media_filename_length =
        stringBytes (host.GetMediaFileName s) ∧
      header.offset_to_data = st3.pos ∧
      header.data_uncompressed_size = data.length ∧
      st.data.drop header.offset_to_data = data ∧
      st.pos = header.offset_to_data + header.data_uncompressed_size)

/-! ## Notions used to state the property of the running flag -/

/-- The operations that the property of the running flag names: the three entry
points, `DoEventsState` in either mode, `Reset` with the given resets of the
components, and a pass of `RunEvents`. -/
inductive FlagOp (D : Type) where
  | add (event : TimingEvent)
  | remove (event : Nat)
  | sort
  | events (sw : StateWrapper)
  | reset (resetComponents : System D → System D)
  | run (cb : Callbacks D) (fuel : Nat)

/-- The systems in which `RunEvents` is entered when the operations are run one after
the other from `s`, in order.  The run ends with a pass that does not return. -/
def passEntries {D : Type} : List (FlagOp D) → System D → List (System D)
  | [], _ => []
  | FlagOp.add event :: rest, s => passEntries rest (AddActiveEvent event s)
  | FlagOp.remove event :: rest, s => passEntries rest (RemoveActiveEvent event s)
  | FlagOp.sort :: rest, s => passEntries rest (SortEvents s)
  | FlagOp.events sw :: rest, s => passEntries rest (DoEventsState sw s).2.2
  | FlagOp.reset resetComponents :: rest, s => passEntries rest (Reset resetComponents s)
  | FlagOp.run cb fuel :: rest, s =>
    s :: (match RunEvents cb fuel s with
      | none => []
      | some s2 => passEntries rest s2)

/-! ## Contract of the heap algorithms -/

theorem length_swapAt (l : List TimingEvent) (i j : Nat) :
    (swapAt l i j).length = l.length := by
  simp [swapAt]

theorem at_swapAt (l : List TimingEvent) (i j k : Nat) (hi : i < l.length)
    (hj : j < l.length) :
    at_ (swapAt l i j) k = if k = j then at_ l i else if k = i then at_ l j else at_ l k := by
  unfold swapAt at_
  simp only [List.getD_eq_getElem?_getD, List.getElem?_set, List.length_set]
  by_cases h1 : k = j
  · subst h1; simp [hj]
  · by_cases h2 : k = i
    · subst h2; simp [hi, Ne.symm h1, h1]
    · simp [h1, h2, Ne.symm h1, Ne.symm h2]

theorem swapAt_perm (l : List TimingEvent) (i j : Nat) (hi : i < l.length)
    (hj : j < l.length) : (swapAt l i j).Perm l := by
  rw [List.perm_iff_count]
  intro a
  unfold swapAt at_
  have hi2 : (l.getD i default) = l[i] := by simp [List.getD_eq_getElem?_getD, hi]
  have hj2 : (l.getD j default) = l[j] := by simp [List.getD_eq_getElem?_getD, hj]
  rw [hi2, hj2]
  rw [List.count_set _ _ _ _ (by simpa using hj), List.count_set _ _ _ _ hi]
  by_cases hij : i = j
  · subst hij
    simp
    have := List.count_pos_iff.2 (List.getElem_mem hi : l[i] ∈ l)
    by_cases h : l[i] = a
    · subst h; simp
    · simp [h]
  · have hj3 : j < (l.set i l[j]).length := by simpa using hj
    have e1 : (l.set i l[j])[j] = l[j] := by
      rw [List.getElem_set_ne hij]
    rw [e1]
    have p1 := List.count_pos_iff.2 (List.getElem_mem hi : l[i] ∈ l)
    have p2 := List.count_pos_iff.2 (List.getElem_mem hj : l[j] ∈ l)
    by_cases h1 : l[i] = a <;> by_cases h2 : l[j] = a <;> simp [h1, h2] <;>
      (try subst h1) <;> omega

theorem CompareEvents_iff (a b : TimingEvent) :
    CompareEvents a b = true ↔ b.downcount < a.downcount := by
  simp [CompareEvents]

theorem length_siftUp (fuel : Nat) (l : List TimingEvent) (i : Nat) :
    (siftUp fuel l i).length = l.length := by
  induction fuel generalizing l i with
  | zero => rfl
  | succ f ih =>
    unfold siftUp
    split
    · rfl
    · split
      · rw [ih, length_swapAt]
      · rfl

theorem siftUp_perm (fuel : Nat) (l : List TimingEvent) (i : Nat) (hi : i < l.length) :
    (siftUp fuel l i).Perm l := by
  induction fuel generalizing l i with
  | zero => exact List.Perm.refl _
  | succ f ih =>
    unfold siftUp
    split
    · exact List.Perm.refl _
    · split
      · have hp : (i - 1) / 2 < l.length := by omega
        exact (ih _ _ (by rw [length_swapAt]; exact hp)).trans (swapAt_perm l _ _ hp hi)
      · exact List.Perm.refl _

theorem siftUp_heap (fuel : Nat) (l : List TimingEvent) (i : Nat) (hf : i < fuel)
    (hi : i < l.length) (inv : UpInv l i) : IsHeap (siftUp fuel l i) := by
  induction fuel generalizing l i with
  | zero => omega
  | succ f ih =>
    unfold siftUp
    split
    · next h0 =>
      intro j hj hj0
      exact inv.1 j hj hj0 (by omega)
    · next h0 =>
      have hp : (i - 1) / 2 < l.length := by omega
      split
      · next hc =>
        rw [CompareEvents_iff] at hc
        apply ih _ _ (by omega) (by rw [length_swapAt]; exact hp)
        constructor
        · intro j hj hj0 hjp
          rw [length_swapAt] at hj
          rw [at_swapAt l _ _ _ hp hi, at_swapAt l _ _ _ hp hi]
          by_cases hji : j = i
          · subst hji
            simp only [if_true]
            rw [if_neg (by omega)]
            omega
          · rw [if_neg hji, if_neg hjp]
            by_cases hpj : (j - 1) / 2 = i
            · rw [if_pos hpj]
              have := inv.2 j hj hj0 hpj (by omega)
              omega
            · rw [if_neg hpj]
              by_cases hpp : (j - 1) / 2 = (i - 1) / 2
              · rw [if_pos hpp]
                have := inv.1 j hj hj0 hji
                rw [hpp] at this
                omega
              · rw [if_neg hpp]
                exact inv.1 j hj hj0 hji
        · intro j hj hj0 hjp hp0
          rw [length_swapAt] at hj
          rw [at_swapAt l _ _ _ hp hi, at_swapAt l _ _ _ hp hi]
          rw [if_neg (by omega), if_neg (by omega)]
          have hpe := inv.1 ((i - 1) / 2) hp hp0 (by omega)
          by_cases hji : j = i
          · rw [if_pos hji]
            exact hpe
          · rw [if_neg hji, if_neg (by omega)]
            have := inv.1 j hj hj0 hji
            rw [hjp] at this
            omega
      · next hc =>
        rw [CompareEvents_iff] at hc
        intro j hj hj0
        by_cases hji : j = i
        · subst hji; omega
        · exact inv.1 j hj hj0 hji

theorem firstChild_spec (l : List TimingEvent) (n i : Nat) (h : 2 * i + 1 < n) :
    (firstChild l n i = 2 * i + 1 ∨ firstChild l n i = 2 * i + 2) ∧
    firstChild l n i < n ∧
    (at_ l (firstChild l n i)).downcount ≤ (at_ l (2 * i + 1)).downcount ∧
    (2 * i + 2 < n →
      (at_ l (firstChild l n i)).downcount ≤ (at_ l (2 * i + 2)).downcount) := by
  unfold firstChild
  split
  · next hc =>
    obtain ⟨h2, hc⟩ := hc
    rw [CompareEvents_iff] at hc
    refine ⟨Or.inr rfl, h2, by omega, fun _ => le_refl _⟩
  · next hc =>
    refine ⟨Or.inl rfl, h, le_refl _, fun h2 => ?_⟩
    rw [not_and, CompareEvents_iff] at hc
    have := hc h2
    omega

theorem length_siftDown (fuel : Nat) (l : List TimingEvent) (n i : Nat) :
    (siftDown fuel l n i).length = l.length := by
  induction fuel generalizing l i with
  | zero => rfl
  | succ f ih =>
    unfold siftDown
    split
    · split
      · rw [ih, length_swapAt]
      · rfl
    · rfl

theorem siftDown_perm (fuel : Nat) (l : List TimingEvent) (n i : Nat)
    (hn : n ≤ l.length) : (siftDown fuel l n i).Perm l := by
  induction fuel generalizing l i with
  | zero => exact List.Perm.refl _
  | succ f ih =>
    unfold siftDown
    split
    · next h =>
      have hc := (firstChild_spec l n i h).2.1
      split
      · exact (ih _ _ (by rw [length_swapAt]; exact hn)).trans
          (swapAt_perm l _ _ (by omega) (by omega))
      · exact List.Perm.refl _
    · exact List.Perm.refl _

theorem siftDown_at_ge (fuel : Nat) (l : List TimingEvent) (n i m : Nat)
    (hn : n ≤ l.length) (hi : i < n) (hm : n ≤ m) :
    at_ (siftDown fuel l n i) m = at_ l m := by
  induction fuel generalizing l i with
  | zero => rfl
  | succ f ih =>
    unfold siftDown
    split
    · next h =>
      have hc := (firstChild_spec l n i h).2.1
      split
      · rw [ih _ _ (by rw [length_swapAt]; exact hn) hc,
          at_swapAt l _ _ _ (by omega) (by omega), if_neg (by omega), if_neg (by omega)]
      · rfl
    · rfl

theorem siftDown_subheap (fuel : Nat) (l : List TimingEvent) (n k i : Nat)
    (hn : n ≤ l.length) (hf : n ≤ fuel + i) (hk : k ≤ i) (inv : DownInv l n k i) :
    SubHeap (siftDown fuel l n i) n k := by
  induction fuel generalizing l i with
  | zero =>
    intro j hj hj0 hjk
    exact inv.1 j hj hj0 hjk (by omega)
  | succ f ih =>
    unfold siftDown
    split
    · next h =>
      obtain ⟨hc1, hc2, hc3, hc4⟩ := firstChild_spec l n i h
      have hil : i < l.length := by omega
      have hcl : firstChild l n i < l.length := by omega
      split
      · next hc =>
        rw [CompareEvents_iff] at hc
        apply ih _ _ (by rw [length_swapAt]; exact hn) (by omega) (by omega)
        constructor
        · intro j hj hj0 hjk hjp
          rw [at_swapAt l _ _ _ hil hcl, at_swapAt l _ _ _ hil hcl]
          rw [if_neg hjp]
          by_cases hjc : j = firstChild l n i
          · rw [if_pos hjc, if_pos (by omega)]
            omega
          · rw [if_neg hjc]
            by_cases hji : j = i
            · rw [if_pos hji, if_neg (by omega)]
              have := inv.2 (firstChild l n i) hc2 (by omega) (by omega) (by omega)
                (by omega)
              have e : (j - 1) / 2 = (i - 1) / 2 := by rw [hji]
              rw [e]
              exact this
            · rw [if_neg hji]
              by_cases hpi : (j - 1) / 2 = i
              · rw [if_pos hpi]
                have hj' : j = 2 * i + 1 ∨ j = 2 * i + 2 := by omega
                rcases hj' with hj' | hj'
                · rw [hj']; exact hc3
                · rw [hj']; exact hc4 (by omega)
              · rw [if_neg hpi]
                exact inv.1 j hj hj0 hjk hpi
        · intro j hj hj0 hjp hc0 hkc
          rw [at_swapAt l _ _ _ hil hcl, at_swapAt l _ _ _ hil hcl]
          have hpc : (firstChild l n i - 1) / 2 = i := by omega
          rw [hpc, if_neg (by omega), if_pos rfl, if_neg (by omega), if_neg (by omega)]
          have := inv.1 j hj hj0 (by omega) (by omega)
          rw [hjp] at this
          exact this
      · next hc =>
        rw [CompareEvents_iff] at hc
        intro j hj hj0 hjk
        by_cases hpi : (j - 1) / 2 = i
        · have hj' : j = 2 * i + 1 ∨ j = 2 * i + 2 := by omega
          rw [hpi]
          rcases hj' with hj' | hj'
          · rw [hj']; omega
          · rw [hj']; have := hc4 (by omega); omega
        · exact inv.1 j hj hj0 hjk hpi
    · next h =>
      intro j hj hj0 hjk
      exact inv.1 j hj hj0 hjk (by omega)

theorem length_heapifyFrom (k : Nat) (l : List TimingEvent) :
    (heapifyFrom k l).length = l.length := by
  induction k generalizing l with
  | zero => rfl
  | succ k ih => unfold heapifyFrom; rw [ih, length_siftDown]

theorem heapifyFrom_perm (k : Nat) (l : List TimingEvent) : (heapifyFrom k l).Perm l := by
  induction k generalizing l with
  | zero => exact List.Perm.refl _
  | succ k ih =>
    unfold heapifyFrom
    exact (ih _).trans (siftDown_perm _ _ _ _ (le_refl _))

theorem heapifyFrom_heap (k : Nat) (l : List TimingEvent) (h : SubHeap l l.length k) :
    IsHeap (heapifyFrom k l) := by
  induction k generalizing l with
  | zero =>
    intro j hj hj0
    exact h j hj hj0 (Nat.zero_le _)
  | succ k ih =>
    unfold heapifyFrom
    apply ih
    rw [length_siftDown]
    apply siftDown_subheap _ _ _ _ _ (le_refl _) (by omega) (le_refl _)
    constructor
    · intro j hj hj0 hjk hjp
      exact h j hj hj0 (by omega)
    · intro j hj hj0 hjp hk0 hkk
      omega

/-- Contract of `std::make_heap`: the result has the same elements. -/
theorem make_heap_perm (l : List TimingEvent) : (make_heap l).Perm l :=
  heapifyFrom_perm _ l

theorem length_make_heap (l : List TimingEvent) : (make_heap l).length = l.length :=
  length_heapifyFrom _ l

/-- Contract of `std::make_heap`: the result is a heap. -/
theorem make_heap_isHeap (l : List TimingEvent) : IsHeap (make_heap l) := by
  apply heapifyFrom_heap
  intro j hj hj0 hjk
  omega

/-- Contract of `std::push_heap`: the result has the same elements. -/
theorem push_heap_perm (l : List TimingEvent) : (push_heap l).Perm l := by
  cases l with
  | nil => exact List.Perm.refl _
  | cons a t => exact siftUp_perm _ _ _ (by simp)

theorem length_push_heap (l : List TimingEvent) : (push_heap l).length = l.length :=
  length_siftUp _ _ _

/-- Contract of `std::push_heap`: when the elements before the last form a heap, the
result is a heap. -/
theorem push_heap_isHeap (l : List TimingEvent) (h : SubHeap l (l.length - 1) 0) :
    IsHeap (push_heap l) := by
  cases l with
  | nil => intro j hj; simp [push_heap, siftUp] at hj
  | cons a t =>
    apply siftUp_heap _ _ _ (by simp) (by simp)
    constructor
    · intro j hj hj0 hne
      simp only [List.length_cons, Nat.add_sub_cancel] at hj hne h
      exact h j (by omega) hj0 (Nat.zero_le _)
    · intro j hj hj0 hjp hp0
      simp only [List.length_cons, Nat.add_sub_cancel] at hj hjp
      omega

theorem at_append_left (l : List TimingEvent) (e : TimingEvent) (i : Nat)
    (hi : i < l.length) : at_ (l ++ [e]) i = at_ l i := by
  unfold at_
  simp [List.getD_eq_getElem?_getD, List.getElem?_append_left hi]

/-- Contract of `std::push_heap` in the form used after `push_back`. -/
theorem push_heap_append_isHeap (l : List TimingEvent) (e : TimingEvent) (h : IsHeap l) :
    IsHeap (push_heap (l ++ [e])) := by
  apply push_heap_isHeap
  intro j hj hj0 _
  simp only [List.length_append, List.length_singleton, Nat.add_sub_cancel] at hj
  rw [at_append_left l e j hj, at_append_left l e _ (by omega)]
  exact h j hj hj0

theorem length_pop_heap (l : List TimingEvent) : (pop_heap l).length = l.length := by
  unfold pop_heap
  rw [length_siftDown, length_swapAt]

/-- Contract of `std::pop_heap`: the result has the same elements. -/
theorem pop_heap_perm (l : List TimingEvent) : (pop_heap l).Perm l := by
  cases l with
  | nil => exact List.Perm.refl _
  | cons a t =>
    unfold pop_heap
    exact (siftDown_perm _ _ _ _ (by rw [length_swapAt]; simp)).trans
      (swapAt_perm _ _ _ (by simp) (by simp))

/-- Contract of `std::pop_heap`: the former first element is now the last one. -/
theorem pop_heap_last (l : List TimingEvent) (hl : l ≠ []) :
    at_ (pop_heap l) (l.length - 1) = at_ l 0 := by
  have hlen : 0 < l.length := List.length_pos.2 hl
  unfold pop_heap
  by_cases h1 : l.length = 1
  · rw [h1]
    simp [siftDown, at_swapAt l 0 0 0 hlen hlen]
  · rw [siftDown_at_ge _ _ _ _ _ (by rw [length_swapAt]; omega) (by omega) (le_refl _),
      at_swapAt l _ _ _ hlen (by omega), if_pos rfl]

/-- Contract of `std::pop_heap`: the elements before the last form a heap. -/
theorem pop_heap_prefix (l : List TimingEvent) (h : IsHeap l) :
    SubHeap (pop_heap l) (l.length - 1) 0 := by
  by_cases hlen : l.length ≤ 1
  · intro j hj hj0; omega
  · unfold pop_heap
    apply siftDown_subheap _ _ _ _ _ (by rw [length_swapAt]; omega) (by omega) (le_refl _)
    have h0 : 0 < l.length := by omega
    have h1 : l.length - 1 < l.length := by omega
    constructor
    · intro j hj hj0 _ hjp
      rw [at_swapAt l _ _ _ h0 h1, at_swapAt l _ _ _ h0 h1,
        if_neg (by omega), if_neg hjp, if_neg (by omega), if_neg (by omega)]
      exact h j (by omega) hj0
    · intro j hj hj0 hjp hp0
      omega

/-- The first element of a heap has the least downcount. -/
theorem heap_front_le (l : List TimingEvent) (h : IsHeap l) (i : Nat) (hi : i < l.length) :
    (at_ l 0).downcount ≤ (at_ l i).downcount := by
  induction i using Nat.strong_induction_on with
  | _ i ih =>
    by_cases h0 : i = 0
    · subst h0; exact le_refl _
    · have h1 := ih ((i - 1) / 2) (by omega) (by omega)
      have h2 := h i hi (by omega)
      omega

theorem mem_iff_at (l : List TimingEvent) (e : TimingEvent) :
    e ∈ l ↔ ∃ i, i < l.length ∧ at_ l i = e := by
  unfold at_
  rw [List.mem_iff_getElem]
  constructor
  · rintro ⟨i, hi, rfl⟩
    exact ⟨i, hi, by simp [List.getD_eq_getElem?_getD, hi]⟩
  · rintro ⟨i, hi, rfl⟩
    exact ⟨i, hi, by simp [List.getD_eq_getElem?_getD, hi]⟩

theorem heap_front_le_mem (l : List TimingEvent) (h : IsHeap l) (e : TimingEvent)
    (he : e ∈ l) : (at_ l 0).downcount ≤ e.downcount := by
  obtain ⟨i, hi, rfl⟩ := (mem_iff_at l e).1 he
  exact heap_front_le l h i hi

/-! ## Lemmas on the scheduler entry points -/

theorem at_zero_cons (e : TimingEvent) (t : List TimingEvent) : at_ (e :: t) 0 = e := rfl

theorem heap_minDowncount (e : TimingEvent) (t : List TimingEvent) (h : IsHeap (e :: t)) :
    MinDowncount (e :: t) e.downcount :=
  ⟨⟨e, List.mem_cons_self _ _, rfl⟩, fun x hx => heap_front_le_mem _ h x hx⟩

theorem UpdateCPUDowncount_events {D : Type} (s : System D) :
    (UpdateCPUDowncount s).events = s.events := by
  unfold UpdateCPUDowncount; split <;> rfl

theorem UpdateCPUDowncount_cons {D : Type} (s : System D) (e : TimingEvent)
    (t : List TimingEvent) (h : s.events = e :: t) :
    (UpdateCPUDowncount s).cpu_downcount = e.downcount := by
  unfold UpdateCPUDowncount; rw [h]

theorem AddActiveEvent_idle {D : Type} (e : TimingEvent) (s : System D)
    (hr : s.running_events = false) (hf : s.frame_done = false) :
    AddActiveEvent e s =
      UpdateCPUDowncount { s with events := push_heap (s.events ++ [e]) } := by
  simp [AddActiveEvent, hr, hf]

theorem RemoveActiveEvent_idle {D : Type} (id : Nat) (s : System D) (iter : Nat)
    (hr : s.running_events = false) (hf : s.frame_done = false)
    (hi : s.events.findIdx? (fun it => decide (id = it.id)) = some iter) :
    RemoveActiveEvent id s =
      UpdateCPUDowncount { s with events := make_heap (s.events.eraseIdx iter) } := by
  simp only [RemoveActiveEvent, hi, hr, hf]
  cases h : make_heap (s.events.eraseIdx iter) with
  | nil => simp [UpdateCPUDowncount, h]
  | cons a t => simp [h]

theorem eraseIdx_findIdx? {α : Type} (p : α → Bool) (l : List α) (i : Nat)
    (h : l.findIdx? p = some i) : l.eraseIdx i = l.eraseP p := by
  induction l generalizing i with
  | nil => simp at h
  | cons a t ih =>
    rw [List.findIdx?_cons] at h
    by_cases hp : p a = true
    · simp [hp] at h
      subst h
      simp [List.eraseP_cons, hp]
    · simp [hp] at h
      obtain ⟨j, hj, rfl⟩ := h
      simp [List.eraseP_cons, hp, ih j hj]

theorem findIdx?_none_iff {α : Type} (p : α → Bool) (l : List α) :
    l.findIdx? p = none ↔ ∀ x ∈ l, p x = false := by
  rw [List.findIdx?_eq_none_iff]

theorem AddActiveEvent_Idle {D : Type} (e : TimingEvent) (s : System D) (h : Idle s) :
    Idle (AddActiveEvent e s) ∧
    (AddActiveEvent e s).events.Perm (s.events ++ [e]) ∧
    MinDowncount (AddActiveEvent e s).events (AddActiveEvent e s).cpu_downcount := by
  obtain ⟨hr, hf, hh⟩ := h
  rw [AddActiveEvent_idle e s hr hf]
  have hheap := push_heap_append_isHeap s.events e hh
  have hperm := push_heap_perm (s.events ++ [e])
  refine ⟨⟨?_, ?_, ?_⟩, ?_, ?_⟩
  · unfold UpdateCPUDowncount; split <;> exact hr
  · unfold UpdateCPUDowncount; split <;> exact hf
  · rw [UpdateCPUDowncount_events]; exact hheap
  · rw [UpdateCPUDowncount_events]; exact hperm
  · rw [UpdateCPUDowncount_events]
    cases hl : push_heap (s.events ++ [e]) with
    | nil =>
      have := hperm.length_eq
      rw [hl] at this
      simp at this
    | cons a t =>
      rw [UpdateCPUDowncount_cons _ a t rfl]
      show MinDowncount (a :: t) a.downcount
      apply heap_minDowncount
      rw [← hl]; exact hheap

theorem RemoveActiveEvent_Idle {D : Type} (id : Nat) (s : System D) (h : Idle s)
    (hx : ∃ x ∈ s.events, x.id = id) :
    Idle (RemoveActiveEvent id s) ∧
    (RemoveActiveEvent id s).events.Perm
      (s.events.eraseP (fun it => decide (id = it.id))) ∧
    ((RemoveActiveEvent id s).events ≠ [] →
      MinDowncount (RemoveActiveEvent id s).events (RemoveActiveEvent id s).cpu_downcount) := by
  obtain ⟨hr, hf, hh⟩ := h
  cases hi : s.events.findIdx? (fun it => decide (id = it.id)) with
  | none =>
    exfalso
    rw [List.findIdx?_eq_none_iff] at hi
    obtain ⟨x, hx1, hx2⟩ := hx
    have := hi x hx1
    simp [hx2] at this
  | some iter =>
    rw [RemoveActiveEvent_idle id s iter hr hf hi, ← eraseIdx_findIdx? _ _ _ hi]
    have hheap := make_heap_isHeap (s.events.eraseIdx iter)
    have hperm := make_heap_perm (s.events.eraseIdx iter)
    refine ⟨⟨?_, ?_, ?_⟩, ?_, ?_⟩
    · unfold UpdateCPUDowncount; split <;> exact hr
    · unfold UpdateCPUDowncount; split <;> exact hf
    · rw [UpdateCPUDowncount_events]; exact hheap
    · rw [UpdateCPUDowncount_events]; exact hperm
    · rw [UpdateCPUDowncount_events]
      intro hne
      cases hl : make_heap (s.events.eraseIdx iter) with
      | nil => exact absurd hl hne
      | cons a t =>
        rw [UpdateCPUDowncount_cons _ a t rfl]
        show MinDowncount (a :: t) a.downcount
        apply heap_minDowncount
        rw [← hl]; exact hheap

theorem eraseP_eq_erase_of_unique (p : TimingEvent → Bool) (l : List TimingEvent)
    (x : TimingEvent) (hx : x ∈ l) (hp : p x = true)
    (hu : ∀ y ∈ l, p y = true → y = x) : l.eraseP p = l.erase x := by
  induction l with
  | nil => simp at hx
  | cons a t ih =>
    by_cases ha : p a = true
    · have := hu a (List.mem_cons_self _ _) ha
      subst this
      simp [List.eraseP_cons, ha]
    · have hax : a ≠ x := fun h => ha (h ▸ hp)
      have hxt : x ∈ t := by
        rcases List.mem_cons.1 hx with h | h
        · exact absurd h.symm hax
        · exact h
      have ha2 : p a = false := by simpa using ha
      rw [List.eraseP_cons, ha2, List.erase_cons_tail (by simpa using hax),
        ih hxt (fun y hy => hu y (List.mem_cons_of_mem _ hy))]
      rfl

theorem unique_of_nodup_id (l : List TimingEvent) (hn : (l.map (fun e => e.id)).Nodup)
    (x y : TimingEvent) (hx : x ∈ l) (hy : y ∈ l) (h : x.id = y.id) : x = y := by
  exact List.inj_on_of_nodup_map hn hx hy h

theorem eraseP_perm_of_nodup (id : Nat) (l1 l2 : List TimingEvent) (hp : l1.Perm l2)
    (hn : (l2.map (fun e => e.id)).Nodup) :
    (l1.eraseP (fun it => decide (id = it.id))).Perm
      (l2.eraseP (fun it => decide (id = it.id))) := by
  have hn1 : (l1.map (fun e => e.id)).Nodup := (hp.map _).nodup_iff.2 hn
  by_cases hx : ∃ x ∈ l1, x.id = id
  · obtain ⟨x, hx1, hx2⟩ := hx
    rw [eraseP_eq_erase_of_unique _ l1 x hx1 (by simp [hx2])
        (fun y hy hpy => unique_of_nodup_id l1 hn1 y x hy hx1 (by simp at hpy; omega)),
      eraseP_eq_erase_of_unique _ l2 x (hp.mem_iff.1 hx1) (by simp [hx2])
        (fun y hy hpy => unique_of_nodup_id l2 hn y x hy (hp.mem_iff.1 hx1)
          (by simp at hpy; omega))]
    exact hp.erase x
  · have h1 : ∀ a, a ∈ l1 → ¬ (fun it : TimingEvent => decide (id = it.id)) a = true := by
      intro a ha hpa
      exact hx ⟨a, ha, by simp at hpa; exact hpa.symm⟩
    have h2 : ∀ a, a ∈ l2 → ¬ (fun it : TimingEvent => decide (id = it.id)) a = true := by
      intro a ha
      exact h1 a (hp.mem_iff.2 ha)
    rw [List.eraseP_of_forall_not h1, List.eraseP_of_forall_not h2]
    exact hp

theorem runOps_Idle {D : Type} (ops : List SchedOp) (s : System D) (l : List TimingEvent)
    (hs : Idle s) (hp : s.events.Perm l) (hn : (l.map (fun e => e.id)).Nodup)
    (ha : Admissible ops l) :
    Idle (runOps ops s) ∧ (runOps ops s).events.Perm (activeSet ops l) ∧
    (ops ≠ [] → (runOps ops s).events ≠ [] →
      MinDowncount (runOps ops s).events (runOps ops s).cpu_downcount) := by
  induction ops generalizing s l with
  | nil => exact ⟨hs, hp, fun h => absurd rfl h⟩
  | cons op rest ih =>
    cases op with
    | add e =>
      obtain ⟨hfresh, hrest⟩ := ha
      obtain ⟨h1, h2, h3⟩ := AddActiveEvent_Idle e s hs
      have hp1 : (AddActiveEvent e s).events.Perm (l ++ [e]) :=
        h2.trans (hp.append_right _)
      have hn1 : ((l ++ [e]).map (fun e => e.id)).Nodup := by
        rw [List.map_append, List.nodup_append]
        refine ⟨hn, by simp, ?_⟩
        intro a ha1 ha2
        simp at ha2
        obtain ⟨x, hx1, hx2⟩ := List.mem_map.1 ha1
        exact hfresh x hx1 (hx2.trans ha2)
      obtain ⟨i1, i2, i3⟩ := ih (AddActiveEvent e s) (l ++ [e]) h1 hp1 hn1 hrest
      refine ⟨i1, i2, fun _ hne => ?_⟩
      cases rest with
      | nil => exact h3
      | cons o r => exact i3 (by simp) hne
    | remove id =>
      obtain ⟨hpres, hrest⟩ := ha
      obtain ⟨x, hx1, hx2⟩ := hpres
      obtain ⟨h1, h2, h3⟩ := RemoveActiveEvent_Idle id s hs ⟨x, hp.mem_iff.2 hx1, hx2⟩
      have hp1 := h2.trans (eraseP_perm_of_nodup id s.events l hp hn)
      have hn1 : ((l.eraseP (fun it => decide (id = it.id))).map (fun e => e.id)).Nodup :=
        hn.sublist ((List.eraseP_sublist l).map _)
      obtain ⟨i1, i2, i3⟩ := ih (RemoveActiveEvent id s) _ h1 hp1 hn1 hrest
      refine ⟨i1, i2, fun _ hne => ?_⟩
      cases rest with
      | nil => exact h3 hne
      | cons o r => exact i3 (by simp) hne

/-! ## Lemmas on `RunEvents` -/

theorem at_downcount_eq_getD (l : List TimingEvent) (i : Nat) :
    (at_ l i).downcount =
      (l.map (fun e => e.downcount)).getD i (default : TimingEvent).downcount := by
  unfold at_
  simp only [List.getD_eq_getElem?_getD, List.getElem?_map]
  cases l[i]? <;> rfl

theorem SubHeap_of_keys (l l2 : List TimingEvent) (n k : Nat)
    (h : l2.map (fun e => e.downcount) = l.map (fun e => e.downcount))
    (hs : SubHeap l n k) : SubHeap l2 n k := by
  intro j hj hj0 hjk
  rw [at_downcount_eq_getD, at_downcount_eq_getD, h, ← at_downcount_eq_getD,
    ← at_downcount_eq_getD]
  exact hs j hj hj0 hjk

theorem IsHeap_iff_SubHeap (l : List TimingEvent) : IsHeap l ↔ SubHeap l l.length 0 :=
  ⟨fun h j hj hj0 _ => h j hj hj0, fun h j hj hj0 => h j hj hj0 (Nat.zero_le _)⟩

theorem heap_frontIsSoonest (l : List TimingEvent) (h : IsHeap l) : FrontIsSoonest l := by
  intro f hf e he
  cases l with
  | nil => simp at he
  | cons a t =>
    simp at hf
    subst hf
    exact heap_front_le_mem _ h e he

theorem length_applyDowncount (time : Int) (l : List TimingEvent) :
    (applyDowncount time l).length = l.length := by
  simp [applyDowncount]

theorem ids_applyDowncount (time : Int) (l : List TimingEvent) :
    (applyDowncount time l).map (fun e => e.id) = l.map (fun e => e.id) := by
  simp [applyDowncount, aged]

theorem at_applyDowncount (time : Int) (l : List TimingEvent) (i : Nat) (hi : i < l.length) :
    at_ (applyDowncount time l) i = aged time (at_ l i) := by
  unfold at_ applyDowncount
  simp [List.getD_eq_getElem?_getD, hi]

theorem applyDowncount_isHeap (time : Int) (l : List TimingEvent) (h : IsHeap l) :
    IsHeap (applyDowncount time l) := by
  intro j hj hj0
  rw [length_applyDowncount] at hj
  rw [at_applyDowncount time l j hj, at_applyDowncount time l _ (by omega)]
  have := h j hj hj0
  simp only [aged]
  omega

theorem ids_modifyEvent (id : Nat) (f : TimingEvent → TimingEvent)
    (hf : ∀ e, (f e).id = e.id) (l : List TimingEvent) :
    (modifyEvent id f l).map (fun e => e.id) = l.map (fun e => e.id) := by
  unfold modifyEvent
  rw [List.map_map]
  apply List.map_congr_left
  intro e _
  simp only [Function.comp]
  split
  · exact hf e
  · rfl

theorem length_modifyEvent (id : Nat) (f : TimingEvent → TimingEvent) (l : List TimingEvent) :
    (modifyEvent id f l).length = l.length := by
  simp [modifyEvent]

theorem at_modifyEvent (id : Nat) (f : TimingEvent → TimingEvent) (l : List TimingEvent)
    (i : Nat) (hi : i < l.length) :
    at_ (modifyEvent id f l) i = if (at_ l i).id = id then f (at_ l i) else at_ l i := by
  unfold at_ modifyEvent
  simp [List.getD_eq_getElem?_getD, hi]

/-- In a vector without repeated events, two positions holding the same event are the
same position. -/
theorem index_unique_of_nodup (l : List TimingEvent)
    (hn : (l.map (fun e => e.id)).Nodup) (i j : Nat) (hi : i < l.length) (hj : j < l.length)
    (h : (at_ l i).id = (at_ l j).id) : i = j := by
  have hi2 : i < (l.map (fun e => e.id)).length := by simpa using hi
  have hj2 : j < (l.map (fun e => e.id)).length := by simpa using hj
  have e1 : (l.map (fun e => e.id))[i] = (at_ l i).id := by
    unfold at_; simp [List.getD_eq_getElem?_getD, hi]
  have e2 : (l.map (fun e => e.id))[j] = (at_ l j).id := by
    unfold at_; simp [List.getD_eq_getElem?_getD, hj]
  exact (List.Nodup.getElem_inj_iff hn).1 (by rw [e1, e2, h])

theorem pop_modify_at (evt : TimingEvent) (t : List TimingEvent)
    (f : TimingEvent → TimingEvent)
    (hn : ((evt :: t).map (fun e => e.id)).Nodup) (j : Nat) (hj : j < (evt :: t).length) :
    at_ (modifyEvent evt.id f (pop_heap (evt :: t))) j =
      if j = (evt :: t).length - 1 then f evt else at_ (pop_heap (evt :: t)) j := by
  have hlen := length_pop_heap (evt :: t)
  have hlast := pop_heap_last (evt :: t) (by simp)
  rw [at_zero_cons] at hlast
  have hn1 : ((pop_heap (evt :: t)).map (fun e => e.id)).Nodup :=
    ((pop_heap_perm (evt :: t)).map _).nodup_iff.2 hn
  rw [at_modifyEvent _ _ _ _ (by omega)]
  by_cases hjl : j = (evt :: t).length - 1
  · rw [if_pos hjl, hjl, hlast, if_pos rfl]
  · rw [if_neg hjl, if_neg]
    intro hid
    apply hjl
    apply index_unique_of_nodup _ hn1 j _ (by omega) (by omega)
    rw [hlast]; exact hid

theorem pop_modify_prefix (evt : TimingEvent) (t : List TimingEvent)
    (f : TimingEvent → TimingEvent)
    (hn : ((evt :: t).map (fun e => e.id)).Nodup) (hh : IsHeap (evt :: t)) :
    SubHeap (modifyEvent evt.id f (pop_heap (evt :: t))) ((evt :: t).length - 1) 0 := by
  intro j hj hj0 hjk
  rw [pop_modify_at evt t f hn j (by omega), pop_modify_at evt t f hn _ (by omega),
    if_neg (by omega), if_neg (by omega)]
  exact pop_heap_prefix _ hh j hj hj0 hjk

theorem fireFront_inv {D : Type} (cb : Callbacks D) (hcb : WellBehaved cb)
    (evt : TimingEvent) (t : List TimingEvent) (s : System D) (he : s.events = evt :: t)
    (hr : s.running_events = true) (hh : IsHeap s.events)
    (hn : (s.events.map (fun e => e.id)).Nodup) :
    (fireFront cb evt s).running_events = true ∧ IsHeap (fireFront cb evt s).events ∧
    ((fireFront cb evt s).events.map (fun e => e.id)).Nodup := by
  rw [he] at hh hn
  unfold fireFront
  simp only [he]
  generalize hs2 : ({ s with
      events := modifyEvent evt.id serviced (pop_heap (evt :: t)),
      calls := s.calls ++ [⟨evt.id, evt.time_since_last_run, -evt.downcount⟩] } : System D) = s2
  have e2 : s2.events = modifyEvent evt.id serviced (pop_heap (evt :: t)) := by rw [← hs2]
  have r2 : s2.running_events = true := by rw [← hs2]; exact hr
  have n2 : (s2.events.map (fun e => e.id)).Nodup := by
    rw [e2, ids_modifyEvent _ serviced (fun e => rfl)]
    exact ((pop_heap_perm (evt :: t)).map _).nodup_iff.2 hn
  have l2 : s2.events.length = (evt :: t).length := by
    rw [e2, length_modifyEvent, length_pop_heap]
  have p2 : SubHeap s2.events ((evt :: t).length - 1) 0 := by
    rw [e2]; exact pop_modify_prefix evt t _ hn hh
  obtain ⟨c1, c2, c3⟩ := hcb evt.id evt.time_since_last_run (-evt.downcount) s2 r2
  generalize cb evt.id evt.time_since_last_run (-evt.downcount) s2 = s3 at c1 c2 c3
  split
  · refine ⟨c1, make_heap_isHeap _, ?_⟩
    exact ((make_heap_perm _).map _).nodup_iff.2 (c2 n2)
  · next hflag =>
    have hflag2 : s3.events_need_sorting = false := by simpa using hflag
    have hk := c3 hflag2
    have hlen : s3.events.length = s2.events.length := by
      have := congrArg List.length hk
      simpa using this
    refine ⟨c1, ?_, ?_⟩
    · apply push_heap_isHeap
      rw [hlen, l2]
      exact SubHeap_of_keys _ _ _ _ hk p2
    · exact ((push_heap_perm _).map _).nodup_iff.2 (c2 n2)

theorem runLoop_inv {D : Type} (cb : Callbacks D) (hcb : WellBehaved cb) (fuel : Nat)
    (s s2 : System D) (hr : s.running_events = true) (hh : IsHeap s.events)
    (hn : (s.events.map (fun e => e.id)).Nodup) (h : runLoop cb fuel s = some s2) :
    s2.running_events = true ∧ IsHeap s2.events ∧
    (s2.events.map (fun e => e.id)).Nodup := by
  induction fuel generalizing s with
  | zero => simp [runLoop] at h
  | succ n ih =>
    unfold runLoop at h
    split at h
    · simp at h
    · next evt t he =>
      split at h
      · obtain ⟨a, b, c⟩ := fireFront_inv cb hcb evt t s he hr hh hn
        exact ih _ a b c h
      · simp at h
        subst h
        exact ⟨hr, hh, hn⟩

theorem RunEvents_inv {D : Type} (cb : Callbacks D) (hcb : WellBehaved cb) (fuel : Nat)
    (s s2 : System D) (hh : IsHeap s.events) (hn : (s.events.map (fun e => e.id)).Nodup)
    (h : RunEvents cb fuel s = some s2) :
    s2.running_events = false ∧ IsHeap s2.events ∧
    (s2.events.map (fun e => e.id)).Nodup ∧
    MinDowncount s2.events s2.cpu_downcount := by
  unfold RunEvents beginRunEvents at h
  simp only at h
  split at h
  · simp at h
  · next s3 hs3 =>
    obtain ⟨a, b, c⟩ := runLoop_inv cb hcb fuel _ s3 rfl
      (applyDowncount_isHeap _ _ hh) (by rw [ids_applyDowncount]; exact hn) hs3
    split at h
    · simp at h
    · next e t he =>
      simp at h
      subst h
      refine ⟨rfl, b, c, ?_⟩
      show MinDowncount s3.events e.downcount
      rw [he]
      exact heap_minDowncount e t (he ▸ b)

/-! ## Lemmas on `DoEventsState` -/

theorem readEventRecords_frame {D : Type} (n : Nat) (sw : StateWrapper) (s : System D) :
    (readEventRecords n sw s).2.2 = { s with events := (readEventRecords n sw s).2.2.events } := by
  induction n generalizing sw s with
  | zero => rfl
  | succ n ih =>
    unfold readEventRecords
    simp only
    split
    · rfl
    · split
      · exact ih _ _
      · rw [ih]

theorem UpdateCPUDowncount_running {D : Type} (s : System D) :
    (UpdateCPUDowncount s).running_events = s.running_events := by
  unfold UpdateCPUDowncount; split <;> rfl

theorem SortEvents_idle {D : Type} (s : System D) (hr : s.running_events = false) :
    (SortEvents s).events = make_heap s.events ∧ (SortEvents s).running_events = false := by
  unfold SortEvents
  cases hf : s.frame_done <;>
    simp [hr, hf, UpdateCPUDowncount_events, UpdateCPUDowncount_running]

theorem DoEventsState_read_heap {D : Type} (sw : StateWrapper) (s : System D)
    (hm : sw.mode = Mode.Read) (hr : s.running_events = false)
    (hok : (DoEventsState sw s).1 = true) :
    IsHeap (DoEventsState sw s).2.2.events ∧ (DoEventsState sw s).2.2.running_events = false := by
  unfold DoEventsState at hok ⊢
  simp only [StateWrapper.IsReading, hm, decide_True, if_true] at hok ⊢
  split at hok
  · simp at hok
  · next sw2 s2 hrec =>
    simp only [hrec]
    have hfr := readEventRecords_frame (sw.DoU32 0).1 (sw.DoU32 0).2 s
    rw [hrec] at hfr
    simp only at hfr
    have hr2 : s2.running_events = false := by rw [hfr]; exact hr
    obtain ⟨h1, h2⟩ := SortEvents_idle
      { s2 with last_event_run_time := (sw2.DoU32 s2.last_event_run_time).1 } hr2
    exact ⟨by rw [h1]; exact make_heap_isHeap _, h2⟩


theorem AddActiveEvent_events_idle {D : Type} (e : TimingEvent) (s : System D)
    (hr : s.running_events = false) :
    (AddActiveEvent e s).events = push_heap (s.events ++ [e]) ∧
    (AddActiveEvent e s).running_events = false := by
  unfold AddActiveEvent
  cases hf : s.frame_done <;>
    simp [hr, hf, UpdateCPUDowncount_events, UpdateCPUDowncount_running]

theorem RemoveActiveEvent_events_idle {D : Type} (id : Nat) (s : System D)
    (hr : s.running_events = false) (hh : IsHeap s.events) :
    IsHeap (RemoveActiveEvent id s).events ∧
    (RemoveActiveEvent id s).running_events = false := by
  unfold RemoveActiveEvent
  split
  · exact ⟨hh, hr⟩
  · next iter hi =>
    simp only [hr, Bool.not_false, if_true]
    split
    · rw [UpdateCPUDowncount_events, UpdateCPUDowncount_running]
      exact ⟨make_heap_isHeap _, rfl⟩
    · exact ⟨make_heap_isHeap _, rfl⟩

theorem removingCallbacks_wellBehaved (trigger victim : Nat) :
    WellBehaved (removingCallbacks trigger victim) := by
  intro id a b s hr
  unfold removingCallbacks
  split
  · unfold RemoveActiveEvent
    split
    · exact ⟨hr, fun h => h, fun _ => rfl⟩
    · next iter hi =>
      simp only [hr, Bool.not_true, Bool.false_eq_true, if_false]
      refine ⟨trivial, fun h => ?_, fun h => ?_⟩
      · exact h.sublist ((List.eraseIdx_sublist _ _).map _)
      · simp at h
  · exact ⟨hr, fun h => h, fun _ => rfl⟩

theorem inertCallbacks_wellBehaved (D : Type) : WellBehaved (inertCallbacks D) :=
  fun _ _ _ _ hr => ⟨hr, fun h => h, fun _ => rfl⟩

/-! ## A pass with callbacks that leave the system alone -/

theorem firesNeeded_serviced (e : TimingEvent) (hd : e.downcount ≤ 0) (hi : 0 < e.interval) :
    firesNeeded (serviced e) + 1 = firesNeeded e := by
  unfold firesNeeded serviced
  simp only [if_pos hd]
  by_cases h : e.downcount + e.interval ≤ 0
  · rw [if_pos h]
    have e1 : -(e.downcount + e.interval) = -e.downcount + (-1) * e.interval := by ring
    rw [e1, Int.add_mul_ediv_right _ _ (ne_of_gt hi)]
    have h1 : 1 ≤ -e.downcount / e.interval := by
      rw [Int.le_ediv_iff_mul_le hi]; omega
    omega
  · rw [if_neg h]
    have : -e.downcount / e.interval = 0 :=
      Int.ediv_eq_zero_of_lt (by omega) (by omega)
    rw [this]; rfl

theorem firesNeeded_pos (e : TimingEvent) (hd : e.downcount ≤ 0) : 0 < firesNeeded e := by
  unfold firesNeeded; rw [if_pos hd]; omega

theorem firesNeeded_zero (e : TimingEvent) (hd : 0 < e.downcount) : firesNeeded e = 0 := by
  unfold firesNeeded; rw [if_neg (by omega)]

theorem settled_serviced (e : TimingEvent) (hd : e.downcount ≤ 0) (hi : 0 < e.interval) :
    settled (serviced e) = settled e := by
  have hf := firesNeeded_serviced e hd hi
  unfold settled
  rw [if_pos hd]
  by_cases h : (serviced e).downcount ≤ 0
  · rw [if_pos h, ← hf]
    simp only [serviced, Nat.cast_add, Nat.cast_one]
    congr 1
    ring
  · rw [if_neg h, ← hf, firesNeeded_zero _ (by omega)]
    simp [serviced]

theorem settled_of_pos (e : TimingEvent) (hd : 0 < e.downcount) : settled e = e := by
  unfold settled; rw [if_neg (by omega)]

theorem firesOf_serviced (e : TimingEvent) (hd : e.downcount ≤ 0) (hi : 0 < e.interval) :
    firesOf e = ⟨e.id, e.time_since_last_run, -e.downcount⟩ :: firesOf (serviced e) := by
  unfold firesOf
  rw [← firesNeeded_serviced e hd hi]
  rfl

theorem firesOf_of_pos (e : TimingEvent) (hd : 0 < e.downcount) : firesOf e = [] := by
  unfold firesOf; rw [firesNeeded_zero e hd]; rfl

theorem modifyEvent_head (evt : TimingEvent) (t : List TimingEvent)
    (f : TimingEvent → TimingEvent)
    (hn : ((evt :: t).map (fun e => e.id)).Nodup) :
    modifyEvent evt.id f (evt :: t) = f evt :: t := by
  unfold modifyEvent
  rw [List.map_cons, if_pos rfl]
  congr 1
  rw [List.map_cons, List.nodup_cons] at hn
  conv_rhs => rw [← List.map_id t]
  apply List.map_congr_left
  intro e he
  rw [if_neg]
  · rfl
  · intro h
    exact hn.1 (List.mem_map.2 ⟨e, he, h⟩)

theorem modifyEvent_perm (id : Nat) (f : TimingEvent → TimingEvent)
    (l1 l2 : List TimingEvent) (h : l1.Perm l2) :
    (modifyEvent id f l1).Perm (modifyEvent id f l2) := h.map _

/-- One iteration of the loop with inert callbacks: the served event is moved forward,
the others are kept, and the invocation is recorded. -/
theorem fireFront_inert {D : Type} (evt : TimingEvent) (t : List TimingEvent)
    (s : System D) (he : s.events = evt :: t)
    (hn : (s.events.map (fun e => e.id)).Nodup) :
    (fireFront (inertCallbacks D) evt s).events.Perm (serviced evt :: t) ∧
    (fireFront (inertCallbacks D) evt s).calls =
      s.calls ++ [⟨evt.id, evt.time_since_last_run, -evt.downcount⟩] ∧
    fireFront (inertCallbacks D) evt s =
      { s with events := (fireFront (inertCallbacks D) evt s).events,
               calls := (fireFront (inertCallbacks D) evt s).calls,
               events_need_sorting := false } := by
  rw [he] at hn
  have hp : (modifyEvent evt.id serviced (pop_heap (evt :: t))).Perm (serviced evt :: t) := by
    rw [← modifyEvent_head evt t serviced hn]
    exact modifyEvent_perm _ _ _ _ (pop_heap_perm _)
  unfold fireFront inertCallbacks
  simp only [he]
  cases hf : s.events_need_sorting
  · simp only [Bool.false_eq_true, if_false]
    exact ⟨(push_heap_perm _).trans hp, trivial, trivial⟩
  · simp only [if_true]
    exact ⟨(make_heap_perm _).trans hp, trivial, trivial⟩

theorem due_perm (l1 l2 : List TimingEvent) (h : l1.Perm l2) : due l1 = due l2 :=
  (h.map firesNeeded).sum_eq

theorem due_cons (e : TimingEvent) (t : List TimingEvent) :
    due (e :: t) = firesNeeded e + due t := by
  simp [due]

theorem runLoop_inert {D : Type} (fuel : Nat) (s : System D)
    (hr : s.running_events = true) (hh : IsHeap s.events)
    (hn : (s.events.map (fun e => e.id)).Nodup)
    (hi : ∀ e ∈ s.events, 0 < e.interval) (hne : s.events ≠ [])
    (hf : due s.events < fuel) :
    ∃ s2, runLoop (inertCallbacks D) fuel s = some s2 ∧ LoopResult s s2 := by
  induction fuel generalizing s with
  | zero => omega
  | succ n ih =>
    unfold runLoop
    cases he : s.events with
    | nil => exact absurd he hne
    | cons evt t =>
      simp only
      by_cases hd : evt.downcount ≤ 0
      · rw [if_pos hd]
        obtain ⟨p1, p2, p3⟩ := fireFront_inert evt t s he hn
        obtain ⟨q1, q2, q3⟩ :=
          fireFront_inv (inertCallbacks D) (inertCallbacks_wellBehaved D) evt t s he hr hh hn
        have hievt : 0 < evt.interval := hi evt (by rw [he]; exact List.mem_cons_self _ _)
        have hi1 : ∀ e ∈ (fireFront (inertCallbacks D) evt s).events, 0 < e.interval := by
          intro e hemem
          rcases List.mem_cons.1 (p1.mem_iff.1 hemem) with h | h
          · rw [h]; exact hievt
          · exact hi e (by rw [he]; exact List.mem_cons_of_mem _ h)
        have hne1 : (fireFront (inertCallbacks D) evt s).events ≠ [] := by
          intro h
          have := p1.length_eq
          rw [h] at this
          simp at this
        have hdue : due (fireFront (inertCallbacks D) evt s).events < n := by
          rw [due_perm _ _ p1, due_cons]
          rw [he, due_cons, ← firesNeeded_serviced evt hd hievt] at hf
          omega
        obtain ⟨s2, r1, r2, r3, ⟨new, r4, r5, r6⟩, r7⟩ := ih _ q1 q2 q3 hi1 hne1 hdue
        refine ⟨s2, r1, ?_, r3, ⟨⟨evt.id, evt.time_since_last_run, -evt.downcount⟩ :: new,
          ?_, ?_, ?_⟩, ?_⟩
        · refine r2.trans ((p1.map settled).trans ?_)
          rw [he, List.map_cons, List.map_cons, settled_serviced evt hd hievt]
        · rw [r4, p2, List.append_assoc]; rfl
        · intro e hemem
          rw [he] at hemem
          rcases List.mem_cons.1 hemem with h | h
          · subst h
            have := r5 (serviced e) (p1.mem_iff.2 (List.mem_cons_self _ _))
            rw [firesOf_serviced e hd hievt, ← this]
            simp [callsOf, serviced]
          · have hid : evt.id ≠ e.id := by
              rw [he, List.map_cons, List.nodup_cons] at hn
              intro hc
              exact hn.1 (List.mem_map.2 ⟨e, h, hc.symm⟩)
            have := r5 e (p1.mem_iff.2 (List.mem_cons_of_mem _ h))
            rw [← this]
            simp [callsOf, hid]
        · intro r hrmem
          rw [he]
          rcases List.mem_cons.1 hrmem with h | h
          · exact ⟨evt, List.mem_cons_self _ _, by rw [h]⟩
          · obtain ⟨e, h1, h2⟩ := r6 r h
            rcases List.mem_cons.1 (p1.mem_iff.1 h1) with h3 | h3
            · exact ⟨evt, List.mem_cons_self _ _, by rw [← h2, h3]; rfl⟩
            · exact ⟨e, List.mem_cons_of_mem _ h3, h2⟩
        · rw [r7, p3]
      · rw [if_neg hd]
        have hall : ∀ e ∈ s.events, 0 < e.downcount := by
          intro e hemem
          have := heap_front_le_mem _ hh e hemem
          rw [he, at_zero_cons] at this
          omega
        refine ⟨s, rfl, ?_, hh, ⟨[], by simp, ?_, by simp⟩, ?_⟩
        · have : s.events.map settled = s.events := by
            conv_rhs => rw [← List.map_id s.events]
            apply List.map_congr_left
            intro e hemem
            exact settled_of_pos e (hall e hemem)
          rw [this]
        · intro e hemem
          rw [firesOf_of_pos e (hall e hemem)]
          rfl
        · rfl

theorem settled_downcount_pos (e : TimingEvent) (hi : 0 < e.interval) :
    0 < (settled e).downcount := by
  unfold settled
  by_cases hd : e.downcount ≤ 0
  · rw [if_pos hd]
    simp only [firesNeeded, if_pos hd, Nat.cast_add, Nat.cast_one]
    have h0 : 0 ≤ -e.downcount / e.interval := Int.ediv_nonneg (by omega) (le_of_lt hi)
    rw [Int.toNat_of_nonneg h0]
    have := Int.lt_ediv_add_one_mul_self (-e.downcount) hi
    omega
  · rw [if_neg hd]; omega

theorem mem_applyDowncount (time : Int) (l : List TimingEvent) (e : TimingEvent) :
    e ∈ applyDowncount time l ↔ ∃ x ∈ l, e = aged time x := by
  unfold applyDowncount
  rw [List.mem_map]
  constructor
  · rintro ⟨x, hx, rfl⟩; exact ⟨x, hx, rfl⟩
  · rintro ⟨x, hx, rfl⟩; exact ⟨x, hx, rfl⟩

theorem RunEvents_inert {D : Type} (fuel : Nat) (s : System D)
    (hh : IsHeap s.events) (hn : (s.events.map (fun e => e.id)).Nodup)
    (hi : ∀ e ∈ s.events, 0 < e.interval) (hne : s.events ≠ [])
    (hf : due (applyDowncount (elapsed s) s.events) < fuel) :
    ∃ s2 new, RunEvents (inertCallbacks D) fuel s = some s2 ∧ PassResult s s2 new ∧
      (s2.events.map (fun e => e.id)).Nodup ∧ (∀ e ∈ s2.events, 0 < e.interval) := by
  have hi1 : ∀ e ∈ applyDowncount (elapsed s) s.events, 0 < e.interval := by
    intro e he
    obtain ⟨x, hx, rfl⟩ := (mem_applyDowncount _ _ _).1 he
    exact hi x hx
  have hne1 : applyDowncount (elapsed s) s.events ≠ [] := by
    intro h
    have := length_applyDowncount (elapsed s) s.events
    rw [h] at this
    exact hne (List.length_eq_zero.1 this.symm)
  obtain ⟨s3, r1, r2, r3, ⟨new, r4, r5, r6⟩, r7⟩ :=
    runLoop_inert fuel
      { (beginRunEvents s).2 with events := applyDowncount (elapsed s) s.events }
      rfl (applyDowncount_isHeap _ _ hh) (by rw [ids_applyDowncount]; exact hn) hi1 hne1 hf
  have hpos : ∀ e ∈ s3.events, 0 < e.downcount := by
    intro e he
    obtain ⟨x, hx, rfl⟩ := List.mem_map.1 (r2.mem_iff.1 he)
    exact settled_downcount_pos x (hi1 x hx)
  have hids : (s3.events.map (fun e => e.id)).Nodup := by
    have hp := r2.map (fun e => e.id)
    rw [hp.nodup_iff, List.map_map]
    have : (fun e => e.id) ∘ settled = fun e : TimingEvent => e.id := by
      funext e
      simp only [Function.comp, settled]
      split <;> rfl
    rw [this, ids_applyDowncount]
    exact hn
  have hint : ∀ e ∈ s3.events, 0 < e.interval := by
    intro e he
    obtain ⟨x, hx, rfl⟩ := List.mem_map.1 (r2.mem_iff.1 he)
    have := hi1 x hx
    unfold settled
    split <;> exact this
  cases he3 : s3.events with
  | nil =>
    have := r2.length_eq
    rw [he3] at this
    simp at this
    exact absurd (List.length_eq_zero.1 (by
      rw [length_applyDowncount] at this; exact this.symm)) hne
  | cons e t =>
    refine ⟨{ s3 with running_events := false, cpu_downcount := e.downcount }, new, ?_, ?_, ?_, ?_⟩
    · unfold RunEvents
      show (match runLoop (inertCallbacks D) fuel
          { (beginRunEvents s).2 with events := applyDowncount (elapsed s) s.events } with
        | none => none
        | some s3 =>
          match s3.events with
          | [] => none
          | e :: _ => some { s3 with running_events := false, cpu_downcount := e.downcount }) = _
      rw [r1]
      simp only [he3]
    · refine ⟨r2, r3, r4, r5, ?_, ?_, hpos, ?_⟩
      · intro r hr
        obtain ⟨x, hx, hxid⟩ := r6 r hr
        obtain ⟨y, hy, rfl⟩ := (mem_applyDowncount _ _ _).1 hx
        exact ⟨y, hy, hxid⟩
      · show MinDowncount s3.events e.downcount
        rw [he3]
        exact heap_minDowncount e t (he3 ▸ r3)
      · conv_lhs => rw [r7]
        rfl
    · exact hids
    · exact hint

/-- With the last-event-run timestamp at the global tick counter, the elapsed time of
a pass is the number of pending ticks of the CPU, also across the wrap of the counter. -/
theorem elapsed_eq_pending {D : Type} (s : System D) (p : Int)
    (hp0 : 0 ≤ p) (hp1 : p < 2 ^ 31) (hl : s.last_event_run_time = s.global_tick_counter)
    (hg : s.global_tick_counter < 2 ^ 32) :
    elapsed { s with cpu_pending_ticks := p } = p := by
  unfold elapsed beginRunEvents toS32 toU32
  simp only [hl]
  have h1 : p % 2 ^ 32 = p := Int.emod_eq_of_lt hp0 (by omega)
  rw [h1]
  obtain ⟨n, rfl⟩ := Int.eq_ofNat_of_zero_le hp0
  simp only [Int.toNat_ofNat]
  have hn : n < 2 ^ 31 := by exact_mod_cast hp1
  split
  · omega
  · omega

theorem find?_id_of_mem (l : List TimingEvent) (hn : (l.map (fun e => e.id)).Nodup)
    (e : TimingEvent) (he : e ∈ l) :
    l.find? (fun x => decide (x.id = e.id)) = some e := by
  induction l with
  | nil => simp at he
  | cons a t ih =>
    rw [List.map_cons, List.nodup_cons] at hn
    rw [List.find?_cons]
    by_cases ha : a.id = e.id
    · simp only [ha, decide_True]
      rcases List.mem_cons.1 he with h | h
      · rw [h]
      · exact absurd (List.mem_map.2 ⟨e, h, ha.symm⟩) hn.1
    · simp only [ha, decide_False]
      rcases List.mem_cons.1 he with h | h
      · exact absurd (h ▸ rfl) ha
      · exact ih hn.2 h

theorem fireFront_events_perm {D : Type} (cb : Callbacks D) (evt : TimingEvent)
    (t : List TimingEvent) (s : System D) (he : s.events = evt :: t)
    (hn : (s.events.map (fun e => e.id)).Nodup)
    (hcb : ∀ (a b : Int) (x : System D), (cb evt.id a b x).events = x.events) :
    (fireFront cb evt s).events.Perm (serviced evt :: t) := by
  rw [he] at hn
  have hp : (modifyEvent evt.id serviced (pop_heap (evt :: t))).Perm (serviced evt :: t) := by
    rw [← modifyEvent_head evt t serviced hn]
    exact modifyEvent_perm _ _ _ _ (pop_heap_perm _)
  unfold fireFront
  simp only [he]
  split
  · simp only [hcb]
    exact (make_heap_perm _).trans hp
  · simp only [hcb]
    exact (push_heap_perm _).trans hp

theorem onTime_pass {D : Type} (s : System D) (id : Nat) (I : Int) (hI0 : 0 < I)
    (hI1 : I < 2 ^ 31) (inv : OnTimeInv s id I) :
    ∃ e fuel s2 new, s.events.find? (fun x => decide (x.id = id)) = some e ∧
      e.downcount = I ∧
      RunEvents (inertCallbacks D) fuel { s with cpu_pending_ticks := e.downcount } = some s2 ∧
      elapsed { s with cpu_pending_ticks := e.downcount } = I ∧
      s2.calls = s.calls ++ new ∧
      (callsOf id new).map (fun r => r.ticks_late) = [0] ∧
      s2.global_tick_counter = (s.global_tick_counter + I.toNat) % 2 ^ 32 ∧
      OnTimeInv s2 id I := by
  obtain ⟨hh, hn, hi, hl, hg, e, he, hid, hdc, hint⟩ := inv
  have hfind := find?_id_of_mem s.events hn e he
  rw [hid] at hfind
  have hel : elapsed { s with cpu_pending_ticks := e.downcount } = I := by
    rw [hdc]; exact elapsed_eq_pending s I (le_of_lt hI0) hI1 hl hg
  obtain ⟨s2, new, r1, ⟨p1, p2, p3, p4, p5, p6, p7, p8⟩, r3, r4⟩ :=
    RunEvents_inert
      (due (applyDowncount (elapsed { s with cpu_pending_ticks := e.downcount }) s.events) + 1)
      { s with cpu_pending_ticks := e.downcount } hh hn hi
      (List.ne_nil_of_mem he) (Nat.lt_succ_self _)
  simp only [hel] at p1 p4
  have happ : aged I e ∈ applyDowncount I s.events :=
    (mem_applyDowncount _ _ _).2 ⟨e, he, rfl⟩
  have hfn : firesNeeded (aged I e) = 1 := by
    unfold firesNeeded aged
    simp [hdc]
  refine ⟨e, _, s2, new, hfind, hdc, r1, hel, p3, ?_, ?_, p2, r3, r4, ?_, ?_, ?_⟩
  · have := p4 _ happ
    have hid2 : (aged I e).id = id := hid
    rw [hid2] at this
    rw [this]
    unfold firesOf
    rw [hfn]
    simp [recordsFrom, aged, hdc]
  · rw [p8]
    simp only [toU32]
    rw [hdc, Int.emod_eq_of_lt (le_of_lt hI0) (by omega)]
  · rw [p8]
  · rw [p8]
    exact Nat.mod_lt _ (by norm_num)
  · refine ⟨settled (aged I e), ?_, ?_, ?_, ?_⟩
    · exact p1.mem_iff.2 (List.mem_map.2 ⟨_, happ, rfl⟩)
    · unfold settled; split <;> exact hid
    · unfold settled
      rw [if_pos (by simp [aged, hdc]), hfn]
      simp [aged, hdc, hint]
    · unfold settled; split <;> exact hint

theorem onTimePasses_inert {D : Type} (N : Nat) (s : System D) (id : Nat) (I : Int)
    (hI0 : 0 < I) (hI1 : I < 2 ^ 31) (inv : OnTimeInv s id I) :
    ∃ fuels s2 new, fuels.length = N ∧
      onTimePasses (inertCallbacks D) id fuels s = some (s2, (N : Int) * I) ∧
      s2.calls = s.calls ++ new ∧
      (callsOf id new).map (fun r => r.ticks_late) = List.replicate N 0 ∧
      s2.global_tick_counter = (s.global_tick_counter + N * I.toNat) % 2 ^ 32 ∧
      OnTimeInv s2 id I := by
  induction N generalizing s with
  | zero =>
    refine ⟨[], s, [], rfl, ?_, by simp, rfl, ?_, inv⟩
    · simp [onTimePasses]
    · simp; exact (Nat.mod_eq_of_lt inv.2.2.2.2.1).symm
  | succ n ih =>
    obtain ⟨e, fuel, s1, new1, a1, a2, a3, a4, a5, a6, a7, a8⟩ := onTime_pass s id I hI0 hI1 inv
    obtain ⟨fuels, s2, new2, b1, b2, b3, b4, b5, b6⟩ := ih s1 a8
    refine ⟨fuel :: fuels, s2, new1 ++ new2, by simp [b1], ?_, ?_, ?_, ?_, b6⟩
    · unfold onTimePasses
      simp only [a1, a3, b2, a4]
      congr 2
      push_cast
      ring
    · rw [b3, a5, List.append_assoc]
    · unfold callsOf at a6 b4 ⊢
      rw [List.filter_append, List.map_append, a6, b4]
      rfl
    · rw [b5, a7]
      have hx : (n + 1) * I.toNat = n * I.toNat + I.toNat := by ring
      push_cast
      rw [hx]
      generalize n * I.toNat = X
      omega

/-! ## Lemmas on the serializer -/

theorem decodeU32_encodeU32 (v : Nat) (h : v < 2 ^ 32) : decodeU32 (encodeU32 v) = v := by
  show v % 256 % 256 + 256 * (v / 256 % 256 % 256) + 65536 * (v / 65536 % 256 % 256) +
    16777216 * (v / 16777216 % 256 % 256) = v
  omega

theorem toS32_toU32 (x : Int) (h : InS32 x) : toS32 (toU32 x) = x := by
  unfold InS32 at h
  unfold toS32 toU32
  have h0 : 0 ≤ x % 2 ^ 32 := Int.emod_nonneg _ (by norm_num)
  have h1 : x % 2 ^ 32 < 2 ^ 32 := Int.emod_lt_of_pos _ (by norm_num)
  have hm : (x % 2 ^ 32).toNat % 2 ^ 32 = (x % 2 ^ 32).toNat := by
    apply Nat.mod_eq_of_lt
    omega
  rw [hm]
  have hc : (((x % 2 ^ 32).toNat : Nat) : Int) = x % 2 ^ 32 := Int.toNat_of_nonneg h0
  split
  · rw [hc]; omega
  · rw [hc]; omega

theorem length_encodeU32 (v : Nat) : (encodeU32 v).length = 4 := rfl

theorem bytesString_stringBytes (v : String) (h : ∀ c ∈ v.data, c.toNat < 256) :
    bytesString (stringBytes v) = v := by
  unfold bytesString stringBytes
  rw [List.map_map]
  have : v.data.map ((fun b => Char.ofNat (b % 256)) ∘ fun c => c.toNat % 256) = v.data := by
    conv_rhs => rw [← List.map_id v.data]
    apply List.map_congr_left
    intro c hc
    simp only [Function.comp, id]
    have := h c hc
    rw [Nat.mod_mod, Nat.mod_eq_of_lt this]
    exact Char.ofNat_toNat c
  rw [this]

theorem length_stringBytes (v : String) : (stringBytes v).length = v.length := by
  unfold stringBytes
  rw [List.length_map]
  cases v
  rfl

theorem c_str_of_CName (v : String) (h : CName v) : c_str v = v := by
  unfold c_str
  have : v.data.takeWhile (fun c => decide (c.toNat ≠ 0)) = v.data := by
    rw [List.takeWhile_eq_self_iff]
    intro c hc
    simpa using (h.2 c hc).1
  rw [this]

theorem Read2_of_remaining (st : ByteStream) (bs rest : List Nat)
    (hp : st.pos ≤ st.data.length) (h : st.data.drop st.pos = bs ++ rest) :
    st.Read2 bs.length = some (bs, { st with pos := st.pos + bs.length }) ∧
    st.pos + bs.length ≤ st.data.length ∧
    st.data.drop (st.pos + bs.length) = rest := by
  have hlen : (st.data.drop st.pos).length = bs.length + rest.length := by
    rw [h, List.length_append]
  rw [List.length_drop] at hlen
  have hdrop : st.data.drop (st.pos + bs.length) = rest := by
    rw [← List.drop_drop, h, List.drop_left]
  refine ⟨?_, by omega, hdrop⟩
  unfold ByteStream.Read2
  rw [if_pos (by omega), h, List.take_left]

theorem read_DoBytes (sw : StateWrapper) (bs rest x : List Nat)
    (h : ReadyAt sw (bs ++ rest)) :
    ∃ sw2, sw.DoBytes bs.length x = (some bs, sw2) ∧ ReadyAt sw2 rest := by
  obtain ⟨hm, he, hp, hr⟩ := h
  obtain ⟨r1, r2, r3⟩ := Read2_of_remaining sw.stream bs rest hp hr
  refine ⟨{ sw with stream := { sw.stream with pos := sw.stream.pos + bs.length } }, ?_,
    hm, he, r2, r3⟩
  unfold StateWrapper.DoBytes
  rw [hm]
  simp only [he, r1, Bool.false_eq_true, if_false]

theorem read_DoU32 (sw : StateWrapper) (v x : Nat) (rest : List Nat) (hv : v < 2 ^ 32)
    (h : ReadyAt sw (encodeU32 v ++ rest)) :
    ∃ sw2, sw.DoU32 x = (v, sw2) ∧ ReadyAt sw2 rest := by
  obtain ⟨sw2, h1, h2⟩ := read_DoBytes sw (encodeU32 v) rest (encodeU32 x) h
  rw [length_encodeU32] at h1
  refine ⟨sw2, ?_, h2⟩
  unfold StateWrapper.DoU32
  rw [h1]
  simp only [decodeU32_encodeU32 v hv]

theorem read_DoS32 (sw : StateWrapper) (v x : Int) (rest : List Nat) (hv : InS32 v)
    (h : ReadyAt sw (encS32 v ++ rest)) :
    ∃ sw2, sw.DoS32 x = (v, sw2) ∧ ReadyAt sw2 rest := by
  unfold encS32 at h
  obtain ⟨sw2, h1, h2⟩ := read_DoBytes sw (encodeU32 (toU32 v)) rest (encodeU32 (toU32 x)) h
  rw [length_encodeU32] at h1
  refine ⟨sw2, ?_, h2⟩
  unfold StateWrapper.DoS32
  rw [h1]
  have hu : toU32 v < 2 ^ 32 := by
    unfold toU32
    have h1 : v % 2 ^ 32 < 2 ^ 32 := Int.emod_lt_of_pos _ (by norm_num)
    have h0 : 0 ≤ v % 2 ^ 32 := Int.emod_nonneg _ (by norm_num)
    omega
  simp only [decodeU32_encodeU32 _ hu, toS32_toU32 v hv]

theorem read_DoString (sw : StateWrapper) (v x : String) (rest : List Nat) (hv : CName v)
    (h : ReadyAt sw (encString v ++ rest)) :
    ∃ sw2, sw.DoString x = (v, sw2) ∧ ReadyAt sw2 rest := by
  unfold encString at h
  rw [List.append_assoc] at h
  obtain ⟨sw1, h1, h2⟩ := read_DoU32 sw v.length x.length _ hv.1 h
  obtain ⟨sw2, h3, h4⟩ := read_DoBytes sw1 (stringBytes v) rest (stringBytes x) h2
  rw [length_stringBytes] at h3
  refine ⟨sw2, ?_, h4⟩
  unfold StateWrapper.DoString
  simp only [h1, h3]
  rw [bytesString_stringBytes v (fun c hc => (hv.2 c hc).2)]

theorem read_DoMarker (sw : StateWrapper) (marker : String) (rest : List Nat)
    (hv : CName marker) (h : ReadyAt sw (encString marker ++ rest)) :
    ∃ sw2, sw.DoMarker marker = (true, sw2) ∧ ReadyAt sw2 rest := by
  obtain ⟨sw2, h1, h2⟩ := read_DoString sw marker marker rest hv h
  refine ⟨sw2, ?_, h2⟩
  unfold StateWrapper.DoMarker
  simp only [h1, h2.2.1, h.1]
  simp

theorem write_DoBytes (sw : StateWrapper) (n : Nat) (bs : List Nat) (h : AtEnd sw) :
    ∃ sw2, sw.DoBytes n bs = (none, sw2) ∧ Appended sw bs sw2 := by
  obtain ⟨hm, he, hp⟩ := h
  refine ⟨{ sw with stream := sw.stream.Write2 bs }, ?_, ?_, hm, he, ?_⟩
  · unfold StateWrapper.DoBytes; rw [hm]
  · simp [ByteStream.Write2, hp]
  · simp [ByteStream.Write2, hp]

theorem write_DoU32 (sw : StateWrapper) (v : Nat) (h : AtEnd sw) :
    ∃ sw2, sw.DoU32 v = (v, sw2) ∧ Appended sw (encodeU32 v) sw2 := by
  obtain ⟨sw2, h1, h2⟩ := write_DoBytes sw 4 (encodeU32 v) h
  exact ⟨sw2, by unfold StateWrapper.DoU32; rw [h1], h2⟩

theorem write_DoS32 (sw : StateWrapper) (v : Int) (h : AtEnd sw) :
    ∃ sw2, sw.DoS32 v = (v, sw2) ∧ Appended sw (encS32 v) sw2 := by
  obtain ⟨sw2, h1, h2⟩ := write_DoBytes sw 4 (encodeU32 (toU32 v)) h
  exact ⟨sw2, by unfold StateWrapper.DoS32; rw [h1], h2⟩

theorem Appended_trans (a b c : StateWrapper) (x y : List Nat) (h1 : Appended a x b)
    (h2 : Appended b y c) : Appended a (x ++ y) c :=
  ⟨by rw [h2.1, h1.1, List.append_assoc], h2.2⟩

theorem write_DoString (sw : StateWrapper) (v : String) (h : AtEnd sw) :
    ∃ sw2, sw.DoString v = (v, sw2) ∧ Appended sw (encString v) sw2 := by
  obtain ⟨sw1, h1, h2⟩ := write_DoU32 sw v.length h
  obtain ⟨sw2, h3, h4⟩ := write_DoBytes sw1 v.length (stringBytes v) h2.2
  refine ⟨sw2, ?_, Appended_trans _ _ _ _ _ h2 h4⟩
  unfold StateWrapper.DoString
  simp only [h1, h3]

theorem write_DoMarker (sw : StateWrapper) (marker : String) (h : AtEnd sw) :
    ∃ sw2, sw.DoMarker marker = (true, sw2) ∧ Appended sw (encString marker) sw2 := by
  obtain ⟨sw2, h1, h2⟩ := write_DoString sw marker h
  refine ⟨sw2, ?_, h2⟩
  unfold StateWrapper.DoMarker
  simp only [h1, h2.2.2.1, h.1]
  simp

/-! ## The reading loop as a map over the active set -/

theorem applyRecord_id (r : EventRecord) (e : TimingEvent) : (applyRecord r e).id = e.id := by
  unfold applyRecord; split <;> rfl

theorem applyRecord_name (r : EventRecord) (e : TimingEvent) :
    (applyRecord r e).name = e.name := by
  unfold applyRecord; split <;> rfl

theorem applyRecords_cons (r : EventRecord) (rs : List EventRecord) (e : TimingEvent) :
    applyRecords (r :: rs) e = applyRecords rs (applyRecord r e) := rfl

theorem applyRecords_append (rs1 rs2 : List EventRecord) (e : TimingEvent) :
    applyRecords (rs1 ++ rs2) e = applyRecords rs2 (applyRecords rs1 e) := by
  unfold applyRecords; rw [List.foldl_append]

theorem applyRecords_id (rs : List EventRecord) (e : TimingEvent) :
    (applyRecords rs e).id = e.id := by
  induction rs generalizing e with
  | nil => rfl
  | cons r rs ih => rw [applyRecords_cons, ih, applyRecord_id]

theorem applyRecords_name (rs : List EventRecord) (e : TimingEvent) :
    (applyRecords rs e).name = e.name := by
  induction rs generalizing e with
  | nil => rfl
  | cons r rs ih => rw [applyRecords_cons, ih, applyRecord_name]

theorem unique_of_nodup_name (l : List TimingEvent) (hn : (l.map (fun e => e.name)).Nodup)
    (x y : TimingEvent) (hx : x ∈ l) (hy : y ∈ l) (h : x.name = y.name) : x = y :=
  List.inj_on_of_nodup_map hn hx hy h

theorem modifyEvent_eq_map_applyRecord (l : List TimingEvent) (r : EventRecord)
    (event : TimingEvent) (hid : (l.map (fun e => e.id)).Nodup)
    (hname : (l.map (fun e => e.name)).Nodup)
    (hfind : l.find? (fun ev => decide (ev.name = c_str r.name)) = some event) :
    modifyEvent event.id
      (restoreFields r.downcount r.time_since_last_run r.period r.interval) l =
      l.map (applyRecord r) := by
  have hmem : event ∈ l := List.mem_of_find?_eq_some hfind
  have hev : event.name = c_str r.name := by
    have := List.find?_some hfind
    simpa using this
  unfold modifyEvent
  apply List.map_congr_left
  intro e he
  unfold applyRecord
  by_cases h : e.id = event.id
  · have := unique_of_nodup_id l hid e event he hmem h
    rw [if_pos h, if_pos (by rw [this]; exact hev)]
  · rw [if_neg h, if_neg]
    intro hn
    exact h (by rw [unique_of_nodup_name l hname e event he hmem (hn.trans hev.symm)])

theorem map_applyRecord_of_none (l : List TimingEvent) (r : EventRecord)
    (hfind : l.find? (fun ev => decide (ev.name = c_str r.name)) = none) :
    l.map (applyRecord r) = l := by
  conv_rhs => rw [← List.map_id l]
  apply List.map_congr_left
  intro e he
  have := List.find?_eq_none.1 hfind e he
  unfold applyRecord
  rw [if_neg (by simpa using this)]
  rfl

theorem map_applyRecords_nil (l : List TimingEvent) : l.map (applyRecords []) = l := by
  have : applyRecords [] = id := rfl
  rw [this, List.map_id]

theorem readEventRecords_eq_parse {D : Type} (n : Nat) (sw : StateWrapper) (s : System D)
    (hid : (s.events.map (fun e => e.id)).Nodup)
    (hname : (s.events.map (fun e => e.name)).Nodup) :
    readEventRecords n sw s =
      ((parseRecords n sw).1, (parseRecords n sw).2.1,
        { s with events := s.events.map (applyRecords (parseRecords n sw).2.2) }) := by
  induction n generalizing sw s with
  | zero =>
    unfold readEventRecords parseRecords
    simp only [map_applyRecords_nil]
  | succ n ih =>
    unfold readEventRecords parseRecords
    simp only
    split
    · simp only [map_applyRecords_nil]
    · generalize hr : (⟨(sw.DoString "").1, ((sw.DoString "").2.DoS32 0).1,
          (((sw.DoString "").2.DoS32 0).2.DoS32 0).1,
          ((((sw.DoString "").2.DoS32 0).2.DoS32 0).2.DoS32 0).1,
          (((((sw.DoString "").2.DoS32 0).2.DoS32 0).2.DoS32 0).2.DoS32 0).1⟩ : EventRecord) = r
      have hrn : (sw.DoString "").1 = r.name := by rw [← hr]
      have hr1 : ((sw.DoString "").2.DoS32 0).1 = r.downcount := by rw [← hr]
      have hr2 : (((sw.DoString "").2.DoS32 0).2.DoS32 0).1 = r.time_since_last_run := by
        rw [← hr]
      have hr3 : ((((sw.DoString "").2.DoS32 0).2.DoS32 0).2.DoS32 0).1 = r.period := by
        rw [← hr]
      have hr4 : (((((sw.DoString "").2.DoS32 0).2.DoS32 0).2.DoS32 0).2.DoS32 0).1
          = r.interval := by rw [← hr]
      simp only [FindActiveEvent, hrn, hr1, hr2, hr3, hr4]
      cases hfind : s.events.find? (fun ev => decide (ev.name = c_str r.name)) with
      | none =>
        simp only
        rw [ih _ s hid hname]
        have hmap : s.events.map (applyRecords (r ::
            (parseRecords n (((((sw.DoString "").2.DoS32 0).2.DoS32 0).2.DoS32 0).2.DoS32
              0).2).2.2)) =
            s.events.map (applyRecords
              (parseRecords n (((((sw.DoString "").2.DoS32 0).2.DoS32 0).2.DoS32 0).2.DoS32
                0).2).2.2) := by
          apply List.map_congr_left
          intro e he
          have hne := List.find?_eq_none.1 hfind e he
          rw [applyRecords_cons]
          unfold applyRecord
          rw [if_neg (by simpa using hne)]
        rw [hmap]
      | some event =>
        simp only
        rw [modifyEvent_eq_map_applyRecord s.events r event hid hname hfind]
        rw [ih _ _ (by
            simp only [List.map_map]
            have : ((fun e => e.id) ∘ applyRecord r) = fun e : TimingEvent => e.id := by
              funext e; exact applyRecord_id r e
            rw [this]; exact hid) (by
            simp only [List.map_map]
            have : ((fun e => e.name) ∘ applyRecord r) = fun e : TimingEvent => e.name := by
              funext e; exact applyRecord_name r e
            rw [this]; exact hname)]
        simp only [List.map_map]
        rfl

/-! ## Writing the events and reading them back -/

theorem writeEventRecords_appended (l : List TimingEvent) (sw : StateWrapper)
    (h : AtEnd sw) : Appended sw (encEvents l) (writeEventRecords l sw) := by
  induction l generalizing sw with
  | nil => exact ⟨by simp [encEvents, writeEventRecords], h⟩
  | cons e rest ih =>
    unfold writeEventRecords
    obtain ⟨sw1, a1, b1⟩ := write_DoString sw e.name h
    obtain ⟨sw2, a2, b2⟩ := write_DoS32 sw1 e.downcount b1.2
    obtain ⟨sw3, a3, b3⟩ := write_DoS32 sw2 e.time_since_last_run b2.2
    obtain ⟨sw4, a4, b4⟩ := write_DoS32 sw3 e.period b3.2
    obtain ⟨sw5, a5, b5⟩ := write_DoS32 sw4 e.interval b4.2
    simp only [a1, a2, a3, a4, a5]
    have hrec : Appended sw (encEvent e) sw5 := by
      unfold encEvent
      exact Appended_trans _ _ _ _ _
        (Appended_trans _ _ _ _ _ (Appended_trans _ _ _ _ _
          (Appended_trans _ _ _ _ _ b1 b2) b3) b4) b5
    exact Appended_trans _ _ _ _ _ hrec (ih sw5 b5.2)

theorem DoEventsState_write {D : Type} (sw : StateWrapper) (s : System D) (h : AtEnd sw) :
    ∃ sw2, DoEventsState sw s = (true, sw2, s) ∧
      Appended sw (encodeU32 (s.events.length % 2 ^ 32) ++ encEvents s.events ++
        encodeU32 s.last_event_run_time) sw2 := by
  obtain ⟨sw1, a1, b1⟩ := write_DoU32 sw (s.events.length % 2 ^ 32) h
  have b2 := writeEventRecords_appended s.events sw1 b1.2
  obtain ⟨sw3, a3, b3⟩ := write_DoU32 (writeEventRecords s.events sw1) s.last_event_run_time b2.2
  refine ⟨sw3, ?_, Appended_trans _ _ _ _ _ (Appended_trans _ _ _ _ _ b1 b2) b3⟩
  unfold DoEventsState
  simp only [StateWrapper.IsReading, h.1, a1, a3, StateWrapper.HasError, b3.2.2.1]
  simp

theorem parseRecords_written (l : List TimingEvent) (sw : StateWrapper) (rest : List Nat)
    (hl : ∀ e ∈ l, Storable e) (h : ReadyAt sw (encEvents l ++ rest)) :
    ∃ sw2, parseRecords l.length sw = (true, sw2, l.map recordOf) ∧ ReadyAt sw2 rest := by
  induction l generalizing sw with
  | nil => exact ⟨sw, rfl, by simpa [encEvents] using h⟩
  | cons e t ih =>
    obtain ⟨c1, c2, c3, c4, c5⟩ := hl e (List.mem_cons_self _ _)
    have h0 : ReadyAt sw (encString e.name ++ (encS32 e.downcount ++
        (encS32 e.time_since_last_run ++ (encS32 e.period ++ (encS32 e.interval ++
          (encEvents t ++ rest)))))) := by
      simpa [encEvents, encEvent, List.append_assoc] using h
    obtain ⟨sw1, a1, b1⟩ := read_DoString sw e.name "" _ c1 h0
    obtain ⟨sw2, a2, b2⟩ := read_DoS32 sw1 e.downcount 0 _ c2 b1
    obtain ⟨sw3, a3, b3⟩ := read_DoS32 sw2 e.time_since_last_run 0 _ c3 b2
    obtain ⟨sw4, a4, b4⟩ := read_DoS32 sw3 e.period 0 _ c4 b3
    obtain ⟨sw5, a5, b5⟩ := read_DoS32 sw4 e.interval 0 _ c5 b4
    obtain ⟨sw6, a6, b6⟩ := ih sw5 (fun x hx => hl x (List.mem_cons_of_mem _ hx)) b5
    refine ⟨sw6, ?_, b6⟩
    rw [List.length_cons]
    unfold parseRecords
    simp only [a1, a2, a3, a4, a5, StateWrapper.HasError, b5.2.1, a6]
    simp [recordOf]

theorem applyRecord_recordOf (l : List TimingEvent) (hname : (l.map (fun e => e.name)).Nodup)
    (hc : ∀ e ∈ l, CName e.name) (x e : TimingEvent) (hx : x ∈ l) (he : e ∈ l) :
    applyRecord (recordOf x) e = e := by
  unfold applyRecord
  split
  · next h =>
    have hxe : e = x := by
      apply unique_of_nodup_name l hname e x he hx
      rw [h]
      exact c_str_of_CName x.name (hc x hx)
    subst hxe
    rfl
  · rfl

theorem applyRecords_recordOf (l : List TimingEvent)
    (hname : (l.map (fun e => e.name)).Nodup) (hc : ∀ e ∈ l, CName e.name)
    (l2 : List TimingEvent) (hsub : ∀ x ∈ l2, x ∈ l) (e : TimingEvent) (he : e ∈ l) :
    applyRecords (l2.map recordOf) e = e := by
  induction l2 with
  | nil => rfl
  | cons x t ih =>
    rw [List.map_cons, applyRecords_cons,
      applyRecord_recordOf l hname hc x e (hsub x (List.mem_cons_self _ _)) he]
    exact ih (fun y hy => hsub y (List.mem_cons_of_mem _ hy))

theorem DoEventsState_read_parse {D : Type} (sw : StateWrapper) (s : System D)
    (hm : sw.mode = Mode.Read) (hid : (s.events.map (fun e => e.id)).Nodup)
    (hname : (s.events.map (fun e => e.name)).Nodup) :
    DoEventsState sw s =
      match parseRecords (sw.DoU32 0).1 (sw.DoU32 0).2 with
      | (false, sw2, rs) => (false, sw2, { s with events := s.events.map (applyRecords rs) })
      | (true, sw2, rs) =>
        (!(sw2.DoU32 s.last_event_run_time).2.HasError, (sw2.DoU32 s.last_event_run_time).2,
          SortEvents { s with events := s.events.map (applyRecords rs),
                              last_event_run_time := (sw2.DoU32 s.last_event_run_time).1 }) := by
  unfold DoEventsState
  simp only [StateWrapper.IsReading, hm, decide_True, if_true]
  rw [readEventRecords_eq_parse _ _ s hid hname]
  cases h : parseRecords (sw.DoU32 0).1 (sw.DoU32 0).2 with
  | mk ok p =>
    cases p with
    | mk sw2 rs =>
      cases ok <;> rfl

theorem DoEventsState_read_back {D : Type} (sw : StateWrapper) (s : System D) (t : Nat)
    (rest : List Nat) (hid : (s.events.map (fun e => e.id)).Nodup)
    (hname : (s.events.map (fun e => e.name)).Nodup) (hst : ∀ e ∈ s.events, Storable e)
    (hlen : s.events.length < 2 ^ 32) (ht : t < 2 ^ 32)
    (h : ReadyAt sw (encodeU32 (s.events.length % 2 ^ 32) ++ encEvents s.events ++
      encodeU32 t ++ rest)) :
    ∃ sw2, DoEventsState sw s = (true, sw2, SortEvents { s with last_event_run_time := t }) ∧
      ReadyAt sw2 rest := by
  rw [Nat.mod_eq_of_lt hlen, List.append_assoc, List.append_assoc] at h
  obtain ⟨sw1, a1, b1⟩ := read_DoU32 sw s.events.length 0 _ hlen h
  obtain ⟨sw2, a2, b2⟩ := parseRecords_written s.events sw1 _ hst b1
  obtain ⟨sw3, a3, b3⟩ := read_DoU32 sw2 t s.last_event_run_time _ ht b2
  refine ⟨sw3, ?_, b3⟩
  rw [DoEventsState_read_parse sw s h.1 hid hname]
  simp only [a1, a2, a3, StateWrapper.HasError, b3.2.1]
  have hmap : s.events.map (applyRecords (s.events.map recordOf)) = s.events := by
    conv_rhs => rw [← List.map_id s.events]
    apply List.map_congr_left
    intro e he
    exact applyRecords_recordOf s.events hname (fun x hx => (hst x hx).1) s.events
      (fun x hx => hx) e he
  rw [hmap]
  rfl

/-! ## Writing a whole state and reading it back -/

theorem SameButDevices_refl {D : Type} (s : System D) : SameButDevices s s := rfl

theorem SameButDevices_trans {D : Type} (a b c : System D) (h1 : SameButDevices a b)
    (h2 : SameButDevices b c) : SameButDevices a c := by
  unfold SameButDevices at *
  rw [h2, h1]

theorem componentState_roundTrips {D : Type} (env : Components D) (henv : RoundTrips env)
    (marker : String) (hm : CName marker) (s : System D) :
    StepRoundTrips (componentState env marker) s SameButDevices := by
  intro w hw
  obtain ⟨w1, a1, b1⟩ := write_DoMarker w marker hw
  obtain ⟨bs, w2, a2, b2, c2⟩ := henv.2 marker s w1 b1.2
  refine ⟨encString marker ++ bs, w2, ?_, Appended_trans _ _ _ _ _ b1 b2, ?_⟩
  · unfold componentState
    simp only [a1, a2]
  · intro r rest s2 hr hs
    rw [List.append_assoc] at hr
    obtain ⟨r1, d1, e1⟩ := read_DoMarker r marker _ hm hr
    obtain ⟨r2, s3, d2, e2, f2⟩ := c2 r1 rest s2 e1 hs
    refine ⟨r2, s3, ?_, e2, f2⟩
    unfold componentState
    simp only [d1, d2]

theorem componentStates_roundTrips {D : Type} (env : Components D) (henv : RoundTrips env)
    (markers : List String) (hm : ∀ m ∈ markers, CName m) (s : System D) :
    StepRoundTrips (componentStates env markers) s SameButDevices := by
  induction markers with
  | nil =>
    intro w hw
    refine ⟨[], w, rfl, ⟨by simp, hw⟩, ?_⟩
    intro r rest s2 hr _
    exact ⟨r, s2, rfl, by simpa using hr, SameButDevices_refl s2⟩
  | cons m ms ih =>
    intro w hw
    obtain ⟨bs1, w1, a1, b1, c1⟩ :=
      componentState_roundTrips env henv m (hm m (List.mem_cons_self _ _)) s w hw
    obtain ⟨bs2, w2, a2, b2, c2⟩ := ih (fun x hx => hm x (List.mem_cons_of_mem _ hx)) w1 b1.2
    refine ⟨bs1 ++ bs2, w2, ?_, Appended_trans _ _ _ _ _ b1 b2, ?_⟩
    · unfold componentStates
      simp only [a1, a2]
    · intro r rest s2 hr hs
      rw [List.append_assoc] at hr
      obtain ⟨r1, s3, d1, e1, f1⟩ := c1 r _ s2 hr hs
      obtain ⟨r2, s4, d2, e2, f2⟩ := c2 r1 rest s3 e1 (SameButDevices_trans _ _ _ hs f1)
      refine ⟨r2, s4, ?_, e2, SameButDevices_trans _ _ _ f1 f2⟩
      unfold componentStates
      simp only [d1, d2]

theorem componentsAfterCPU_CName : ∀ m ∈ componentsAfterCPU, CName m := by decide

theorem SameButDevices_fields {D : Type} (s s2 : System D) (h : SameButDevices s s2) :
    s2.events = s.events ∧ s2.region = s.region ∧ s2.frame_number = s.frame_number ∧
    s2.internal_frame_number = s.internal_frame_number ∧
    s2.global_tick_counter = s.global_tick_counter ∧
    s2.last_event_run_time = s.last_event_run_time ∧
    s2.running_events = s.running_events ∧ s2.frame_done = s.frame_done := by
  unfold SameButDevices at h
  rw [h]
  exact ⟨rfl, rfl, rfl, rfl, rfl, rfl, rfl, rfl⟩

theorem DoState_roundTrips {D : Type} (env : Components D) (henv : RoundTrips env)
    (s : System D) (hs : Saveable s) :
    StepRoundTrips (DoState env) s
      (fun s2 s3 => ∃ s4, SameButDevices s2 s4 ∧ s3 = SortEvents s4) := by
  obtain ⟨u1, u2, u3, u4, u5, u6, hid, hname, hst⟩ := hs
  intro w hw
  obtain ⟨w0, a0, b0⟩ := write_DoMarker w "System" hw
  obtain ⟨w1, a1, b1⟩ := write_DoU32 w0 s.region b0.2
  obtain ⟨w2, a2, b2⟩ := write_DoU32 w1 s.frame_number b1.2
  obtain ⟨w3, a3, b3⟩ := write_DoU32 w2 s.internal_frame_number b2.2
  obtain ⟨w4, a4, b4⟩ := write_DoU32 w3 s.global_tick_counter b3.2
  obtain ⟨bsC, w5, a5, b5, c5⟩ :=
    componentState_roundTrips env henv "CPU" (by decide) s w4 b4.2
  obtain ⟨bsR, w6, a6, b6, c6⟩ :=
    componentStates_roundTrips env henv componentsAfterCPU componentsAfterCPU_CName s w5 b5.2
  obtain ⟨w7, a7, b7⟩ := write_DoMarker w6 "Events" b6.2
  obtain ⟨w8, a8, b8⟩ := DoEventsState_write w7 s b7.2
  refine ⟨_, w8, ?_,
    Appended_trans _ _ _ _ _ (Appended_trans _ _ _ _ _ (Appended_trans _ _ _ _ _
      (Appended_trans _ _ _ _ _ (Appended_trans _ _ _ _ _ (Appended_trans _ _ _ _ _
        (Appended_trans _ _ _ _ _ (Appended_trans _ _ _ _ _ b0 b1) b2) b3) b4) b5) b6) b7) b8,
    ?_⟩
  · unfold DoState
    have hnr : w5.IsReading = false := by
      unfold StateWrapper.IsReading; rw [b5.2.1]; rfl
    have hs1eq : ({ s with region := s.region, frame_number := s.frame_number,
                           internal_frame_number := s.internal_frame_number,
                           global_tick_counter := s.global_tick_counter } : System D) = s := rfl
    simp only [a0, a1, a2, a3, a4, hs1eq, a5, hnr, Bool.false_eq_true, ↓reduceIte, a6, a7,
      a8, StateWrapper.HasError, b8.2.2.1]
    simp
  · intro r rest s2 hr hsame
    obtain ⟨e1, e2, e3, e4, e5, e6, _, _⟩ := SameButDevices_fields s s2 hsame
    simp only [List.append_assoc] at hr
    obtain ⟨r0, d0, f0⟩ := read_DoMarker r "System" _ (by decide) hr
    obtain ⟨r1, d1, f1⟩ := read_DoU32 r0 s.region s2.region _ u1 f0
    obtain ⟨r2, d2, f2⟩ := read_DoU32 r1 s.frame_number s2.frame_number _ u2 f1
    obtain ⟨r3, d3, f3⟩ :=
      read_DoU32 r2 s.internal_frame_number s2.internal_frame_number _ u3 f2
    obtain ⟨r4, d4, f4⟩ := read_DoU32 r3 s.global_tick_counter s2.global_tick_counter _ u4 f3
    obtain ⟨r5, s3, d5, f5, g5⟩ := c5 r4 _ s2 f4 hsame
    have hflush := henv.1 s3
    have hs3 : SameButDevices s (env.FlushCodeCache s3) :=
      SameButDevices_trans _ _ _ (SameButDevices_trans _ _ _ hsame g5) hflush
    obtain ⟨r6, s4, d6, f6, g6⟩ := c6 r5 _ (env.FlushCodeCache s3) f5 hs3
    obtain ⟨r7, d7, f7⟩ := read_DoMarker r6 "Events" _ (by decide) f6
    have hs4 : SameButDevices s s4 := SameButDevices_trans _ _ _ hs3 g6
    obtain ⟨k1, _, _, _, _, k6, _, _⟩ := SameButDevices_fields s s4 hs4
    have f7b : ReadyAt r7 (encodeU32 (s4.events.length % 2 ^ 32) ++ encEvents s4.events ++
        encodeU32 s.last_event_run_time ++ rest) := by
      rw [k1]
      simpa [List.append_assoc] using f7
    obtain ⟨r8, d8, f8⟩ := DoEventsState_read_back r7 s4 s.last_event_run_time rest
      (by rw [k1]; exact hid) (by rw [k1]; exact hname) (by rw [k1]; exact hst)
      (by rw [k1]; exact u6) u5 f7b
    have hs2eq : ({ s2 with region := s.region, frame_number := s.frame_number,
                            internal_frame_number := s.internal_frame_number,
                            global_tick_counter := s.global_tick_counter } : System D) = s2 := by
      rw [← e2, ← e3, ← e4, ← e5]
    have hs4eq : ({ s4 with last_event_run_time := s.last_event_run_time } : System D) = s4 := by
      rw [← k6]
    refine ⟨r8, SortEvents s4, ?_, f8, s4, ?_, rfl⟩
    · unfold DoState
      have hrd : r5.IsReading = true := by
        unfold StateWrapper.IsReading; rw [f5.1]; rfl
      simp only [d0, d1, d2, d3, d4, hs2eq, d5, hrd, ↓reduceIte, d6, d7, d8, hs4eq,
        StateWrapper.HasError, f8.2.1]
      simp
    · exact SameButDevices_trans _ _ _ (SameButDevices_trans _ _ _ g5 hflush) g6

theorem SortEvents_fields {D : Type} (s : System D) :
    (SortEvents s).region = s.region ∧ (SortEvents s).frame_number = s.frame_number ∧
    (SortEvents s).internal_frame_number = s.internal_frame_number ∧
    (SortEvents s).global_tick_counter = s.global_tick_counter ∧
    (SortEvents s).last_event_run_time = s.last_event_run_time := by
  unfold SortEvents UpdateCPUDowncount
  cases s.running_events <;> cases s.frame_done <;> simp <;> split <;> simp

theorem registerComponents_roundTrips : RoundTrips registerComponents := by
  refine ⟨fun s => SameButDevices_refl s, ?_⟩
  intro marker s w hw
  obtain ⟨w2, a, b⟩ := write_DoU32 w s.devices hw
  refine ⟨encodeU32 s.devices, w2, ?_, b, ?_⟩
  · show (true, (w.DoU32 s.devices).2, { s with devices := (w.DoU32 s.devices).1 }) = _
    rw [a]
  · intro r rest s2 hr _
    obtain ⟨r2, c, d⟩ := read_DoBytes r (encodeU32 s.devices) rest (encodeU32 s2.devices) hr
    rw [length_encodeU32] at c
    refine ⟨r2, { s2 with devices := decodeU32 (encodeU32 s.devices) }, ?_, d, rfl⟩
    show (true, (r.DoU32 s2.devices).2, { s2 with devices := (r.DoU32 s2.devices).1 }) = _
    unfold StateWrapper.DoU32
    rw [c]


/-! ## Loading twice -/

theorem siftDown_of_subheap (fuel : Nat) (l : List TimingEvent) (i : Nat)
    (h : IsHeap l) : siftDown fuel l l.length i = l := by
  cases fuel with
  | zero => rfl
  | succ f =>
    unfold siftDown
    split
    · next hc =>
      obtain ⟨c1, c2, _, _⟩ := firstChild_spec l l.length i hc
      rw [if_neg]
      rw [CompareEvents_iff]
      have := h (firstChild l l.length i) c2 (by omega)
      have hp : (firstChild l l.length i - 1) / 2 = i := by omega
      rw [hp] at this
      omega
    · rfl

theorem heapifyFrom_of_isHeap (k : Nat) (l : List TimingEvent) (h : IsHeap l) :
    heapifyFrom k l = l := by
  induction k with
  | zero => rfl
  | succ k ih =>
    unfold heapifyFrom
    rw [siftDown_of_subheap _ l k h]
    exact ih

/-- The bottom-up construction leaves a heap as it is. -/
theorem make_heap_of_isHeap (l : List TimingEvent) (h : IsHeap l) : make_heap l = l :=
  heapifyFrom_of_isHeap _ l h

theorem applyRecord_absorb (r : EventRecord) (x y : TimingEvent) (hid : x.id = y.id)
    (hname : x.name = y.name) (hm : x.name = c_str r.name) :
    applyRecord r x = applyRecord r y := by
  unfold applyRecord
  rw [if_pos hm, if_pos (hname ▸ hm)]
  unfold restoreFields
  rw [hid, hname]

theorem applyRecords_idem (rs : List EventRecord) (e : TimingEvent) :
    applyRecords rs (applyRecords rs e) = applyRecords rs e := by
  induction rs using List.reverseRecOn generalizing e with
  | nil => rfl
  | append_singleton rs r ih =>
    rw [applyRecords_append, applyRecords_append]
    show applyRecord r (applyRecords rs (applyRecord r (applyRecords rs e))) =
      applyRecord r (applyRecords rs e)
    by_cases hm : e.name = c_str r.name
    · apply applyRecord_absorb
      · rw [applyRecords_id, applyRecord_id]
      · rw [applyRecords_name, applyRecord_name]
      · rw [applyRecords_name, applyRecord_name, applyRecords_name]; exact hm
    · have h1 : applyRecord r (applyRecords rs e) = applyRecords rs e := by
        unfold applyRecord
        rw [if_neg (by rw [applyRecords_name]; exact hm)]
      rw [h1, ih, h1]

theorem DoU32_read_wrapper (sw : StateWrapper) (x y : Nat) (hm : sw.mode = Mode.Read) :
    (sw.DoU32 x).2 = (sw.DoU32 y).2 ∧
    ((sw.DoU32 x).2.error = false → (sw.DoU32 x).1 = (sw.DoU32 y).1) ∧
    (sw.DoU32 x).2.mode = Mode.Read := by
  unfold StateWrapper.DoU32 StateWrapper.DoBytes
  rw [hm]
  simp only
  by_cases he : sw.error = true
  · simp [he, hm]
  · simp only [he, Bool.false_eq_true, if_false]
    cases sw.stream.Read2 4 with
    | none => simp [hm]
    | some p => simp [hm]

theorem SortEvents_fixed {D : Type} (x y : System D) (hx : x.running_events = false)
    (h : SameButDevices (SortEvents x) y) : SortEvents y = y := by
  obtain ⟨m1, m2⟩ := SortEvents_idle x hx
  have hy : y.events = make_heap x.events ∧ y.running_events = false ∧
      y.frame_done = x.frame_done ∧ y.cpu_downcount = (SortEvents x).cpu_downcount := by
    unfold SameButDevices at h
    rw [h]
    refine ⟨m1, m2, ?_, rfl⟩
    show (SortEvents x).frame_done = x.frame_done
    unfold SortEvents UpdateCPUDowncount
    cases x.running_events <;> cases x.frame_done <;> simp <;> split <;> rfl
  obtain ⟨y1, y2, y3, y4⟩ := hy
  have hheap : make_heap y.events = y.events := by
    rw [y1]; exact make_heap_of_isHeap _ (make_heap_isHeap _)
  have hcpu : x.frame_done = false → ∀ e t, make_heap x.events = e :: t →
      y.cpu_downcount = e.downcount := by
    intro hf e t he
    rw [y4]
    unfold SortEvents
    simp only [hx, hf, Bool.not_false, if_true]
    exact UpdateCPUDowncount_cons _ e t he
  obtain ⟨ev, run, ns, fd, g, l, cd, cp, rg, fn, ifn, p1, p2, p3, dv, pn, cl⟩ := y
  simp only at y1 y2 y3 y4 hheap hcpu
  subst y2
  unfold SortEvents
  simp only [Bool.not_false, if_true, hheap]
  cases hf : x.frame_done with
  | true =>
    rw [hf] at y3
    subst y3
    rfl
  | false =>
    rw [hf] at y3
    subst y3
    simp only [Bool.not_false, if_true]
    unfold UpdateCPUDowncount
    cases he : make_heap x.events with
    | nil =>
      rw [he] at y1
      subst y1
      rfl
    | cons e t =>
      rw [he] at y1
      subst y1
      simp only
      rw [hcpu hf e t he]

theorem map_applyRecords_fixed (rs : List EventRecord) (l l2 : List TimingEvent)
    (h : l2.Perm (l.map (applyRecords rs))) : l2.map (applyRecords rs) = l2 := by
  conv_rhs => rw [← List.map_id l2]
  apply List.map_congr_left
  intro e he
  obtain ⟨x, _, rfl⟩ := List.mem_map.1 (h.mem_iff.1 he)
  exact applyRecords_idem rs x

theorem ids_map_applyRecords (rs : List EventRecord) (l : List TimingEvent) :
    (l.map (applyRecords rs)).map (fun e => e.id) = l.map (fun e => e.id) := by
  rw [List.map_map]
  apply List.map_congr_left
  intro e _
  exact applyRecords_id rs e

theorem names_map_applyRecords (rs : List EventRecord) (l : List TimingEvent) :
    (l.map (applyRecords rs)).map (fun e => e.name) = l.map (fun e => e.name) := by
  rw [List.map_map]
  apply List.map_congr_left
  intro e _
  exact applyRecords_name rs e

theorem DoBytes_mode (sw : StateWrapper) (n : Nat) (bs : List Nat) :
    (sw.DoBytes n bs).2.mode = sw.mode := by
  unfold StateWrapper.DoBytes
  split
  · rfl
  · split
    · rfl
    · split <;> rfl

theorem DoU32_mode (sw : StateWrapper) (v : Nat) : (sw.DoU32 v).2.mode = sw.mode := by
  have := DoBytes_mode sw 4 (encodeU32 v)
  unfold StateWrapper.DoU32
  cases h : sw.DoBytes 4 (encodeU32 v) with
  | mk o w =>
    rw [h] at this
    cases o <;> exact this

theorem DoS32_mode (sw : StateWrapper) (v : Int) : (sw.DoS32 v).2.mode = sw.mode := by
  have := DoBytes_mode sw 4 (encodeU32 (toU32 v))
  unfold StateWrapper.DoS32
  cases h : sw.DoBytes 4 (encodeU32 (toU32 v)) with
  | mk o w =>
    rw [h] at this
    cases o <;> exact this

theorem DoString_mode (sw : StateWrapper) (v : String) : (sw.DoString v).2.mode = sw.mode := by
  unfold StateWrapper.DoString
  have h1 := DoU32_mode sw v.length
  have h2 := DoBytes_mode (sw.DoU32 v.length).2 (sw.DoU32 v.length).1 (stringBytes v)
  cases h : (sw.DoU32 v.length).2.DoBytes (sw.DoU32 v.length).1 (stringBytes v) with
  | mk o w =>
    rw [h] at h2
    simp only [h]
    cases o <;> exact h2.trans h1

theorem DoMarker_mode (sw : StateWrapper) (m : String) : (sw.DoMarker m).2.mode = sw.mode := by
  unfold StateWrapper.DoMarker
  have := DoString_mode sw m
  simp only
  split
  · exact this
  · split <;> exact this

theorem parseRecords_mode (n : Nat) (sw : StateWrapper) :
    (parseRecords n sw).2.1.mode = sw.mode := by
  induction n generalizing sw with
  | zero => rfl
  | succ n ih =>
    unfold parseRecords
    simp only
    have h5 : (((((sw.DoString "").2.DoS32 0).2.DoS32 0).2.DoS32 0).2.DoS32 0).2.mode
        = sw.mode := by
      rw [DoS32_mode, DoS32_mode, DoS32_mode, DoS32_mode, DoString_mode]
    split
    · exact h5
    · exact (ih _).trans h5

/-- A state that a successful reading `DoEventsState` has produced is left as it is by
a second reading from the same wrapper, whatever the devices have become. -/
theorem DoEventsState_reload {D : Type} (sw swF : StateWrapper) (s s1 y : System D)
    (hm : sw.mode = Mode.Read) (hrun : s.running_events = false)
    (hid : (s.events.map (fun e => e.id)).Nodup)
    (hname : (s.events.map (fun e => e.name)).Nodup)
    (h1 : DoEventsState sw s = (true, swF, s1)) (hy : SameButDevices s1 y) :
    DoEventsState sw y = (true, swF, y) := by
  rw [DoEventsState_read_parse sw s hm hid hname] at h1
  cases hp : parseRecords (sw.DoU32 0).1 (sw.DoU32 0).2 with
  | mk ok p =>
    cases p with
    | mk sw2 rs =>
      rw [hp] at h1
      cases ok with
      | false => simp at h1
      | true =>
        simp only [Prod.mk.injEq, Bool.not_eq_true', StateWrapper.HasError] at h1
        obtain ⟨e1, e2, e3⟩ := h1
        have hm2 : sw2.mode = Mode.Read := by
          have h2 := parseRecords_mode (sw.DoU32 0).1 (sw.DoU32 0).2
          rw [hp, DoU32_mode] at h2
          exact h2.trans hm
        obtain ⟨k1, k2, k3, k4, k5, k6, k7, k8⟩ := SameButDevices_fields s1 y hy
        have hx : ({ s with events := s.events.map (applyRecords rs),
                            last_event_run_time := (sw2.DoU32 s.last_event_run_time).1 } :
            System D).running_events = false := hrun
        obtain ⟨m1, m2⟩ := SortEvents_idle _ hx
        obtain ⟨_, _, _, _, n5⟩ := SortEvents_fields
          ({ s with events := s.events.map (applyRecords rs),
                    last_event_run_time := (sw2.DoU32 s.last_event_run_time).1 } : System D)
        rw [e3] at m1 n5
        have hyev : y.events.Perm (s.events.map (applyRecords rs)) := by
          rw [k1, m1]; exact make_heap_perm _
        have hyid : (y.events.map (fun e => e.id)).Nodup := by
          rw [(hyev.map _).nodup_iff, ids_map_applyRecords]; exact hid
        have hyname : (y.events.map (fun e => e.name)).Nodup := by
          rw [(hyev.map _).nodup_iff, names_map_applyRecords]; exact hname
        rw [DoEventsState_read_parse sw y hm hyid hyname, hp]
        obtain ⟨w1, w2, _⟩ :=
          DoU32_read_wrapper sw2 s.last_event_run_time y.last_event_run_time hm2
        have hval : (sw2.DoU32 y.last_event_run_time).1 = y.last_event_run_time := by
          rw [← w2 e1, k6, n5]
        simp only [StateWrapper.HasError, ← w1, e1, e2, hval,
          map_applyRecords_fixed rs s.events y.events hyev]
        have hF : swF.error = false := e2 ▸ e1
        simp only [Prod.mk.injEq, true_and]
        refine ⟨by rw [hF]; rfl, ?_⟩
        exact SortEvents_fixed _ y hx (e3 ▸ hy)

theorem componentState_read {D : Type} (env : Components D) (henv : ReadsByStream env)
    (marker : String) (sw : StateWrapper) (s : System D) (hm : sw.mode = Mode.Read) :
    SameButDevices s (componentState env marker sw s).2.2 ∧
    (componentState env marker sw s).2.1.mode = Mode.Read ∧
    ∀ s2, (componentState env marker sw s2).1 = (componentState env marker sw s).1 ∧
      (componentState env marker sw s2).2.1 = (componentState env marker sw s).2.1 := by
  unfold componentState
  have hmm := (DoMarker_mode sw marker).trans hm
  cases h : sw.DoMarker marker with
  | mk ok w =>
    rw [h] at hmm
    cases ok with
    | false => exact ⟨SameButDevices_refl s, hmm, fun _ => ⟨rfl, rfl⟩⟩
    | true =>
      obtain ⟨a, b, c⟩ := henv.2 marker w s hmm
      exact ⟨a, b, c⟩

theorem componentStates_read {D : Type} (env : Components D) (henv : ReadsByStream env)
    (markers : List String) (sw : StateWrapper) (s : System D) (hm : sw.mode = Mode.Read) :
    SameButDevices s (componentStates env markers sw s).2.2 ∧
    (componentStates env markers sw s).2.1.mode = Mode.Read ∧
    ∀ s2, (componentStates env markers sw s2).1 = (componentStates env markers sw s).1 ∧
      (componentStates env markers sw s2).2.1 = (componentStates env markers sw s).2.1 := by
  induction markers generalizing sw s with
  | nil => exact ⟨SameButDevices_refl s, hm, fun _ => ⟨rfl, rfl⟩⟩
  | cons m ms ih =>
    obtain ⟨a, b, c⟩ := componentState_read env henv m sw s hm
    unfold componentStates
    cases h : componentState env m sw s with
    | mk ok p =>
      cases p with
      | mk w s1 =>
        rw [h] at a b c
        simp only at a b c
        cases ok with
        | false =>
          refine ⟨a, b, fun s2 => ?_⟩
          obtain ⟨c1, c2⟩ := c s2
          have hh : componentState env m sw s2 =
              (false, w, (componentState env m sw s2).2.2) :=
            Prod.ext c1 (Prod.ext c2 rfl)
          rw [hh]
          exact ⟨rfl, rfl⟩
        | true =>
          obtain ⟨a2, b2, c2⟩ := ih w s1 b
          refine ⟨SameButDevices_trans _ _ _ a a2, b2, fun s2 => ?_⟩
          obtain ⟨d1, d2⟩ := c s2
          have hh : componentState env m sw s2 =
              (true, w, (componentState env m sw s2).2.2) :=
            Prod.ext d1 (Prod.ext d2 rfl)
          rw [hh]
          simp only
          exact c2 _

theorem DoBytes_error_mono (sw : StateWrapper) (n : Nat) (bs : List Nat)
    (hm : sw.mode = Mode.Read) (h : (sw.DoBytes n bs).2.error = false) : sw.error = false := by
  unfold StateWrapper.DoBytes at h
  rw [hm] at h
  simp only at h
  by_cases he : sw.error = true
  · simp only [he, if_true] at h
    simp at h
  · simpa using he

theorem DoU32_error_mono (sw : StateWrapper) (v : Nat) (hm : sw.mode = Mode.Read)
    (h : (sw.DoU32 v).2.error = false) : sw.error = false := by
  apply DoBytes_error_mono sw 4 (encodeU32 v) hm
  unfold StateWrapper.DoU32 at h
  cases hb : sw.DoBytes 4 (encodeU32 v) with
  | mk o w =>
    rw [hb] at h
    cases o <;> exact h

theorem DoMarker_true_error (sw : StateWrapper) (m : String) (hm : sw.mode = Mode.Read)
    (h : (sw.DoMarker m).1 = true) : sw.error = false := by
  unfold StateWrapper.DoMarker at h
  simp only at h
  have hs : (sw.DoString m).2.error = false := by
    by_cases he : (sw.DoString m).2.error = true
    · rw [if_pos he] at h; simp at h
    · simpa using he
  unfold StateWrapper.DoString at hs
  simp only at hs
  apply DoU32_error_mono sw m.length hm
  apply DoBytes_error_mono _ (sw.DoU32 m.length).1 (stringBytes m)
    ((DoU32_mode sw m.length).trans hm)
  cases hb : (sw.DoU32 m.length).2.DoBytes (sw.DoU32 m.length).1 (stringBytes m) with
  | mk o w =>
    rw [hb] at hs
    cases o <;> exact hs

theorem DoEventsState_read_fields {D : Type} (sw : StateWrapper) (s : System D)
    (hm : sw.mode = Mode.Read) (hid : (s.events.map (fun e => e.id)).Nodup)
    (hname : (s.events.map (fun e => e.name)).Nodup) :
    (DoEventsState sw s).2.2.region = s.region ∧
    (DoEventsState sw s).2.2.frame_number = s.frame_number ∧
    (DoEventsState sw s).2.2.internal_frame_number = s.internal_frame_number ∧
    (DoEventsState sw s).2.2.global_tick_counter = s.global_tick_counter := by
  rw [DoEventsState_read_parse sw s hm hid hname]
  cases hp : parseRecords (sw.DoU32 0).1 (sw.DoU32 0).2 with
  | mk ok p =>
    cases p with
    | mk sw2 rs =>
      cases ok with
      | false => exact ⟨rfl, rfl, rfl, rfl⟩
      | true =>
        obtain ⟨n1, n2, n3, n4, _⟩ := SortEvents_fields
          ({ s with events := s.events.map (applyRecords rs),
                    last_event_run_time := (sw2.DoU32 s.last_event_run_time).1 } : System D)
        exact ⟨n1, n2, n3, n4⟩

theorem componentState_true_error {D : Type} (env : Components D) (marker : String)
    (sw : StateWrapper) (s : System D) (hm : sw.mode = Mode.Read)
    (h : (componentState env marker sw s).1 = true) : sw.error = false := by
  apply DoMarker_true_error sw marker hm
  unfold componentState at h
  cases hd : sw.DoMarker marker with
  | mk ok w =>
    rw [hd] at h
    cases ok with
    | false => simp at h
    | true => rfl

/-- A state that a successful reading `DoState` has produced is reproduced, up to the
devices, by a second reading from the same wrapper. -/
theorem DoState_reload {D : Type} (env : Components D) (henv : ReadsByStream env)
    (sw swF : StateWrapper) (s s1 y : System D) (hm : sw.mode = Mode.Read)
    (hrun : s.running_events = false) (hid : (s.events.map (fun e => e.id)).Nodup)
    (hname : (s.events.map (fun e => e.name)).Nodup)
    (h1 : DoState env sw s = (true, swF, s1)) (hy : SameButDevices s1 y) :
    ∃ y2, DoState env sw y = (true, swF, y2) ∧ SameButDevices y y2 := by
  unfold DoState at h1 ⊢
  cases hm0 : sw.DoMarker "System" with
  | mk ok0 r0 =>
  rw [hm0] at h1
  cases ok0 with
  | false => simp at h1
  | true =>
  simp only at h1 ⊢
  have hr0 : r0.mode = Mode.Read := by
    have := DoMarker_mode sw "System"
    rw [hm0] at this
    exact this.trans hm
  -- the four members read by `DoState` itself
  generalize hA1 : r0.DoU32 s.region = A1 at h1
  generalize hA2 : A1.2.DoU32 s.frame_number = A2 at h1
  generalize hA3 : A2.2.DoU32 s.internal_frame_number = A3 at h1
  generalize hA4 : A3.2.DoU32 s.global_tick_counter = A4 at h1
  have hm1 : A1.2.mode = Mode.Read := by rw [← hA1, DoU32_mode]; exact hr0
  have hm2 : A2.2.mode = Mode.Read := by rw [← hA2, DoU32_mode]; exact hm1
  have hm3 : A3.2.mode = Mode.Read := by rw [← hA3, DoU32_mode]; exact hm2
  have hm4 : A4.2.mode = Mode.Read := by rw [← hA4, DoU32_mode]; exact hm3
  generalize hsA : ({ s with region := A1.1, frame_number := A2.1,
                             internal_frame_number := A3.1,
                             global_tick_counter := A4.1 } : System D) = sA at h1
  cases hc5 : componentState env "CPU" A4.2 sA with
  | mk ok5 p5 =>
  cases p5 with
  | mk r5 sB =>
  rw [hc5] at h1
  cases ok5 with
  | false => simp at h1
  | true =>
  simp only at h1
  obtain ⟨b1, b2, b3⟩ := componentState_read env henv "CPU" A4.2 sA hm4
  rw [hc5] at b1 b2 b3
  simp only at b1 b2 b3
  have hrd : r5.IsReading = true := by
    unfold StateWrapper.IsReading; rw [b2]; rfl
  rw [hrd] at h1
  simp only [if_true] at h1
  cases hc6 : componentStates env componentsAfterCPU r5 (env.FlushCodeCache sB) with
  | mk ok6 p6 =>
  cases p6 with
  | mk r6 sD =>
  rw [hc6] at h1
  cases ok6 with
  | false => simp at h1
  | true =>
  simp only at h1
  obtain ⟨c1, c2, c3⟩ :=
    componentStates_read env henv componentsAfterCPU r5 (env.FlushCodeCache sB) b2
  rw [hc6] at c1 c2 c3
  simp only at c1 c2 c3
  cases hm7 : r6.DoMarker "Events" with
  | mk ok7 r7 =>
  rw [hm7] at h1
  cases ok7 with
  | false => simp at h1
  | true =>
  simp only at h1
  have hr7 : r7.mode = Mode.Read := by
    have := DoMarker_mode r6 "Events"
    rw [hm7] at this
    exact this.trans c2
  cases he8 : DoEventsState r7 sD with
  | mk ok8 p8 =>
  cases p8 with
  | mk r8 sE =>
  rw [he8] at h1
  cases ok8 with
  | false => simp at h1
  | true =>
  simp only [Prod.mk.injEq, Bool.not_eq_true', StateWrapper.HasError] at h1
  obtain ⟨g1, g2, g3⟩ := h1
  subst g2 g3
  -- the state in which the events were read
  have hsAD : SameButDevices sA sD :=
    SameButDevices_trans _ _ _ (SameButDevices_trans _ _ _ b1 (henv.1 sB)) c1
  obtain ⟨k1, k2, k3, k4, k5, _, k7, _⟩ := SameButDevices_fields sA sD hsAD
  have hsAev : sA.events = s.events := by rw [← hsA]
  have hsArun : sA.running_events = s.running_events := by rw [← hsA]
  have hidD : (sD.events.map (fun e => e.id)).Nodup := by rw [k1, hsAev]; exact hid
  have hnameD : (sD.events.map (fun e => e.name)).Nodup := by rw [k1, hsAev]; exact hname
  obtain ⟨f1, f2, f3, f4⟩ := DoEventsState_read_fields r7 sD hr7 hidD hnameD
  rw [he8] at f1 f2 f3 f4
  simp only at f1 f2 f3 f4
  obtain ⟨y1, y2, y3, y4, y5, _, _, _⟩ := SameButDevices_fields sE y hy
  -- the same four members are read again
  have e4 : A4.2.error = false := componentState_true_error env "CPU" A4.2 sA hm4 (by rw [hc5])
  have e3 : A3.2.error = false := by
    apply DoU32_error_mono A3.2 s.global_tick_counter hm3; rw [hA4]; exact e4
  have e2 : A2.2.error = false := by
    apply DoU32_error_mono A2.2 s.internal_frame_number hm2; rw [hA3]; exact e3
  have e1 : A1.2.error = false := by
    apply DoU32_error_mono A1.2 s.frame_number hm1; rw [hA2]; exact e2
  have q1 : r0.DoU32 y.region = A1 := by
    obtain ⟨w1, w2, _⟩ := DoU32_read_wrapper r0 s.region y.region hr0
    rw [hA1] at w1 w2
    exact (Prod.ext (w2 e1) w1).symm
  have q2 : A1.2.DoU32 y.frame_number = A2 := by
    obtain ⟨w1, w2, _⟩ := DoU32_read_wrapper A1.2 s.frame_number y.frame_number hm1
    rw [hA2] at w1 w2
    exact (Prod.ext (w2 e2) w1).symm
  have q3 : A2.2.DoU32 y.internal_frame_number = A3 := by
    obtain ⟨w1, w2, _⟩ :=
      DoU32_read_wrapper A2.2 s.internal_frame_number y.internal_frame_number hm2
    rw [hA3] at w1 w2
    exact (Prod.ext (w2 e3) w1).symm
  have q4 : A3.2.DoU32 y.global_tick_counter = A4 := by
    obtain ⟨w1, w2, _⟩ :=
      DoU32_read_wrapper A3.2 s.global_tick_counter y.global_tick_counter hm3
    rw [hA4] at w1 w2
    exact (Prod.ext (w2 e4) w1).symm
  have hA : sA.region = A1.1 ∧ sA.frame_number = A2.1 ∧ sA.internal_frame_number = A3.1 ∧
      sA.global_tick_counter = A4.1 := by
    rw [← hsA]; exact ⟨rfl, rfl, rfl, rfl⟩
  have hyA : ({ y with region := A1.1, frame_number := A2.1,
                       internal_frame_number := A3.1,
                       global_tick_counter := A4.1 } : System D) = y := by
    rw [← hA.1, ← hA.2.1, ← hA.2.2.1, ← hA.2.2.2, ← k2, ← k3, ← k4, ← k5, ← f1, ← f2, ← f3,
      ← f4, ← y2, ← y3, ← y4, ← y5]
  simp only [q1, q2, q3, q4, hyA]
  -- the components are read again
  obtain ⟨b1y, _, _⟩ := componentState_read env henv "CPU" A4.2 y hm4
  obtain ⟨b3a, b3b⟩ := b3 y
  have hc5y : componentState env "CPU" A4.2 y =
      (true, r5, (componentState env "CPU" A4.2 y).2.2) := Prod.ext b3a (Prod.ext b3b rfl)
  rw [hc5y]
  simp only [hrd, if_true]
  generalize (componentState env "CPU" A4.2 y).2.2 = yB at b1y ⊢
  obtain ⟨c1y, _, _⟩ :=
    componentStates_read env henv componentsAfterCPU r5 (env.FlushCodeCache yB) b2
  obtain ⟨c3a, c3b⟩ := c3 (env.FlushCodeCache yB)
  have hc6y : componentStates env componentsAfterCPU r5 (env.FlushCodeCache yB) =
      (true, r6, (componentStates env componentsAfterCPU r5 (env.FlushCodeCache yB)).2.2) :=
    Prod.ext c3a (Prod.ext c3b rfl)
  rw [hc6y]
  simp only [hm7]
  generalize (componentStates env componentsAfterCPU r5 (env.FlushCodeCache yB)).2.2 = yD
    at c1y ⊢
  have hyD : SameButDevices y yD :=
    SameButDevices_trans _ _ _ (SameButDevices_trans _ _ _ b1y (henv.1 yB)) c1y
  have hrunD : sD.running_events = false := by rw [k7, hsArun]; exact hrun
  rw [DoEventsState_reload r7 r8 sD sE yD hr7 hrunD hidD hnameD he8
    (SameButDevices_trans _ _ _ hy hyD)]
  exact ⟨yD, by simp [StateWrapper.HasError, g1], hyD⟩

/-! ### Loading a saved state -/

theorem registerComponents_readsByStream : ReadsByStream registerComponents := by
  refine ⟨fun s => SameButDevices_refl s, ?_⟩
  intro marker sw s hm
  refine ⟨rfl, ?_, fun s2 => ⟨rfl, ?_⟩⟩
  · show (sw.DoU32 s.devices).2.mode = Mode.Read
    rw [DoU32_mode]; exact hm
  · show (sw.DoU32 s2.devices).2 = (sw.DoU32 s.devices).2
    exact (DoU32_read_wrapper sw s2.devices s.devices hm).1

theorem savedState_loads {D : Type} (env : Components D) (henv : RoundTrips env)
    (s s2 : System D) (hs : Saveable s) (h : SameButDevices s s2) :
    (DoState env ⟨⟨savedState env s, 0⟩, Mode.Read, false⟩ s2).1 = true := by
  obtain ⟨bs, w2, a, b, c⟩ := DoState_roundTrips env henv s hs ⟨⟨[], 0⟩, Mode.Write, false⟩
    ⟨rfl, rfl, rfl⟩
  have hsaved : savedState env s = bs := by
    unfold savedState; rw [a]; simpa using b.1
  obtain ⟨r2, s3, d, _⟩ := c ⟨⟨bs, 0⟩, Mode.Read, false⟩ [] s2
    ⟨rfl, rfl, Nat.zero_le _, by simp [remaining]⟩ h
  rw [hsaved, d]

/-! ### The reading loop of `DoEventsState`, record by record -/

theorem readEventRecords_succ {D : Type} (n : Nat) (sw : StateWrapper) (s : System D) :
    readEventRecords (n + 1) sw s =
      if (readRecord sw).2.HasError then (false, (readRecord sw).2, s)
      else readEventRecords n (readRecord sw).2 (restoreRecord (readRecord sw).1 s) := by
  rw [readEventRecords]
  simp only [readRecord, restoreRecord]
  split
  · rfl
  · cases FindActiveEvent (c_str (sw.DoString "").1) s <;> rfl

theorem parseRecords_succ (n : Nat) (sw : StateWrapper) :
    parseRecords (n + 1) sw =
      if (readRecord sw).2.HasError then (false, (readRecord sw).2, [])
      else ((parseRecords n (readRecord sw).2).1, (parseRecords n (readRecord sw).2).2.1,
        (readRecord sw).1 :: (parseRecords n (readRecord sw).2).2.2) := by
  rw [parseRecords]
  simp only [readRecord]

theorem restoreRecords_nil {D : Type} (s : System D) : restoreRecords [] s = s := rfl

theorem restoreRecords_cons {D : Type} (r : EventRecord) (rs : List EventRecord)
    (s : System D) : restoreRecords (r :: rs) s = restoreRecords rs (restoreRecord r s) := rfl

theorem restoreRecords_append {D : Type} (rs1 rs2 : List EventRecord) (s : System D) :
    restoreRecords (rs1 ++ rs2) s = restoreRecords rs2 (restoreRecords rs1 s) := by
  unfold restoreRecords
  rw [List.foldl_append]

/-- The reading loop applies, in order, the records read before it ends. -/
theorem readEventRecords_eq_restore {D : Type} (n : Nat) (sw : StateWrapper) (s : System D) :
    readEventRecords n sw s =
      ((parseRecords n sw).1, (parseRecords n sw).2.1,
        restoreRecords (parseRecords n sw).2.2 s) := by
  induction n generalizing sw s with
  | zero => rfl
  | succ n ih =>
    rw [readEventRecords_succ, parseRecords_succ]
    by_cases h : (readRecord sw).2.HasError = true
    · simp only [h, if_true]; rfl
    · simp only [h, if_false, Bool.false_eq_true]
      rw [ih]
      rfl

/-- The loop after `k` records that were read without error. -/
theorem readEventRecords_split {D : Type} (k m : Nat) (sw swk : StateWrapper)
    (rs : List EventRecord) (s : System D) (h : parseRecords k sw = (true, swk, rs)) :
    readEventRecords (k + m) sw s = readEventRecords m swk (restoreRecords rs s) := by
  induction k generalizing sw s rs with
  | zero =>
    have h2 : parseRecords 0 sw = (true, sw, []) := rfl
    rw [h2] at h
    obtain ⟨h3, h4⟩ := Prod.mk.inj (Prod.mk.inj h).2
    subst h3; subst h4
    rw [Nat.zero_add]
    rfl
  | succ k ih =>
    rw [parseRecords_succ] at h
    by_cases he : (readRecord sw).2.HasError = true
    · simp [he] at h
    · simp only [he, if_false, Bool.false_eq_true] at h
      obtain ⟨h1, h2⟩ := Prod.mk.inj h
      obtain ⟨h3, h4⟩ := Prod.mk.inj h2
      have hp : parseRecords k (readRecord sw).2 =
          (true, swk, (parseRecords k (readRecord sw).2).2.2) :=
        Prod.ext h1 (Prod.ext h3 rfl)
      have hsucc : k + 1 + m = (k + m) + 1 := by omega
      rw [hsucc, readEventRecords_succ]
      simp only [he, if_false, Bool.false_eq_true]
      rw [ih _ _ _ hp, ← h4]
      rfl

theorem restoreRecord_names {D : Type} (r : EventRecord) (s : System D) :
    (restoreRecord r s).events.map (fun e => e.name) = s.events.map (fun e => e.name) := by
  unfold restoreRecord
  cases FindActiveEvent (c_str r.name) s with
  | none => rfl
  | some event =>
    simp only [modifyEvent, List.map_map]
    apply List.map_congr_left
    intro e _
    simp only [Function.comp]
    split <;> rfl

theorem restoreRecords_names {D : Type} (rs : List EventRecord) (s : System D) :
    (restoreRecords rs s).events.map (fun e => e.name) = s.events.map (fun e => e.name) := by
  induction rs generalizing s with
  | nil => rfl
  | cons r rs ih => rw [restoreRecords_cons, ih, restoreRecord_names]

/-- A record whose name no active event carries leaves the system as it is. -/
theorem restoreRecord_of_unmatched {D : Type} (r : EventRecord) (s : System D)
    (h : ∀ e ∈ s.events, e.name ≠ c_str r.name) : restoreRecord r s = s := by
  unfold restoreRecord FindActiveEvent
  have hnone : s.events.find? (fun ev => decide (ev.name = c_str r.name)) = none := by
    rw [List.find?_eq_none]
    intro e he
    simpa using h e he
  rw [hnone]

/-- The reading branch of `DoEventsState` as a whole, in terms of the records read. -/
theorem DoEventsState_read_restore {D : Type} (sw : StateWrapper) (s : System D)
    (hm : sw.mode = Mode.Read) :
    DoEventsState sw s =
      match parseRecords (sw.DoU32 0).1 (sw.DoU32 0).2 with
      | (false, sw2, rs) => (false, sw2, restoreRecords rs s)
      | (true, sw2, rs) =>
        (!(sw2.DoU32 s.last_event_run_time).2.HasError, (sw2.DoU32 s.last_event_run_time).2,
          SortEvents { restoreRecords rs s with
            last_event_run_time := (sw2.DoU32 s.last_event_run_time).1 }) := by
  have hlast : ∀ rs : List EventRecord,
      (restoreRecords rs s).last_event_run_time = s.last_event_run_time := by
    intro rs
    induction rs generalizing s with
    | nil => rfl
    | cons r rs ih =>
      rw [restoreRecords_cons, ih]
      unfold restoreRecord
      cases FindActiveEvent (c_str r.name) s <;> rfl
  unfold DoEventsState
  simp only [StateWrapper.IsReading, hm, decide_True, if_true]
  rw [readEventRecords_eq_restore]
  cases hp : parseRecords (sw.DoU32 0).1 (sw.DoU32 0).2 with
  | mk ok r =>
    cases r with
    | mk sw2 rs =>
      cases ok
      · rfl
      · simp only [hlast]

/-- Reading the records of the events `l` and a timestamp from a stream that holds
them. -/
theorem DoEventsState_read_written {D : Type} (sw : StateWrapper) (s : System D)
    (l : List TimingEvent) (t : Nat) (rest : List Nat) (hst : ∀ e ∈ l, Storable e)
    (hlen : l.length < 2 ^ 32) (ht : t < 2 ^ 32)
    (h : ReadyAt sw (encodeU32 l.length ++ encEvents l ++ encodeU32 t ++ rest)) :
    ∃ sw2, DoEventsState sw s =
        (true, sw2, SortEvents { restoreRecords (l.map recordOf) s with
          last_event_run_time := t }) ∧
      ReadyAt sw2 rest := by
  rw [List.append_assoc, List.append_assoc] at h
  obtain ⟨sw1, a1, b1⟩ := read_DoU32 sw l.length 0 _ hlen h
  obtain ⟨sw2, a2, b2⟩ := parseRecords_written l sw1 _ hst b1
  obtain ⟨sw3, a3, b3⟩ := read_DoU32 sw2 t s.last_event_run_time _ ht b2
  refine ⟨sw3, ?_, b3⟩
  rw [DoEventsState_read_restore sw s h.1]
  simp only [a1, a2, a3, StateWrapper.HasError, b3.2.1]
  rfl

theorem encEvents_append (l1 l2 : List TimingEvent) :
    encEvents (l1 ++ l2) = encEvents l1 ++ encEvents l2 := by
  induction l1 with
  | nil => rfl
  | cons e l1 ih =>
    show encEvent e ++ encEvents (l1 ++ l2) = (encEvent e ++ encEvents l1) ++ encEvents l2
    rw [ih, List.append_assoc]

/-- A `DoState` that returns `true` finishes without the error flag. -/
theorem DoState_true_no_error {D : Type} (env : Components D) (sw : StateWrapper)
    (s : System D) (h : (DoState env sw s).1 = true) :
    (DoState env sw s).2.1.HasError = false := by
  revert h
  unfold DoState
  generalize sw.DoMarker "System" = r0
  rcases r0 with ⟨ok0, sw0⟩
  cases ok0
  · simp
  · simp only
    generalize componentState env "CPU" _ _ = r1
    rcases r1 with ⟨ok1, sw5, s2⟩
    cases ok1
    · simp
    · simp only
      generalize componentStates env componentsAfterCPU _ _ = r2
      rcases r2 with ⟨ok2, sw6, s4⟩
      cases ok2
      · simp
      · simp only
        generalize sw6.DoMarker "Events" = r3
        rcases r3 with ⟨ok3, sw7⟩
        cases ok3
        · simp
        · simp only
          generalize DoEventsState sw7 s4 = r4
          rcases r4 with ⟨ok4, sw8, s5⟩
          cases ok4
          · simp
          · simp

/-! ### The order of the components in `DoState` -/

theorem dropLast_cons_ok (v : Visit) (l : List Visit) (hv : v.ok = true)
    (hl : ∀ x ∈ l.dropLast, x.ok = true) : ∀ x ∈ (v :: l).dropLast, x.ok = true := by
  intro x hx
  cases l with
  | nil => simp at hx
  | cons y t =>
    rw [List.dropLast_cons₂] at hx
    rcases List.mem_cons.1 hx with h | h
    · rw [h]; exact hv
    · exact hl x h

/-- A run of `componentStates` over recording devices. -/
theorem componentStates_recording
    (beh : String → StateWrapper → List Visit → Bool × StateWrapper) (ms : List String)
    (sw : StateWrapper) (s : System (List Visit)) :
    ∃ visited,
      (componentStates (recordingComponents beh) ms sw s).2.2 =
        { s with devices := s.devices ++ visited } ∧
      VisitsInOrder ms visited ∧
      ((∃ v ∈ visited, v.ok = false) →
        (componentStates (recordingComponents beh) ms sw s).1 = false) ∧
      ((componentStates (recordingComponents beh) ms sw s).1 = true →
        visited.map (fun v => v.marker) = ms) := by
  induction ms generalizing sw s with
  | nil =>
    refine ⟨[], ?_, ⟨List.nil_prefix, by simp, by simp⟩, by simp, fun _ => rfl⟩
    simp [componentStates]
  | cons m rest ih =>
    unfold componentStates componentState
    cases hmk : sw.DoMarker m with
    | mk okm sw1 =>
      cases okm with
      | false =>
        refine ⟨[], ?_, ⟨List.nil_prefix, by simp, by simp⟩, by simp, by simp⟩
        simp
      | true =>
        simp only
        cases hb : (beh m sw1 s.devices).1 with
        | false =>
          refine ⟨[⟨m, sw1, false⟩], ?_, ⟨?_, ?_, by simp⟩, ?_, ?_⟩
          · simp [recordingComponents, hb]
          · simp
          · intro v hv
            rw [List.mem_singleton.1 hv]
            exact ⟨sw, hmk⟩
          · intro _
            simp [recordingComponents, hb]
          · simp [recordingComponents, hb]
        | true =>
          obtain ⟨visited, a, ⟨b1, b2, b3⟩, c, d⟩ := ih (beh m sw1 s.devices).2
            { s with devices := s.devices ++ [⟨m, sw1, true⟩] }
          refine ⟨⟨m, sw1, true⟩ :: visited, ?_, ⟨?_, ?_, ?_⟩, ?_, ?_⟩
          · simp only [recordingComponents, hb]
            simp only [recordingComponents] at a
            rw [a]
            simp
          · simpa using b1
          · intro v hv
            rcases List.mem_cons.1 hv with h | h
            · rw [h]; exact ⟨sw, hmk⟩
            · exact b2 v h
          · exact dropLast_cons_ok _ _ rfl b3
          · rintro ⟨v, hv, hvok⟩
            rcases List.mem_cons.1 hv with h | h
            · rw [h] at hvok; exact absurd hvok (by simp)
            · simp only [recordingComponents, hb]
              simp only [recordingComponents] at c
              exact c ⟨v, h, hvok⟩
          · intro hok
            simp only [recordingComponents, hb] at hok
            simp only [recordingComponents] at d
            simp [d hok]

/-- `DoState` by sections, for devices whose code cache has nothing to flush. -/
theorem DoState_sections {D : Type} (env : Components D)
    (hf : ∀ s, env.FlushCodeCache s = s) (sw : StateWrapper) (s : System D) :
    DoState env sw s =
      match sw.DoMarker "System" with
      | (false, sw0) => (false, sw0, s)
      | (true, sw0) =>
        match componentStates env componentOrder (systemFields sw0 s).1
            (systemFields sw0 s).2 with
        | (false, sw6, s4) => (false, sw6, s4)
        | (true, sw6, s4) =>
          match sw6.DoMarker "Events" with
          | (false, sw7) => (false, sw7, s4)
          | (true, sw7) =>
            match DoEventsState sw7 s4 with
            | (false, sw8, s5) => (false, sw8, s5)
            | (true, sw8, s5) => (!sw8.HasError, sw8, s5) := by
  unfold DoState
  generalize sw.DoMarker "System" = r0
  rcases r0 with ⟨ok0, sw0⟩
  cases ok0
  · rfl
  · simp only [systemFields, componentOrder]
    rw [componentStates]
    generalize componentState env "CPU" _ _ = r1
    rcases r1 with ⟨ok1, sw5, s2⟩
    cases ok1
    · rfl
    · simp only [hf, ite_self]

theorem SortEvents_devices {D : Type} (s : System D) : (SortEvents s).devices = s.devices := by
  unfold SortEvents UpdateCPUDowncount
  cases s.running_events <;> cases s.frame_done <;> simp
  all_goals (split <;> rfl)

theorem DoEventsState_devices {D : Type} (sw : StateWrapper) (s : System D) :
    (DoEventsState sw s).2.2.devices = s.devices := by
  unfold DoEventsState
  split
  · simp only
    have hfr := readEventRecords_frame (sw.DoU32 0).1 (sw.DoU32 0).2 s
    generalize readEventRecords (sw.DoU32 0).1 (sw.DoU32 0).2 s = r at hfr ⊢
    rcases r with ⟨ok, sw2, s2⟩
    simp only at hfr
    cases ok
    · simp only
      rw [hfr]
    · simp only
      rw [SortEvents_devices]
      simp only
      rw [hfr]
  · rfl

/-- What `DoState` does with recording devices. -/
theorem DoState_recording
    (beh : String → StateWrapper → List Visit → Bool × StateWrapper) (sw : StateWrapper)
    (s : System (List Visit)) :
    ∃ visited,
      (DoState (recordingComponents beh) sw s).2.2.devices = s.devices ++ visited ∧
      VisitsInOrder componentOrder visited ∧
      ((∃ v ∈ visited, v.ok = false) → (DoState (recordingComponents beh) sw s).1 = false) ∧
      ((DoState (recordingComponents beh) sw s).1 = true →
        visited.map (fun v => v.marker) = componentOrder ∧
        ∃ (w6 w7 : StateWrapper) (s4 : System (List Visit)),
          s4.devices = s.devices ++ visited ∧ w6.DoMarker "Events" = (true, w7) ∧
          DoEventsState w7 s4 = (true, (DoState (recordingComponents beh) sw s).2.1,
            (DoState (recordingComponents beh) sw s).2.2)) := by
  rw [DoState_sections _ (fun _ => rfl)]
  cases h0 : sw.DoMarker "System" with
  | mk ok0 sw0 =>
    cases ok0 with
    | false =>
      exact ⟨[], by simp, ⟨List.nil_prefix, by simp, by simp⟩, by simp, by simp⟩
    | true =>
      simp only
      obtain ⟨visited, a, b, c, d⟩ := componentStates_recording beh componentOrder
        (systemFields sw0 s).1 (systemFields sw0 s).2
      have hdev : (systemFields sw0 s).2.devices = s.devices := rfl
      refine ⟨visited, ?_⟩
      cases h1 : componentStates (recordingComponents beh) componentOrder
          (systemFields sw0 s).1 (systemFields sw0 s).2 with
      | mk ok1 r1 =>
        rcases r1 with ⟨sw6, s4⟩
        rw [h1] at a c d
        simp only at a c d
        have hs4 : s4.devices = s.devices ++ visited := by rw [a, hdev]
        cases ok1 with
        | false => exact ⟨hs4, b, by simp, by simp⟩
        | true =>
          simp only
          have hall : ∀ v ∈ visited, v.ok = true := by
            intro v hv
            cases hvok : v.ok with
            | true => rfl
            | false => exact absurd (c ⟨v, hv, hvok⟩) (by simp)
          have hno : ¬ ∃ v ∈ visited, v.ok = false := by
            rintro ⟨v, hv, hvok⟩
            rw [hall v hv] at hvok
            exact absurd hvok (by simp)
          cases h2 : sw6.DoMarker "Events" with
          | mk ok2 sw7 =>
            cases ok2 with
            | false => exact ⟨hs4, b, by simp, by simp⟩
            | true =>
              simp only
              have hev := DoEventsState_devices sw7 s4
              cases h3 : DoEventsState sw7 s4 with
              | mk ok3 r3 =>
                rcases r3 with ⟨sw8, s5⟩
                rw [h3] at hev
                simp only at hev
                cases ok3 with
                | false => exact ⟨hev.trans hs4, b, by simp, by simp⟩
                | true =>
                  refine ⟨hev.trans hs4, b, fun h => absurd h hno, ?_⟩
                  intro hok
                  exact ⟨d rfl, sw6, sw7, s4, hs4, h2, h3⟩

/-! ### The steps of a pass -/

theorem RunEvents_eq {D : Type} (cb : Callbacks D) (fuel : Nat) (s : System D) :
    RunEvents cb fuel s = (runLoop cb fuel (loopEntry s)).bind endRunEvents := by
  unfold RunEvents loopEntry endRunEvents
  simp only
  cases runLoop cb fuel _ with
  | none => rfl
  | some s3 => cases h : s3.events <;> simp [h]

theorem fireFront_eq {D : Type} (cb : Callbacks D) (evt : TimingEvent) (s : System D) :
    fireFront cb evt s =
      requeue (cb evt.id evt.time_since_last_run (-evt.downcount) (serveFront evt s)) := rfl

theorem runLoop_succ {D : Type} (cb : Callbacks D) (fuel : Nat) (s : System D)
    (evt : TimingEvent) (t : List TimingEvent) (he : s.events = evt :: t) :
    runLoop cb (fuel + 1) s =
      if evt.downcount ≤ 0 then runLoop cb fuel (fireFront cb evt s) else some s := by
  rw [runLoop]
  simp only [he]

theorem loopEntry_events {D : Type} (s : System D) :
    (loopEntry s).events = s.events.map (aged (elapsed s)) := rfl

theorem toU32_cast (p : Int) (g : Nat) :
    (((g + toU32 p) % 2 ^ 32 : Nat) : Int) = ((g : Int) + p) % 2 ^ 32 := by
  unfold toU32
  have h0 : 0 ≤ p % 2 ^ 32 := Int.emod_nonneg _ (by norm_num)
  obtain ⟨n, hn⟩ := Int.eq_ofNat_of_zero_le h0
  rw [hn, Int.toNat_ofNat]
  push_cast
  omega

theorem loopEntry_drained {D : Type} (s : System D) : Drained s (loopEntry s) :=
  ⟨toU32_cast _ _, rfl, rfl⟩

/-- The elapsed time of a pass entered with the timestamp at the counter. -/
theorem elapsed_of_synced {D : Type} (s : System D)
    (hl : s.last_event_run_time = s.global_tick_counter) (hp0 : 0 ≤ s.cpu_pending_ticks)
    (hp1 : s.cpu_pending_ticks < 2 ^ 31) : elapsed s = s.cpu_pending_ticks := by
  unfold elapsed beginRunEvents toS32 toU32
  simp only [hl]
  have h1 : s.cpu_pending_ticks % 2 ^ 32 = s.cpu_pending_ticks :=
    Int.emod_eq_of_lt hp0 (by omega)
  rw [h1]
  obtain ⟨n, hn⟩ := Int.eq_ofNat_of_zero_le hp0
  rw [hn] at hp1 ⊢
  simp only [Int.toNat_ofNat]
  have hn1 : n < 2 ^ 31 := by exact_mod_cast hp1
  split
  · omega
  · omega

theorem fireFront_clock {D : Type} (cb : Callbacks D) (hcb : KeepsClock cb)
    (evt : TimingEvent) (s : System D) :
    (fireFront cb evt s).global_tick_counter = s.global_tick_counter ∧
    (fireFront cb evt s).last_event_run_time = s.last_event_run_time ∧
    (fireFront cb evt s).cpu_pending_ticks = s.cpu_pending_ticks := by
  obtain ⟨h1, h2, h3⟩ := hcb evt.id evt.time_since_last_run (-evt.downcount) (serveFront evt s)
  rw [fireFront_eq]
  unfold requeue
  split
  · exact ⟨h1, h2, h3⟩
  · exact ⟨h1, h2, h3⟩

theorem runLoop_clock {D : Type} (cb : Callbacks D) (hcb : KeepsClock cb) (fuel : Nat)
    (s s2 : System D) (h : runLoop cb fuel s = some s2) :
    s2.global_tick_counter = s.global_tick_counter ∧
    s2.last_event_run_time = s.last_event_run_time ∧
    s2.cpu_pending_ticks = s.cpu_pending_ticks := by
  induction fuel generalizing s with
  | zero => simp [runLoop] at h
  | succ fuel ih =>
    cases he : s.events with
    | nil => simp [runLoop, he] at h
    | cons evt t =>
      rw [runLoop_succ cb fuel s evt t he] at h
      by_cases hd : evt.downcount ≤ 0
      · rw [if_pos hd] at h
        obtain ⟨a, b, c⟩ := ih _ h
        obtain ⟨a2, b2, c2⟩ := fireFront_clock cb hcb evt s
        exact ⟨a.trans a2, b.trans b2, c.trans c2⟩
      · rw [if_neg hd] at h
        obtain rfl := Option.some.inj h
        exact ⟨rfl, rfl, rfl⟩

theorem endRunEvents_clock {D : Type} (s s2 : System D) (h : endRunEvents s = some s2) :
    s2.global_tick_counter = s.global_tick_counter ∧
    s2.last_event_run_time = s.last_event_run_time ∧
    s2.cpu_pending_ticks = s.cpu_pending_ticks := by
  unfold endRunEvents at h
  cases he : s.events with
  | nil => simp [he] at h
  | cons e t =>
    simp only [he] at h
    obtain rfl := Option.some.inj h
    exact ⟨rfl, rfl, rfl⟩

theorem RunEvents_drained {D : Type} (cb : Callbacks D) (hcb : KeepsClock cb) (fuel : Nat)
    (s s2 : System D) (h : RunEvents cb fuel s = some s2) : Drained s s2 := by
  rw [RunEvents_eq] at h
  cases hl : runLoop cb fuel (loopEntry s) with
  | none => simp [hl] at h
  | some s3 =>
    rw [hl] at h
    obtain ⟨a, b, c⟩ := runLoop_clock cb hcb fuel _ _ hl
    obtain ⟨a2, b2, c2⟩ := endRunEvents_clock s3 s2 h
    obtain ⟨d1, d2, d3⟩ := loopEntry_drained s
    refine ⟨?_, ?_, ?_⟩
    · rw [a2, a]; exact d1
    · rw [c2, c]; exact d2
    · rw [b2, b, a2, a]; exact d3

theorem inertCallbacks_keepsClock (D : Type) : KeepsClock (inertCallbacks D) :=
  fun _ _ _ _ => ⟨rfl, rfl, rfl⟩

/-! ### The order of dispatch -/

theorem leavesScheduler_wellBehaved {D : Type} (cb : Callbacks D) (h : LeavesScheduler cb) :
    WellBehaved cb := by
  intro id a b s hr
  obtain ⟨h1, _, h3⟩ := h id a b s
  refine ⟨h3.trans hr, ?_, ?_⟩
  · intro hn; rw [h1]; exact hn
  · intro _; rw [h1]

theorem loopEntry_inv {D : Type} (s : System D) (hh : IsHeap s.events)
    (hn : (s.events.map (fun e => e.id)).Nodup) :
    (loopEntry s).running_events = true ∧ IsHeap (loopEntry s).events ∧
    ((loopEntry s).events.map (fun e => e.id)).Nodup := by
  refine ⟨rfl, applyDowncount_isHeap _ _ hh, ?_⟩
  show ((applyDowncount _ s.events).map (fun e => e.id)).Nodup
  rw [ids_applyDowncount]
  exact hn

/-- Every dispatch is for a soonest-due event, and that event is due. -/
theorem dispatches_min {D : Type} (cb : Callbacks D) (hcb : WellBehaved cb) (fuel : Nat)
    (s : System D) (hr : s.running_events = true) (hh : IsHeap s.events)
    (hn : (s.events.map (fun e => e.id)).Nodup) :
    ∀ p ∈ dispatches cb fuel s, p.2 ∈ p.1.events ∧ p.2.downcount ≤ 0 ∧
      ∀ e ∈ p.1.events, p.2.downcount ≤ e.downcount := by
  induction fuel generalizing s with
  | zero => intro p hp; simp [dispatches] at hp
  | succ fuel ih =>
    intro p hp
    unfold dispatches at hp
    cases he : s.events with
    | nil => simp [he] at hp
    | cons evt t =>
      simp only [he] at hp
      by_cases hd : evt.downcount ≤ 0
      · rw [if_pos hd] at hp
        rcases List.mem_cons.1 hp with h | h
        · subst h
          refine ⟨by rw [he]; exact List.mem_cons_self _ _, hd, ?_⟩
          intro e hemem
          have := heap_front_le_mem _ hh e hemem
          rw [he, at_zero_cons] at this
          exact this
        · obtain ⟨q1, q2, q3⟩ := fireFront_inv cb hcb evt t s he hr hh hn
          exact ih _ q1 q2 q3 p h
      · rw [if_neg hd] at hp
        simp at hp

/-- The loop ends at a system whose front event is not due. -/
theorem runLoop_exit {D : Type} (cb : Callbacks D) (fuel : Nat) (s s2 : System D)
    (h : runLoop cb fuel s = some s2) : ∃ e t, s2.events = e :: t ∧ 0 < e.downcount := by
  induction fuel generalizing s with
  | zero => simp [runLoop] at h
  | succ fuel ih =>
    cases he : s.events with
    | nil => simp [runLoop, he] at h
    | cons evt t =>
      rw [runLoop_succ cb fuel s evt t he] at h
      by_cases hd : evt.downcount ≤ 0
      · rw [if_pos hd] at h
        exact ih _ h
      · rw [if_neg hd] at h
        obtain rfl := Option.some.inj h
        exact ⟨evt, t, he, by omega⟩

/-- With callbacks that leave the scheduler alone the loop ends. -/
theorem runLoop_terminates {D : Type} (cb : Callbacks D) (hcb : LeavesScheduler cb)
    (fuel : Nat) (s : System D) (hr : s.running_events = true) (hh : IsHeap s.events)
    (hn : (s.events.map (fun e => e.id)).Nodup)
    (hi : ∀ e ∈ s.events, 0 < e.interval) (hne : s.events ≠ [])
    (hf : due s.events < fuel) : ∃ s2, runLoop cb fuel s = some s2 := by
  induction fuel generalizing s with
  | zero => omega
  | succ n ih =>
    cases he : s.events with
    | nil => exact absurd he hne
    | cons evt t =>
      rw [runLoop_succ cb n s evt t he]
      by_cases hd : evt.downcount ≤ 0
      · rw [if_pos hd]
        have p1 := fireFront_events_perm cb evt t s he hn (fun a b x => (hcb evt.id a b x).1)
        obtain ⟨q1, q2, q3⟩ :=
          fireFront_inv cb (leavesScheduler_wellBehaved cb hcb) evt t s he hr hh hn
        have hievt : 0 < evt.interval := hi evt (by rw [he]; exact List.mem_cons_self _ _)
        have hi1 : ∀ e ∈ (fireFront cb evt s).events, 0 < e.interval := by
          intro e hemem
          rcases List.mem_cons.1 (p1.mem_iff.1 hemem) with h | h
          · rw [h]; exact hievt
          · exact hi e (by rw [he]; exact List.mem_cons_of_mem _ h)
        have hne1 : (fireFront cb evt s).events ≠ [] := by
          intro h
          have := p1.length_eq
          rw [h] at this
          simp at this
        have hdue : due (fireFront cb evt s).events < n := by
          rw [due_perm _ _ p1, due_cons]
          rw [he, due_cons, ← firesNeeded_serviced evt hd hievt] at hf
          omega
        exact ih _ q1 q2 q3 hi1 hne1 hdue
      · rw [if_neg hd]
        exact ⟨s, rfl⟩

theorem dispatches_head {D : Type} (cb : Callbacks D) (fuel : Nat) (s : System D) :
    ∀ p ∈ dispatches cb fuel s, p.1.events.head? = some p.2 := by
  induction fuel generalizing s with
  | zero => intro p hp; simp [dispatches] at hp
  | succ fuel ih =>
    intro p hp
    unfold dispatches at hp
    cases he : s.events with
    | nil => simp [he] at hp
    | cons evt t =>
      simp only [he] at hp
      by_cases hd : evt.downcount ≤ 0
      · rw [if_pos hd] at hp
        rcases List.mem_cons.1 hp with h | h
        · subst h
          simp [he]
        · exact ih _ p h
      · rw [if_neg hd] at hp
        simp at hp

theorem countingCallbacks_leavesScheduler : LeavesScheduler countingCallbacks :=
  fun _ _ _ _ => ⟨rfl, rfl, rfl⟩

theorem runLoop_calls {D : Type} (cb : Callbacks D)
    (hc : ∀ (id : Nat) (a b : Int) (x : System D), (cb id a b x).calls = x.calls)
    (fuel : Nat) (s s3 : System D) (h : runLoop cb fuel s = some s3) :
    s3.calls = s.calls ++ (dispatches cb fuel s).map
      (fun p => ⟨p.2.id, p.2.time_since_last_run, -p.2.downcount⟩) := by
  induction fuel generalizing s with
  | zero => simp [runLoop] at h
  | succ fuel ih =>
    cases he : s.events with
    | nil => simp [runLoop, he] at h
    | cons evt t =>
      rw [runLoop_succ cb fuel s evt t he] at h
      unfold dispatches
      simp only [he]
      by_cases hd : evt.downcount ≤ 0
      · rw [if_pos hd] at h
        have hcalls : (fireFront cb evt s).calls =
            s.calls ++ [⟨evt.id, evt.time_since_last_run, -evt.downcount⟩] := by
          rw [fireFront_eq]
          unfold requeue
          split
          · exact hc _ _ _ _
          · exact hc _ _ _ _
        rw [if_pos hd, ih _ h, List.map_cons, hcalls, List.append_assoc]
        rfl
      · rw [if_neg hd] at h
        obtain rfl := Option.some.inj h
        rw [if_neg hd]
        simp

theorem runLoop_settled {D : Type} (cb : Callbacks D) (hcb : WellBehaved cb) (fuel : Nat)
    (s s3 : System D) (hr : s.running_events = true) (hh : IsHeap s.events)
    (hn : (s.events.map (fun e => e.id)).Nodup) (h : runLoop cb fuel s = some s3) :
    ∀ e ∈ s3.events, 0 < e.downcount := by
  obtain ⟨_, hh3, _⟩ := runLoop_inv cb hcb fuel s s3 hr hh hn h
  obtain ⟨f, t, he, hf⟩ := runLoop_exit cb fuel s s3 h
  intro e hemem
  have := heap_front_le_mem _ hh3 e hemem
  rw [he, at_zero_cons] at this
  omega

theorem endRunEvents_same_events {D : Type} (s s2 : System D)
    (h : endRunEvents s = some s2) : s2.events = s.events := by
  unfold endRunEvents at h
  cases he : s.events with
  | nil => simp [he] at h
  | cons e t =>
    simp only [he] at h
    obtain rfl := Option.some.inj h
    rfl

theorem loopEntry_intervals {D : Type} (s : System D) (hi : ∀ e ∈ s.events, 0 < e.interval) :
    ∀ e ∈ (loopEntry s).events, 0 < e.interval := by
  intro e he
  rw [loopEntry_events] at he
  obtain ⟨x, hx, rfl⟩ := List.mem_map.1 he
  exact hi x hx

/-- With callbacks that leave the scheduler alone a pass returns. -/
theorem RunEvents_terminates {D : Type} (cb : Callbacks D) (hcb : LeavesScheduler cb)
    (s : System D) (hh : IsHeap s.events) (hn : (s.events.map (fun e => e.id)).Nodup)
    (hi : ∀ e ∈ s.events, 0 < e.interval) (hne : s.events ≠ []) :
    ∃ s2, RunEvents cb (due (loopEntry s).events + 1) s = some s2 := by
  obtain ⟨hr, hh1, hn1⟩ := loopEntry_inv s hh hn
  have hne1 : (loopEntry s).events ≠ [] := by
    rw [loopEntry_events]
    intro h
    exact hne (List.map_eq_nil_iff.1 h)
  obtain ⟨s3, h3⟩ := runLoop_terminates cb hcb _ (loopEntry s) hr hh1 hn1
    (loopEntry_intervals s hi) hne1 (Nat.lt_succ_self _)
  obtain ⟨f, t, he, _⟩ := runLoop_exit cb _ _ s3 h3
  rw [RunEvents_eq, h3]
  simp only [Option.some_bind, endRunEvents, he]
  exact ⟨_, rfl⟩

/-! ### The entry points outside dispatch: the needs-sorting flag -/

theorem UpdateCPUDowncount_flag {D : Type} (s : System D) :
    (UpdateCPUDowncount s).events_need_sorting = s.events_need_sorting := by
  unfold UpdateCPUDowncount
  split <;> rfl

theorem entry_points_flag_idle {D : Type} (s : System D) (event : TimingEvent) (id : Nat)
    (hr : s.running_events = false) :
    (AddActiveEvent event s).events_need_sorting = s.events_need_sorting ∧
    (RemoveActiveEvent id s).events_need_sorting = s.events_need_sorting ∧
    (SortEvents s).events_need_sorting = s.events_need_sorting := by
  refine ⟨?_, ?_, ?_⟩
  · unfold AddActiveEvent
    simp only [hr, Bool.not_false, if_true]
    split
    · rw [UpdateCPUDowncount_flag]
    · rfl
  · unfold RemoveActiveEvent
    split
    · rfl
    · simp only [hr, Bool.not_false, if_true]
      split
      · rw [UpdateCPUDowncount_flag]
      · rfl
  · unfold SortEvents
    simp only [hr, Bool.not_false, if_true]
    split
    · rw [UpdateCPUDowncount_flag]
    · rfl

theorem RemoveActiveEvent_events_of_found {D : Type} (id : Nat) (s : System D) (iter : Nat)
    (hr : s.running_events = false)
    (hi : s.events.findIdx? (fun it => decide (id = it.id)) = some iter) :
    (RemoveActiveEvent id s).events = make_heap (s.events.eraseIdx iter) := by
  unfold RemoveActiveEvent
  simp only [hi, hr, Bool.not_false, if_true]
  split
  · rw [UpdateCPUDowncount_events]
  · rfl

/-! ### Callbacks that change the active set -/

theorem addingCallbacks_wellBehaved (trigger : Nat) (event : TimingEvent) :
    WellBehaved (addingCallbacks trigger event) := by
  intro id a b s hr
  unfold addingCallbacks
  split
  · next hc =>
    unfold AddActiveEvent
    simp only [hr, Bool.not_true, Bool.false_eq_true, if_false]
    refine ⟨trivial, fun h => ?_, fun h => ?_⟩
    · rw [List.map_append, List.nodup_append]
      refine ⟨h, by simp, ?_⟩
      intro x hx1 hx2
      obtain ⟨y, hy, rfl⟩ := List.mem_map.1 hx1
      simp only [List.map_cons, List.map_nil, List.mem_singleton] at hx2
      exact hc.2 y hy hx2
    · simp at h
  · exact ⟨hr, fun h => h, fun _ => rfl⟩

theorem RunEvents_nonempty {D : Type} (cb : Callbacks D) (fuel : Nat) (s s2 : System D)
    (h : RunEvents cb fuel s = some s2) : s2.events ≠ [] := by
  rw [RunEvents_eq] at h
  cases hl : runLoop cb fuel (loopEntry s) with
  | none => simp [hl] at h
  | some s3 =>
    rw [hl] at h
    obtain ⟨e, t, he, _⟩ := runLoop_exit cb fuel _ s3 hl
    rw [endRunEvents_same_events s3 s2 h, he]
    simp

/-! ### The running flag -/

theorem UpdateCPUDowncount_running_eq {D : Type} (s : System D) :
    (UpdateCPUDowncount s).running_events = s.running_events := by
  unfold UpdateCPUDowncount
  split <;> rfl

theorem entry_points_running {D : Type} (s : System D) (event : TimingEvent) (id : Nat) :
    (AddActiveEvent event s).running_events = s.running_events ∧
    (RemoveActiveEvent id s).running_events = s.running_events ∧
    (SortEvents s).running_events = s.running_events := by
  refine ⟨?_, ?_, ?_⟩
  · unfold AddActiveEvent
    simp only
    split
    · split
      · rw [UpdateCPUDowncount_running_eq]
      · rfl
    · rfl
  · unfold RemoveActiveEvent
    split
    · rfl
    · simp only
      split
      · split
        · rw [UpdateCPUDowncount_running_eq]
        · rfl
      · rfl
  · unfold SortEvents
    split
    · simp only
      split
      · rw [UpdateCPUDowncount_running_eq]
      · rfl
    · rfl

theorem DoEventsState_running {D : Type} (sw : StateWrapper) (s : System D) :
    (DoEventsState sw s).2.2.running_events = s.running_events := by
  unfold DoEventsState
  split
  · simp only
    have hfr := readEventRecords_frame (sw.DoU32 0).1 (sw.DoU32 0).2 s
    generalize readEventRecords (sw.DoU32 0).1 (sw.DoU32 0).2 s = r at hfr ⊢
    rcases r with ⟨ok, sw2, s2⟩
    simp only at hfr
    cases ok
    · simp only
      rw [hfr]
    · simp only
      rw [(entry_points_running _ default 0).2.2]
      simp only
      rw [hfr]
  · rfl

theorem fireFront_running {D : Type} (cb : Callbacks D)
    (hcb : ∀ (id : Nat) (a b : Int) (x : System D), x.running_events = true →
      (cb id a b x).running_events = true)
    (evt : TimingEvent) (s : System D) (hr : s.running_events = true) :
    (fireFront cb evt s).running_events = true := by
  have h := hcb evt.id evt.time_since_last_run (-evt.downcount) (serveFront evt s) hr
  rw [fireFront_eq]
  unfold requeue
  split
  · exact h
  · exact h

theorem dispatches_running {D : Type} (cb : Callbacks D)
    (hcb : ∀ (id : Nat) (a b : Int) (x : System D), x.running_events = true →
      (cb id a b x).running_events = true)
    (fuel : Nat) (s : System D) (hr : s.running_events = true) :
    ∀ p ∈ dispatches cb fuel s, p.1.running_events = true := by
  induction fuel generalizing s with
  | zero => intro p hp; simp [dispatches] at hp
  | succ fuel ih =>
    intro p hp
    unfold dispatches at hp
    cases he : s.events with
    | nil => simp [he] at hp
    | cons evt t =>
      simp only [he] at hp
      by_cases hd : evt.downcount ≤ 0
      · rw [if_pos hd] at hp
        rcases List.mem_cons.1 hp with h | h
        · subst h; exact hr
        · exact ih _ (fireFront_running cb hcb evt s hr) p h
      · rw [if_neg hd] at hp
        simp at hp

theorem RunEvents_not_running {D : Type} (cb : Callbacks D) (fuel : Nat) (s s2 : System D)
    (h : RunEvents cb fuel s = some s2) : s2.running_events = false := by
  rw [RunEvents_eq] at h
  cases hl : runLoop cb fuel (loopEntry s) with
  | none => simp [hl] at h
  | some s3 =>
    rw [hl] at h
    simp only [Option.some_bind] at h
    unfold endRunEvents at h
    cases he : s3.events with
    | nil => simp [he] at h
    | cons e t =>
      simp only [he] at h
      obtain rfl := Option.some.inj h
      rfl

/-! ### The loop with callbacks that leave the scheduler alone -/

theorem dispatchRecords_succ {D : Type} (cb : Callbacks D) (fuel : Nat) (s : System D)
    (evt : TimingEvent) (t : List TimingEvent) (he : s.events = evt :: t) :
    dispatchRecords cb (fuel + 1) s =
      if evt.downcount ≤ 0 then
        ⟨evt.id, evt.time_since_last_run, -evt.downcount⟩ ::
          dispatchRecords cb fuel (fireFront cb evt s)
      else [] := by
  unfold dispatchRecords
  rw [dispatches]
  simp only [he]
  split <;> rfl

/-- The loop with callbacks that leave the scheduler alone: it ends, every event is
settled, and the invocations for each event are the ones of `firesOf`. -/
theorem runLoop_leaves {D : Type} (cb : Callbacks D) (hcb : LeavesScheduler cb) (fuel : Nat)
    (s : System D) (hr : s.running_events = true) (hh : IsHeap s.events)
    (hn : (s.events.map (fun e => e.id)).Nodup)
    (hi : ∀ e ∈ s.events, 0 < e.interval) (hne : s.events ≠ [])
    (hf : due s.events < fuel) :
    ∃ s3, runLoop cb fuel s = some s3 ∧ s3.events.Perm (s.events.map settled) ∧
      IsHeap s3.events ∧
      (∀ e ∈ s.events, callsOf e.id (dispatchRecords cb fuel s) = firesOf e) ∧
      (∀ r ∈ dispatchRecords cb fuel s, ∃ e ∈ s.events, e.id = r.id) := by
  induction fuel generalizing s with
  | zero => omega
  | succ n ih =>
    cases he : s.events with
    | nil => exact absurd he hne
    | cons evt t =>
      rw [runLoop_succ cb n s evt t he, dispatchRecords_succ cb n s evt t he]
      by_cases hd : evt.downcount ≤ 0
      · rw [if_pos hd, if_pos hd]
        have p1 := fireFront_events_perm cb evt t s he hn (fun a b x => (hcb evt.id a b x).1)
        obtain ⟨q1, q2, q3⟩ :=
          fireFront_inv cb (leavesScheduler_wellBehaved cb hcb) evt t s he hr hh hn
        have hievt : 0 < evt.interval := hi evt (by rw [he]; exact List.mem_cons_self _ _)
        have hi1 : ∀ e ∈ (fireFront cb evt s).events, 0 < e.interval := by
          intro e hemem
          rcases List.mem_cons.1 (p1.mem_iff.1 hemem) with h | h
          · rw [h]; exact hievt
          · exact hi e (by rw [he]; exact List.mem_cons_of_mem _ h)
        have hne1 : (fireFront cb evt s).events ≠ [] := by
          intro h
          have := p1.length_eq
          rw [h] at this
          simp at this
        have hdue : due (fireFront cb evt s).events < n := by
          rw [due_perm _ _ p1, due_cons]
          rw [he, due_cons, ← firesNeeded_serviced evt hd hievt] at hf
          omega
        obtain ⟨s3, r1, r2, r3, r5, r6⟩ := ih _ q1 q2 q3 hi1 hne1 hdue
        refine ⟨s3, r1, ?_, r3, ?_, ?_⟩
        · refine r2.trans ((p1.map settled).trans ?_)
          rw [List.map_cons, List.map_cons, settled_serviced evt hd hievt]
        · intro e hemem
          rcases List.mem_cons.1 hemem with h | h
          · subst h
            have := r5 (serviced e) (p1.mem_iff.2 (List.mem_cons_self _ _))
            rw [firesOf_serviced e hd hievt, ← this]
            simp [callsOf, serviced]
          · have hid : evt.id ≠ e.id := by
              rw [he, List.map_cons, List.nodup_cons] at hn
              intro hc
              exact hn.1 (List.mem_map.2 ⟨e, h, hc.symm⟩)
            have := r5 e (p1.mem_iff.2 (List.mem_cons_of_mem _ h))
            rw [← this]
            simp [callsOf, hid]
        · intro r hrmem
          rcases List.mem_cons.1 hrmem with h | h
          · exact ⟨evt, List.mem_cons_self _ _, by rw [h]⟩
          · obtain ⟨e, h1, h2⟩ := r6 r h
            rcases List.mem_cons.1 (p1.mem_iff.1 h1) with h3 | h3
            · exact ⟨evt, List.mem_cons_self _ _, by rw [← h2, h3]; rfl⟩
            · exact ⟨e, List.mem_cons_of_mem _ h3, h2⟩
      · rw [if_neg hd, if_neg hd]
        have hall : ∀ e ∈ s.events, 0 < e.downcount := by
          intro e hemem
          have := heap_front_le_mem _ hh e hemem
          rw [he, at_zero_cons] at this
          omega
        rw [← he]
        refine ⟨s, rfl, ?_, hh, ?_, by simp⟩
        · have : s.events.map settled = s.events := by
            conv_rhs => rw [← List.map_id s.events]
            apply List.map_congr_left
            intro e hemem
            exact settled_of_pos e (hall e hemem)
          rw [this]
        · intro e hemem
          rw [firesOf_of_pos e (hall e hemem)]
          rfl

theorem length_recordsFrom (id n : Nat) (tslr dc interval : Int) :
    (recordsFrom id n tslr dc interval).length = n := by
  induction n generalizing tslr dc with
  | zero => rfl
  | succ n ih => simp [recordsFrom, ih]

theorem length_firesOf (e : TimingEvent) : (firesOf e).length = firesNeeded e :=
  length_recordsFrom _ _ _ _ _

theorem identityOf_serviced (e : TimingEvent) : identityOf (serviced e) = identityOf e := rfl

theorem identityOf_aged (time : Int) (e : TimingEvent) :
    identityOf (aged time e) = identityOf e := rfl

theorem identity_id (e : TimingEvent) : (identityOf e).1 = e.id := rfl

/-- The loop keeps the events and what identifies them, when the callbacks leave the
active vector alone. -/
theorem runLoop_identities {D : Type} (cb : Callbacks D)
    (hcb : ∀ (id : Nat) (a b : Int) (x : System D), (cb id a b x).events = x.events)
    (fuel : Nat) (s s3 : System D) (hn : (s.events.map (fun e => e.id)).Nodup)
    (h : runLoop cb fuel s = some s3) :
    (s3.events.map identityOf).Perm (s.events.map identityOf) := by
  induction fuel generalizing s with
  | zero => simp [runLoop] at h
  | succ fuel ih =>
    cases he : s.events with
    | nil => simp [runLoop, he] at h
    | cons evt t =>
      rw [runLoop_succ cb fuel s evt t he] at h
      by_cases hd : evt.downcount ≤ 0
      · rw [if_pos hd] at h
        have p1 := fireFront_events_perm cb evt t s he hn (fun a b x => hcb evt.id a b x)
        have hn1 : ((fireFront cb evt s).events.map (fun e => e.id)).Nodup := by
          rw [(p1.map (fun e => e.id)).nodup_iff]
          rw [he] at hn
          exact hn
        refine (ih _ hn1 h).trans ?_
        exact p1.map identityOf
      · rw [if_neg hd] at h
        obtain rfl := Option.some.inj h
        rw [he]

theorem loopEntry_identities {D : Type} (s : System D) :
    (loopEntry s).events.map identityOf = s.events.map identityOf := by
  rw [loopEntry_events, List.map_map]
  rfl

theorem loopEntry_ids {D : Type} (s : System D) :
    (loopEntry s).events.map (fun e => e.id) = s.events.map (fun e => e.id) := by
  rw [loopEntry_events, List.map_map]
  rfl

theorem RunEvents_loop {D : Type} (cb : Callbacks D) (fuel : Nat) (s s2 : System D)
    (h : RunEvents cb fuel s = some s2) :
    ∃ s3, runLoop cb fuel (loopEntry s) = some s3 ∧ s2.events = s3.events := by
  rw [RunEvents_eq] at h
  cases hl : runLoop cb fuel (loopEntry s) with
  | none => simp [hl] at h
  | some s3 =>
    rw [hl] at h
    exact ⟨s3, rfl, endRunEvents_same_events s3 s2 h⟩

theorem RunEvents_of_loop {D : Type} (cb : Callbacks D) (fuel : Nat) (s s3 : System D)
    (h : runLoop cb fuel (loopEntry s) = some s3) :
    ∃ s2, RunEvents cb fuel s = some s2 ∧ s2.events = s3.events := by
  obtain ⟨e, t, he, _⟩ := runLoop_exit cb fuel _ s3 h
  rw [RunEvents_eq, h]
  simp only [Option.some_bind, endRunEvents, he]
  exact ⟨_, rfl, rfl⟩

/-- A pass with callbacks that leave the scheduler alone. -/
theorem RunEvents_leaves {D : Type} (cb : Callbacks D) (hcb : LeavesScheduler cb)
    (fuel : Nat) (s : System D) (hh : IsHeap s.events)
    (hn : (s.events.map (fun e => e.id)).Nodup)
    (hi : ∀ e ∈ s.events, 0 < e.interval) (hne : s.events ≠ [])
    (hf : due (loopEntry s).events < fuel) :
    ∃ s2, RunEvents cb fuel s = some s2 ∧
      s2.events.Perm ((loopEntry s).events.map settled) ∧ IsHeap s2.events ∧
      (∀ e ∈ (loopEntry s).events, callsOf e.id (passRecords cb fuel s) = firesOf e) ∧
      (∀ r ∈ passRecords cb fuel s, ∃ e ∈ s.events, e.id = r.id) := by
  obtain ⟨hr, hh1, hn1⟩ := loopEntry_inv s hh hn
  have hne1 : (loopEntry s).events ≠ [] := by
    rw [loopEntry_events]
    intro h
    exact hne (List.map_eq_nil_iff.1 h)
  obtain ⟨s3, r1, r2, r3, r5, r6⟩ := runLoop_leaves cb hcb fuel (loopEntry s) hr hh1 hn1
    (loopEntry_intervals s hi) hne1 hf
  obtain ⟨s2, a, b⟩ := RunEvents_of_loop cb fuel s s3 r1
  refine ⟨s2, a, by rw [b]; exact r2, by rw [b]; exact r3, r5, ?_⟩
  intro r hrmem
  obtain ⟨e, he, hid⟩ := r6 r hrmem
  rw [loopEntry_events] at he
  obtain ⟨x, hx, rfl⟩ := List.mem_map.1 he
  exact ⟨x, hx, hid⟩

/-! ### Conservation of ticks -/

theorem ticksDelivered_nil (id : Nat) : ticksDelivered id [] = 0 := rfl

theorem ticksDelivered_cons (id : Nat) (r : CallRecord) (recs : List CallRecord) :
    ticksDelivered id (r :: recs) =
      (if r.id = id then r.ticks_to_execute else 0) + ticksDelivered id recs := by
  unfold ticksDelivered callsOf
  by_cases h : r.id = id
  · simp [List.filter_cons, h]
  · simp [List.filter_cons, h]

theorem ticksDelivered_append (id : Nat) (a b : List CallRecord) :
    ticksDelivered id (a ++ b) = ticksDelivered id a + ticksDelivered id b := by
  unfold ticksDelivered callsOf
  rw [List.filter_append, List.map_append, List.sum_append]

/-- The loop hands every tick accumulated by an event to its callback or leaves it
accumulated. -/
theorem runLoop_conserves {D : Type} (cb : Callbacks D)
    (hcb : ∀ (id : Nat) (a b : Int) (x : System D), (cb id a b x).events = x.events)
    (fuel : Nat) (s s3 : System D) (hn : (s.events.map (fun e => e.id)).Nodup)
    (h : runLoop cb fuel s = some s3) :
    ∀ e ∈ s.events, ∃ x ∈ s3.events, x.id = e.id ∧
      ticksDelivered e.id (dispatchRecords cb fuel s) + x.time_since_last_run =
        e.time_since_last_run := by
  induction fuel generalizing s with
  | zero => simp [runLoop] at h
  | succ fuel ih =>
    cases he : s.events with
    | nil => simp [runLoop, he] at h
    | cons evt t =>
      rw [runLoop_succ cb fuel s evt t he] at h
      rw [dispatchRecords_succ cb fuel s evt t he]
      by_cases hd : evt.downcount ≤ 0
      · rw [if_pos hd] at h
        rw [if_pos hd]
        have p1 := fireFront_events_perm cb evt t s he hn (fun a b x => hcb evt.id a b x)
        have hn1 : ((fireFront cb evt s).events.map (fun e => e.id)).Nodup := by
          rw [(p1.map (fun e => e.id)).nodup_iff]
          rw [he] at hn
          exact hn
        have hih := ih _ hn1 h
        intro e hemem
        rcases List.mem_cons.1 hemem with hx | hx
        · subst hx
          obtain ⟨x, hx1, hx2, hx3⟩ := hih (serviced e) (p1.mem_iff.2 (List.mem_cons_self _ _))
          refine ⟨x, hx1, hx2, ?_⟩
          rw [ticksDelivered_cons]
          simp only [if_true]
          have h0 : (serviced e).time_since_last_run = 0 := rfl
          have hid : (serviced e).id = e.id := rfl
          rw [hid, h0] at hx3
          omega
        · obtain ⟨x, hx1, hx2, hx3⟩ := hih e (p1.mem_iff.2 (List.mem_cons_of_mem _ hx))
          refine ⟨x, hx1, hx2, ?_⟩
          have hid : evt.id ≠ e.id := by
            rw [he, List.map_cons, List.nodup_cons] at hn
            intro hc
            exact hn.1 (List.mem_map.2 ⟨e, hx, hc.symm⟩)
          rw [ticksDelivered_cons]
          simp only [hid, if_false]
          omega
      · rw [if_neg hd] at h
        rw [if_neg hd]
        obtain rfl := Option.some.inj h
        intro e hemem
        exact ⟨e, by rw [he]; exact hemem, rfl, by rw [ticksDelivered_nil]; omega⟩

/-- A pass hands every tick accumulated by an event, the elapsed time included, to its
callback or leaves it accumulated. -/
theorem RunEvents_conserves {D : Type} (cb : Callbacks D)
    (hcb : ∀ (id : Nat) (a b : Int) (x : System D), (cb id a b x).events = x.events)
    (fuel : Nat) (s s2 : System D) (hn : (s.events.map (fun e => e.id)).Nodup)
    (h : RunEvents cb fuel s = some s2) :
    (s2.events.map (fun e => e.id)).Nodup ∧
    ∀ e ∈ s.events, ∃ x ∈ s2.events, x.id = e.id ∧
      ticksDelivered e.id (passRecords cb fuel s) + x.time_since_last_run =
        e.time_since_last_run + elapsed s := by
  obtain ⟨s3, hl, hev⟩ := RunEvents_loop cb fuel s s2 h
  have hn1 : ((loopEntry s).events.map (fun e => e.id)).Nodup := by
    rw [loopEntry_ids]; exact hn
  have hp := runLoop_identities cb hcb fuel _ s3 hn1 hl
  rw [loopEntry_identities] at hp
  constructor
  · rw [hev]
    have hp1 := hp.map (fun i : Nat × String × Int × Int => i.1)
    rw [List.map_map, List.map_map] at hp1
    exact hp1.nodup_iff.2 hn
  · intro e hemem
    have hmem : aged (elapsed s) e ∈ (loopEntry s).events := by
      rw [loopEntry_events]
      exact List.mem_map.2 ⟨e, hemem, rfl⟩
    obtain ⟨x, hx1, hx2, hx3⟩ := runLoop_conserves cb hcb fuel _ s3 hn1 hl _ hmem
    exact ⟨x, by rw [hev]; exact hx1, hx2, hx3⟩

/-- Passes in a row conserve the ticks of every event. -/
theorem runPasses_conserves {D : Type} (cb : Callbacks D)
    (hcb : ∀ (id : Nat) (a b : Int) (x : System D), (cb id a b x).events = x.events)
    (passes : List (Nat × Int)) (s s2 : System D) (total : Int) (recs : List CallRecord)
    (hn : (s.events.map (fun e => e.id)).Nodup)
    (h : runPasses cb passes s = some (s2, total, recs)) :
    ∀ e ∈ s.events, ∃ x ∈ s2.events, x.id = e.id ∧
      ticksDelivered e.id recs + x.time_since_last_run = e.time_since_last_run + total := by
  induction passes generalizing s total recs with
  | nil =>
    simp only [runPasses, Option.some.injEq, Prod.mk.injEq] at h
    obtain ⟨rfl, rfl, rfl⟩ := h
    intro e he
    exact ⟨e, he, rfl, by rw [ticksDelivered_nil]; omega⟩
  | cons p rest ih =>
    obtain ⟨fuel, pending⟩ := p
    rw [runPasses] at h
    cases h1 : RunEvents cb fuel { s with cpu_pending_ticks := pending } with
    | none => simp [h1] at h
    | some s1 =>
      rw [h1] at h
      simp only at h
      cases h2 : runPasses cb rest s1 with
      | none => simp [h2] at h
      | some r =>
        obtain ⟨s3, total2, recs2⟩ := r
        rw [h2] at h
        simp only [Option.some.injEq, Prod.mk.injEq] at h
        obtain ⟨rfl, rfl, rfl⟩ := h
        obtain ⟨hn1, hc⟩ := RunEvents_conserves cb hcb fuel
          { s with cpu_pending_ticks := pending } s1 hn h1
        intro e he
        obtain ⟨y, hy1, hy2, hy3⟩ := hc e he
        obtain ⟨x, hx1, hx2, hx3⟩ := ih s1 total2 recs2 hn1 h2 y hy1
        refine ⟨x, hx1, hx2.trans hy2, ?_⟩
        rw [ticksDelivered_append]
        rw [hy2] at hx3
        omega

theorem RunEvents_calls {D : Type} (cb : Callbacks D)
    (hc : ∀ (id : Nat) (a b : Int) (x : System D), (cb id a b x).calls = x.calls)
    (fuel : Nat) (s s2 : System D) (h : RunEvents cb fuel s = some s2) :
    s2.calls = s.calls ++ passRecords cb fuel s := by
  rw [RunEvents_eq] at h
  cases hl : runLoop cb fuel (loopEntry s) with
  | none => simp [hl] at h
  | some s3 =>
    rw [hl] at h
    have h3 := runLoop_calls cb hc fuel _ s3 hl
    simp only [Option.some_bind] at h
    unfold endRunEvents at h
    cases he : s3.events with
    | nil => simp [he] at h
    | cons e t =>
      simp only [he] at h
      obtain rfl := Option.some.inj h
      exact h3

theorem runPasses_calls {D : Type} (cb : Callbacks D)
    (hc : ∀ (id : Nat) (a b : Int) (x : System D), (cb id a b x).calls = x.calls)
    (passes : List (Nat × Int)) (s s2 : System D) (total : Int) (recs : List CallRecord)
    (h : runPasses cb passes s = some (s2, total, recs)) : s2.calls = s.calls ++ recs := by
  induction passes generalizing s total recs with
  | nil =>
    simp only [runPasses, Option.some.injEq, Prod.mk.injEq] at h
    obtain ⟨rfl, rfl, rfl⟩ := h
    simp
  | cons p rest ih =>
    obtain ⟨fuel, pending⟩ := p
    rw [runPasses] at h
    cases h1 : RunEvents cb fuel { s with cpu_pending_ticks := pending } with
    | none => simp [h1] at h
    | some s1 =>
      rw [h1] at h
      simp only at h
      cases h2 : runPasses cb rest s1 with
      | none => simp [h2] at h
      | some r =>
        obtain ⟨s3, total2, recs2⟩ := r
        rw [h2] at h
        simp only [Option.some.injEq, Prod.mk.injEq] at h
        obtain ⟨rfl, rfl, rfl⟩ := h
        rw [ih s1 total2 recs2 h2,
          RunEvents_calls cb hc fuel { s with cpu_pending_ticks := pending } s1 h1,
          List.append_assoc]

/-! ### The writes of `LoadEXEFromBuffer` -/

theorem length_writeWords (address : Nat) (ws : List Nat) :
    (writeWords address ws).length = ws.length := by
  induction ws generalizing address with
  | nil => rfl
  | cons w rest ih => simp [writeWords, ih]

theorem length_wordsOf (bs : List Nat) (n : Nat) : (wordsOf bs n).length = n := by
  induction n generalizing bs with
  | zero => rfl
  | succ n ih => simp [wordsOf, ih]

theorem wordsOf_get (bs : List Nat) (n i : Nat) (hi : i < n) :
    (wordsOf bs n)[i]? = some (decodeU32 ((bs.drop (4 * i)).take 4)) := by
  induction n generalizing bs i with
  | zero => omega
  | succ n ih =>
    cases i with
    | zero => simp [wordsOf]
    | succ i =>
      rw [wordsOf, List.getElem?_cons_succ, ih _ i (by omega), List.drop_drop]
      congr 4
      omega

theorem writeWords_get (address : Nat) (ws : List Nat) (i : Nat) (w : Nat)
    (ha : address < 2 ^ 32) (hw : ws[i]? = some w) :
    (writeWords address ws)[i]? = some ((address + 4 * i) % 2 ^ 32, w) := by
  induction ws generalizing address i with
  | nil => simp at hw
  | cons x rest ih =>
    cases i with
    | zero =>
      simp only [List.getElem?_cons_zero, Option.some.injEq] at hw
      subst hw
      simp only [writeWords, List.getElem?_cons_zero, Nat.mul_zero, Nat.add_zero,
        Nat.mod_eq_of_lt ha]
    | succ i =>
      rw [List.getElem?_cons_succ] at hw
      rw [writeWords, List.getElem?_cons_succ,
        ih ((address + 4) % 2 ^ 32) i (Nat.mod_lt _ (by norm_num)) hw]
      congr 2
      omega

theorem wordsOf_take_get (bs : List Nat) (size i : Nat) (hi : i < size / 4) :
    (wordsOf (bs.take size) (size / 4))[i]? = some (decodeU32 ((bs.drop (4 * i)).take 4)) := by
  rw [wordsOf_get _ _ _ hi, List.drop_take, List.take_take]
  congr 3
  omega

theorem LoadEXEFromBuffer_short {B : Type} (fmt : EXEFormat B) (buffer : List Nat)
    (bios_image : B) (h : buffer.length < fmt.headerSize) :
    LoadEXEFromBuffer fmt buffer bios_image = (false, [], bios_image) := by
  simp [LoadEXEFromBuffer, h]

theorem dataWrites_nil (header : PSEXEHeader) (rest : List Nat) (h : ¬ header.file_size ≥ 4) :
    dataWrites header rest = [] := by
  have h0 : header.file_size / 4 = 0 := by omega
  simp [dataWrites, h0, wordsOf, writeWords]

theorem LoadEXEFromBuffer_cases {B : Type} (fmt : EXEFormat B) (buffer : List Nat)
    (bios_image : B) (h1 : ¬ buffer.length < fmt.headerSize) :
    (LoadEXEFromBuffer fmt buffer bios_image =
        (false, [], bios_image)) ∨
    (LoadEXEFromBuffer fmt buffer bios_image =
        (false, memfillWrites (fmt.header (buffer.take fmt.headerSize)), bios_image)) ∨
    (((fmt.header (buffer.take fmt.headerSize)).file_size ≥ 4 →
        ¬ (buffer.drop fmt.headerSize).length <
          (fmt.header (buffer.take fmt.headerSize)).file_size) ∧
      (LoadEXEFromBuffer fmt buffer bios_image).2.1 =
        memfillWrites (fmt.header (buffer.take fmt.headerSize)) ++
          dataWrites (fmt.header (buffer.take fmt.headerSize))
            (buffer.drop fmt.headerSize)) := by
  by_cases h2 : fmt.IsValidPSExeHeader (fmt.header (buffer.take fmt.headerSize))
      (buffer.drop fmt.headerSize).length = true
  · by_cases h3 : (fmt.header (buffer.take fmt.headerSize)).file_size ≥ 4
    · by_cases h4 : (buffer.drop fmt.headerSize).length <
          (fmt.header (buffer.take fmt.headerSize)).file_size
      · refine Or.inr (Or.inl ?_)
        simp only [LoadEXEFromBuffer, h2, h3, h4, if_true, if_false, if_neg h1, Bool.not_true]
        rfl
      · refine Or.inr (Or.inr ⟨fun _ => h4, ?_⟩)
        simp only [LoadEXEFromBuffer, h2, h3, h4, if_true, if_false, if_neg h1, Bool.not_true]
        rfl
    · refine Or.inr (Or.inr ⟨fun h => absurd h h3, ?_⟩)
      simp only [LoadEXEFromBuffer, h2, h3, if_true, if_false, if_neg h1, Bool.not_true]
      rw [dataWrites_nil _ _ h3, List.append_nil]
      rfl
  · refine Or.inl ?_
    simp only [Bool.not_eq_true] at h2
    simp only [LoadEXEFromBuffer, h2, if_neg h1, Bool.not_false, if_true]

/-! ### Writing a state at the end of a stream -/

theorem Write2_at_end (st : ByteStream) (bs : List Nat) (h : st.pos = st.data.length) :
    (st.Write2 bs).data = st.data ++ bs ∧ (st.Write2 bs).pos = (st.Write2 bs).data.length := by
  simp [ByteStream.Write2, h]

theorem componentState_appends {D : Type} (env : Components D) (henv : WritesByAppending env)
    (marker : String) (w w2 : StateWrapper) (s s2 : System D) (hw : AtEnd w)
    (hr : componentState env marker w s = (true, w2, s2)) : ∃ bs, Appended w bs w2 := by
  obtain ⟨w1, a1, b1⟩ := write_DoMarker w marker hw
  unfold componentState at hr
  rw [a1] at hr
  obtain ⟨bs, hb⟩ := henv marker w1 w2 s s2 b1.2 hr
  exact ⟨_, Appended_trans _ _ _ _ _ b1 hb⟩

theorem componentStates_appends {D : Type} (env : Components D)
    (henv : WritesByAppending env) (markers : List String) (w w2 : StateWrapper)
    (s s2 : System D) (hw : AtEnd w)
    (hr : componentStates env markers w s = (true, w2, s2)) : ∃ bs, Appended w bs w2 := by
  induction markers generalizing w s with
  | nil =>
    simp only [componentStates, Prod.mk.injEq, true_and] at hr
    exact ⟨[], by rw [← hr.1]; exact ⟨by simp, hw⟩⟩
  | cons m rest ih =>
    rw [componentStates] at hr
    generalize hc : componentState env m w s = c at hr
    rcases c with ⟨ok, w1, s1⟩
    cases ok
    · simp at hr
    · obtain ⟨bs1, h1⟩ := componentState_appends env henv m w w1 s s1 hw hc
      obtain ⟨bs2, h2⟩ := ih w1 s1 h1.2 hr
      exact ⟨_, Appended_trans _ _ _ _ _ h1 h2⟩

theorem DoState_appends {D : Type} (env : Components D) (henv : WritesByAppending env)
    (w w2 : StateWrapper) (s s2 : System D) (hw : AtEnd w)
    (hr : DoState env w s = (true, w2, s2)) : ∃ bs, Appended w bs w2 := by
  obtain ⟨w0, a0, b0⟩ := write_DoMarker w "System" hw
  obtain ⟨w1, a1, b1⟩ := write_DoU32 w0 s.region b0.2
  obtain ⟨w2a, a2, b2⟩ := write_DoU32 w1 s.frame_number b1.2
  obtain ⟨w3, a3, b3⟩ := write_DoU32 w2a s.internal_frame_number b2.2
  obtain ⟨w4, a4, b4⟩ := write_DoU32 w3 s.global_tick_counter b3.2
  unfold DoState at hr
  simp only [a0, a1, a2, a3, a4] at hr
  generalize hc : componentState env "CPU" w4 _ = c at hr
  rcases c with ⟨ok, w5, s5⟩
  cases ok
  · simp at hr
  · obtain ⟨bs5, b5⟩ := componentState_appends env henv "CPU" w4 w5 _ s5 b4.2 hc
    simp only [] at hr
    generalize hcs : componentStates env componentsAfterCPU w5 _ = cs at hr
    rcases cs with ⟨ok, w6, s6⟩
    cases ok
    · simp at hr
    · obtain ⟨bs6, b6⟩ := componentStates_appends env henv _ w5 w6 _ s6 b5.2 hcs
      obtain ⟨w7, a7, b7⟩ := write_DoMarker w6 "Events" b6.2
      obtain ⟨w8, a8, b8⟩ := DoEventsState_write w7 s6 b7.2
      simp only [a7, a8, Prod.mk.injEq] at hr
      obtain ⟨-, hw8, -⟩ := hr
      subst hw8
      exact ⟨_, Appended_trans _ _ _ _ _ (Appended_trans _ _ _ _ _ (Appended_trans _ _ _ _ _
        (Appended_trans _ _ _ _ _ (Appended_trans _ _ _ _ _ (Appended_trans _ _ _ _ _
          (Appended_trans _ _ _ _ _ (Appended_trans _ _ _ _ _ b0 b1) b2) b3) b4) b5) b6) b7)
            b8⟩

/-! ### The header as bytes -/

theorem length_Strlcpy (size : Nat) (src : String) : (Strlcpy size src).length = size := by
  simp only [Strlcpy, List.length_append, List.length_replicate, List.length_take]
  omega

theorem length_headerTail (h : SAVE_STATE_HEADER) : (headerTail h).length = 36 := rfl

theorem length_encodeHeader (fmt : SaveStateFormat) (h : SAVE_STATE_HEADER)
    (ht : h.title.length = fmt.title_size) (hc : h.game_code.length = fmt.game_code_size) :
    (encodeHeader h).length = headerSize fmt := by
  simp only [encodeHeader, List.length_append, length_encodeU32, length_headerTail, ht, hc,
    headerSize]

theorem u32At_append (head tail : List Nat) (o k : Nat) (h : head.length = o) :
    u32At (head ++ tail) (o + k) = u32At tail k := by
  subst h
  unfold u32At
  rw [List.drop_append]

theorem parseHeader_encodeHeader (fmt : SaveStateFormat) (h : SAVE_STATE_HEADER)
    (ht : h.title.length = fmt.title_size) (hc : h.game_code.length = fmt.game_code_size)
    (h1 : h.magic < 2 ^ 32) (h2 : h.version < 2 ^ 32)
    (h3 : h.offset_to_media_filename < 2 ^ 32) (h4 : h.media_filename_length < 2 ^ 32)
    (h5 : h.offset_to_screenshot < 2 ^ 32) (h6 : h.screenshot_width < 2 ^ 32)
    (h7 : h.screenshot_height < 2 ^ 32) (h8 : h.screenshot_size < 2 ^ 32)
    (h9 : h.offset_to_data < 2 ^ 32) (h10 : h.data_compression_type < 2 ^ 32)
    (h11 : h.data_uncompressed_size < 2 ^ 32) :
    parseHeader fmt (encodeHeader h) = h := by
  have hl : (encodeU32 h.magic ++ encodeU32 h.version ++ h.title ++ h.game_code).length =
      8 + fmt.title_size + fmt.game_code_size := by
    simp only [List.length_append, length_encodeU32, ht, hc]
  have e0 : u32At (encodeHeader h) 0 = h.magic :=
    (rfl : u32At (encodeHeader h) 0 = decodeU32 (encodeU32 h.magic)).trans
      (decodeU32_encodeU32 _ h1)
  have e1 : u32At (encodeHeader h) 4 = h.version :=
    (rfl : u32At (encodeHeader h) 4 = decodeU32 (encodeU32 h.version)).trans
      (decodeU32_encodeU32 _ h2)
  have et : ((encodeHeader h).drop 8).take fmt.title_size = h.title := by
    have : (encodeHeader h).drop 8 = h.title ++ (h.game_code ++ headerTail h) := by
      simp [encodeHeader, encodeU32]
    rw [this, ← ht, List.take_left]
  have ec : ((encodeHeader h).drop (8 + fmt.title_size)).take fmt.game_code_size =
      h.game_code := by
    have : (encodeHeader h).drop (8 + fmt.title_size) = h.game_code ++ headerTail h := by
      have hp : (encodeU32 h.magic ++ encodeU32 h.version ++ h.title).length =
          8 + fmt.title_size := by
        simp only [List.length_append, length_encodeU32, ht]
      have he : encodeHeader h = (encodeU32 h.magic ++ encodeU32 h.version ++ h.title) ++
          (h.game_code ++ headerTail h) := by
        simp only [encodeHeader, List.append_assoc]
      rw [he, ← hp, List.drop_left]
    rw [this, ← hc, List.take_left]
  have tail (k : Nat) : u32At (encodeHeader h) (8 + fmt.title_size + fmt.game_code_size + k) =
      u32At (headerTail h) k := u32At_append _ _ _ k hl
  have t0 := tail 0
  rw [Nat.add_zero] at t0
  unfold parseHeader
  simp only [e0, e1, et, ec, tail, t0]
  have f0 : u32At (headerTail h) 0 = h.offset_to_media_filename :=
    (rfl : _ = decodeU32 (encodeU32 h.offset_to_media_filename)).trans
      (decodeU32_encodeU32 _ h3)
  have f1 : u32At (headerTail h) 4 = h.media_filename_length :=
    (rfl : _ = decodeU32 (encodeU32 h.media_filename_length)).trans
      (decodeU32_encodeU32 _ h4)
  have f2 : u32At (headerTail h) 8 = h.offset_to_screenshot :=
    (rfl : _ = decodeU32 (encodeU32 h.offset_to_screenshot)).trans
      (decodeU32_encodeU32 _ h5)
  have f3 : u32At (headerTail h) 12 = h.screenshot_width :=
    (rfl : _ = decodeU32 (encodeU32 h.screenshot_width)).trans (decodeU32_encodeU32 _ h6)
  have f4 : u32At (headerTail h) 16 = h.screenshot_height :=
    (rfl : _ = decodeU32 (encodeU32 h.screenshot_height)).trans (decodeU32_encodeU32 _ h7)
  have f5 : u32At (headerTail h) 20 = h.screenshot_size :=
    (rfl : _ = decodeU32 (encodeU32 h.screenshot_size)).trans (decodeU32_encodeU32 _ h8)
  have f6 : u32At (headerTail h) 24 = h.offset_to_data :=
    (rfl : _ = decodeU32 (encodeU32 h.offset_to_data)).trans (decodeU32_encodeU32 _ h9)
  have f7 : u32At (headerTail h) 28 = h.data_compression_type :=
    (rfl : _ = decodeU32 (encodeU32 h.data_compression_type)).trans
      (decodeU32_encodeU32 _ h10)
  have f8 : u32At (headerTail h) 32 = h.data_uncompressed_size :=
    (rfl : _ = decodeU32 (encodeU32 h.data_uncompressed_size)).trans
      (decodeU32_encodeU32 _ h11)
  rw [f0, f1, f2, f3, f4, f5, f6, f7, f8]

theorem DoLoadState_accepted {D : Type} (env : Components D) (fmt : SaveStateFormat)
    (state st0 : ByteStream) (hb : List Nat) (init_components force_software_renderer : Bool)
    (s : System D) (hr : state.Read2 (headerSize fmt) = some (hb, st0))
    (hm : (parseHeader fmt hb).magic = fmt.SAVE_STATE_MAGIC)
    (hv : (parseHeader fmt hb).version = fmt.SAVE_STATE_VERSION)
    (hc : (parseHeader fmt hb).data_compression_type = 0) :
    DoLoadState env fmt state init_components force_software_renderer s =
      loadAccepted env (parseHeader fmt hb) st0 init_components force_software_renderer s := by
  unfold DoLoadState loadAccepted
  simp only [hr, hm, hv, hc, ne_eq, not_true_eq_false, if_false]

theorem write_if_at_end (c : Prop) [Decidable c] (st : ByteStream) (bs : List Nat)
    (h : st.pos = st.data.length) (hbs : ¬ c → bs = []) :
    (if c then st.Write2 bs else st).data = st.data ++ bs ∧
    (if c then st.Write2 bs else st).pos = (if c then st.Write2 bs else st).data.length := by
  by_cases hc : c
  · simp only [hc, if_true]
    exact Write2_at_end st bs h
  · simp only [hc, if_false, hbs hc, List.append_nil]
    exact ⟨trivial, h⟩

theorem stringBytes_take_nil (v : String) (n : Nat) (h : ¬ v.length > 0) :
    (stringBytes v).take n = [] := by
  have h0 : (stringBytes v).length = 0 := by
    rw [length_stringBytes]
    omega
  rw [List.eq_nil_of_length_eq_zero h0, List.take_nil]

/-- `SaveState` on a stream positioned at its end, with components that write by
appending: when it returns `true`, the stream holds the bytes it held, the filled
header, the media file name, the screenshot and the bytes that `DoState` wrote, and is
positioned at its end. -/
theorem SaveState_at_end {D : Type} (env : Components D) (host : SaveHost D)
    (fmt : SaveStateFormat) (state st : ByteStream) (screenshot_size : Nat) (s s2 : System D)
    (henv : WritesByAppending env) (hend : state.pos = state.data.length)
    (hok : SaveState env host fmt state screenshot_size s = (true, st, s2)) :
    ∃ (st1 st2 st3 : ByteStream) (w : StateWrapper) (data : List Nat),
      st1.pos = state.data.length + headerSize fmt ∧
      st2.pos = st1.pos +
        ((stringBytes (host.GetMediaFileName s)).take
          ((host.GetMediaFileName s).length % 2 ^ 32)).length ∧
      st3.pos = st2.pos +
        ((wordBytes (captureScreenshot host screenshot_size s).1).take
          ((captureScreenshot host screenshot_size s).1.length * 4 % 2 ^ 32)).length ∧
      DoState env ⟨st3, Mode.Write, false⟩ (captureScreenshot host screenshot_size s).2 =
        (true, w, s2) ∧
      w.stream.data = st3.data ++ data ∧
      w.stream.pos = st3.pos + data.length ∧
      st.data = state.data ++
        encodeHeader (filledHeader fmt s (host.GetMediaFileName s)
          (captureScreenshot host screenshot_size s).1 screenshot_size st1 st2 st3 w.stream) ++
        (stringBytes (host.GetMediaFileName s)).take
          ((host.GetMediaFileName s).length % 2 ^ 32) ++
        (wordBytes (captureScreenshot host screenshot_size s).1).take
          ((captureScreenshot host screenshot_size s).1.length * 4 % 2 ^ 32) ++ data ∧
      st.pos = st.data.length := by
  have A1 := Write2_at_end state (List.replicate (headerSize fmt) 0) hend
  have A2 := write_if_at_end ((host.GetMediaFileName s).length > 0)
    (state.Write2 (List.replicate (headerSize fmt) 0))
    ((stringBytes (host.GetMediaFileName s)).take ((host.GetMediaFileName s).length % 2 ^ 32))
    A1.2 (stringBytes_take_nil _ _)
  have A3 := write_if_at_end ((captureScreenshot host screenshot_size s).1 ≠ []) _
    ((wordBytes (captureScreenshot host screenshot_size s).1).take
      ((captureScreenshot host screenshot_size s).1.length * 4 % 2 ^ 32))
    A2.2 (fun h => by rw [not_not.mp h]; rfl)
  unfold SaveState at hok
  dsimp only at hok
  set st1 := state.Write2 (List.replicate (headerSize fmt) 0) with hst1
  set name := (stringBytes (host.GetMediaFileName s)).take
    ((host.GetMediaFileName s).length % 2 ^ 32) with hname
  set st2 := (if (host.GetMediaFileName s).length > 0 then st1.Write2 name else st1) with hst2
  set shot := (wordBytes (captureScreenshot host screenshot_size s).1).take
    ((captureScreenshot host screenshot_size s).1.length * 4 % 2 ^ 32) with hshot
  set st3 := (if (captureScreenshot host screenshot_size s).1 ≠ [] then st2.Write2 shot
    else st2) with hst3
  generalize hr : DoState env ⟨st3, Mode.Write, false⟩ _ = r at hok
  rcases r with ⟨ok, w, s4⟩
  cases ok
  · simp at hok
  · obtain ⟨data, hd, hw⟩ := DoState_appends env henv _ w _ s4 ⟨rfl, rfl, A3.2⟩ hr
    simp only [Bool.true_eq_false, if_false] at hok
    have hd2 : w.stream.data = st3.data ++ data := hd
    have hlen : w.stream.data.length =
        state.data.length + headerSize fmt + name.length + shot.length + data.length := by
      rw [hd2, A3.1, A2.1, A1.1]
      simp only [List.length_append, List.length_replicate]
    have hseek : w.stream.SeekAbsolute state.pos = some { w.stream with pos := state.pos } := by
      unfold ByteStream.SeekAbsolute
      rw [if_pos (by omega)]
    rw [hseek] at hok
    dsimp only at hok
    have hH : (encodeHeader (filledHeader fmt s (host.GetMediaFileName s)
        (captureScreenshot host screenshot_size s).1 screenshot_size st1 st2 st3
        w.stream)).length = headerSize fmt :=
      length_encodeHeader fmt _ (length_Strlcpy _ _) (length_Strlcpy _ _)
    set hdr := encodeHeader (filledHeader fmt s (host.GetMediaFileName s)
        (captureScreenshot host screenshot_size s).1 screenshot_size st1 st2 st3
        w.stream) with hhdr
    have hD : w.stream.data =
        state.data ++ (List.replicate (headerSize fmt) 0 ++ (name ++ shot ++ data)) := by
      rw [hd2, A3.1, A2.1, A1.1]
      simp only [List.append_assoc]
    have hnew : (ByteStream.Write2 ⟨w.stream.data, state.pos⟩ hdr).data =
        state.data ++ hdr ++ name ++ shot ++ data := by
      simp only [ByteStream.Write2]
      rw [hD, hend, hH, List.take_left, List.drop_append,
        List.drop_left' (List.length_replicate _ _)]
      simp only [List.append_assoc]
    have hpos : w.stream.pos = w.stream.data.length := hw.2.2
    have hseek2 : (ByteStream.Write2 ⟨w.stream.data, state.pos⟩ hdr).SeekAbsolute
        w.stream.pos =
        some { (ByteStream.Write2 ⟨w.stream.data, state.pos⟩ hdr) with pos := w.stream.pos } := by
      unfold ByteStream.SeekAbsolute
      rw [if_pos]
      rw [hnew, hpos, hlen]
      simp only [List.length_append, hH]
      omega
    rw [hseek2] at hok
    simp only [Prod.mk.injEq, true_and] at hok
    obtain ⟨hst, hs4⟩ := hok
    subst hs4
    subst hst
    refine ⟨st1, st2, st3, w, data, ?_, ?_, ?_, hr, hd2, ?_, hnew, ?_⟩
    · rw [A1.2, A1.1, List.length_append, List.length_replicate]
    · rw [A2.2, A2.1, A1.2, List.length_append]
    · rw [A3.2, A3.1, A2.2, List.length_append]
    · rw [hpos, hd2, A3.2, List.length_append]
    · show w.stream.pos = _
      rw [hnew, hpos, hlen]
      simp only [List.length_append, hH]

theorem filledHeader_parses {D : Type} (fmt : SaveStateFormat) (s : System D)
    (media_filename : String) (screenshot : List Nat) (screenshot_size : Nat)
    (st1 st2 st3 st4 : ByteStream) (hmagic : fmt.SAVE_STATE_MAGIC < 2 ^ 32)
    (hversion : fmt.SAVE_STATE_VERSION < 2 ^ 32) :
    parseHeader fmt (encodeHeader (filledHeader fmt s media_filename screenshot
      screenshot_size st1 st2 st3 st4)) =
      filledHeader fmt s media_filename screenshot screenshot_size st1 st2 st3 st4 := by
  have hpos : (0 : Nat) < 2 ^ 32 := by norm_num
  apply parseHeader_encodeHeader
  · exact length_Strlcpy _ _
  · exact length_Strlcpy _ _
  · exact hmagic
  · exact hversion
  · exact Nat.mod_lt _ hpos
  · exact Nat.mod_lt _ hpos
  · show (if screenshot ≠ [] then st2.pos % 2 ^ 32 else 0) < 2 ^ 32
    split
    · exact Nat.mod_lt _ hpos
    · exact hpos
  · show (if screenshot ≠ [] then screenshot_size % 2 ^ 32 else 0) < 2 ^ 32
    split
    · exact Nat.mod_lt _ hpos
    · exact hpos
  · show (if screenshot ≠ [] then screenshot_size % 2 ^ 32 else 0) < 2 ^ 32
    split
    · exact Nat.mod_lt _ hpos
    · exact hpos
  · show (if screenshot ≠ [] then screenshot.length * 4 % 2 ^ 32 else 0) < 2 ^ 32
    split
    · exact Nat.mod_lt _ hpos
    · exact hpos
  · exact Nat.mod_lt _ hpos
  · exact hpos
  · exact Nat.mod_lt _ hpos

theorem nullComponents_writesByAppending : WritesByAppending nullComponents := by
  intro marker w w2 s s2 hw h
  simp only [nullComponents, Prod.mk.injEq, true_and] at h
  exact ⟨[], by rw [← h.1]; exact ⟨by simp, hw⟩⟩

theorem serveFront_running {D : Type} (evt : TimingEvent) (s : System D) :
    (serveFront evt s).running_events = s.running_events := rfl

theorem runLoop_agree {D : Type} (cb cb2 : Callbacks D)
    (hcb : ∀ (id : Nat) (a b : Int) (x : System D), x.running_events = true →
      (cb id a b x).running_events = true)
    (hag : ∀ (id : Nat) (a b : Int) (x : System D), x.running_events = true →
      cb2 id a b x = cb id a b x)
    (fuel : Nat) (s : System D) (hr : s.running_events = true) :
    runLoop cb2 fuel s = runLoop cb fuel s := by
  induction fuel generalizing s with
  | zero => rfl
  | succ fuel ih =>
    cases he : s.events with
    | nil => simp [runLoop, he]
    | cons evt t =>
      rw [runLoop_succ cb2 fuel s evt t he, runLoop_succ cb fuel s evt t he]
      have hf : fireFront cb2 evt s = fireFront cb evt s := by
        rw [fireFront_eq, fireFront_eq, hag _ _ _ (serveFront evt s) hr]
      rw [hf, ih _ (fireFront_running cb hcb evt s hr)]

theorem RunEvents_agree {D : Type} (cb cb2 : Callbacks D)
    (hcb : ∀ (id : Nat) (a b : Int) (x : System D), x.running_events = true →
      (cb id a b x).running_events = true)
    (hag : ∀ (id : Nat) (a b : Int) (x : System D), x.running_events = true →
      cb2 id a b x = cb id a b x)
    (fuel : Nat) (s : System D) : RunEvents cb2 fuel s = RunEvents cb fuel s := by
  rw [RunEvents_eq, RunEvents_eq, runLoop_agree cb cb2 hcb hag fuel (loopEntry s) rfl]

theorem passEntries_not_running {D : Type} (ops : List (FlagOp D)) (s : System D)
    (hres : ∀ resetComponents, FlagOp.reset resetComponents ∈ ops →
      ∀ x : System D, (resetComponents x).running_events = x.running_events)
    (hs : s.running_events = false) :
    ∀ x ∈ passEntries ops s, x.running_events = false := by
  induction ops generalizing s with
  | nil => intro x hx; simp [passEntries] at hx
  | cons op rest ih =>
    have hres2 : ∀ resetComponents, FlagOp.reset resetComponents ∈ rest →
        ∀ x : System D, (resetComponents x).running_events = x.running_events :=
      fun rc h => hres rc (List.mem_cons_of_mem _ h)
    intro x hx
    cases op with
    | add event =>
      exact ih _ hres2 (by rw [(entry_points_running s event 0).1]; exact hs) x hx
    | remove event =>
      exact ih _ hres2 (by rw [(entry_points_running s default event).2.1]; exact hs) x hx
    | sort =>
      exact ih _ hres2 (by rw [(entry_points_running s default 0).2.2]; exact hs) x hx
    | events sw =>
      exact ih _ hres2 (by rw [DoEventsState_running sw s]; exact hs) x hx
    | reset rc =>
      refine ih _ hres2 ?_ x hx
      show (rc s).running_events = false
      rw [hres rc (List.mem_cons_self _ _)]
      exact hs
    | run cb fuel =>
      simp only [passEntries, List.mem_cons] at hx
      rcases hx with h | h
      · rw [h]; exact hs
      · cases hrun : RunEvents cb fuel s with
        | none => simp [hrun] at h
        | some s2 =>
          rw [hrun] at h
          exact ih s2 hres2 (RunEvents_not_running cb fuel s s2 hrun) x h

/-! ## C1: the downcount reported to the CPU -/

/-- C1, as stated, fails between frames: with the frame-done flag set, outside
dispatch, `AddActiveEvent` of an event due in 50 ticks to an active set whose only
event is due in 100 ticks leaves the CPU downcount at 100, which is not the least
downcount of the active set. -/
theorem C1_counterexample :
    ({ systemOf [eventOf 1 "A" 100 100] 100 with frame_done := true }).running_events = false ∧
    IsHeap ({ systemOf [eventOf 1 "A" 100 100] 100 with frame_done := true }).events ∧
    Admissible [SchedOp.add (eventOf 2 "B" 50 50)] [eventOf 1 "A" 100 100] ∧
    (runOps [SchedOp.add (eventOf 2 "B" 50 50)]
      { systemOf [eventOf 1 "A" 100 100] 100 with frame_done := true }).events
      = [eventOf 2 "B" 50 50, eventOf 1 "A" 100 100] ∧
    (runOps [SchedOp.add (eventOf 2 "B" 50 50)]
      { systemOf [eventOf 1 "A" 100 100] 100 with frame_done := true }).cpu_downcount = 100 ∧
    ¬ MinDowncount
      (runOps [SchedOp.add (eventOf 2 "B" 50 50)]
        { systemOf [eventOf 1 "A" 100 100] 100 with frame_done := true }).events
      (runOps [SchedOp.add (eventOf 2 "B" 50 50)]
        { systemOf [eventOf 1 "A" 100 100] 100 with frame_done := true }).cpu_downcount := by
  refine ⟨rfl, by decide, ?_, by decide, by decide, by decide⟩
  simp [Admissible, eventOf]

/-- C1, amended: take a system outside dispatch whose frame-done flag is clear and
whose active set is a heap without repeated events, and any non-empty sequence of
`AddActiveEvent` / `RemoveActiveEvent` calls that never adds an active event and never
removes an absent one.  After the last call (hence after each call, every prefix being
such a sequence) the active set holds exactly the events that the calls describe, and
if it is not empty the CPU downcount is the least downcount among them. -/
theorem C1_cpu_downcount_is_minimum {D : Type} (ops : List SchedOp) (s : System D)
    (hrun : s.running_events = false) (hframe : s.frame_done = false)
    (hheap : IsHeap s.events) (hnodup : (s.events.map (fun e => e.id)).Nodup)
    (hadm : Admissible ops s.events) (hne : ops ≠ []) :
    (runOps ops s).events.Perm (activeSet ops s.events) ∧
    ((runOps ops s).events ≠ [] →
      MinDowncount (runOps ops s).events (runOps ops s).cpu_downcount) := by
  obtain ⟨_, h2, h3⟩ :=
    runOps_Idle ops s s.events ⟨hrun, hframe, hheap⟩ (List.Perm.refl _) hnodup hadm
  exact ⟨h2, h3 hne⟩

/-- C1, witness: three events are added and the soonest one is removed again. -/
theorem C1_cpu_downcount_is_minimum_witness :
    (runOps [SchedOp.add (eventOf 1 "A" 100 100), SchedOp.add (eventOf 2 "B" 150 30),
        SchedOp.add (eventOf 3 "C" 70 70), SchedOp.remove 2] (systemOf [] 0)).events.Perm
      (activeSet [SchedOp.add (eventOf 1 "A" 100 100), SchedOp.add (eventOf 2 "B" 150 30),
        SchedOp.add (eventOf 3 "C" 70 70), SchedOp.remove 2] (systemOf [] 0).events) ∧
    ((runOps [SchedOp.add (eventOf 1 "A" 100 100), SchedOp.add (eventOf 2 "B" 150 30),
        SchedOp.add (eventOf 3 "C" 70 70), SchedOp.remove 2] (systemOf [] 0)).events ≠ [] →
      MinDowncount
        (runOps [SchedOp.add (eventOf 1 "A" 100 100), SchedOp.add (eventOf 2 "B" 150 30),
          SchedOp.add (eventOf 3 "C" 70 70), SchedOp.remove 2] (systemOf [] 0)).events
        (runOps [SchedOp.add (eventOf 1 "A" 100 100), SchedOp.add (eventOf 2 "B" 150 30),
          SchedOp.add (eventOf 3 "C" 70 70), SchedOp.remove 2] (systemOf [] 0)).cpu_downcount) :=
  C1_cpu_downcount_is_minimum _ _ rfl rfl (by decide) (by decide)
    (by simp [Admissible, eventOf, systemOf]) (by simp)

/-! ## C2: the heap invariant outside dispatch -/

/-- C2, as stated, fails after a load that stops early: the stream announces two event
records and ends after the first, which moves event `A` from downcount 5 to 100.
The reading branch of `DoEventsState` returns `false` from inside its loop, before
`SortEvents`, and leaves `A` (100) in front of `B` (10) outside dispatch. -/
theorem C2_counterexample :
    (systemOf [eventOf 1 "A" 10 5, eventOf 2 "B" 10 10] 5).running_events = false ∧
    IsHeap (systemOf [eventOf 1 "A" 10 5, eventOf 2 "B" 10 10] 5).events ∧
    (DoEventsState
      ⟨⟨[2, 0, 0, 0, 1, 0, 0, 0, 65, 100, 0, 0, 0, 0, 0, 0, 0, 10, 0, 0, 0, 10, 0, 0, 0], 0⟩,
        Mode.Read, false⟩
      (systemOf [eventOf 1 "A" 10 5, eventOf 2 "B" 10 10] 5)).1 = false ∧
    (DoEventsState
      ⟨⟨[2, 0, 0, 0, 1, 0, 0, 0, 65, 100, 0, 0, 0, 0, 0, 0, 0, 10, 0, 0, 0, 10, 0, 0, 0], 0⟩,
        Mode.Read, false⟩
      (systemOf [eventOf 1 "A" 10 5, eventOf 2 "B" 10 10] 5)).2.2.running_events = false ∧
    (DoEventsState
      ⟨⟨[2, 0, 0, 0, 1, 0, 0, 0, 65, 100, 0, 0, 0, 0, 0, 0, 0, 10, 0, 0, 0, 10, 0, 0, 0], 0⟩,
        Mode.Read, false⟩
      (systemOf [eventOf 1 "A" 10 5, eventOf 2 "B" 10 10] 5)).2.2.events
      = [eventOf 1 "A" 10 100, eventOf 2 "B" 10 10] ∧
    ¬ IsHeap (DoEventsState
      ⟨⟨[2, 0, 0, 0, 1, 0, 0, 0, 65, 100, 0, 0, 0, 0, 0, 0, 0, 10, 0, 0, 0, 10, 0, 0, 0], 0⟩,
        Mode.Read, false⟩
      (systemOf [eventOf 1 "A" 10 5, eventOf 2 "B" 10 10] 5)).2.2.events := by
  refine ⟨rfl, by decide, by decide, by decide, by decide, by decide⟩

/-- C2, amended: outside dispatch the heap invariant is inductive.  If the scheduler
is outside dispatch and the active vector is a heap under `CompareEvents`, then after
`AddActiveEvent`, `RemoveActiveEvent`, `SortEvents`, a reading `DoEventsState` that
returns `true`, or a `RunEvents` pass that returns (with callbacks that keep to the
scheduler protocol, on an active set without repeated events), the scheduler is
outside dispatch again, no event of the active vector has a downcount smaller than its
parent, and the front element is a soonest-due event. -/
theorem C2_heap_outside_dispatch {D : Type} (op : IdleOp D) (s s2 : System D)
    (hrun : s.running_events = false) (hheap : IsHeap s.events) (hpre : op.Pre s)
    (hres : op.result s = some s2) :
    s2.running_events = false ∧ IsHeap s2.events ∧ FrontIsSoonest s2.events := by
  have key : s2.running_events = false ∧ IsHeap s2.events := by
    cases op with
    | add e =>
      simp only [IdleOp.result, Option.some.injEq] at hres
      subst hres
      obtain ⟨h1, h2⟩ := AddActiveEvent_events_idle e s hrun
      exact ⟨h2, by rw [h1]; exact push_heap_append_isHeap _ _ hheap⟩
    | remove id =>
      simp only [IdleOp.result, Option.some.injEq] at hres
      subst hres
      obtain ⟨h1, h2⟩ := RemoveActiveEvent_events_idle id s hrun hheap
      exact ⟨h2, h1⟩
    | sort =>
      simp only [IdleOp.result, Option.some.injEq] at hres
      subst hres
      obtain ⟨h1, h2⟩ := SortEvents_idle s hrun
      exact ⟨h2, by rw [h1]; exact make_heap_isHeap _⟩
    | load sw =>
      simp only [IdleOp.result] at hres
      split at hres
      · next hok =>
        simp only [Option.some.injEq] at hres
        subst hres
        obtain ⟨h1, h2⟩ := DoEventsState_read_heap sw s hpre hrun hok
        exact ⟨h2, h1⟩
      · simp at hres
    | run cb fuel =>
      obtain ⟨h1, h2, _, _⟩ := RunEvents_inv cb hpre.1 fuel s s2 hheap hpre.2 hres
      exact ⟨h1, h2⟩
  exact ⟨key.1, key.2, heap_frontIsSoonest _ key.2⟩

/-- C2, witness: a pass in which the callback of the served event `A` deactivates the
event `B`. -/
theorem C2_heap_outside_dispatch_witness :
    ({ systemOf [eventOf 1 "A" 100 100] 100 with
        global_tick_counter := 10, last_event_run_time := 10,
        calls := [⟨1, 10, 0⟩] } : System Unit).running_events = false ∧
    IsHeap ({ systemOf [eventOf 1 "A" 100 100] 100 with
        global_tick_counter := 10, last_event_run_time := 10,
        calls := [⟨1, 10, 0⟩] } : System Unit).events ∧
    FrontIsSoonest ({ systemOf [eventOf 1 "A" 100 100] 100 with
        global_tick_counter := 10, last_event_run_time := 10,
        calls := [⟨1, 10, 0⟩] } : System Unit).events :=
  C2_heap_outside_dispatch (IdleOp.run (removingCallbacks 1 2) 5)
    { systemOf [eventOf 1 "A" 100 10, eventOf 2 "B" 150 20] 10 with cpu_pending_ticks := 10 }
    _ rfl (by decide) ⟨removingCallbacks_wellBehaved 1 2, by decide⟩ (by decide)

/-! ## C3: lateness does not compound -/

/-- C3: when the loop of `RunEvents` serves the front event `evt`, with downcount
`d <= 0` and interval `I`, and its callback leaves the active vector alone, the event
is afterwards in the active set with downcount `d + I` (not `I`).  Hence, for every
`N`: starting with the event one interval away, `N` passes in a row, each entered when
the CPU has accumulated exactly the remaining downcount of the event, all return;
they serve the event `N` times, each time with ticks-late 0, and the elapsed times of
the passes add up to `N * I`, which is also what the global tick counter has advanced
by (modulo `2 ^ 32`). -/
theorem C3_lateness_does_not_compound {D : Type} :
    (∀ (cb : Callbacks D) (evt : TimingEvent) (t : List TimingEvent) (s : System D),
      s.events = evt :: t → (s.events.map (fun e => e.id)).Nodup → evt.downcount ≤ 0 →
      (∀ (a b : Int) (x : System D), (cb evt.id a b x).events = x.events) →
      (∃ x ∈ (fireFront cb evt s).events, x.id = evt.id) ∧
      ∀ x ∈ (fireFront cb evt s).events, x.id = evt.id →
        x.downcount = evt.downcount + evt.interval ∧ x.interval = evt.interval) ∧
    (∀ (N : Nat) (s : System D) (id : Nat) (I : Int), 0 < I → I < 2 ^ 31 →
      OnTimeInv s id I →
      ∃ fuels s2 new, fuels.length = N ∧
        onTimePasses (inertCallbacks D) id fuels s = some (s2, (N : Int) * I) ∧
        s2.calls = s.calls ++ new ∧
        (callsOf id new).map (fun r => r.ticks_late) = List.replicate N 0 ∧
        s2.global_tick_counter = (s.global_tick_counter + N * I.toNat) % 2 ^ 32) := by
  constructor
  · intro cb evt t s he hn _ hcb
    have hp := fireFront_events_perm cb evt t s he hn hcb
    refine ⟨⟨serviced evt, hp.mem_iff.2 (List.mem_cons_self _ _), rfl⟩, ?_⟩
    intro x hx hxid
    rcases List.mem_cons.1 (hp.mem_iff.1 hx) with h | h
    · rw [h]; exact ⟨rfl, rfl⟩
    · rw [he, List.map_cons, List.nodup_cons] at hn
      exact absurd (List.mem_map.2 ⟨x, h, hxid⟩) hn.1
  · intro N s id I hI0 hI1 inv
    obtain ⟨fuels, s2, new, h1, h2, h3, h4, h5, _⟩ := onTimePasses_inert N s id I hI0 hI1 inv
    exact ⟨fuels, s2, new, h1, h2, h3, h4, h5⟩

/-- C3, witness: the event `A` with interval 100 is served 30 ticks late next to an
event `B`; and three on-time services of `A` starting from an idle system. -/
theorem C3_lateness_does_not_compound_witness :
    ((∃ x ∈ (fireFront (inertCallbacks Unit) (eventOf 1 "A" 100 (-30))
        { systemOf [eventOf 1 "A" 100 (-30), eventOf 2 "B" 150 20] 0 with
          running_events := true }).events, x.id = (eventOf 1 "A" 100 (-30)).id) ∧
      ∀ x ∈ (fireFront (inertCallbacks Unit) (eventOf 1 "A" 100 (-30))
        { systemOf [eventOf 1 "A" 100 (-30), eventOf 2 "B" 150 20] 0 with
          running_events := true }).events, x.id = (eventOf 1 "A" 100 (-30)).id →
        x.downcount = (eventOf 1 "A" 100 (-30)).downcount + (eventOf 1 "A" 100 (-30)).interval ∧
        x.interval = (eventOf 1 "A" 100 (-30)).interval) ∧
    (∃ fuels s2 new, fuels.length = 3 ∧
      onTimePasses (inertCallbacks Unit) 1 fuels
        (systemOf [eventOf 1 "A" 100 100, eventOf 2 "B" 150 150] 100)
        = some (s2, ((3 : Nat) : Int) * 100) ∧
      s2.calls = (systemOf [eventOf 1 "A" 100 100, eventOf 2 "B" 150 150] 100).calls ++ new ∧
      (callsOf 1 new).map (fun r => r.ticks_late) = List.replicate 3 0 ∧
      s2.global_tick_counter =
        ((systemOf [eventOf 1 "A" 100 100, eventOf 2 "B" 150 150] 100).global_tick_counter
          + 3 * (100 : Int).toNat) % 2 ^ 32) :=
  ⟨C3_lateness_does_not_compound.1 (inertCallbacks Unit) (eventOf 1 "A" 100 (-30))
      [eventOf 2 "B" 150 20]
      { systemOf [eventOf 1 "A" 100 (-30), eventOf 2 "B" 150 20] 0 with running_events := true }
      rfl (by decide) (by decide) (fun _ _ _ => rfl),
    C3_lateness_does_not_compound.2 3
      (systemOf [eventOf 1 "A" 100 100, eventOf 2 "B" 150 150] 100) 1 100 (by decide)
      (by decide)
      ⟨by decide, by decide, by decide, rfl, by decide,
        eventOf 1 "A" 100 100, by decide, rfl, rfl, rfl⟩⟩

/-! ## C4: two periodic events over 300 ticks -/

/-- C4: start at global tick 0 and activate `A` (interval and downcount 100) and `B`
(interval and downcount 150), in either order, with callbacks that leave the scheduler
alone.  Run `RunEvents` each time the pending ticks of the CPU reach the CPU downcount.
The global tick counter is at 200 after three passes and reaches 300 with the fourth;
by then the callback of `A` has been invoked exactly 3 times and the one of `B` exactly
2 times, never late, and both downcounts are non-negative. -/
theorem C4_two_events_300_ticks :
    TwoEventOutcome
      (AddActiveEvent (eventOf 2 "B" 150 150)
        (AddActiveEvent (eventOf 1 "A" 100 100) (systemOf [] 0))) ∧
    TwoEventOutcome
      (AddActiveEvent (eventOf 1 "A" 100 100)
        (AddActiveEvent (eventOf 2 "B" 150 150) (systemOf [] 0))) := by
  constructor
  · refine ⟨by decide, by decide, _, rfl, ?_⟩
    decide
  · refine ⟨by decide, by decide, _, rfl, ?_⟩
    decide

/-! ## C5: an event that is due exactly now -/

/-- C5, as stated, fails when a callback changes the active set: `X` (event 1, interval
10) has downcount 0 once the elapsed 10 ticks are applied, but `Y` (event 2) is 5 ticks
late and is served first, and its callback deactivates `X` through
`RemoveActiveEvent`.  The pass completes without any invocation of the callback of
`X`. -/
theorem C5_counterexample :
    eventOf 1 "X" 10 10 ∈ [eventOf 2 "Y" 10 5, eventOf 1 "X" 10 10] ∧
    0 < (eventOf 1 "X" 10 10).interval ∧
    (eventOf 1 "X" 10 10).downcount -
      elapsed { systemOf [eventOf 2 "Y" 10 5, eventOf 1 "X" 10 10] 5 with
        cpu_pending_ticks := 10 } = 0 ∧
    ∃ s2, RunEvents (removingCallbacks 2 1) 5
        { systemOf [eventOf 2 "Y" 10 5, eventOf 1 "X" 10 10] 5 with
          cpu_pending_ticks := 10 } = some s2 ∧
      s2.calls = [⟨2, 10, 5⟩] ∧ callsOf 1 s2.calls = [] := by
  refine ⟨by decide, by decide, by decide, _, rfl, by decide, by decide⟩

/-- C5, amended: let the callbacks leave the scheduler alone (the active vector, the
needs-sorting flag and the running flag) and not write to the record of invocations,
and let the active vector be a heap of distinct events with positive intervals.  For
every active event whose downcount is exactly 0 once the elapsed time of the pass is
applied, the pass returns, it invokes the callback of the event exactly once, with
ticks-late 0 and with the accumulated time of the event as ticks-to-execute. -/
theorem C5_due_now_fires_once {D : Type} (cb : Callbacks D) (s : System D) (e : TimingEvent)
    (hcb : LeavesScheduler cb)
    (hcalls : ∀ (id : Nat) (a b : Int) (x : System D), (cb id a b x).calls = x.calls)
    (hheap : IsHeap s.events) (hnodup : (s.events.map (fun x => x.id)).Nodup)
    (hint : ∀ x ∈ s.events, 0 < x.interval) (he : e ∈ s.events)
    (hdue : e.downcount - elapsed s = 0) :
    ∃ fuel s2 new, RunEvents cb fuel s = some s2 ∧
      s2.calls = s.calls ++ new ∧
      callsOf e.id new = [⟨e.id, e.time_since_last_run + elapsed s, 0⟩] := by
  obtain ⟨s2, r1, _, _, r5, _⟩ :=
    RunEvents_leaves cb hcb (due (loopEntry s).events + 1) s hheap hnodup hint
      (List.ne_nil_of_mem he) (Nat.lt_succ_self _)
  refine ⟨_, s2, _, r1, RunEvents_calls cb hcalls _ s s2 r1, ?_⟩
  have hmem : aged (elapsed s) e ∈ (loopEntry s).events := by
    rw [loopEntry_events]
    exact List.mem_map.2 ⟨e, he, rfl⟩
  have h := r5 (aged (elapsed s) e) hmem
  have hid : (aged (elapsed s) e).id = e.id := rfl
  rw [hid] at h
  rw [h]
  have hfn : firesNeeded (aged (elapsed s) e) = 1 := by
    unfold firesNeeded aged
    simp [hdue]
  unfold firesOf
  rw [hfn]
  simp [recordsFrom, aged, hdue]

set_option maxRecDepth 100000 in
/-- C5, witness: 40 ticks after the last pass the event `A` is due exactly, next to an
event `B` that is not due; the callbacks count their invocations in the devices. -/
theorem C5_due_now_fires_once_witness :
    ∃ fuel s2 new, RunEvents countingCallbacks fuel
        { registerSystem [eventOf 1 "A" 100 40, eventOf 2 "B" 150 60] 0 40 with
          cpu_pending_ticks := 40 } = some s2 ∧
      s2.calls = ({ registerSystem [eventOf 1 "A" 100 40, eventOf 2 "B" 150 60] 0 40 with
          cpu_pending_ticks := 40 } : System Nat).calls ++ new ∧
      callsOf (eventOf 1 "A" 100 40).id new =
        [⟨(eventOf 1 "A" 100 40).id, (eventOf 1 "A" 100 40).time_since_last_run +
          elapsed { registerSystem [eventOf 1 "A" 100 40, eventOf 2 "B" 150 60] 0 40 with
            cpu_pending_ticks := 40 }, 0⟩] :=
  C5_due_now_fires_once countingCallbacks _ (eventOf 1 "A" 100 40)
    countingCallbacks_leavesScheduler (fun _ _ _ _ => rfl) (by decide) (by decide)
    (by decide) (by decide) (by decide)

/-! ## C6 and C7: the fail-fast paths of the two entry points -/

/-- C6: for every scheduler state, in or outside dispatch, and every event that is not
in the active set, `RemoveActiveEvent` reaches `Panic` and returns at once: the active
set, the needs-sorting flag and the CPU downcount are the ones before the call, and so
is the rest of the system. -/
theorem C6_remove_absent_panics {D : Type} (s : System D) (event : Nat)
    (habsent : ∀ x ∈ s.events, x.id ≠ event) :
    (RemoveActiveEvent event s).panicked = true ∧
    (RemoveActiveEvent event s).events = s.events ∧
    (RemoveActiveEvent event s).events_need_sorting = s.events_need_sorting ∧
    (RemoveActiveEvent event s).cpu_downcount = s.cpu_downcount ∧
    RemoveActiveEvent event s = { s with panicked := true } := by
  have hnone : s.events.findIdx? (fun it => decide (event = it.id)) = none := by
    rw [List.findIdx?_eq_none_iff]
    intro x hx
    have := habsent x hx
    simp only [decide_eq_false_iff_not]
    exact fun h => this h.symm
  unfold RemoveActiveEvent
  simp only [hnone]
  exact ⟨trivial, trivial, trivial, trivial, trivial⟩

/-- C6, witness: the event 7 is removed from an active set that holds the events 1 and
2, during dispatch. -/
theorem C6_remove_absent_panics_witness :
    (RemoveActiveEvent 7 { systemOf [eventOf 1 "A" 100 40, eventOf 2 "B" 150 60] 40 with
      running_events := true }).panicked = true ∧
    (RemoveActiveEvent 7 { systemOf [eventOf 1 "A" 100 40, eventOf 2 "B" 150 60] 40 with
      running_events := true }).events =
      ({ systemOf [eventOf 1 "A" 100 40, eventOf 2 "B" 150 60] 40 with
        running_events := true } : System Unit).events ∧
    (RemoveActiveEvent 7 { systemOf [eventOf 1 "A" 100 40, eventOf 2 "B" 150 60] 40 with
      running_events := true }).events_need_sorting =
      ({ systemOf [eventOf 1 "A" 100 40, eventOf 2 "B" 150 60] 40 with
        running_events := true } : System Unit).events_need_sorting ∧
    (RemoveActiveEvent 7 { systemOf [eventOf 1 "A" 100 40, eventOf 2 "B" 150 60] 40 with
      running_events := true }).cpu_downcount =
      ({ systemOf [eventOf 1 "A" 100 40, eventOf 2 "B" 150 60] 40 with
        running_events := true } : System Unit).cpu_downcount ∧
    RemoveActiveEvent 7 { systemOf [eventOf 1 "A" 100 40, eventOf 2 "B" 150 60] 40 with
      running_events := true } =
      { ({ systemOf [eventOf 1 "A" 100 40, eventOf 2 "B" 150 60] 40 with
        running_events := true } : System Unit) with panicked := true } :=
  C6_remove_absent_panics _ 7 (by decide)

/-- C7, as stated, fails on `AddActiveEvent`: adding the event `A` to an active set
that already holds `A` does not reach `Panic` and leaves `A` twice in the active set. -/
theorem C7_counterexample :
    eventOf 1 "A" 100 100 ∈ (systemOf [eventOf 1 "A" 100 100] 100).events ∧
    (AddActiveEvent (eventOf 1 "A" 100 100) (systemOf [eventOf 1 "A" 100 100] 100)).panicked
      = false ∧
    (AddActiveEvent (eventOf 1 "A" 100 100) (systemOf [eventOf 1 "A" 100 100] 100)).events
      = [eventOf 1 "A" 100 100, eventOf 1 "A" 100 100] ∧
    ¬ ((AddActiveEvent (eventOf 1 "A" 100 100)
        (systemOf [eventOf 1 "A" 100 100] 100)).events.map (fun e => e.id)).Nodup := by
  refine ⟨by decide, by decide, by decide, by decide⟩

/-- C7, amended: `AddActiveEvent` has no check.  In every state it leaves the panic
flag as it is and puts the event into the active set, next to the events that were
there.  An active set that holds each event at most once keeps this property exactly
when the added event was not active. -/
theorem C7_add_has_no_guard {D : Type} (s : System D) (event : TimingEvent)
    (hnodup : (s.events.map (fun e => e.id)).Nodup) :
    (AddActiveEvent event s).panicked = s.panicked ∧
    (AddActiveEvent event s).events.Perm (s.events ++ [event]) ∧
    (((AddActiveEvent event s).events.map (fun e => e.id)).Nodup ↔
      ∀ x ∈ s.events, x.id ≠ event.id) := by
  have hperm : (AddActiveEvent event s).events.Perm (s.events ++ [event]) := by
    unfold AddActiveEvent
    cases hr : s.running_events <;> cases hf : s.frame_done <;>
      simp [hr, hf, UpdateCPUDowncount_events, push_heap_perm]
  have hpan : (AddActiveEvent event s).panicked = s.panicked := by
    unfold AddActiveEvent UpdateCPUDowncount
    cases hr : s.running_events <;> cases hf : s.frame_done <;> simp [hr, hf] <;>
      split <;> rfl
  refine ⟨hpan, hperm, ?_⟩
  rw [(hperm.map _).nodup_iff, List.map_append, List.nodup_append]
  constructor
  · rintro ⟨_, _, hdis⟩ x hx hxe
    exact hdis (List.mem_map.2 ⟨x, hx, rfl⟩) (by simp [hxe])
  · intro h
    refine ⟨hnodup, by simp, ?_⟩
    intro a ha1 ha2
    obtain ⟨x, hx, rfl⟩ := List.mem_map.1 ha1
    simp at ha2
    exact h x hx ha2

/-- C7, witness: the event `B` is added to an active set that holds `A`. -/
theorem C7_add_has_no_guard_witness :
    (AddActiveEvent (eventOf 2 "B" 150 150) (systemOf [eventOf 1 "A" 100 100] 100)).panicked
      = (systemOf [eventOf 1 "A" 100 100] 100).panicked ∧
    (AddActiveEvent (eventOf 2 "B" 150 150)
      (systemOf [eventOf 1 "A" 100 100] 100)).events.Perm
      ((systemOf [eventOf 1 "A" 100 100] 100).events ++ [eventOf 2 "B" 150 150]) ∧
    (((AddActiveEvent (eventOf 2 "B" 150 150)
        (systemOf [eventOf 1 "A" 100 100] 100)).events.map (fun e => e.id)).Nodup ↔
      ∀ x ∈ (systemOf [eventOf 1 "A" 100 100] 100).events,
        x.id ≠ (eventOf 2 "B" 150 150).id) :=
  C7_add_has_no_guard _ _ (by decide)

/-! ## C8: a save state of another version -/

/-- C8: for every stream whose header can be read and carries a version other than
`SAVE_STATE_VERSION`, whatever the other fields, `DoLoadState` returns `false` with the
system exactly as it was: running-game info, devices (CD-ROM media, memory cards),
global tick counter, frame counters and every active event are untouched.  This holds
for both values of `init_components`, hence for `LoadState` and for the state-stream
branch of `Boot`, which are calls of `DoLoadState`. -/
theorem C8_version_mismatch_rejected {D : Type} (env : Components D) (fmt : SaveStateFormat)
    (state : ByteStream) (init_components force_software_renderer : Bool) (s : System D)
    (hb : List Nat) (st : ByteStream)
    (hread : state.Read2 (headerSize fmt) = some (hb, st))
    (hversion : (parseHeader fmt hb).version ≠ fmt.SAVE_STATE_VERSION) :
    (DoLoadState env fmt state init_components force_software_renderer s).1 = false ∧
    (DoLoadState env fmt state init_components force_software_renderer s).2.2 = s ∧
    (LoadState env fmt state s).1 = false ∧ (LoadState env fmt state s).2.2 = s := by
  have key : ∀ a b : Bool, (DoLoadState env fmt state a b s).1 = false ∧
      (DoLoadState env fmt state a b s).2.2 = s := by
    intro a b
    unfold DoLoadState
    simp only [hread]
    by_cases hm : (parseHeader fmt hb).magic = fmt.SAVE_STATE_MAGIC
    · simp [hm, hversion]
    · simp [hm]
  exact ⟨(key _ _).1, (key _ _).2, (key _ _).1, (key _ _).2⟩

/-- C8, witness: a header with the right magic and version 36 where 37 is expected,
loaded into a system with two active events. -/
theorem C8_version_mismatch_rejected_witness :
    (DoLoadState nullComponents smallFormat
      ⟨encodeU32 1128482116 ++ encodeU32 36 ++ List.replicate 60 0, 0⟩ true false
      (systemOf [eventOf 1 "A" 100 40, eventOf 2 "B" 150 60] 40)).1 = false ∧
    (DoLoadState nullComponents smallFormat
      ⟨encodeU32 1128482116 ++ encodeU32 36 ++ List.replicate 60 0, 0⟩ true false
      (systemOf [eventOf 1 "A" 100 40, eventOf 2 "B" 150 60] 40)).2.2
      = systemOf [eventOf 1 "A" 100 40, eventOf 2 "B" 150 60] 40 ∧
    (LoadState nullComponents smallFormat
      ⟨encodeU32 1128482116 ++ encodeU32 36 ++ List.replicate 60 0, 0⟩
      (systemOf [eventOf 1 "A" 100 40, eventOf 2 "B" 150 60] 40)).1 = false ∧
    (LoadState nullComponents smallFormat
      ⟨encodeU32 1128482116 ++ encodeU32 36 ++ List.replicate 60 0, 0⟩
      (systemOf [eventOf 1 "A" 100 40, eventOf 2 "B" 150 60] 40)).2.2
      = systemOf [eventOf 1 "A" 100 40, eventOf 2 "B" 150 60] 40 :=
  C8_version_mismatch_rejected nullComponents smallFormat _ true false _
    (((encodeU32 1128482116 ++ encodeU32 36 ++ List.replicate 60 0).drop 0).take
      (headerSize smallFormat))
    ⟨encodeU32 1128482116 ++ encodeU32 36 ++ List.replicate 60 0, 0 + headerSize smallFormat⟩
    (by decide) (by decide)

/-! ## C9: saving and reading back -/

set_option maxRecDepth 100000 in
/-- C9, as stated, fails when two active events carry the same name: the reading
branch of `DoEventsState` finds the first of them for both records, so after saving and
reading back the event 1, saved with downcount 5, holds the downcount 7 of the event 2. -/
theorem C9_counterexample :
    (systemOf [eventOf 1 "T" 10 5, eventOf 2 "T" 10 7] 5).running_events = false ∧
    IsHeap (systemOf [eventOf 1 "T" 10 5, eventOf 2 "T" 10 7] 5).events ∧
    (DoState nullComponents ⟨⟨[], 0⟩, Mode.Write, false⟩
      (systemOf [eventOf 1 "T" 10 5, eventOf 2 "T" 10 7] 5)).1 = true ∧
    (reloadState nullComponents (systemOf [eventOf 1 "T" 10 5, eventOf 2 "T" 10 7] 5)).1
      = true ∧
    (reloadState nullComponents
      (systemOf [eventOf 1 "T" 10 5, eventOf 2 "T" 10 7] 5)).2.2.events.Perm
      [eventOf 1 "T" 10 7, eventOf 2 "T" 10 7] ∧
    (reloadEvents (systemOf [eventOf 1 "T" 10 5, eventOf 2 "T" 10 7] 5)).2.2.events.Perm
      [eventOf 1 "T" 10 7, eventOf 2 "T" 10 7] := by
  refine ⟨rfl, by decide, by decide, by decide, by decide, by decide⟩

/-- C9, amended: take a system outside dispatch whose `u32` members and event fields
fit their machine types and whose active events have pairwise distinct addresses and
pairwise distinct names that are C strings, and devices whose `DoState` functions
round-trip.  Writing the state with `DoState` succeeds and leaves the system alone, and
reading the written bytes back at once succeeds; afterwards the region, the two frame
counters, the global tick counter and the last-event-run timestamp are the saved ones,
and the active vector is a heap of the same events with the same fields.  The same
holds for `DoEventsState` on its own. -/
theorem C9_save_load_round_trip {D : Type} (env : Components D) (s : System D)
    (henv : RoundTrips env) (hrun : s.running_events = false) (hs : Saveable s) :
    RoundTripOutcome env s := by
  have hw0 : AtEnd ⟨⟨[], 0⟩, Mode.Write, false⟩ := ⟨rfl, rfl, rfl⟩
  constructor
  · obtain ⟨bs, w2, a, b, c⟩ := DoState_roundTrips env henv s hs _ hw0
    have hsaved : savedState env s = bs := by
      unfold savedState; rw [a]; simpa using b.1
    obtain ⟨r2, s3, d, _, s4, f, g⟩ := c ⟨⟨bs, 0⟩, Mode.Read, false⟩ [] s
      ⟨rfl, rfl, Nat.zero_le _, by simp [remaining]⟩ (SameButDevices_refl s)
    obtain ⟨k1, k2, k3, k4, k5, k6, k7, _⟩ := SameButDevices_fields s s4 f
    obtain ⟨m1, m2⟩ := SortEvents_idle s4 (k7.trans hrun)
    obtain ⟨n1, n2, n3, n4, n5⟩ := SortEvents_fields s4
    unfold reloadState
    rw [hsaved, a, d, g]
    refine ⟨rfl, rfl, rfl, n1.trans k2, n2.trans k3, n3.trans k4, n4.trans k5, n5.trans k6,
      ?_, ?_⟩
    · rw [m1, k1]; exact make_heap_perm _
    · rw [m1]; exact make_heap_isHeap _
  · obtain ⟨w2, a, b⟩ := DoEventsState_write ⟨⟨[], 0⟩, Mode.Write, false⟩ s hw0
    obtain ⟨_, _, _, _, u5, u6, hid, hname, hst⟩ := hs
    have hsaved : savedEvents s = encodeU32 (s.events.length % 2 ^ 32) ++ encEvents s.events ++
        encodeU32 s.last_event_run_time := by
      unfold savedEvents; rw [a]; simpa using b.1
    obtain ⟨r2, d, _⟩ := DoEventsState_read_back ⟨⟨savedEvents s, 0⟩, Mode.Read, false⟩ s
      s.last_event_run_time [] hid hname hst u6 u5
      ⟨rfl, rfl, Nat.zero_le _, by simp [remaining, hsaved]⟩
    obtain ⟨m1, m2⟩ := SortEvents_idle s hrun
    obtain ⟨_, _, _, _, n5⟩ := SortEvents_fields s
    unfold reloadEvents
    rw [a, d]
    refine ⟨rfl, rfl, rfl, n5, ?_, ?_⟩
    · show (SortEvents s).events.Perm s.events
      rw [m1]; exact make_heap_perm _
    · show IsHeap (SortEvents s).events
      rw [m1]; exact make_heap_isHeap _

/-- C9, witness: two events, one of them late, in a system with a register that every
component saves. -/
theorem C9_save_load_round_trip_witness :
    RoundTripOutcome registerComponents
      (registerSystem [eventOf 2 "GPU Tick" 150 (-30), eventOf 1 "Timers" 100 40] 7 4096) :=
  C9_save_load_round_trip registerComponents _ registerComponents_roundTrips rfl (by decide)

/-! ## C10: loading the same state twice -/

set_option maxRecDepth 100000 in
/-- C10, as stated, fails when two active events carry the same name.  The stream holds
one record, for the name `T` with downcount 20.  The first load gives it to the event 1,
the first event named `T`, and the sort puts the event 2 (downcount 9) in front; the
second load then gives the record to the event 2, whose downcount changes from 9 to 20. -/
theorem C10_counterexample :
    (DoEventsState
      ⟨⟨[1, 0, 0, 0, 1, 0, 0, 0, 84, 20, 0, 0, 0, 0, 0, 0, 0, 10, 0, 0, 0, 10, 0, 0, 0,
          0, 0, 0, 0], 0⟩, Mode.Read, false⟩
      (systemOf [eventOf 1 "T" 10 1, eventOf 2 "T" 10 9] 1)).1 = true ∧
    (DoEventsState
      ⟨⟨[1, 0, 0, 0, 1, 0, 0, 0, 84, 20, 0, 0, 0, 0, 0, 0, 0, 10, 0, 0, 0, 10, 0, 0, 0,
          0, 0, 0, 0], 0⟩, Mode.Read, false⟩
      (systemOf [eventOf 1 "T" 10 1, eventOf 2 "T" 10 9] 1)).2.2.events
      = [eventOf 2 "T" 10 9, eventOf 1 "T" 10 20] ∧
    (DoEventsState
      ⟨⟨[1, 0, 0, 0, 1, 0, 0, 0, 84, 20, 0, 0, 0, 0, 0, 0, 0, 10, 0, 0, 0, 10, 0, 0, 0,
          0, 0, 0, 0], 0⟩, Mode.Read, false⟩
      (DoEventsState
        ⟨⟨[1, 0, 0, 0, 1, 0, 0, 0, 84, 20, 0, 0, 0, 0, 0, 0, 0, 10, 0, 0, 0, 10, 0, 0, 0,
            0, 0, 0, 0], 0⟩, Mode.Read, false⟩
        (systemOf [eventOf 1 "T" 10 1, eventOf 2 "T" 10 9] 1)).2.2).2.2.events.Perm
      [eventOf 1 "T" 10 20, eventOf 2 "T" 10 20] ∧
    (DoState nullComponents
      ⟨⟨savedState nullComponents (systemOf [eventOf 9 "T" 10 20] 20), 0⟩, Mode.Read, false⟩
      (systemOf [eventOf 1 "T" 10 1, eventOf 2 "T" 10 9] 1)).2.2.events
      = [eventOf 2 "T" 10 9, eventOf 1 "T" 10 20] ∧
    (DoState nullComponents
      ⟨⟨savedState nullComponents (systemOf [eventOf 9 "T" 10 20] 20), 0⟩, Mode.Read, false⟩
      (DoState nullComponents
        ⟨⟨savedState nullComponents (systemOf [eventOf 9 "T" 10 20] 20), 0⟩, Mode.Read,
          false⟩
        (systemOf [eventOf 1 "T" 10 1, eventOf 2 "T" 10 9] 1)).2.2).2.2.events.Perm
      [eventOf 1 "T" 10 20, eventOf 2 "T" 10 20] := by
  refine ⟨by decide, by decide, by decide, by decide, by decide⟩

/-- C10, amended: let the system be outside dispatch with active events of pairwise
distinct addresses and pairwise distinct names, and let the devices read by the stream
alone.  If a reading `DoState` on a stream returns `true`, then reading the same stream
again, into the system that the first load produced, returns `true` with the same
wrapper, and the second system has the same region, frame counters, global tick
counter and last-event-run timestamp, and the same active vector: the same events with
the same fields in the same heap order; only the devices may differ.  For
`DoEventsState` on its own the second load leaves the system exactly as the first one
left it.  The order is the one of `make_heap` applied to a vector that is already a
heap, which the bottom-up construction leaves in place. -/
theorem C10_load_twice {D : Type} (env : Components D) (sw : StateWrapper) (s : System D)
    (henv : ReadsByStream env) (hm : sw.mode = Mode.Read)
    (hrun : s.running_events = false) (hid : (s.events.map (fun e => e.id)).Nodup)
    (hname : (s.events.map (fun e => e.name)).Nodup) :
    LoadTwiceOutcome env sw s := by
  constructor
  · intro h
    have h1 : DoState env sw s = (true, (DoState env sw s).2.1, (DoState env sw s).2.2) :=
      Prod.ext h rfl
    obtain ⟨s2, a, b⟩ := DoState_reload env henv sw _ s _ _ hm hrun hid hname h1
      (SameButDevices_refl _)
    obtain ⟨k1, k2, k3, k4, k5, k6, _, _⟩ := SameButDevices_fields _ _ b
    exact ⟨s2, a, k2, k3, k4, k5, k6, k1, b⟩
  · intro h
    have h1 : DoEventsState sw s =
        (true, (DoEventsState sw s).2.1, (DoEventsState sw s).2.2) := Prod.ext h rfl
    exact DoEventsState_reload sw _ s _ _ hm hrun hid hname h1 (SameButDevices_refl _)

set_option maxRecDepth 100000 in
/-- C10, witness: a state saved with the register at 7 is loaded twice into the same
events with the register at 99; and the events of that state are loaded twice into a
system with the same two events at other downcounts and a third event that the stream
does not know. -/
theorem C10_load_twice_witness :
    ((DoState registerComponents
        ⟨⟨savedState registerComponents
          (registerSystem [eventOf 2 "GPU Tick" 150 (-30), eventOf 1 "Timers" 100 40] 7 4096),
          0⟩, Mode.Read, false⟩
        (registerSystem [eventOf 2 "GPU Tick" 150 (-30), eventOf 1 "Timers" 100 40] 99
          4096)).1 = true ∧
      LoadTwiceOutcome registerComponents
        ⟨⟨savedState registerComponents
          (registerSystem [eventOf 2 "GPU Tick" 150 (-30), eventOf 1 "Timers" 100 40] 7 4096),
          0⟩, Mode.Read, false⟩
        (registerSystem [eventOf 2 "GPU Tick" 150 (-30), eventOf 1 "Timers" 100 40] 99
          4096)) ∧
    ((DoEventsState
        ⟨⟨savedEvents
          (registerSystem [eventOf 2 "GPU Tick" 150 (-30), eventOf 1 "Timers" 100 40] 7 4096),
          0⟩, Mode.Read, false⟩
        (registerSystem [eventOf 1 "Timers" 100 5, eventOf 2 "GPU Tick" 150 60,
          eventOf 3 "DMA" 20 9] 0 0)).1 = true ∧
      LoadTwiceOutcome registerComponents
        ⟨⟨savedEvents
          (registerSystem [eventOf 2 "GPU Tick" 150 (-30), eventOf 1 "Timers" 100 40] 7 4096),
          0⟩, Mode.Read, false⟩
        (registerSystem [eventOf 1 "Timers" 100 5, eventOf 2 "GPU Tick" 150 60,
          eventOf 3 "DMA" 20 9] 0 0)) :=
  ⟨⟨savedState_loads registerComponents registerComponents_roundTrips _ _ (by decide) rfl,
      C10_load_twice registerComponents _ _ registerComponents_readsByStream rfl rfl
        (by decide) (by decide)⟩,
    ⟨by decide,
      C10_load_twice registerComponents _ _ registerComponents_readsByStream rfl rfl
        (by decide) (by decide)⟩⟩

/-! ## C11: a save state whose media cannot be re-opened -/

/-- C11: when the header of the save state can be read and names a media file
(`media_filename_length > 0`) and the file name cannot be read from the stream or the
image cannot be opened again, `DoLoadState` returns `false` and the system is exactly
as it was: running-game info, devices (CD-ROM, memory cards) and every member that
`DoState` restores are untouched.  This holds for both values of `init_components`,
hence for `LoadState`. -/
theorem C11_missing_media_rejected {D : Type} (env : Components D) (fmt : SaveStateFormat)
    (state : ByteStream) (init_components force_software_renderer : Bool) (s : System D)
    (hb : List Nat) (st : ByteStream)
    (hread : state.Read2 (headerSize fmt) = some (hb, st))
    (hlen : (parseHeader fmt hb).media_filename_length > 0)
    (hmedia : MediaUnavailable env (parseHeader fmt hb) st) :
    (DoLoadState env fmt state init_components force_software_renderer s).1 = false ∧
    (DoLoadState env fmt state init_components force_software_renderer s).2.2 = s ∧
    (LoadState env fmt state s).1 = false ∧ (LoadState env fmt state s).2.2 = s := by
  have hm : (loadMedia env (parseHeader fmt hb) st).1 = none := by
    unfold loadMedia
    rw [if_pos hlen]
    rcases hmedia with h | ⟨st1, h1, h2⟩ | ⟨st1, bs, st2, h1, h2, h3⟩
    · simp [h]
    · simp [h1, h2]
    · simp [h1, h2, h3]
  have key : ∀ a b : Bool, (DoLoadState env fmt state a b s).1 = false ∧
      (DoLoadState env fmt state a b s).2.2 = s := by
    intro a b
    unfold DoLoadState
    simp only [hread]
    by_cases hmg : (parseHeader fmt hb).magic = fmt.SAVE_STATE_MAGIC
    · by_cases hv : (parseHeader fmt hb).version = fmt.SAVE_STATE_VERSION
      · cases hlm : loadMedia env (parseHeader fmt hb) st with
        | mk r st1 =>
          rw [hlm] at hm
          simp only at hm
          subst hm
          simp [hmg, hv]
      · simp [hmg, hv]
    · simp [hmg]
  exact ⟨(key _ _).1, (key _ _).2, (key _ _).1, (key _ _).2⟩

set_option maxRecDepth 100000 in
/-- C11, witness: a header that names a five-byte file name at offset 52 of a stream
that ends after 54 bytes, and a header whose file name is there while no image opens. -/
theorem C11_missing_media_rejected_witness :
    ((DoLoadState nullComponents smallFormat ⟨mediaHeader 52 5 ++ [1, 2], 0⟩ true false
        (systemOf [eventOf 1 "A" 100 40] 40)).1 = false ∧
      (DoLoadState nullComponents smallFormat ⟨mediaHeader 52 5 ++ [1, 2], 0⟩ true false
        (systemOf [eventOf 1 "A" 100 40] 40)).2.2 = systemOf [eventOf 1 "A" 100 40] 40 ∧
      (LoadState nullComponents smallFormat ⟨mediaHeader 52 5 ++ [1, 2], 0⟩
        (systemOf [eventOf 1 "A" 100 40] 40)).1 = false ∧
      (LoadState nullComponents smallFormat ⟨mediaHeader 52 5 ++ [1, 2], 0⟩
        (systemOf [eventOf 1 "A" 100 40] 40)).2.2 = systemOf [eventOf 1 "A" 100 40] 40) ∧
    ((DoLoadState closedComponents smallFormat ⟨mediaHeader 52 3 ++ [97, 46, 98], 0⟩ false
        false (systemOf [eventOf 1 "A" 100 40] 40)).1 = false ∧
      (DoLoadState closedComponents smallFormat ⟨mediaHeader 52 3 ++ [97, 46, 98], 0⟩ false
        false (systemOf [eventOf 1 "A" 100 40] 40)).2.2
        = systemOf [eventOf 1 "A" 100 40] 40 ∧
      (LoadState closedComponents smallFormat ⟨mediaHeader 52 3 ++ [97, 46, 98], 0⟩
        (systemOf [eventOf 1 "A" 100 40] 40)).1 = false ∧
      (LoadState closedComponents smallFormat ⟨mediaHeader 52 3 ++ [97, 46, 98], 0⟩
        (systemOf [eventOf 1 "A" 100 40] 40)).2.2 = systemOf [eventOf 1 "A" 100 40] 40) :=
  ⟨C11_missing_media_rejected nullComponents smallFormat _ true false _
      (mediaHeader 52 5) ⟨mediaHeader 52 5 ++ [1, 2], 52⟩ (by decide) (by decide)
      (Or.inr (Or.inl ⟨⟨mediaHeader 52 5 ++ [1, 2], 52⟩, by decide, by decide⟩)),
    C11_missing_media_rejected closedComponents smallFormat _ false false _
      (mediaHeader 52 3) ⟨mediaHeader 52 3 ++ [97, 46, 98], 52⟩ (by decide) (by decide)
      (Or.inr (Or.inr ⟨⟨mediaHeader 52 3 ++ [97, 46, 98], 52⟩, [97, 46, 98],
        ⟨mediaHeader 52 3 ++ [97, 46, 98], 55⟩, by decide, by decide, rfl⟩))⟩

/-! ## C12: a saved event that is not registered -/

/-- C12: let a stream hold the records of the events `l1`, then a record `x` whose name
no active event carries, then the records of `l2`, then a timestamp `t`, and let a
second stream hold the same without the record `x`.  The reading branch of
`DoEventsState` returns `true` on the first stream and leaves the system that it leaves
on the second one: the records of `l1` and of `l2` are applied in order, no field of
any event changes because of `x`, and the last-event-run timestamp is `t`. -/
theorem C12_unmatched_record_skipped {D : Type} (sw sw0 : StateWrapper) (s : System D)
    (l1 l2 : List TimingEvent) (x : TimingEvent) (t : Nat) (rest rest0 : List Nat)
    (hst : ∀ e ∈ l1 ++ x :: l2, Storable e)
    (hlen : (l1 ++ x :: l2).length < 2 ^ 32) (ht : t < 2 ^ 32)
    (hx : ∀ e ∈ s.events, e.name ≠ x.name)
    (hsw : ReadyAt sw (encodeU32 (l1 ++ x :: l2).length ++ encEvents (l1 ++ x :: l2) ++
      encodeU32 t ++ rest))
    (hsw0 : ReadyAt sw0 (encodeU32 (l1 ++ l2).length ++ encEvents (l1 ++ l2) ++
      encodeU32 t ++ rest0)) :
    (DoEventsState sw s).1 = true ∧
    (DoEventsState sw s).2.2 = (DoEventsState sw0 s).2.2 ∧
    (DoEventsState sw s).2.2 =
      SortEvents { restoreRecords ((l1 ++ l2).map recordOf) s with
        last_event_run_time := t } ∧
    (DoEventsState sw s).2.2.last_event_run_time = t ∧
    ReadyAt (DoEventsState sw s).2.1 rest := by
  have hst0 : ∀ e ∈ l1 ++ l2, Storable e := by
    intro e he
    apply hst e
    rcases List.mem_append.1 he with h | h
    · exact List.mem_append.2 (Or.inl h)
    · exact List.mem_append.2 (Or.inr (List.mem_cons_of_mem _ h))
  have hlen0 : (l1 ++ l2).length < 2 ^ 32 := by
    simp only [List.length_append, List.length_cons] at hlen ⊢
    omega
  obtain ⟨w, a, b⟩ := DoEventsState_read_written sw s _ t rest hst hlen ht hsw
  obtain ⟨w0, a0, _⟩ := DoEventsState_read_written sw0 s _ t rest0 hst0 hlen0 ht hsw0
  have hxs : Storable x := hst x (List.mem_append.2 (Or.inr (List.mem_cons_self _ _)))
  have hskip : restoreRecords ((l1 ++ x :: l2).map recordOf) s =
      restoreRecords ((l1 ++ l2).map recordOf) s := by
    rw [List.map_append, List.map_append, restoreRecords_append, restoreRecords_append,
      List.map_cons, restoreRecords_cons]
    congr 1
    apply restoreRecord_of_unmatched
    intro e he
    have hn : e.name ∈ (restoreRecords (l1.map recordOf) s).events.map (fun e => e.name) :=
      List.mem_map.2 ⟨e, he, rfl⟩
    rw [restoreRecords_names] at hn
    obtain ⟨e2, he2, hname⟩ := List.mem_map.1 hn
    show e.name ≠ c_str x.name
    rw [c_str_of_CName _ hxs.1, ← hname]
    exact hx e2 he2
  rw [a, a0, hskip]
  refine ⟨rfl, rfl, rfl, ?_, b⟩
  exact (SortEvents_fields _).2.2.2.2

set_option maxRecDepth 100000 in
/-- C12, witness: records for `A`, for the unregistered `Z` and for `B`, read into a
system whose active events are `A` and `B`. -/
theorem C12_unmatched_record_skipped_witness :
    (DoEventsState
      ⟨⟨encodeU32 3 ++ encEvents [eventOf 8 "A" 100 7, eventOf 9 "Z" 5 5,
          eventOf 7 "B" 150 8] ++ encodeU32 77 ++ [], 0⟩, Mode.Read, false⟩
      (systemOf [eventOf 1 "A" 100 40, eventOf 2 "B" 150 60] 40)).1 = true ∧
    (DoEventsState
      ⟨⟨encodeU32 3 ++ encEvents [eventOf 8 "A" 100 7, eventOf 9 "Z" 5 5,
          eventOf 7 "B" 150 8] ++ encodeU32 77 ++ [], 0⟩, Mode.Read, false⟩
      (systemOf [eventOf 1 "A" 100 40, eventOf 2 "B" 150 60] 40)).2.2 =
    (DoEventsState
      ⟨⟨encodeU32 2 ++ encEvents [eventOf 8 "A" 100 7, eventOf 7 "B" 150 8] ++
          encodeU32 77 ++ [], 0⟩, Mode.Read, false⟩
      (systemOf [eventOf 1 "A" 100 40, eventOf 2 "B" 150 60] 40)).2.2 ∧
    (DoEventsState
      ⟨⟨encodeU32 3 ++ encEvents [eventOf 8 "A" 100 7, eventOf 9 "Z" 5 5,
          eventOf 7 "B" 150 8] ++ encodeU32 77 ++ [], 0⟩, Mode.Read, false⟩
      (systemOf [eventOf 1 "A" 100 40, eventOf 2 "B" 150 60] 40)).2.2.events
      = [eventOf 1 "A" 100 7, eventOf 2 "B" 150 8] ∧
    (DoEventsState
      ⟨⟨encodeU32 3 ++ encEvents [eventOf 8 "A" 100 7, eventOf 9 "Z" 5 5,
          eventOf 7 "B" 150 8] ++ encodeU32 77 ++ [], 0⟩, Mode.Read, false⟩
      (systemOf [eventOf 1 "A" 100 40, eventOf 2 "B" 150 60] 40)).2.2.last_event_run_time
      = 77 :=
  have h := C12_unmatched_record_skipped
    ⟨⟨encodeU32 3 ++ encEvents [eventOf 8 "A" 100 7, eventOf 9 "Z" 5 5,
        eventOf 7 "B" 150 8] ++ encodeU32 77 ++ [], 0⟩, Mode.Read, false⟩
    ⟨⟨encodeU32 2 ++ encEvents [eventOf 8 "A" 100 7, eventOf 7 "B" 150 8] ++
        encodeU32 77 ++ [], 0⟩, Mode.Read, false⟩
    (systemOf [eventOf 1 "A" 100 40, eventOf 2 "B" 150 60] 40)
    [eventOf 8 "A" 100 7] [eventOf 7 "B" 150 8] (eventOf 9 "Z" 5 5) 77 [] []
    (by decide) (by decide) (by decide) (by decide)
    ⟨rfl, rfl, Nat.zero_le _, rfl⟩ ⟨rfl, rfl, Nat.zero_le _, rfl⟩
  ⟨h.1, h.2.1, by decide, h.2.2.2.1⟩

/-! ## C13: a truncated stream -/

/-- C13: in read mode, whenever the first `k` records of the event section are read
without error and the error flag is set after the five reads of the next record,
`DoEventsState` returns `false` and the system is the one in which only the first `k`
records were applied: the truncated record reaches no event.  Moreover `DoEventsState`
and `DoState` return `false` whenever the error flag is set when they finish, for
every stream and all devices. -/
theorem C13_truncation_fails_load {D : Type} (env : Components D) (sw : StateWrapper)
    (s : System D) (hm : sw.mode = Mode.Read) :
    (∀ (k m : Nat) (swk : StateWrapper) (rs : List EventRecord),
      (sw.DoU32 0).1 = k + (m + 1) →
      parseRecords k (sw.DoU32 0).2 = (true, swk, rs) →
      (readRecord swk).2.HasError = true →
      DoEventsState sw s = (false, (readRecord swk).2, restoreRecords rs s)) ∧
    ((DoEventsState sw s).2.1.HasError = true → (DoEventsState sw s).1 = false) ∧
    ((DoState env sw s).2.1.HasError = true → (DoState env sw s).1 = false) := by
  refine ⟨?_, ?_, ?_⟩
  · intro k m swk rs hcount hparse herr
    unfold DoEventsState
    simp only [StateWrapper.IsReading, hm, decide_True, if_true]
    rw [hcount, readEventRecords_split k (m + 1) _ swk rs s hparse, readEventRecords_succ]
    simp only [herr, if_true]
  · intro herr
    rw [DoEventsState_read_restore sw s hm] at herr ⊢
    cases hp : parseRecords (sw.DoU32 0).1 (sw.DoU32 0).2 with
    | mk ok r =>
      cases r with
      | mk sw2 rs =>
        rw [hp] at herr
        cases ok
        · rfl
        · simp only at herr ⊢
          rw [herr]
          rfl
  · intro herr
    cases hok : (DoState env sw s).1 with
    | false => rfl
    | true =>
      rw [DoState_true_no_error env sw s hok] at herr
      exact absurd herr (by decide)

set_option maxRecDepth 100000 in
/-- C13, witness: a stream that announces two records and ends three bytes into the
second one.  The load fails; the record of `A` was applied, nothing else changed. -/
theorem C13_truncation_fails_load_witness :
    DoEventsState
      ⟨⟨encodeU32 2 ++ encEvents [eventOf 8 "A" 100 7] ++ [1, 0, 0], 0⟩, Mode.Read, false⟩
      (systemOf [eventOf 1 "A" 100 40, eventOf 2 "B" 150 60] 40) =
      (false,
        ⟨⟨encodeU32 2 ++ encEvents [eventOf 8 "A" 100 7] ++ [1, 0, 0], 25⟩, Mode.Read, true⟩,
        systemOf [eventOf 1 "A" 100 7, eventOf 2 "B" 150 60] 40) :=
  ((C13_truncation_fails_load nullComponents
      ⟨⟨encodeU32 2 ++ encEvents [eventOf 8 "A" 100 7] ++ [1, 0, 0], 0⟩, Mode.Read, false⟩
      (systemOf [eventOf 1 "A" 100 40, eventOf 2 "B" 150 60] 40) rfl).1 1 0
    ⟨⟨encodeU32 2 ++ encEvents [eventOf 8 "A" 100 7] ++ [1, 0, 0], 25⟩, Mode.Read, false⟩
    [recordOf (eventOf 8 "A" 100 7)] (by decide) (by decide) (by decide)).trans (by decide)

/-! ## C14: the order of the sections of a save state -/

set_option maxRecDepth 100000 in
/-- C14: with devices that record the calls of their `DoState` members and are free in
what they do with the wrapper, in read mode and in write mode alike, the calls that
`System::DoState` makes are a run through CPU, Bus, DMA, InterruptController, GPU,
CDROM, Pad, Timers, SPU, MDEC, SIO in this order; each call is handed the wrapper that
a successful `DoMarker` of its own name has just left; the run stops at the first call
that returns `false`, and then `DoState` returns `false`.  A failing `System` marker
ends the function before any call.  When `DoState` returns `true` every component was
called, and the `Events` marker and `DoEventsState` came after the last of them.  In
write mode with devices without state the stream holds the thirteen markers in the
order System, CPU, ..., SIO, Events. -/
theorem C14_components_in_fixed_order
    (beh : String → StateWrapper → List Visit → Bool × StateWrapper) (sw : StateWrapper)
    (s : System (List Visit)) (hs : s.devices = []) :
    VisitOutcome beh sw s ∧
    savedState nullComponents (systemOf [] 0) =
      encString "System" ++ encodeU32 0 ++ encodeU32 1 ++ encodeU32 0 ++ encodeU32 0 ++
        (componentOrder.map encString).flatten ++ encString "Events" ++ encodeU32 0 ++
        encodeU32 0 := by
  refine ⟨?_, by decide⟩
  obtain ⟨visited, a, b, c, d⟩ := DoState_recording beh sw s
  rw [hs, List.nil_append] at a
  unfold VisitOutcome
  rw [a]
  refine ⟨b, ?_, c, ?_⟩
  · intro h
    rw [DoState_sections _ (fun _ => rfl)]
    cases h0 : sw.DoMarker "System" with
    | mk ok0 sw0 =>
      rw [h0] at h
      simp only at h
      subst h
      rfl
  · intro hok
    obtain ⟨d1, w6, w7, s4, d2, d3, d4⟩ := d hok
    rw [hs, List.nil_append] at d2
    exact ⟨d1, w6, w7, s4, d2, d3, d4⟩

set_option maxRecDepth 100000 in
/-- C14, witness: a state is written with devices of which the GPU fails.  `DoState`
returns `false`; CPU, Bus, DMA, InterruptController and GPU were called, in this
order, and no other component. -/
theorem C14_components_in_fixed_order_witness :
    (VisitOutcome (failingAt "GPU") ⟨⟨[], 0⟩, Mode.Write, false⟩ recordingSystem ∧
      savedState nullComponents (systemOf [] 0) =
        encString "System" ++ encodeU32 0 ++ encodeU32 1 ++ encodeU32 0 ++ encodeU32 0 ++
          (componentOrder.map encString).flatten ++ encString "Events" ++ encodeU32 0 ++
          encodeU32 0) ∧
    (DoState (recordingComponents (failingAt "GPU")) ⟨⟨[], 0⟩, Mode.Write, false⟩
      recordingSystem).1 = false ∧
    (DoState (recordingComponents (failingAt "GPU")) ⟨⟨[], 0⟩, Mode.Write, false⟩
      recordingSystem).2.2.devices.map (fun v => (v.marker, v.ok)) =
      [("CPU", true), ("Bus", true), ("DMA", true), ("InterruptController", true),
        ("GPU", false)] :=
  ⟨C14_components_in_fixed_order (failingAt "GPU") ⟨⟨[], 0⟩, Mode.Write, false⟩
      recordingSystem rfl, by decide, by decide⟩

/-! ## C15: wraparound of the global tick counter -/

/-- C15: if the last-event-run timestamp equals the global tick counter on entry to
`RunEvents` and the CPU has `p` pending ticks with `0 <= p < 2 ^ 31`, then the elapsed
time of the pass is exactly `p`, whatever the value of the counter, also when
`counter + p` passes `2 ^ 32`: when the loop is reached the counter is
`(counter + p) mod 2 ^ 32` and every active event has had `p` taken from its downcount
and added to its time since the last run. -/
theorem C15_wraparound_harmless {D : Type} (s : System D) (p : Int)
    (hl : s.last_event_run_time = s.global_tick_counter) (hp : s.cpu_pending_ticks = p)
    (hp0 : 0 ≤ p) (hp1 : p < 2 ^ 31) :
    elapsed s = p ∧
    (loopEntry s).global_tick_counter = (s.global_tick_counter + p.toNat) % 2 ^ 32 ∧
    (loopEntry s).events = s.events.map (fun e =>
      { e with downcount := e.downcount - p,
               time_since_last_run := e.time_since_last_run + p }) ∧
    ∀ (cb : Callbacks D) (fuel : Nat),
      RunEvents cb fuel s = (runLoop cb fuel (loopEntry s)).bind endRunEvents := by
  subst hp
  have he := elapsed_of_synced s hl hp0 hp1
  have hev : (loopEntry s).events = s.events.map (fun e =>
      { e with downcount := e.downcount - s.cpu_pending_ticks,
               time_since_last_run := e.time_since_last_run + s.cpu_pending_ticks }) := by
    rw [loopEntry_events, he]
    rfl
  refine ⟨he, ?_, hev, fun cb fuel => RunEvents_eq cb fuel s⟩
  · show (s.global_tick_counter + toU32 s.cpu_pending_ticks) % 2 ^ 32 = _
    unfold toU32
    rw [Int.emod_eq_of_lt hp0 (by omega)]

/-- C15, witness: the counter stands five ticks before `2 ^ 32` and the CPU has 100
pending ticks; the counter wraps to 95 and the elapsed time is 100. -/
theorem C15_wraparound_harmless_witness :
    elapsed { systemOf [eventOf 1 "A" 100 100, eventOf 2 "B" 150 130] 100 with
      global_tick_counter := 4294967291, last_event_run_time := 4294967291,
      cpu_pending_ticks := 100 } = 100 ∧
    (loopEntry { systemOf [eventOf 1 "A" 100 100, eventOf 2 "B" 150 130] 100 with
      global_tick_counter := 4294967291, last_event_run_time := 4294967291,
      cpu_pending_ticks := 100 }).global_tick_counter = 95 ∧
    (loopEntry { systemOf [eventOf 1 "A" 100 100, eventOf 2 "B" 150 130] 100 with
      global_tick_counter := 4294967291, last_event_run_time := 4294967291,
      cpu_pending_ticks := 100 }).events =
      [{ eventOf 1 "A" 100 0 with time_since_last_run := 100 },
       { eventOf 2 "B" 150 30 with time_since_last_run := 100 }] :=
  have h := C15_wraparound_harmless
    { systemOf [eventOf 1 "A" 100 100, eventOf 2 "B" 150 130] 100 with
      global_tick_counter := 4294967291, last_event_run_time := 4294967291,
      cpu_pending_ticks := 100 } 100 rfl rfl (by decide) (by decide)
  ⟨h.1, h.2.1.trans (by decide), h.2.2.1.trans (by decide)⟩

/-! ## C16: the pending ticks of the CPU after a pass -/

/-- C16, as stated, fails when a callback charges ticks to the CPU during the pass, as
`System::StallCPU` lets a device do: the event `A` is due, its callback stalls the CPU
by 3 ticks, and `RunEvents` returns with 3 pending ticks, not 0. -/
theorem C16_counterexample :
    (RunEvents (stallingCallbacks Unit 3) 5
      { systemOf [eventOf 1 "A" 100 10] 10 with cpu_pending_ticks := 10 }).map
      (fun s2 => (s2.global_tick_counter, s2.last_event_run_time, s2.cpu_pending_ticks,
        s2.calls)) = some (10, 10, 3, [⟨1, 10, 0⟩]) ∧
    ¬ ∃ s2, RunEvents (stallingCallbacks Unit 3) 5
        { systemOf [eventOf 1 "A" 100 10] 10 with cpu_pending_ticks := 10 } = some s2 ∧
      Drained { systemOf [eventOf 1 "A" 100 10] 10 with cpu_pending_ticks := 10 } s2 := by
  refine ⟨by decide, ?_⟩
  rintro ⟨s2, h, _, h2, _⟩
  have h3 : (RunEvents (stallingCallbacks Unit 3) 5
      { systemOf [eventOf 1 "A" 100 10] 10 with cpu_pending_ticks := 10 }).map
      (fun s2 => s2.cpu_pending_ticks) = some 3 := by decide
  rw [h] at h3
  simp only [Option.map_some'] at h3
  rw [h2] at h3
  exact absurd h3 (by decide)

/-- C16, amended: in every state, when `RunEvents` reaches its loop, before any
callback runs, the global tick counter is the old counter plus the pending ticks of the
CPU modulo `2 ^ 32`, the CPU has no pending ticks, and the last-event-run timestamp is
the new global tick counter.  The same holds when `RunEvents` returns, provided the
callbacks invoked during the pass leave the counter, the timestamp and the pending
ticks alone (they do not call `StallCPU`).  With callbacks that leave the system alone,
on a heap of distinct events with positive intervals, `RunEvents` does return. -/
theorem C16_pending_ticks_drained {D : Type} (cb : Callbacks D) (s : System D)
    (hcb : KeepsClock cb) :
    Drained s (loopEntry s) ∧
    (∀ fuel s2, RunEvents cb fuel s = some s2 → Drained s s2) ∧
    (IsHeap s.events → (s.events.map (fun e => e.id)).Nodup →
      (∀ e ∈ s.events, 0 < e.interval) → s.events ≠ [] →
      ∃ fuel s2, RunEvents (inertCallbacks D) fuel s = some s2 ∧ Drained s s2) := by
  refine ⟨loopEntry_drained s, fun fuel s2 h => RunEvents_drained cb hcb fuel s s2 h, ?_⟩
  intro hh hn hi hne
  obtain ⟨s2, _, h, _⟩ := RunEvents_inert (due (applyDowncount (elapsed s) s.events) + 1) s
    hh hn hi hne (Nat.lt_succ_self _)
  exact ⟨_, s2, h, RunEvents_drained _ (inertCallbacks_keepsClock D) _ s s2 h⟩

/-- C16, witness: a pass with 40 pending ticks, five ticks before the counter wraps, in
which the event `A` is served by a callback that leaves the system alone. -/
theorem C16_pending_ticks_drained_witness :
    (RunEvents (inertCallbacks Unit) 5
      { systemOf [eventOf 1 "A" 100 40, eventOf 2 "B" 150 60] 40 with
        global_tick_counter := 4294967291, last_event_run_time := 4294967291,
        cpu_pending_ticks := 40 }).map
      (fun s2 => (s2.global_tick_counter, s2.last_event_run_time, s2.cpu_pending_ticks,
        s2.calls)) = some (35, 35, 0, [⟨1, 40, 0⟩]) ∧
    ∀ s2, RunEvents (inertCallbacks Unit) 5
        { systemOf [eventOf 1 "A" 100 40, eventOf 2 "B" 150 60] 40 with
          global_tick_counter := 4294967291, last_event_run_time := 4294967291,
          cpu_pending_ticks := 40 } = some s2 →
      Drained { systemOf [eventOf 1 "A" 100 40, eventOf 2 "B" 150 60] 40 with
        global_tick_counter := 4294967291, last_event_run_time := 4294967291,
        cpu_pending_ticks := 40 } s2 :=
  ⟨by decide, (C16_pending_ticks_drained (inertCallbacks Unit)
    { systemOf [eventOf 1 "A" 100 40, eventOf 2 "B" 150 60] 40 with
      global_tick_counter := 4294967291, last_event_run_time := 4294967291,
      cpu_pending_ticks := 40 } (inertCallbacks_keepsClock Unit)).2.1 5⟩

/-! ## C17: the elapsed time reaches every event -/

/-- C17: with `delta` the difference of the global tick counter, once the pending ticks
are in, and the last-event-run timestamp, read as a tick count: when `RunEvents`
reaches its loop every active event, due or not, has had `delta` taken from its
downcount and added to its time since the last run, and no callback has run.  In a
pass in which no event becomes due, `RunEvents` returns at once: these are the only
changes to the events, no callback is invoked, and besides them only the clock, the
running flag and the downcount of the CPU are set. -/
theorem C17_elapsed_applied_to_all {D : Type} (cb : Callbacks D) (s : System D) :
    elapsed s = toS32 (((loopEntry s).global_tick_counter + 2 ^ 32 -
      s.last_event_run_time % 2 ^ 32) % 2 ^ 32) ∧
    (loopEntry s).events = s.events.map (fun e =>
      { e with downcount := e.downcount - elapsed s,
               time_since_last_run := e.time_since_last_run + elapsed s }) ∧
    (loopEntry s).calls = s.calls ∧
    (∀ fuel, RunEvents cb fuel s = (runLoop cb fuel (loopEntry s)).bind endRunEvents) ∧
    (∀ (fuel : Nat) (e : TimingEvent) (t : List TimingEvent), s.events = e :: t →
      (∀ x ∈ s.events, 0 < x.downcount - elapsed s) →
      RunEvents cb (fuel + 1) s = some
        { s with events := s.events.map (aged (elapsed s)),
                 global_tick_counter := (loopEntry s).global_tick_counter,
                 last_event_run_time := (loopEntry s).global_tick_counter,
                 cpu_pending_ticks := 0,
                 running_events := false,
                 cpu_downcount := e.downcount - elapsed s }) := by
  refine ⟨rfl, rfl, rfl, fun fuel => RunEvents_eq cb fuel s, ?_⟩
  intro fuel e t he hnd
  have hle : (loopEntry s).events = aged (elapsed s) e :: t.map (aged (elapsed s)) := by
    rw [loopEntry_events, he]; rfl
  have hfront : ¬ (aged (elapsed s) e).downcount ≤ 0 := by
    have := hnd e (by rw [he]; exact List.mem_cons_self _ _)
    show ¬ e.downcount - elapsed s ≤ 0
    omega
  rw [RunEvents_eq, runLoop_succ cb fuel _ _ _ hle, if_neg hfront]
  simp only [Option.some_bind, endRunEvents, hle]
  rw [← hle]
  rfl

/-- C17, witness: 30 ticks elapse while `A` waits for 40 and `B` for 60: no event is
due, both are moved by 30, and no callback is invoked. -/
theorem C17_elapsed_applied_to_all_witness :
    RunEvents (stallingCallbacks Unit 3) 1
      { systemOf [eventOf 1 "A" 100 40, eventOf 2 "B" 150 60] 40 with
        cpu_pending_ticks := 30 } = some
      { systemOf [{ eventOf 1 "A" 100 10 with time_since_last_run := 30 },
          { eventOf 2 "B" 150 30 with time_since_last_run := 30 }] 10 with
        global_tick_counter := 30, last_event_run_time := 30 } :=
  ((C17_elapsed_applied_to_all (stallingCallbacks Unit 3)
    { systemOf [eventOf 1 "A" 100 40, eventOf 2 "B" 150 60] 40 with
      cpu_pending_ticks := 30 }).2.2.2.2 0 (eventOf 1 "A" 100 40) [eventOf 2 "B" 150 60] rfl
    (by decide)).trans (by decide)

/-! ## C18: the arguments of a callback -/

/-- C18: each time the loop of `RunEvents` finds the front event `evt` due, with
downcount `d <= 0` and accumulated time `t`, in a vector that holds each event once,
it invokes the callback of `evt` with ticks-to-execute `t` and ticks-late `-d`; the
system handed to the callback has this invocation on record, holds `evt` with
downcount `d + interval` and time since the last run 0, and is otherwise the system
before.  For a whole pass with callbacks that leave the system alone, on a heap of
distinct events with positive intervals: the pass returns, and the invocations made for
each event are the ones of consecutive services, the first with the accumulated time
and `-d`, each later one with time 0 and the then current `-d`. -/
theorem C18_callback_arguments {D : Type} (cb : Callbacks D) (evt : TimingEvent)
    (t : List TimingEvent) (s : System D) (fuel : Nat) (he : s.events = evt :: t)
    (hn : (s.events.map (fun e => e.id)).Nodup) (hd : evt.downcount ≤ 0) :
    runLoop cb (fuel + 1) s =
      runLoop cb fuel
        (requeue (cb evt.id evt.time_since_last_run (-evt.downcount) (serveFront evt s))) ∧
    (serveFront evt s).calls =
      s.calls ++ [⟨evt.id, evt.time_since_last_run, -evt.downcount⟩] ∧
    (serveFront evt s).events.Perm
      ({ evt with downcount := evt.downcount + evt.interval,
                  time_since_last_run := 0 } :: t) ∧
    serveFront evt s =
      { s with events := (serveFront evt s).events, calls := (serveFront evt s).calls } ∧
    (∀ s0 : System D, IsHeap s0.events → (s0.events.map (fun e => e.id)).Nodup →
      (∀ e ∈ s0.events, 0 < e.interval) → s0.events ≠ [] →
      ∃ fuel0 s2 new, RunEvents (inertCallbacks D) fuel0 s0 = some s2 ∧
        s2.calls = s0.calls ++ new ∧
        ∀ e ∈ (loopEntry s0).events, callsOf e.id new =
          recordsFrom e.id (firesNeeded e) e.time_since_last_run e.downcount e.interval) := by
  refine ⟨?_, rfl, ?_, rfl, ?_⟩
  · rw [runLoop_succ cb fuel s evt t he, if_pos hd, fireFront_eq]
  · show (modifyEvent evt.id serviced (pop_heap s.events)).Perm (serviced evt :: t)
    rw [he] at hn ⊢
    rw [← modifyEvent_head evt t serviced hn]
    exact modifyEvent_perm _ _ _ _ (pop_heap_perm _)
  · intro s0 hh hn0 hi hne
    obtain ⟨s2, new, h, hp, _⟩ := RunEvents_inert
      (due (applyDowncount (elapsed s0) s0.events) + 1) s0 hh hn0 hi hne (Nat.lt_succ_self _)
    exact ⟨_, s2, new, h, hp.2.2.1, hp.2.2.2.1⟩

/-- C18, witness: the event `A`, 30 ticks late with 130 ticks accumulated, is served
next to `B`: the callback gets 130 and 30, and `A` is left with downcount 70. -/
theorem C18_callback_arguments_witness :
    (serveFront { eventOf 1 "A" 100 (-30) with time_since_last_run := 130 }
      { systemOf [{ eventOf 1 "A" 100 (-30) with time_since_last_run := 130 },
          eventOf 2 "B" 150 20] 0 with running_events := true }).calls = [⟨1, 130, 30⟩] ∧
    (serveFront { eventOf 1 "A" 100 (-30) with time_since_last_run := 130 }
      { systemOf [{ eventOf 1 "A" 100 (-30) with time_since_last_run := 130 },
          eventOf 2 "B" 150 20] 0 with running_events := true }).events.Perm
      [eventOf 1 "A" 100 70, eventOf 2 "B" 150 20] :=
  have h := C18_callback_arguments (inertCallbacks Unit)
    { eventOf 1 "A" 100 (-30) with time_since_last_run := 130 } [eventOf 2 "B" 150 20]
    { systemOf [{ eventOf 1 "A" 100 (-30) with time_since_last_run := 130 },
        eventOf 2 "B" 150 20] 0 with running_events := true } 3 rfl (by decide) (by decide)
  ⟨h.2.1, h.2.2.1⟩

/-! ## C19: the order of dispatch -/

/-- C19: let the callbacks leave the scheduler alone, and let a pass of `RunEvents`
start on a heap that holds each event once.  Every iteration of the loop that invokes
a callback does so for the front event, which is due and whose downcount at that moment
is the least among all active events.  The loop ends exactly at a system in which
every downcount is greater than 0: every system in which it invokes a callback has a
least downcount of at most 0, and the system it ends at has none.  When the callbacks
also leave the record of invocations alone, the invocations of the pass are the ones of
these iterations, in order.  When all intervals are positive the pass returns. -/
theorem C19_dispatch_order {D : Type} (cb : Callbacks D) (s : System D)
    (hcb : LeavesScheduler cb) (hh : IsHeap s.events)
    (hn : (s.events.map (fun e => e.id)).Nodup) :
    (∀ fuel, ∀ p ∈ dispatches cb fuel (loopEntry s),
      p.1.events.head? = some p.2 ∧ p.2.downcount ≤ 0 ∧
      MinDowncount p.1.events p.2.downcount) ∧
    (∀ fuel s3, runLoop cb fuel (loopEntry s) = some s3 →
      ∀ e ∈ s3.events, 0 < e.downcount) ∧
    (∀ fuel s2, RunEvents cb fuel s = some s2 →
      (∀ e ∈ s2.events, 0 < e.downcount) ∧ MinDowncount s2.events s2.cpu_downcount) ∧
    ((∀ (id : Nat) (a b : Int) (x : System D), (cb id a b x).calls = x.calls) →
      ∀ fuel s3, runLoop cb fuel (loopEntry s) = some s3 →
        s3.calls = s.calls ++ (dispatches cb fuel (loopEntry s)).map
          (fun p => ⟨p.2.id, p.2.time_since_last_run, -p.2.downcount⟩)) ∧
    ((∀ e ∈ s.events, 0 < e.interval) → s.events ≠ [] →
      ∃ fuel s2, RunEvents cb fuel s = some s2) := by
  have hwb := leavesScheduler_wellBehaved cb hcb
  obtain ⟨hr, hh1, hn1⟩ := loopEntry_inv s hh hn
  refine ⟨?_, ?_, ?_, ?_, ?_⟩
  · intro fuel p hp
    obtain ⟨a, b, c⟩ := dispatches_min cb hwb fuel (loopEntry s) hr hh1 hn1 p hp
    exact ⟨dispatches_head cb fuel (loopEntry s) p hp, b, ⟨p.2, a, rfl⟩, c⟩
  · intro fuel s3 h
    exact runLoop_settled cb hwb fuel _ s3 hr hh1 hn1 h
  · intro fuel s2 h
    obtain ⟨_, _, _, hmin⟩ := RunEvents_inv cb hwb fuel s s2 hh hn h
    refine ⟨?_, hmin⟩
    rw [RunEvents_eq] at h
    cases hl : runLoop cb fuel (loopEntry s) with
    | none => simp [hl] at h
    | some s3 =>
      rw [hl] at h
      rw [endRunEvents_same_events s3 s2 h]
      exact runLoop_settled cb hwb fuel _ s3 hr hh1 hn1 hl
  · intro hc fuel s3 h
    exact runLoop_calls cb hc fuel _ s3 h
  · intro hi hne
    obtain ⟨s2, h⟩ := RunEvents_terminates cb hcb s hh hn hi hne
    exact ⟨_, s2, h⟩

/-- C19, witness: 60 ticks elapse while `A` waits for 40 and `B` for 60.  The loop
serves `A`, 20 ticks late, while `B` stands at 0, then `B` at 0 while `A` stands at 80,
and ends with the downcounts 80 and 150; the callbacks were invoked twice. -/
theorem C19_dispatch_order_witness :
    (dispatches countingCallbacks 5
      (loopEntry { registerSystem [eventOf 1 "A" 100 40, eventOf 2 "B" 150 60] 0 0 with
        cpu_pending_ticks := 60 })).map
      (fun p => (p.2.id, p.2.downcount, p.1.events.map (fun e => e.downcount)))
      = [(1, -20, [-20, 0]), (2, 0, [0, 80])] ∧
    (RunEvents countingCallbacks 5
      { registerSystem [eventOf 1 "A" 100 40, eventOf 2 "B" 150 60] 0 0 with
        cpu_pending_ticks := 60 }).map
      (fun s2 => (s2.devices, s2.events.map (fun e => e.downcount)))
      = some (2, [80, 150]) ∧
    ∀ p ∈ dispatches countingCallbacks 5
      (loopEntry { registerSystem [eventOf 1 "A" 100 40, eventOf 2 "B" 150 60] 0 0 with
        cpu_pending_ticks := 60 }),
      p.1.events.head? = some p.2 ∧ p.2.downcount ≤ 0 ∧
      MinDowncount p.1.events p.2.downcount :=
  ⟨by decide, by decide,
    (C19_dispatch_order countingCallbacks
      { registerSystem [eventOf 1 "A" 100 40, eventOf 2 "B" 150 60] 0 0 with
        cpu_pending_ticks := 60 } countingCallbacks_leavesScheduler (by decide)
      (by decide)).1 5⟩

/-! ## C20: changes of the active set during dispatch -/

/-- C20: let the event `id` be in the active vector, first at the position `iter`.
While the running flag is set, `AddActiveEvent` only appends the event and sets the
needs-sorting flag, `RemoveActiveEvent` only erases the entry at `iter` and sets the
flag, and `SortEvents` only sets the flag: the vector is not put in heap order again
and the CPU downcount, like every other member, is unchanged.  While the running flag
is clear, `AddActiveEvent` runs `push_heap` on the vector with the event appended, which
is a heap again when the vector was one, `RemoveActiveEvent` and `SortEvents` run
`make_heap`, which always gives a heap, and all three leave the needs-sorting flag as it
was. -/
theorem C20_deferred_mutation {D : Type} (s : System D) (event : TimingEvent) (id iter : Nat)
    (hfind : s.events.findIdx? (fun it => decide (id = it.id)) = some iter) :
    (s.running_events = true →
      AddActiveEvent event s =
        { s with events := s.events ++ [event], events_need_sorting := true } ∧
      RemoveActiveEvent id s =
        { s with events := s.events.eraseIdx iter, events_need_sorting := true } ∧
      SortEvents s = { s with events_need_sorting := true }) ∧
    (s.running_events = false →
      ((AddActiveEvent event s).events = push_heap (s.events ++ [event]) ∧
        (AddActiveEvent event s).events.Perm (s.events ++ [event]) ∧
        (IsHeap s.events → IsHeap (AddActiveEvent event s).events) ∧
        (AddActiveEvent event s).events_need_sorting = s.events_need_sorting) ∧
      ((RemoveActiveEvent id s).events = make_heap (s.events.eraseIdx iter) ∧
        (RemoveActiveEvent id s).events.Perm (s.events.eraseIdx iter) ∧
        IsHeap (RemoveActiveEvent id s).events ∧
        (RemoveActiveEvent id s).events_need_sorting = s.events_need_sorting) ∧
      ((SortEvents s).events = make_heap s.events ∧
        (SortEvents s).events.Perm s.events ∧
        IsHeap (SortEvents s).events ∧
        (SortEvents s).events_need_sorting = s.events_need_sorting)) := by
  constructor
  · intro hr
    refine ⟨?_, ?_, ?_⟩
    · unfold AddActiveEvent
      simp [hr]
    · unfold RemoveActiveEvent
      simp [hfind, hr]
    · unfold SortEvents
      simp [hr]
  · intro hr
    obtain ⟨f1, f2, f3⟩ := entry_points_flag_idle s event id hr
    have ha := (AddActiveEvent_events_idle event s hr).1
    have hrm := RemoveActiveEvent_events_of_found id s iter hr hfind
    have hso := (SortEvents_idle s hr).1
    refine ⟨⟨ha, ?_, ?_, f1⟩, ⟨hrm, ?_, ?_, f2⟩, ⟨hso, ?_, ?_, f3⟩⟩
    · rw [ha]; exact push_heap_perm _
    · intro hh; rw [ha]; exact push_heap_append_isHeap _ _ hh
    · rw [hrm]; exact make_heap_perm _
    · rw [hrm]; exact make_heap_isHeap _
    · rw [hso]; exact make_heap_perm _
    · rw [hso]; exact make_heap_isHeap _

/-- C20, witness: during dispatch, with the vector `[B, A]` out of heap order and a CPU
downcount of 7, the event `C` is appended behind, `A` is erased, and `SortEvents`
changes nothing but the flag; the CPU downcount stays 7. -/
theorem C20_deferred_mutation_witness :
    AddActiveEvent (eventOf 3 "C" 10 1)
      { systemOf [eventOf 2 "B" 150 60, eventOf 1 "A" 100 40] 7 with running_events := true }
      = { systemOf [eventOf 2 "B" 150 60, eventOf 1 "A" 100 40, eventOf 3 "C" 10 1] 7 with
          running_events := true, events_need_sorting := true } ∧
    RemoveActiveEvent 1
      { systemOf [eventOf 2 "B" 150 60, eventOf 1 "A" 100 40] 7 with running_events := true }
      = { systemOf [eventOf 2 "B" 150 60] 7 with
          running_events := true, events_need_sorting := true } ∧
    SortEvents
      { systemOf [eventOf 2 "B" 150 60, eventOf 1 "A" 100 40] 7 with running_events := true }
      = { systemOf [eventOf 2 "B" 150 60, eventOf 1 "A" 100 40] 7 with
          running_events := true, events_need_sorting := true } :=
  (C20_deferred_mutation
    { systemOf [eventOf 2 "B" 150 60, eventOf 1 "A" 100 40] 7 with running_events := true }
    (eventOf 3 "C" 10 1) 1 1 (by decide)).1 rfl

/-! ## C21: when the changes made by a callback are sorted in -/

set_option maxRecDepth 100000 in
/-- C21, as stated, fails: the re-sort happens inside the dispatch loop.  The event `A`
is due; its callback activates `C`, which is 5 ticks late, so that the callback leaves
the vector `[A, C]` with the needs-sorting flag set.  At the next test of the loop, with
the running flag still set, the vector is `[C, A]`, which is `make_heap` of `[A, C]`,
and the flag is clear; the loop serves `C` in the same pass. -/
theorem C21_counterexample :
    (dispatches (addingCallbacks 1 (eventOf 3 "C" 50 (-5))) 5
      (loopEntry { systemOf [eventOf 1 "A" 100 10] 10 with cpu_pending_ticks := 10 })).map
      (fun p => (p.1.events.map (fun e => (e.id, e.downcount)), p.1.events_need_sorting,
        p.1.running_events, p.2.id))
      = [([(1, 0)], false, true, 1), ([(3, -5), (1, 100)], false, true, 3)] ∧
    ((addingCallbacks 1 (eventOf 3 "C" 50 (-5))) 1 10 0
      (serveFront { eventOf 1 "A" 100 0 with time_since_last_run := 10 }
        (loopEntry { systemOf [eventOf 1 "A" 100 10] 10 with
          cpu_pending_ticks := 10 }))).events.map (fun e => (e.id, e.downcount))
      = [(1, 100), (3, -5)] ∧
    make_heap [eventOf 1 "A" 100 100, eventOf 3 "C" 50 (-5)]
      = [eventOf 3 "C" 50 (-5), eventOf 1 "A" 100 100] ∧
    (RunEvents (addingCallbacks 1 (eventOf 3 "C" 50 (-5))) 5
      { systemOf [eventOf 1 "A" 100 10] 10 with cpu_pending_ticks := 10 }).map
      (fun s2 => (s2.calls, s2.events.map (fun e => (e.id, e.downcount))))
      = some ([⟨1, 10, 0⟩, ⟨3, 0, 5⟩], [(3, 45), (1, 100)]) := by
  refine ⟨by decide, by decide, by decide, by decide⟩

/-- C21, amended: a change of the active set that a callback requests during
`RunEvents` is sorted in by the body of the dispatch loop as soon as that callback
returns, before the next test of the loop: when the callback leaves the needs-sorting
flag set, the iteration ends with `make_heap` over the whole vector, which is then a
heap, and clears the flag; otherwise it ends with `push_heap`.  The flag is clear after
every iteration.  Nothing is sorted after the loop: the statements that follow it only
clear the running flag and set the CPU downcount. -/
theorem C21_resort_inside_loop {D : Type} (cb : Callbacks D) (evt : TimingEvent)
    (s : System D) :
    (fireFront cb evt s).events_need_sorting = false ∧
    ((cb evt.id evt.time_since_last_run (-evt.downcount)
        (serveFront evt s)).events_need_sorting = true →
      (fireFront cb evt s).events =
        make_heap (cb evt.id evt.time_since_last_run (-evt.downcount)
          (serveFront evt s)).events ∧
      IsHeap (fireFront cb evt s).events) ∧
    ((cb evt.id evt.time_since_last_run (-evt.downcount)
        (serveFront evt s)).events_need_sorting = false →
      (fireFront cb evt s).events =
        push_heap (cb evt.id evt.time_since_last_run (-evt.downcount)
          (serveFront evt s)).events) ∧
    (∀ fuel s2, RunEvents cb fuel s = some s2 →
      ∃ s3, runLoop cb fuel (loopEntry s) = some s3 ∧ s2.events = s3.events ∧
        s2 = { s3 with running_events := false, cpu_downcount := s2.cpu_downcount }) := by
  refine ⟨?_, ?_, ?_, ?_⟩
  · rw [fireFront_eq]
    unfold requeue
    split
    · rfl
    · next h => simpa using h
  · intro h
    have : (fireFront cb evt s).events =
        make_heap (cb evt.id evt.time_since_last_run (-evt.downcount)
          (serveFront evt s)).events := by
      rw [fireFront_eq]
      unfold requeue
      rw [if_pos h]
    exact ⟨this, by rw [this]; exact make_heap_isHeap _⟩
  · intro h
    rw [fireFront_eq]
    unfold requeue
    rw [if_neg (by rw [h]; decide)]
  · intro fuel s2 h
    rw [RunEvents_eq] at h
    cases hl : runLoop cb fuel (loopEntry s) with
    | none => simp [hl] at h
    | some s3 =>
      rw [hl] at h
      refine ⟨s3, rfl, endRunEvents_same_events s3 s2 h, ?_⟩
      simp only [Option.some_bind] at h
      unfold endRunEvents at h
      cases he : s3.events with
      | nil => simp [he] at h
      | cons e t =>
        simp only [he] at h
        obtain rfl := Option.some.inj h
        rfl

set_option maxRecDepth 100000 in
/-- C21, witness: the iteration that serves `A`, whose callback activates `C`, ends
with the vector in heap order, `C` in front, and the flag clear. -/
theorem C21_resort_inside_loop_witness :
    (fireFront (addingCallbacks 1 (eventOf 3 "C" 50 (-5)))
      { eventOf 1 "A" 100 0 with time_since_last_run := 10 }
      (loopEntry { systemOf [eventOf 1 "A" 100 10] 10 with
        cpu_pending_ticks := 10 })).events =
      make_heap ((addingCallbacks 1 (eventOf 3 "C" 50 (-5))) 1 10 0
        (serveFront { eventOf 1 "A" 100 0 with time_since_last_run := 10 }
          (loopEntry { systemOf [eventOf 1 "A" 100 10] 10 with
            cpu_pending_ticks := 10 }))).events ∧
    IsHeap (fireFront (addingCallbacks 1 (eventOf 3 "C" 50 (-5)))
      { eventOf 1 "A" 100 0 with time_since_last_run := 10 }
      (loopEntry { systemOf [eventOf 1 "A" 100 10] 10 with
        cpu_pending_ticks := 10 })).events :=
  (C21_resort_inside_loop (addingCallbacks 1 (eventOf 3 "C" 50 (-5)))
    { eventOf 1 "A" 100 0 with time_since_last_run := 10 }
    (loopEntry { systemOf [eventOf 1 "A" 100 10] 10 with
      cpu_pending_ticks := 10 })).2.1 (by decide)

/-! ## C22: the CPU downcount after a pass -/

/-- C22: let a pass of `RunEvents` start on a heap that holds each event once, with
callbacks that keep to the protocol of the scheduler: they may activate, deactivate or
reschedule events through `AddActiveEvent`, `RemoveActiveEvent` and `SortEvents`.
When `RunEvents` returns, the active set is not empty and the CPU downcount is the
least downcount over all active events, those added or moved during the pass
included.  With callbacks that leave the scheduler alone and positive intervals the
pass does return. -/
theorem C22_cpu_downcount_after_pass {D : Type} (cb : Callbacks D) (s : System D)
    (hcb : WellBehaved cb) (hh : IsHeap s.events)
    (hn : (s.events.map (fun e => e.id)).Nodup) :
    (∀ fuel s2, RunEvents cb fuel s = some s2 →
      s2.events ≠ [] ∧ MinDowncount s2.events s2.cpu_downcount) ∧
    (LeavesScheduler cb → (∀ e ∈ s.events, 0 < e.interval) → s.events ≠ [] →
      ∃ fuel s2, RunEvents cb fuel s = some s2 ∧
        MinDowncount s2.events s2.cpu_downcount) := by
  constructor
  · intro fuel s2 h
    exact ⟨RunEvents_nonempty cb fuel s s2 h, (RunEvents_inv cb hcb fuel s s2 hh hn h).2.2.2⟩
  · intro hl hi hne
    obtain ⟨s2, h⟩ := RunEvents_terminates cb hl s hh hn hi hne
    exact ⟨_, s2, h, (RunEvents_inv cb hcb _ s s2 hh hn h).2.2.2⟩

set_option maxRecDepth 100000 in
/-- C22, witness: the callback of `A` activates `C`, 5 ticks late, during the pass; `C`
is served in the same pass and ends at 45, `A` at 100; the CPU downcount is 45. -/
theorem C22_cpu_downcount_after_pass_witness :
    (RunEvents (addingCallbacks 1 (eventOf 3 "C" 50 (-5))) 5
      { systemOf [eventOf 1 "A" 100 10] 10 with cpu_pending_ticks := 10 }).map
      (fun s2 => (s2.cpu_downcount, s2.events.map (fun e => (e.id, e.downcount))))
      = some (45, [(3, 45), (1, 100)]) ∧
    ∀ s2, RunEvents (addingCallbacks 1 (eventOf 3 "C" 50 (-5))) 5
        { systemOf [eventOf 1 "A" 100 10] 10 with cpu_pending_ticks := 10 } = some s2 →
      s2.events ≠ [] ∧ MinDowncount s2.events s2.cpu_downcount :=
  ⟨by decide, (C22_cpu_downcount_after_pass (addingCallbacks 1 (eventOf 3 "C" 50 (-5)))
    { systemOf [eventOf 1 "A" 100 10] 10 with cpu_pending_ticks := 10 }
    (addingCallbacks_wellBehaved 1 (eventOf 3 "C" 50 (-5))) (by decide) (by decide)).1 5⟩

/-! ## C23: the running flag -/

/-- C23: `RunEvents` sets the running flag before its loop and clears it after it.
Let the callbacks return with the flag set when they are called with it set (they do
not run a nested pass).  (1) False on entry: from a system with the flag clear, along
any sequence of the operations `AddActiveEvent`, `RemoveActiveEvent`, `SortEvents`,
`DoEventsState`, `Reset` and passes of `RunEvents`, every pass is entered with the flag
clear, the `Reset` members of the components leaving the flag alone.  (2) True at every
invocation: `RunEvents` is its loop run from `loopEntry s`, where the flag is set,
followed by its last two statements; each iteration of the loop entered with the flag
set hands the callback a system with the flag set, and ends with the flag set; and what
a callback would do when called with the flag clear has no bearing on the pass, since
`RunEvents` gives the same result for any callbacks that agree with `cb` on the systems
with the flag set.  The flag is also set at every dispatch listed by `dispatches`.
(3) False at the return.  (4) No other operation changes the flag: `AddActiveEvent`,
`RemoveActiveEvent`, `SortEvents` and `DoEventsState` in either mode leave it as it is,
and so does `Reset` whenever the `Reset` members of the components do. -/
theorem C23_running_flag {D : Type} (cb : Callbacks D) (s : System D)
    (hcb : ∀ (id : Nat) (a b : Int) (x : System D), x.running_events = true →
      (cb id a b x).running_events = true) :
    (∀ ops : List (FlagOp D),
      (∀ resetComponents, FlagOp.reset resetComponents ∈ ops →
        ∀ x : System D, (resetComponents x).running_events = x.running_events) →
      s.running_events = false →
      ∀ x ∈ passEntries ops s, x.running_events = false) ∧
    (∀ fuel, RunEvents cb fuel s = (runLoop cb fuel (loopEntry s)).bind endRunEvents) ∧
    (loopEntry s).running_events = true ∧
    (∀ (fuel : Nat) (x : System D) (evt : TimingEvent) (t : List TimingEvent),
      x.running_events = true → x.events = evt :: t →
      runLoop cb (fuel + 1) x =
        (if evt.downcount ≤ 0 then
          runLoop cb fuel (requeue (cb evt.id evt.time_since_last_run (-evt.downcount)
            (serveFront evt x)))
        else some x) ∧
      (serveFront evt x).running_events = true ∧
      (requeue (cb evt.id evt.time_since_last_run (-evt.downcount)
        (serveFront evt x))).running_events = true) ∧
    (∀ (cb2 : Callbacks D) (fuel : Nat),
      (∀ (id : Nat) (a b : Int) (x : System D), x.running_events = true →
        cb2 id a b x = cb id a b x) →
      RunEvents cb2 fuel s = RunEvents cb fuel s) ∧
    (∀ fuel, ∀ p ∈ dispatches cb fuel (loopEntry s),
      p.1.running_events = true ∧ (serveFront p.2 p.1).running_events = true) ∧
    (∀ fuel s2, RunEvents cb fuel s = some s2 → s2.running_events = false) ∧
    (∀ event, (AddActiveEvent event s).running_events = s.running_events) ∧
    (∀ id, (RemoveActiveEvent id s).running_events = s.running_events) ∧
    (SortEvents s).running_events = s.running_events ∧
    (∀ sw, (DoEventsState sw s).2.2.running_events = s.running_events) ∧
    (∀ resetComponents : System D → System D,
      (resetComponents s).running_events = s.running_events →
      (Reset resetComponents s).running_events = s.running_events) := by
  refine ⟨fun ops hres hs => passEntries_not_running ops s hres hs,
    fun fuel => RunEvents_eq cb fuel s, rfl, ?_,
    fun cb2 fuel hag => RunEvents_agree cb cb2 hcb hag fuel s, ?_,
    fun fuel s2 h => RunEvents_not_running cb fuel s s2 h,
    fun event => (entry_points_running s event 0).1,
    fun id => (entry_points_running s default id).2.1,
    (entry_points_running s default 0).2.2, fun sw => DoEventsState_running sw s,
    fun rc h => h⟩
  · intro fuel x evt t hx he
    refine ⟨?_, hx, ?_⟩
    · rw [runLoop_succ cb fuel x evt t he, fireFront_eq]
    · rw [← fireFront_eq]
      exact fireFront_running cb hcb evt x hx
  · intro fuel p hp
    have h := dispatches_running cb hcb fuel (loopEntry s) rfl p hp
    exact ⟨h, h⟩

set_option maxRecDepth 100000 in
/-- C23, witness: a pass in which `A` is served and its callback activates `C`, which
is served too: the flag is set at both dispatches and clear at the return; and a pass,
an activation and a second pass are both entered with the flag clear. -/
theorem C23_running_flag_witness :
    (dispatches (addingCallbacks 1 (eventOf 3 "C" 50 (-5))) 5
      (loopEntry { systemOf [eventOf 1 "A" 100 10] 10 with cpu_pending_ticks := 10 })).map
      (fun p => (p.2.id, p.1.running_events)) = [(1, true), (3, true)] ∧
    (RunEvents (addingCallbacks 1 (eventOf 3 "C" 50 (-5))) 5
      { systemOf [eventOf 1 "A" 100 10] 10 with cpu_pending_ticks := 10 }).map
      (fun s2 => s2.running_events) = some false ∧
    (∀ s2, RunEvents (addingCallbacks 1 (eventOf 3 "C" 50 (-5))) 5
        { systemOf [eventOf 1 "A" 100 10] 10 with cpu_pending_ticks := 10 } = some s2 →
      s2.running_events = false) ∧
    (passEntries [FlagOp.run (addingCallbacks 1 (eventOf 3 "C" 50 (-5))) 5,
        FlagOp.add (eventOf 4 "E" 7 7), FlagOp.run (inertCallbacks Unit) 5]
      { systemOf [eventOf 1 "A" 100 10] 10 with cpu_pending_ticks := 10 }).map
      (fun x => (x.running_events, x.events.length)) = [(false, 1), (false, 3)] ∧
    ∀ x ∈ passEntries [FlagOp.run (addingCallbacks 1 (eventOf 3 "C" 50 (-5))) 5,
        FlagOp.add (eventOf 4 "E" 7 7), FlagOp.run (inertCallbacks Unit) 5]
      { systemOf [eventOf 1 "A" 100 10] 10 with cpu_pending_ticks := 10 },
      x.running_events = false :=
  ⟨by decide, by decide, (C23_running_flag (addingCallbacks 1 (eventOf 3 "C" 50 (-5)))
    { systemOf [eventOf 1 "A" 100 10] 10 with cpu_pending_ticks := 10 }
    (fun id a b x hx => (addingCallbacks_wellBehaved 1 (eventOf 3 "C" 50 (-5)) id a b x
      hx).1)).2.2.2.2.2.2.1 5, by decide,
    (C23_running_flag (addingCallbacks 1 (eventOf 3 "C" 50 (-5)))
    { systemOf [eventOf 1 "A" 100 10] 10 with cpu_pending_ticks := 10 }
    (fun id a b x hx => (addingCallbacks_wellBehaved 1 (eventOf 3 "C" 50 (-5)) id a b x
      hx).1)).1 _ (fun rc h => by simp at h) rfl⟩

/-! ## C26: the dispatch loop terminates -/

/-- C26: let a pass of `RunEvents` start on a non-empty heap that holds each event
once, let every interval be at least 1, and let the callbacks leave the scheduler alone
and not write to the record of invocations.  Then the dispatch loop terminates: with
enough fuel `RunEvents` returns, and the invocations it has put on record are such that
an event that enters the loop with downcount `d <= 0` and interval `I` was served
exactly `floor(-d / I) + 1` times in the pass, and an event that enters it with a
positive downcount was not served.  The loop is entered in `loopEntry s`: `RunEvents` is
its loop run from there, followed by its last two statements, and the events there are
the ones of `s` after the elapsed time was taken off their downcounts. -/
theorem C26_dispatch_terminates {D : Type} (cb : Callbacks D) (s : System D)
    (hcb : LeavesScheduler cb)
    (hcalls : ∀ (id : Nat) (a b : Int) (x : System D), (cb id a b x).calls = x.calls)
    (hh : IsHeap s.events)
    (hn : (s.events.map (fun e => e.id)).Nodup)
    (hi : ∀ e ∈ s.events, 1 ≤ e.interval) (hne : s.events ≠ []) :
    ∀ fuel, due (loopEntry s).events < fuel →
      RunEvents cb fuel s = (runLoop cb fuel (loopEntry s)).bind endRunEvents ∧
      (loopEntry s).events = s.events.map (aged (beginRunEvents s).1) ∧
      ∃ s2 new, RunEvents cb fuel s = some s2 ∧ s2.calls = s.calls ++ new ∧
        ∀ e ∈ (loopEntry s).events,
          (e.downcount ≤ 0 → (callsOf e.id new).length =
            ((-e.downcount) / e.interval).toNat + 1) ∧
          (0 < e.downcount → callsOf e.id new = []) := by
  intro fuel hf
  obtain ⟨s2, a, _, _, r5, _⟩ := RunEvents_leaves cb hcb fuel s hh hn
    (fun e he => by have := hi e he; omega) hne hf
  refine ⟨RunEvents_eq cb fuel s, rfl, s2, passRecords cb fuel s, a,
    RunEvents_calls cb hcalls fuel s s2 a, ?_⟩
  intro e he
  constructor
  · intro hd
    rw [r5 e he, length_firesOf]
    unfold firesNeeded
    rw [if_pos hd]
  · intro hd
    rw [r5 e he, firesOf_of_pos e hd]

set_option maxRecDepth 100000 in
/-- C26, witness: with interval 10, the event `A` enters the loop 25 ticks late and is
served three times, at -25, -15 and -5; `B` is not due and is not served.  The pass
returns with exactly these three invocations on record. -/
theorem C26_dispatch_terminates_witness :
    (RunEvents countingCallbacks 4
      { registerSystem [eventOf 1 "A" 10 10, eventOf 2 "B" 150 60] 0 0 with
        cpu_pending_ticks := 35 }).map (fun s2 => s2.calls) =
      some [⟨1, 35, 25⟩, ⟨1, 0, 15⟩, ⟨1, 0, 5⟩] ∧
    ∃ s2 new, RunEvents countingCallbacks 4
        { registerSystem [eventOf 1 "A" 10 10, eventOf 2 "B" 150 60] 0 0 with
          cpu_pending_ticks := 35 } = some s2 ∧
      s2.calls = ({ registerSystem [eventOf 1 "A" 10 10, eventOf 2 "B" 150 60] 0 0 with
          cpu_pending_ticks := 35 } : System Nat).calls ++ new ∧
      ∀ e ∈ (loopEntry { registerSystem [eventOf 1 "A" 10 10, eventOf 2 "B" 150 60] 0 0 with
          cpu_pending_ticks := 35 }).events,
        (e.downcount ≤ 0 → (callsOf e.id new).length =
          ((-e.downcount) / e.interval).toNat + 1) ∧
        (0 < e.downcount → callsOf e.id new = []) :=
  ⟨by decide, (C26_dispatch_terminates countingCallbacks
    { registerSystem [eventOf 1 "A" 10 10, eventOf 2 "B" 150 60] 0 0 with
      cpu_pending_ticks := 35 } countingCallbacks_leavesScheduler (fun _ _ _ _ => rfl)
    (by decide) (by decide) (by decide) (by decide) 4 (by decide)).2.2⟩

/-! ## C27: the active set after a pass -/

/-- C27: let a pass of `RunEvents` start on a heap that holds each event once, with
callbacks that leave the scheduler alone.  When `RunEvents` returns, every active event
has a downcount greater than 0, and the active events are the ones of the entry, each
with the name, period and interval it had.  With positive intervals on a non-empty
active set the pass does return. -/
theorem C27_pass_postcondition {D : Type} (cb : Callbacks D) (s : System D)
    (hcb : LeavesScheduler cb) (hh : IsHeap s.events)
    (hn : (s.events.map (fun e => e.id)).Nodup) :
    (∀ fuel s2, RunEvents cb fuel s = some s2 →
      (∀ e ∈ s2.events, 0 < e.downcount) ∧
      (s2.events.map identityOf).Perm (s.events.map identityOf) ∧
      (s2.events.map (fun e => e.id)).Nodup) ∧
    ((∀ e ∈ s.events, 0 < e.interval) → s.events ≠ [] →
      ∃ fuel s2, RunEvents cb fuel s = some s2) := by
  obtain ⟨hr, hh1, hn1⟩ := loopEntry_inv s hh hn
  constructor
  · intro fuel s2 h
    obtain ⟨s3, hl, hev⟩ := RunEvents_loop cb fuel s s2 h
    have hp := runLoop_identities cb (fun id a b x => (hcb id a b x).1) fuel _ s3 hn1 hl
    rw [loopEntry_identities] at hp
    refine ⟨?_, by rw [hev]; exact hp, ?_⟩
    · rw [hev]
      exact runLoop_settled cb (leavesScheduler_wellBehaved cb hcb) fuel _ s3 hr hh1 hn1 hl
    · rw [hev]
      have hp1 := hp.map (fun i : Nat × String × Int × Int => i.1)
      rw [List.map_map, List.map_map] at hp1
      exact hp1.nodup_iff.2 hn
  · intro hi hne
    obtain ⟨s2, h⟩ := RunEvents_terminates cb hcb s hh hn hi hne
    exact ⟨_, s2, h⟩

/-- C27, witness: 35 ticks elapse; `A`, with interval 10, is served three times and
ends at 5, `B` goes from 60 to 25; both keep their name, period and interval. -/
theorem C27_pass_postcondition_witness :
    (RunEvents countingCallbacks 4
      { registerSystem [eventOf 1 "A" 10 10, eventOf 2 "B" 150 60] 0 0 with
        cpu_pending_ticks := 35 }).map (fun s2 => s2.events)
      = some [eventOf 1 "A" 10 5, { eventOf 2 "B" 150 25 with time_since_last_run := 35 }] ∧
    ∀ s2, RunEvents countingCallbacks 4
        { registerSystem [eventOf 1 "A" 10 10, eventOf 2 "B" 150 60] 0 0 with
          cpu_pending_ticks := 35 } = some s2 →
      (∀ e ∈ s2.events, 0 < e.downcount) ∧
      (s2.events.map identityOf).Perm
        (({ registerSystem [eventOf 1 "A" 10 10, eventOf 2 "B" 150 60] 0 0 with
          cpu_pending_ticks := 35 } : System Nat).events.map identityOf) ∧
      (s2.events.map (fun e => e.id)).Nodup :=
  ⟨by decide, (C27_pass_postcondition countingCallbacks
    { registerSystem [eventOf 1 "A" 10 10, eventOf 2 "B" 150 60] 0 0 with
      cpu_pending_ticks := 35 } countingCallbacks_leavesScheduler (by decide)
    (by decide)).1 4⟩

/-! ## C28: no elapsed tick is lost -/

/-- C28: let passes of `RunEvents` follow one another, each entered with the pending
ticks that the CPU has accumulated, with callbacks that leave the scheduler alone, on
an active set that holds each event once.  For every event, the sum of the
ticks-to-execute arguments handed to its callback over all passes, plus its time since
the last run at the end, equals its time since the last run at the start plus the sum
of the elapsed times of the passes, however often the event is served within a pass.
When the callbacks also leave the record of invocations alone, the invocations counted
are the ones on record. -/
theorem C28_tick_conservation {D : Type} (cb : Callbacks D) (passes : List (Nat × Int))
    (s s2 : System D) (total : Int) (recs : List CallRecord)
    (hcb : LeavesScheduler cb) (hn : (s.events.map (fun e => e.id)).Nodup)
    (h : runPasses cb passes s = some (s2, total, recs)) :
    (∀ e ∈ s.events, ∃ x ∈ s2.events, x.id = e.id ∧
      ticksDelivered e.id recs + x.time_since_last_run = e.time_since_last_run + total) ∧
    ((∀ (id : Nat) (a b : Int) (x : System D), (cb id a b x).calls = x.calls) →
      s2.calls = s.calls ++ recs) :=
  ⟨runPasses_conserves cb (fun id a b x => (hcb id a b x).1) passes s s2 total recs hn h,
    fun hc => runPasses_calls cb hc passes s s2 total recs h⟩

set_option maxRecDepth 100000 in
/-- C28, witness: two passes, after 35 and after 3 ticks.  In the first `A`, with
interval 10, is served three times and is handed 35, 0 and 0 ticks; in the second no
event is due.  `A` has received 35 ticks and holds 3; `B` has received none and holds
38. -/
theorem C28_tick_conservation_witness :
    runPasses countingCallbacks [(4, 35), (4, 3)]
      (registerSystem [eventOf 1 "A" 10 10, eventOf 2 "B" 150 60] 0 0) = some
      ({ registerSystem [{ eventOf 1 "A" 10 2 with time_since_last_run := 3 },
          { eventOf 2 "B" 150 22 with time_since_last_run := 38 }] 3 38 with
          cpu_downcount := 2, calls := [⟨1, 35, 25⟩, ⟨1, 0, 15⟩, ⟨1, 0, 5⟩] },
        38, [⟨1, 35, 25⟩, ⟨1, 0, 15⟩, ⟨1, 0, 5⟩]) ∧
    ∀ e ∈ (registerSystem [eventOf 1 "A" 10 10, eventOf 2 "B" 150 60] 0 0).events,
      ∃ x ∈ [{ eventOf 1 "A" 10 2 with time_since_last_run := 3 },
          { eventOf 2 "B" 150 22 with time_since_last_run := 38 }], x.id = e.id ∧
        ticksDelivered e.id [⟨1, 35, 25⟩, ⟨1, 0, 15⟩, ⟨1, 0, 5⟩] + x.time_since_last_run =
          e.time_since_last_run + 38 :=
  ⟨by decide, (C28_tick_conservation countingCallbacks [(4, 35), (4, 3)]
    (registerSystem [eventOf 1 "A" 10 10, eventOf 2 "B" 150 60] 0 0)
    { registerSystem [{ eventOf 1 "A" 10 2 with time_since_last_run := 3 },
        { eventOf 2 "B" 150 22 with time_since_last_run := 38 }] 3 38 with
        cpu_downcount := 2, calls := [⟨1, 35, 25⟩, ⟨1, 0, 15⟩, ⟨1, 0, 5⟩] } 38
    [⟨1, 35, 25⟩, ⟨1, 0, 15⟩, ⟨1, 0, 5⟩] countingCallbacks_leavesScheduler (by decide)
    (by decide)).1⟩

/-! ## C24: the throttle when the system is far behind -/

/-- C24: with the drift `sleep_time` the difference of the last throttle time and the
reading of the timer, taken as a signed 64-bit value: whenever the drift is below
-40,000,000 ns, `Throttle` sets the last throttle time to 0, restarts the timer and
does not sleep, so that the last throttle time after the call is one throttle period;
in every other case the timer is not restarted and the last throttle time is advanced
by one throttle period.  The addition is the one of `u64`; for a non-negative period
that does not carry past `2 ^ 64` the new value is the old one plus the period. -/
theorem C24_throttle_far_behind (time : Nat) (st : ThrottleState)
    (hp : 0 ≤ st.throttle_period) (hp1 : st.throttle_period < 2 ^ 31) :
    (sleepTime time st < -40000000 →
      (Throttle time st).last_throttle_time = st.throttle_period.toNat ∧
      ((Throttle time st).last_throttle_time : Int) = st.throttle_period ∧
      (Throttle time st).timer_resets = st.timer_resets + 1 ∧
      (Throttle time st).sleeps = st.sleeps) ∧
    (¬ sleepTime time st < -40000000 →
      (Throttle time st).last_throttle_time =
        (st.last_throttle_time + st.throttle_period.toNat) % 2 ^ 64 ∧
      (Throttle time st).timer_resets = st.timer_resets ∧
      ((st.last_throttle_time : Int) + st.throttle_period < 2 ^ 64 →
        ((Throttle time st).last_throttle_time : Int) =
          st.last_throttle_time + st.throttle_period)) ∧
    (Throttle time st).throttle_period = st.throttle_period := by
  obtain ⟨n, hn⟩ := Int.eq_ofNat_of_zero_le hp
  have hn1 : n < 2 ^ 31 := by rw [hn] at hp1; exact_mod_cast hp1
  have hu : toU64 st.throttle_period = n := by
    unfold toU64
    rw [hn, Int.emod_eq_of_lt (by omega) (by omega), Int.toNat_ofNat]
  have ht : st.throttle_period.toNat = n := by rw [hn, Int.toNat_ofNat]
  refine ⟨?_, ?_, ?_⟩
  · intro h
    have h2 : sleepTime time st < -MAX_VARIANCE_TIME := h
    unfold Throttle
    simp only [if_pos h2, hu, ht, Nat.zero_add]
    refine ⟨?_, ?_, trivial, trivial⟩
    · omega
    · rw [hn]; omega
  · intro h
    have h2 : ¬ sleepTime time st < -MAX_VARIANCE_TIME := h
    unfold Throttle
    simp only [if_neg h2]
    split
    · simp only [hu, ht]
      refine ⟨trivial, trivial, ?_⟩
      intro hlt
      rw [hn] at hlt ⊢
      omega
    · simp only [hu, ht]
      refine ⟨trivial, trivial, ?_⟩
      intro hlt
      rw [hn] at hlt ⊢
      omega
  · unfold Throttle
    simp only
    split
    · rfl
    · split <;> rfl

/-- C24, witness: at 60 frames a second, a reading of 100 ms against a last throttle
time of 50 ms is 50 ms behind: the reference is reset and the last throttle time is one
period.  A reading of 60 ms is 10 ms behind: the last throttle time advances by one
period. -/
theorem C24_throttle_far_behind_witness :
    sleepTime 100000000 ⟨50000000, 16666666, 0, []⟩ = -50000000 ∧
    Throttle 100000000 ⟨50000000, 16666666, 0, []⟩ = ⟨16666666, 16666666, 1, []⟩ ∧
    sleepTime 60000000 ⟨50000000, 16666666, 0, []⟩ = -10000000 ∧
    Throttle 60000000 ⟨50000000, 16666666, 0, []⟩ = ⟨66666666, 16666666, 0, []⟩ ∧
    ((Throttle 100000000 ⟨50000000, 16666666, 0, []⟩).last_throttle_time : Int) = 16666666 :=
  ⟨by decide, by decide, by decide, by decide,
    ((C24_throttle_far_behind 100000000 ⟨50000000, 16666666, 0, []⟩ (by decide)
      (by decide)).1 (by decide)).2.1⟩

/-! ## C25: the sleep band of the throttle -/

/-- C25: `Throttle` hands a duration to `nanosleep` exactly when the drift is not below
-40,000,000 ns, is at least 1,000,000 ns and is at most the throttle period, and the
duration is the drift.  The upper bound is inclusive, `sleep_time <= m_throttle_period`,
where the comment above `MINIMUM_SLEEP_TIME` reads "Don't sleep for <1ms or >=period":
with a period of 16,666,666 ns, a last throttle time of one period and a timer reading
of 0, the drift equals the period and `Throttle` sleeps for a whole period. -/
theorem C25_sleeps_at_full_period :
    (∀ (time : Nat) (st : ThrottleState),
      (Throttle time st).sleeps =
        if 1000000 ≤ sleepTime time st ∧ sleepTime time st ≤ st.throttle_period ∧
            ¬ sleepTime time st < -40000000 then
          st.sleeps ++ [sleepTime time st]
        else st.sleeps) ∧
    (∀ (time : Nat) (st : ThrottleState), sleepTime time st < 1000000 →
      (Throttle time st).sleeps = st.sleeps) ∧
    (∀ (time : Nat) (st : ThrottleState), st.throttle_period < sleepTime time st →
      (Throttle time st).sleeps = st.sleeps) ∧
    sleepTime 0 ⟨16666666, 16666666, 0, []⟩ = 16666666 ∧
    (Throttle 0 ⟨16666666, 16666666, 0, []⟩).sleeps = [16666666] := by
  have key : ∀ (time : Nat) (st : ThrottleState),
      (Throttle time st).sleeps =
        if 1000000 ≤ sleepTime time st ∧ sleepTime time st ≤ st.throttle_period ∧
            ¬ sleepTime time st < -40000000 then
          st.sleeps ++ [sleepTime time st]
        else st.sleeps := by
    intro time st
    unfold Throttle MAX_VARIANCE_TIME MINIMUM_SLEEP_TIME
    simp only
    by_cases h1 : sleepTime time st < -40000000
    · rw [if_pos h1, if_neg (by omega)]
    · rw [if_neg h1]
      by_cases h2 : sleepTime time st ≥ 1000000 ∧ sleepTime time st ≤ st.throttle_period
      · rw [if_pos h2, if_pos ⟨h2.1, h2.2, h1⟩]
      · rw [if_neg h2, if_neg (fun h => h2 ⟨h.1, h.2.1⟩)]
  refine ⟨key, ?_, ?_, by decide, by decide⟩
  · intro time st h
    rw [key, if_neg (by omega)]
  · intro time st h
    rw [key, if_neg (by omega)]

/-! ## C29 -/

/-- C29, as stated, fails when the header asks for a memory fill.  In the small format,
a header with load address `0x80010000`, file size 4, fill start `0x80020000` and fill
size 8, followed by one word of data: the call succeeds, `file_size / 4` is 1, and
three words are written, the first two of them zeros at `0x80020000` and `0x80020004`,
not at the load address. -/
theorem C29_counterexample :
    LoadEXEFromBuffer smallEXE
      ([0, 0, 1, 128, 4, 0, 0, 0, 0, 0, 2, 128, 8, 0, 0, 0] ++ [1, 0, 0, 0]) () =
      (true, [(2147614720, 0), (2147614724, 0), (2147549184, 1)], ()) ∧
    (smallEXE.header [0, 0, 1, 128, 4, 0, 0, 0, 0, 0, 2, 128, 8, 0, 0, 0]).file_size / 4 = 1 ∧
    (smallEXE.header [0, 0, 1, 128, 4, 0, 0, 0, 0, 0, 2, 128, 8, 0, 0, 0]).load_address =
      2147549184 ∧
    (LoadEXEFromBuffer smallEXE
      ([0, 0, 1, 128, 4, 0, 0, 0, 0, 0, 2, 128, 8, 0, 0, 0] ++ [1, 0, 0, 0]) ()).2.1.length
      = 3 := by
  refine ⟨by decide, by decide, by decide, by decide⟩

/-- C29, amended: `LoadEXEFromBuffer` stays inside the buffer, and on success it writes
the words of the memory fill and then the words of the program.  For every format,
buffer and BIOS image: (1) a buffer shorter than the header gives `false` and no memory word is written;
(2) the words written are nothing at all, or only the zero words of the memory fill with
the result `false`, or the memory fill followed by the program data, and in that last
case the header fits in the buffer and a `file_size` of four or more is at most the
number of bytes that follow the header, so that the `file_size` bytes copied all lie in
the buffer; (3) on success the words written are those of the memory fill followed by
those of the program data, the latter are exactly `file_size / 4`, and, the load address
being a `u32`, the one of index `i` is written at `load_address + 4 * i` (as a `u32`)
and is the little-endian word of the bytes `4 * i` to `4 * i + 3` after the header. -/
theorem C29_exe_bounds {B : Type} (fmt : EXEFormat B) (buffer : List Nat) (bios_image : B) :
    (buffer.length < fmt.headerSize →
      LoadEXEFromBuffer fmt buffer bios_image = (false, [], bios_image)) ∧
    ((LoadEXEFromBuffer fmt buffer bios_image).2.1 = [] ∨
      ((LoadEXEFromBuffer fmt buffer bios_image).1 = false ∧
        (LoadEXEFromBuffer fmt buffer bios_image).2.1 =
          memfillWrites (fmt.header (buffer.take fmt.headerSize))) ∨
      (fmt.headerSize ≤ buffer.length ∧
        ((fmt.header (buffer.take fmt.headerSize)).file_size ≥ 4 →
          (fmt.header (buffer.take fmt.headerSize)).file_size ≤
            buffer.length - fmt.headerSize) ∧
        (LoadEXEFromBuffer fmt buffer bios_image).2.1 =
          memfillWrites (fmt.header (buffer.take fmt.headerSize)) ++
            dataWrites (fmt.header (buffer.take fmt.headerSize))
              (buffer.drop fmt.headerSize))) ∧
    ((LoadEXEFromBuffer fmt buffer bios_image).1 = true →
      (LoadEXEFromBuffer fmt buffer bios_image).2.1 =
        memfillWrites (fmt.header (buffer.take fmt.headerSize)) ++
          dataWrites (fmt.header (buffer.take fmt.headerSize))
            (buffer.drop fmt.headerSize) ∧
      (dataWrites (fmt.header (buffer.take fmt.headerSize))
        (buffer.drop fmt.headerSize)).length =
          (fmt.header (buffer.take fmt.headerSize)).file_size / 4 ∧
      ((fmt.header (buffer.take fmt.headerSize)).load_address < 2 ^ 32 →
        ∀ i, i < (fmt.header (buffer.take fmt.headerSize)).file_size / 4 →
          (dataWrites (fmt.header (buffer.take fmt.headerSize))
            (buffer.drop fmt.headerSize))[i]? =
            some (((fmt.header (buffer.take fmt.headerSize)).load_address + 4 * i) % 2 ^ 32,
              decodeU32 (((buffer.drop fmt.headerSize).drop (4 * i)).take 4)))) := by
  refine ⟨LoadEXEFromBuffer_short fmt buffer bios_image, ?_, ?_⟩
  · by_cases h1 : buffer.length < fmt.headerSize
    · exact Or.inl (by rw [LoadEXEFromBuffer_short fmt buffer bios_image h1])
    · rcases LoadEXEFromBuffer_cases fmt buffer bios_image h1 with h | h | ⟨hb, h⟩
      · exact Or.inl (by rw [h])
      · exact Or.inr (Or.inl (by rw [h]; exact ⟨rfl, rfl⟩))
      · refine Or.inr (Or.inr ⟨by omega, fun h4 => ?_, h⟩)
        have := hb h4
        rw [List.length_drop] at this
        omega
  · intro hok
    have h1 : ¬ buffer.length < fmt.headerSize := by
      intro h
      rw [LoadEXEFromBuffer_short fmt buffer bios_image h] at hok
      exact absurd hok (by simp)
    refine ⟨?_, ?_, ?_⟩
    · rcases LoadEXEFromBuffer_cases fmt buffer bios_image h1 with h | h | ⟨_, h⟩
      · rw [h] at hok
        exact absurd hok (by simp)
      · rw [h] at hok
        exact absurd hok (by simp)
      · exact h
    · rw [dataWrites, length_writeWords, length_wordsOf]
    · intro ha i hi
      exact writeWords_get _ _ i _ ha (wordsOf_take_get _ _ i hi)

/-- C29, witness.  In the small format: a buffer of eight bytes is shorter than the
header of sixteen and nothing is written; a header that asks for eight bytes of data at
`0x80010000` followed by only six bytes gives `false`, nothing is written; followed by
nine bytes it succeeds, and two words are written, at `0x80010000` and `0x80010004`. -/
theorem C29_exe_bounds_witness :
    LoadEXEFromBuffer smallEXE [0, 0, 1, 128, 8, 0, 0, 0] () = (false, [], ()) ∧
    LoadEXEFromBuffer smallEXE
      ([0, 0, 1, 128, 8, 0, 0, 0, 0, 0, 0, 0, 0, 0, 0, 0] ++ [1, 2, 3, 4, 5, 6]) () =
      (false, [], ()) ∧
    LoadEXEFromBuffer smallEXE
      ([0, 0, 1, 128, 8, 0, 0, 0, 0, 0, 0, 0, 0, 0, 0, 0] ++ [1, 0, 0, 0, 2, 1, 0, 0, 9]) () =
      (true, [(2147549184, 1), (2147549188, 258)], ()) ∧
    (dataWrites (smallEXE.header (([0, 0, 1, 128, 8, 0, 0, 0, 0, 0, 0, 0, 0, 0, 0, 0] ++
      [1, 0, 0, 0, 2, 1, 0, 0, 9]).take smallEXE.headerSize))
      (([0, 0, 1, 128, 8, 0, 0, 0, 0, 0, 0, 0, 0, 0, 0, 0] ++
        [1, 0, 0, 0, 2, 1, 0, 0, 9]).drop smallEXE.headerSize)).length = 8 / 4 :=
  ⟨(C29_exe_bounds smallEXE [0, 0, 1, 128, 8, 0, 0, 0] ()).1 (by decide),
    by decide, by decide,
    ((C29_exe_bounds smallEXE
      ([0, 0, 1, 128, 8, 0, 0, 0, 0, 0, 0, 0, 0, 0, 0, 0] ++ [1, 0, 0, 0, 2, 1, 0, 0, 9]) ()).2.2
      (by decide)).2.1⟩

/-! ## C30 -/

/-- C30: the header that `SaveState` leaves is consistent.  For a format whose magic and
version are `u32`, components that write by appending, and a stream positioned at its
end: whenever `SaveState` returns `true`, the outcome is `SavedHeaderOutcome`.  The
header at the starting position has the magic and the version of the format and
compression type 0; `offset_to_data` is the position at which `DoState` began to write,
`media_filename_length` the length of the media file name, which stands at
`offset_to_media_filename`, and `data_uncompressed_size` the number of bytes that
`DoState` wrote (each as a `u32`, and exactly so for a stream and a name shorter than
`2 ^ 32` bytes); the stream is left at the end of the data; and `DoLoadState` at the
starting position reads the header and passes its magic, version and compression
checks. -/
theorem C30_header_consistency {D : Type} (env : Components D) (host : SaveHost D)
    (fmt : SaveStateFormat) (state st : ByteStream) (screenshot_size : Nat) (s s2 : System D)
    (hmagic : fmt.SAVE_STATE_MAGIC < 2 ^ 32) (hversion : fmt.SAVE_STATE_VERSION < 2 ^ 32)
    (henv : WritesByAppending env) (hend : state.pos = state.data.length)
    (hok : SaveState env host fmt state screenshot_size s = (true, st, s2)) :
    SavedHeaderOutcome env host fmt state screenshot_size s st s2 := by
  obtain ⟨st1, st2, st3, w, data, p1, p2, p3, hr, hd, hwp, hdata, hpos⟩ :=
    SaveState_at_end env host fmt state st screenshot_size s s2 henv hend hok
  have hparse := filledHeader_parses fmt s (host.GetMediaFileName s)
    (captureScreenshot host screenshot_size s).1 screenshot_size st1 st2 st3 w.stream
    hmagic hversion
  have hH : (encodeHeader (filledHeader fmt s (host.GetMediaFileName s)
      (captureScreenshot host screenshot_size s).1 screenshot_size st1 st2 st3
      w.stream)).length = headerSize fmt :=
    length_encodeHeader fmt _ (length_Strlcpy _ _) (length_Strlcpy _ _)
  set header := filledHeader fmt s (host.GetMediaFileName s)
    (captureScreenshot host screenshot_size s).1 screenshot_size st1 st2 st3 w.stream
    with hheader
  set mf := host.GetMediaFileName s with hmf
  set name := (stringBytes mf).take (mf.length % 2 ^ 32) with hname
  set shot := (wordBytes (captureScreenshot host screenshot_size s).1).take
    ((captureScreenshot host screenshot_size s).1.length * 4 % 2 ^ 32) with hshot
  have hnl : name.length = mf.length % 2 ^ 32 := by
    rw [hname, List.length_take, length_stringBytes]
    exact Nat.min_eq_left (Nat.mod_le _ _)
  have hbytes : (st.data.drop state.pos).take (headerSize fmt) = encodeHeader header := by
    rw [hdata, hend]
    simp only [List.append_assoc]
    rw [List.drop_left, ← hH, List.take_left]
  have hread : ByteStream.Read2 { st with pos := state.pos } (headerSize fmt) =
      some (encodeHeader header, { st with pos := state.pos + headerSize fmt }) := by
    unfold ByteStream.Read2
    have hle : state.pos + headerSize fmt ≤ st.data.length := by
      rw [hdata, hend]
      simp only [List.length_append, hH]
      omega
    simp only [hle, if_true, hbytes]
  have hst3 : st3.pos = state.pos + headerSize fmt + name.length + shot.length := by
    rw [p3, p2, p1, hend]
  refine ⟨header, name, shot, data, st3, w, hdata, hpos, by rw [hbytes, hparse], ?_,
    rfl, rfl, rfl, ?_, rfl, rfl, hnl, hst3, hr, hd, rfl, ?_, ?_⟩
  · intro init_components force_software_renderer s0
    have h := DoLoadState_accepted env fmt { st with pos := state.pos }
      { st with pos := state.pos + headerSize fmt } (encodeHeader header) init_components
      force_software_renderer s0 hread (by rw [hparse]; rfl) (by rw [hparse]; rfl)
      (by rw [hparse]; rfl)
    rw [hparse] at h
    exact h
  · show st1.pos % 2 ^ 32 = _
    rw [p1, hend]
  · show (w.stream.pos + 2 ^ 32 - st3.pos % 2 ^ 32) % 2 ^ 32 = _
    rw [hwp]
    omega
  · intro hlt hmflt
    have hlen : st.data.length =
        state.pos + headerSize fmt + name.length + shot.length + data.length := by
      rw [hdata, hend]
      simp only [List.length_append, hH]
    have hmfl : mf.length % 2 ^ 32 = mf.length := Nat.mod_eq_of_lt hmflt
    have hname2 : name = stringBytes mf := by
      rw [hname, hmfl, ← length_stringBytes, List.take_length]
    have hoff : (state.pos + headerSize fmt) % 2 ^ 32 = state.pos + headerSize fmt :=
      Nat.mod_eq_of_lt (by omega)
    have hoff3 : st3.pos % 2 ^ 32 = st3.pos := Nat.mod_eq_of_lt (by omega)
    have hdl : data.length % 2 ^ 32 = data.length := Nat.mod_eq_of_lt (by omega)
    have e1 : header.offset_to_media_filename = state.pos + headerSize fmt := by
      show st1.pos % 2 ^ 32 = _
      rw [p1, hend, ← hend, hoff]
    have e2 : header.media_filename_length = mf.length := hmfl
    have e3 : header.offset_to_data = st3.pos := hoff3
    have e4 : header.data_uncompressed_size = data.length := by
      show (w.stream.pos + 2 ^ 32 - st3.pos % 2 ^ 32) % 2 ^ 32 = _
      rw [hwp]
      omega
    refine ⟨e1, e2, ?_, e3, e4, ?_, ?_⟩
    · rw [e1, e2, hdata]
      have hp : (state.data ++ encodeHeader header).length = state.pos + headerSize fmt := by
        rw [List.length_append, hH, hend]
      rw [← hp]
      simp only [List.append_assoc]
      rw [← List.append_assoc state.data, List.drop_left, hname2, ← length_stringBytes,
        List.take_left]
    · rw [e3, hdata]
      have hp : (state.data ++ encodeHeader header ++ name ++ shot).length = st3.pos := by
        rw [hst3, hend]
        simp only [List.length_append, hH]
      rw [← hp, List.drop_left]
    · rw [e3, e4, hpos, hlen, hst3]

set_option maxRecDepth 100000 in
/-- C30, witness.  A system with one event is saved, with the disc `d` in the drive and
a screenshot of one pixel, into a stream that already holds three bytes, in the small
format (header of 52 bytes) and with devices without state.  The call succeeds; the
header then read at position 3 has the magic and the version of the format, names one
byte at offset 55 as the media file name and the data at offset 60; and `LoadState` at
position 3 accepts the state. -/
theorem C30_header_consistency_witness :
    SavedHeaderOutcome nullComponents (discHost Unit "d" [7]) smallFormat ⟨[1, 2, 3], 3⟩ 1
      (systemOf [eventOf 1 "A" 100 10] 10)
      (SaveState nullComponents (discHost Unit "d" [7]) smallFormat ⟨[1, 2, 3], 3⟩ 1
        (systemOf [eventOf 1 "A" 100 10] 10)).2.1
      (SaveState nullComponents (discHost Unit "d" [7]) smallFormat ⟨[1, 2, 3], 3⟩ 1
        (systemOf [eventOf 1 "A" 100 10] 10)).2.2 ∧
    (parseHeader smallFormat
      (((SaveState nullComponents (discHost Unit "d" [7]) smallFormat ⟨[1, 2, 3], 3⟩ 1
        (systemOf [eventOf 1 "A" 100 10] 10)).2.1.data.drop 3).take 52)).offset_to_data = 60 ∧
    (parseHeader smallFormat
      (((SaveState nullComponents (discHost Unit "d" [7]) smallFormat ⟨[1, 2, 3], 3⟩ 1
        (systemOf [eventOf 1 "A" 100 10] 10)).2.1.data.drop 3).take 52)).offset_to_media_filename
        = 55 ∧
    (LoadState nullComponents smallFormat
      { (SaveState nullComponents (discHost Unit "d" [7]) smallFormat ⟨[1, 2, 3], 3⟩ 1
        (systemOf [eventOf 1 "A" 100 10] 10)).2.1 with pos := 3 }
      (systemOf [eventOf 1 "A" 100 10] 10)).1 = true :=
  ⟨C30_header_consistency nullComponents (discHost Unit "d" [7]) smallFormat ⟨[1, 2, 3], 3⟩ _
      1 (systemOf [eventOf 1 "A" 100 10] 10) _ (by decide) (by decide)
      nullComponents_writesByAppending rfl
      (Prod.ext (by decide) rfl),
    by decide, by decide, by decide⟩

end Duckstation
